import Mathlib

/-!
Loop execution engine of flow-automation (`pkg/mod/loop.go`)

A shallow embedding of the loop handler and the loop executor:
`HandleLoopAction`, `collectLoopOutputs`, `GenerateIterationTasks`,
`getLoopLastTaskIDs`, `processStepRecursively`, `UpdateTaskTree` and
`PushExecutableTasks`, with the store, the parser registry and the scheduler
as explicit state.

Conventions of the embedding

* Go strings are Lean strings; `fmt.Sprintf` with `%s`/`%d` verbs is string
  concatenation with `toString` of the number.
* `interface{}` values are terms of `Value`; `map[string]interface{}` is an
  association list with first-match lookup and replace-or-append update.
* Pointers to the `DagInstance` and to its `ShareData` are taken non-nil: the
  handler dereferences both unconditionally.  `GenerateIterationTasks`
  replaces a nil `ShareData` by an empty one before its first use, which the
  empty dictionary stands for.
* Loops over a slice are recursive functions over the list; an index variable
  of the Go loop is an explicit argument.
-/

namespace LoopSpec

/-! ## Strings -/

namespace strings

/-- Go `strings.HasPrefix(s, prefix)`. -/
def HasPrefix (s pre : String) : Bool :=
  pre.data.isPrefixOf s.data

/-- Worker of `Split`: `cur` holds the characters of the piece being read, in reverse. -/
def splitAux (sep : List Char) : Nat → List Char → List Char → List String
  | 0, _, cur => [String.mk cur.reverse]
  | _ + 1, [], cur => [String.mk cur.reverse]
  | fuel + 1, c :: cs, cur =>
    if sep.isPrefixOf (c :: cs) then
      String.mk cur.reverse :: splitAux sep fuel ((c :: cs).drop sep.length) []
    else
      splitAux sep fuel cs (c :: cur)

/-- Go `strings.Split(s, sep)` for a non-empty separator; with an empty
separator Go explodes the string into its characters. -/
def Split (s sep : String) : List String :=
  if sep.data = [] then s.data.map (fun c => String.mk [c])
  else splitAux sep.data (s.data.length + 1) s.data []

end strings

/-- The expression `strings.Split(s, sep)[0]`. -/
def splitHead (s sep : String) : String :=
  (strings.Split s sep).headD ""

/-! ## Data model -/

/-- Go `interface{}` values that the loop engine inspects. -/
inductive Value where
  | null
  | bool (b : Bool)
  | int (n : Int)
  | str (s : String)
  | strs (xs : List String)
  | arr (xs : List Value)
  | primA (xs : List Value)
  | map (kvs : List (String × Value))

instance : Inhabited Value := ⟨Value.null⟩

/-- A `map[string]interface{}`. -/
abbrev Dict := List (String × Value)

/-- Map lookup `m[k]` with the comma-ok result; also `ShareData.Get`. -/
def Dict.get (m : Dict) (k : String) : Option Value :=
  (m.find? (fun kv => kv.1 == k)).map (fun kv => kv.2)

/-- Map assignment `m[k] = v`; also `ShareData.Set` and
`TaskInstance.SetParam`. -/
def Dict.set : Dict → String → Value → Dict
  | [], k, v => [(k, v)]
  | (k', v') :: rest, k, v =>
    if k' == k then (k, v) :: rest else (k', v') :: Dict.set rest k v

mutual
/-- Modelled from the spec: the type `entity.Step`, "a node in the static
DAG definition — identifier, title, operator, parameters, and a list of
Branches, each branch itself an ordered list of Steps". -/
inductive Step where
  | mk (ID : String) (Title : String) (Operator : String) (Parameters : Dict)
      (Branches : List Branch)
/-- Modelled from the spec: the type `entity.Branch`, with the condition
groups that `processStepRecursively` turns into pre-checks and the ordered
steps of the branch. -/
inductive Branch where
  | mk (Conditions : List Value) (Steps : List Step)
end

instance : Inhabited Step := ⟨Step.mk "" "" "" [] []⟩

def Step.ID : Step → String
  | .mk id _ _ _ _ => id

def Step.Title : Step → String
  | .mk _ t _ _ _ => t

def Step.Operator : Step → String
  | .mk _ _ op _ _ => op

def Step.Parameters : Step → Dict
  | .mk _ _ _ p _ => p

def Step.Branches : Step → List Branch
  | .mk _ _ _ _ b => b

def Branch.Conditions : Branch → List Value
  | .mk c _ => c

def Branch.Steps : Branch → List Step
  | .mk _ s => s

/-- Modelled from the spec: the type `entity.Check`, one pre-check of a task
with its conditions and the action to take. -/
structure Check where
  Conditions : Value
  Act : String

/-- Modelled from the spec: the type `entity.PreChecks`, a map from a key to
a pre-check. -/
abbrev PreChecks := List (String × Check)

/-- Assignment `prechecks[k] = check`. -/
def PreChecks.set : PreChecks → String → Check → PreChecks
  | [], k, v => [(k, v)]
  | (k', v') :: rest, k, v =>
    if k' == k then (k, v) :: rest else (k', v') :: PreChecks.set rest k v

/-- Modelled from the spec: the status `init` of a task instance. -/
def TaskInstanceStatusInit : String := "init"

/-- Modelled from the spec: the status `running` of a task instance. -/
def TaskInstanceStatusRunning : String := "running"

/-- Modelled from the spec: the status `success` of a task instance. -/
def TaskInstanceStatusSuccess : String := "success"

/-- Modelled from the spec: the status `failed` of a task instance. -/
def TaskInstanceStatusFailed : String := "failed"

/-- Modelled from the spec: the status `canceled` of a task instance. -/
def TaskInstanceStatusCanceled : String := "canceled"

/-- Modelled from the spec: the status `skipped` of a task instance. -/
def TaskInstanceStatusSkipped : String := "skipped"

/-- Modelled from the spec: the constant `common.SuccessStatus`, the status
`success` as the handler assigns it to a finished loop-control task. -/
def SuccessStatus : String := "success"

/-- Modelled from the spec: the metadata of a task instance, "duration, attempt
count, retry budget", attached from trace events. -/
structure TaskMetaData where
  Attempts : Int := 0
  Duration : Int := 0
  MaxRetry : Int := 0

/-- Modelled from the spec: the type `entity.TaskInstance`, "stable identity
(store-assigned ID) and a semantic TaskID; operator/action name; status; list
of dependency TaskIDs; parameters; results payload; metadata".  `ID` is the
identity of `BaseInfo`; a nil parameter map is the empty one and `MetaData` is
`none` for the nil pointer. -/
structure TaskInstance where
  ID : String := ""
  TaskID : String := ""
  DagInsID : String := ""
  Name : String := ""
  DependOn : List String := []
  ActionName : String := ""
  TimeoutSecs : Int := 0
  Params : Dict := []
  Status : String := ""
  Reason : Value := Value.null
  PreChecks : PreChecks := []
  Results : Value := Value.null
  Steps : List Step := []
  MetaData : Option TaskMetaData := none

instance : Inhabited TaskInstance := ⟨{}⟩

/-- Modelled from the spec: the type `entity.Task`, the argument of
`entity.NewTaskInstance`, with the fields that `processStepRecursively` sets. -/
structure Task where
  ID : String
  ActionName : String
  DependOn : List String
  Params : Dict
  TimeoutSecs : Int
  Name : String

/-- Modelled from the spec: `entity.NewTaskInstance`, which is not part of the
sources at hand.  "TaskInstance: a runtime unit of work bound to one Step
occurrence": the instance takes the task's identifier as its semantic
`TaskID`, its action, dependencies, parameters, timeout and name, belongs to
the given DAG run and starts in status `init`; the store assigns `ID` later. -/
def NewTaskInstance (dagInsID : String) (task : Task) : TaskInstance :=
  { TaskID := task.ID
    DagInsID := dagInsID
    Name := task.Name
    DependOn := task.DependOn
    ActionName := task.ActionName
    TimeoutSecs := task.TimeoutSecs
    Params := task.Params
    Status := TaskInstanceStatusInit }

/-- Modelled from the spec: the type `entity.DagInstance`, which "holds an
identifier and a ShareData map used as a scoped key-value blackboard".
`ShareData.Get` and `ShareData.Set` are `Dict.get` and `Dict.set`. -/
structure DagInstance where
  ID : String := ""
  ShareData : Dict := []

/-- The type `LoopOutput`. -/
structure LoopOutput where
  Key : String
  Value : String

/-- The type `LoopParameters`. `Array` is `none` for a nil slice. -/
structure LoopParameters where
  Mode : String := ""
  Limit : Int := 0
  Array : Option (List Value) := none
  Outputs : List LoopOutput := []
  CurrentIteration : Int := 0
  LastIterationTaskID : String := ""
  LoopControlID : String := ""
  Steps : List Step := []
  LoopTaskID : String := ""

/-- Modelled from the spec: `TaskNode`, which is not part of the sources at
hand.  "A derived, rebuildable index over TaskInstances": a node carries the
store identity of its task instance and a cached status. -/
structure TaskNode where
  TaskInsID : String
  Status : String

/-- Modelled from the spec: `TaskTree`.  The tree under `Root` is represented
by its nodes in the order in which `walkNode` visits them. -/
structure TaskTree where
  DagInsID : String
  Root : List TaskNode

/-- The type `LoopExecutor`; `getTimeout` stands for
`timeoutConfig.GetTimeout`. -/
structure LoopExecutor where
  dagIns : DagInstance
  loopParams : LoopParameters
  taskTree : Option TaskTree := none
  getTimeout : String → Int

/-- Constants that the loop engine takes from the packages `common` and
`entity`: the operator names and the action of a branch pre-check.  Their
values are not part of the sources at hand. -/
structure Common where
  ControlFlowParallel : String
  BranchOpt : String
  Loop : String
  ActiveActionSkip : String

/-! ## Terminal task IDs of a step list -/

/-- The ID synthesis `fmt.Sprintf("%s_%d_%s", parent, index, stepID)`. -/
def nestedID (parent : String) (index : Nat) (stepID : String) : String :=
  parent ++ "_" ++ toString index ++ "_" ++ stepID

mutual
/-- Function `getLoopLastTaskIDs(steps, parentTaskID, branchIndex)`: the
terminal task IDs of a step list.  The first two equations walk to
`steps[len(steps)-1]`. -/
def getLoopLastTaskIDs (c : Common) : List Step → String → Nat → List String
  | [], _, _ => []
  | [lastStep], parentTaskID, branchIndex =>
    getLoopLastTaskIDs.ofLast c lastStep parentTaskID branchIndex
  | _ :: s :: rest, parentTaskID, branchIndex =>
    getLoopLastTaskIDs c (s :: rest) parentTaskID branchIndex
/-- The body of `getLoopLastTaskIDs` once `lastStep` is known. -/
def getLoopLastTaskIDs.ofLast (c : Common) : Step → String → Nat → List String
  | .mk id _ op _ branches, parentTaskID, branchIndex =>
    if op = c.ControlFlowParallel then
      getLoopLastTaskIDs.branches c branches (nestedID parentTaskID branchIndex id) 0
    else
      let result :=
        if op = c.BranchOpt then
          getLoopLastTaskIDs.branches c branches (nestedID parentTaskID branchIndex id) 0
        else []
      if op = c.BranchOpt ∧ result.length > 0 then result
      else [nestedID parentTaskID branchIndex id]
/-- The loop `for i, branch := range lastStep.Branches` of
`getLoopLastTaskIDs`, from index `i` on. -/
def getLoopLastTaskIDs.branches (c : Common) : List Branch → String → Nat → List String
  | [], _, _ => []
  | .mk _ steps :: rest, nestedParentID, i =>
    getLoopLastTaskIDs c steps nestedParentID i
      ++ getLoopLastTaskIDs.branches c rest nestedParentID (i + 1)
end

/-! ## Recursive step expansion -/

/-- The loop `for j, conditions := range branch.Conditions` that fills the
pre-check map of branch `i`. -/
def buildPreChecks (c : Common) (taskID : String) (i : Nat) :
    List Value → Nat → PreChecks → PreChecks
  | [], _, prechecks => prechecks
  | conditions :: rest, j, prechecks =>
    buildPreChecks c taskID i rest (j + 1)
      (prechecks.set (taskID ++ "_" ++ toString i ++ "_" ++ toString j)
        { Conditions := conditions, Act := c.ActiveActionSkip })

/-- Scan of a task list from its front that assigns `prechecks` to the first
task whose `TaskID` is `stepTaskID`. -/
def setPreChecksFirst (stepTaskID : String) (prechecks : PreChecks) :
    List TaskInstance → List TaskInstance
  | [] => []
  | t :: rest =>
    if t.TaskID = stepTaskID then { t with PreChecks := prechecks } :: rest
    else t :: setPreChecksFirst stepTaskID prechecks rest

/-- The loop `for k := len(taskInstances) - 1; k >= 0; k--` that assigns
`prechecks` to the last task whose `TaskID` is `stepTaskID`. -/
def setPreChecks (taskInstances : List TaskInstance) (stepTaskID : String)
    (prechecks : PreChecks) : List TaskInstance :=
  (setPreChecksFirst stepTaskID prechecks taskInstances.reverse).reverse

mutual
/-- Method `LoopExecutor.processStepRecursively`: expands one step into new
task instances appended to `taskInstances` and returns the terminal task IDs.
Of the receiver only `e.dagIns.ID` is read, the argument `dagInsID`;
`existingTaskIDs` lists the keys of the Go map of that name. -/
def processStepRecursively (c : Common) (dagInsID : String) (getTimeout : String → Int)
    (existingTaskIDs : List String)
    (taskInstances : List TaskInstance) :
    Step → String → List String → List TaskInstance × List String
  | .mk _ title op params branches, taskID, dependOn =>
    if op = c.ControlFlowParallel then
      processStepRecursively.parallelBranches c dagInsID getTimeout existingTaskIDs taskInstances
        branches taskID dependOn 0 []
    else if op = c.BranchOpt then
      let branchTask : Task :=
        { ID := taskID, ActionName := c.BranchOpt, DependOn := dependOn, Params := params,
          TimeoutSecs := getTimeout c.BranchOpt, Name := title }
      let r := processStepRecursively.condBranches c dagInsID getTimeout existingTaskIDs
        (taskInstances ++ [NewTaskInstance dagInsID branchTask]) branches taskID 0 []
      if r.2.length = 0 then (r.1, [taskID]) else r
    else
      let task : Task :=
        { ID := taskID, ActionName := op, DependOn := dependOn, Params := params,
          TimeoutSecs := getTimeout op, Name := title }
      (taskInstances ++ [NewTaskInstance dagInsID task], [taskID])
/-- The loop `for i, branch := range step.Branches` of the parallel case, from
branch `i` on; `parallelBranchLastTasks` is the list collected so far. -/
def processStepRecursively.parallelBranches (c : Common) (dagInsID : String)
    (getTimeout : String → Int) (existingTaskIDs : List String) (taskInstances : List TaskInstance) :
    List Branch → String → List String → Nat → List String →
      List TaskInstance × List String
  | [], _, _, _, parallelBranchLastTasks => (taskInstances, parallelBranchLastTasks)
  | .mk _ steps :: rest, taskID, branchEntryDependOn, i, parallelBranchLastTasks =>
    let r := processStepRecursively.parallelSteps c dagInsID getTimeout existingTaskIDs taskInstances
      steps taskID i branchEntryDependOn 0 branchEntryDependOn
    processStepRecursively.parallelBranches c dagInsID getTimeout existingTaskIDs r.1
      rest taskID branchEntryDependOn (i + 1) (parallelBranchLastTasks ++ r.2)
/-- The loop `for j, branchStep := range branch.Steps` of the parallel case,
from step `j` on. -/
def processStepRecursively.parallelSteps (c : Common) (dagInsID : String)
    (getTimeout : String → Int) (existingTaskIDs : List String) (taskInstances : List TaskInstance) :
    List Step → String → Nat → List String → Nat → List String →
      List TaskInstance × List String
  | [], _, _, _, _, currentBranchPathLastTasks => (taskInstances, currentBranchPathLastTasks)
  | branchStep :: rest, taskID, i, branchEntryDependOn, j, currentBranchPathLastTasks =>
    let stepTaskID := nestedID taskID i branchStep.ID
    if existingTaskIDs.contains stepTaskID then
      processStepRecursively.parallelSteps c dagInsID getTimeout existingTaskIDs taskInstances
        rest taskID i branchEntryDependOn (j + 1) [stepTaskID]
    else
      let branchStepDependOn :=
        if j = 0 then branchEntryDependOn else currentBranchPathLastTasks
      let r := processStepRecursively c dagInsID getTimeout existingTaskIDs taskInstances
        branchStep stepTaskID branchStepDependOn
      processStepRecursively.parallelSteps c dagInsID getTimeout existingTaskIDs r.1
        rest taskID i branchEntryDependOn (j + 1)
        (if r.2.length > 0 then r.2 else currentBranchPathLastTasks)
/-- The loop `for i, branch := range step.Branches` of the conditional case,
from branch `i` on; `allBranchesLastTasks` is the list collected so far. -/
def processStepRecursively.condBranches (c : Common) (dagInsID : String)
    (getTimeout : String → Int) (existingTaskIDs : List String) (taskInstances : List TaskInstance) :
    List Branch → String → Nat → List String → List TaskInstance × List String
  | [], _, _, allBranchesLastTasks => (taskInstances, allBranchesLastTasks)
  | .mk conditions steps :: rest, taskID, i, allBranchesLastTasks =>
    let prechecks := buildPreChecks c taskID i conditions 0 []
    let r := processStepRecursively.condSteps c dagInsID getTimeout existingTaskIDs taskInstances
      steps taskID i prechecks [taskID]
    processStepRecursively.condBranches c dagInsID getTimeout existingTaskIDs r.1
      rest taskID (i + 1) (allBranchesLastTasks ++ r.2)
/-- The loop `for _, branchStep := range branch.Steps` of the conditional
case. -/
def processStepRecursively.condSteps (c : Common) (dagInsID : String)
    (getTimeout : String → Int) (existingTaskIDs : List String) (taskInstances : List TaskInstance) :
    List Step → String → Nat → PreChecks → List String → List TaskInstance × List String
  | [], _, _, _, branchPathLastTasks => (taskInstances, branchPathLastTasks)
  | branchStep :: rest, taskID, i, prechecks, branchPathLastTasks =>
    let stepTaskID := nestedID taskID i branchStep.ID
    if existingTaskIDs.contains stepTaskID then
      processStepRecursively.condSteps c dagInsID getTimeout existingTaskIDs taskInstances
        rest taskID i prechecks [stepTaskID]
    else
      let r := processStepRecursively c dagInsID getTimeout existingTaskIDs taskInstances
        branchStep stepTaskID branchPathLastTasks
      let taskInstances1 :=
        if r.1.length > 0 then setPreChecks r.1 stepTaskID prechecks else r.1
      processStepRecursively.condSteps c dagInsID getTimeout existingTaskIDs taskInstances1
        rest taskID i prechecks
        (if r.2.length > 0 then r.2 else branchPathLastTasks)
end

/-! ## Collaborators: store, parser registry, scheduler -/

/-- Calls that leave the loop engine, in the order in which they are made. -/
inductive Effect where
  | ListTaskInstance (dagInsID : String)
  | GetTaskIns (id : String)
  | BatchCreateTaskIns (tasks : List TaskInstance)
  | UpdateTaskIns (task : TaskInstance)
  | PatchTaskIns (task : TaskInstance)
  | BatchDeleteTaskIns (ids : List String)
  | Push (task : TaskInstance)
  | EntryTaskIns (task : TaskInstance)
  | Run (task : TaskInstance)

/-- Behaviour of the collaborators that the sources at hand do not fix.
`fails n` tells whether the store call made after `n` earlier logged calls
returns an error; `newID` is the store's identity assignment;
`BuildRootNode` returns `none` for an error; `formatValue` is the rendering
of an `interface{}` by the verb `%v`; `defaultTimeout` is `GetTimeout` of
`common.NewTimeoutConfig()`. -/
structure Env where
  fails : Nat → Bool
  newID : Nat → String
  BuildRootNode : List TaskInstance → Option (List TaskNode)
  GetExecutableTaskIds : List TaskNode → List String
  formatValue : Value → String
  defaultTimeout : String → Int

/-- State outside the handler: the store's task instances, the parser's
`taskTrees` registry, the executor's `cancelMap` and the log of calls.
`generations` is a ghost record of the entries into
`GenerateIterationTasks`, each with its `CurrentIteration`. -/
structure World where
  tasks : List TaskInstance := []
  taskTrees : List (String × TaskTree) := []
  cancelMap : List String := []
  calls : List Effect := []
  generations : List Int := []

def World.log (w : World) (eff : Effect) : World :=
  { w with calls := w.calls ++ [eff] }

/-- Modelled from the spec: `Store.ListTaskInstance(runID)`, the list of the
task instances of one DAG run; `none` is an error. -/
def ListTaskInstance (env : Env) (w : World) (dagInsID : String) :
    Option (List TaskInstance) × World :=
  if env.fails w.calls.length then (none, w.log (.ListTaskInstance dagInsID))
  else (some (w.tasks.filter (fun t => t.DagInsID = dagInsID)), w.log (.ListTaskInstance dagInsID))

/-- Modelled from the spec: `Store.GetTaskIns(id)`; `none` is an error or a
missing instance. -/
def GetTaskIns (env : Env) (w : World) (id : String) : Option TaskInstance × World :=
  if env.fails w.calls.length then (none, w.log (.GetTaskIns id))
  else (w.tasks.find? (fun t => t.ID = id), w.log (.GetTaskIns id))

/-- Replacement of the stored instances that have the identity of `task`. -/
def replaceTask (task : TaskInstance) (tasks : List TaskInstance) : List TaskInstance :=
  tasks.map (fun t => if t.ID = task.ID then task else t)

/-- Modelled from the spec: `Store.UpdateTaskIns(task)`; `true` is an error. -/
def UpdateTaskIns (env : Env) (w : World) (task : TaskInstance) : Bool × World :=
  if env.fails w.calls.length then (true, w.log (.UpdateTaskIns task))
  else (false, { w.log (.UpdateTaskIns task) with tasks := replaceTask task w.tasks })

/-- Modelled from the spec: `Store.PatchTaskIns(task)`; `true` is an error. -/
def PatchTaskIns (env : Env) (w : World) (task : TaskInstance) : Bool × World :=
  if env.fails w.calls.length then (true, w.log (.PatchTaskIns task))
  else (false, { w.log (.PatchTaskIns task) with tasks := replaceTask task w.tasks })

/-- The identities that the store gives to new instances: an instance that
comes without identity gets `newID` of its position in the store. -/
def assignIDs (env : Env) : Nat → List TaskInstance → List TaskInstance
  | _, [] => []
  | n, t :: rest =>
    (if t.ID = "" then { t with ID := env.newID n } else t) :: assignIDs env (n + 1) rest

/-- Modelled from the spec: `Store.BatchCreateTaskIns(tasks)`, which returns
the created instances; `none` is an error. -/
def BatchCreateTaskIns (env : Env) (w : World) (tasks : List TaskInstance) :
    Option (List TaskInstance) × World :=
  if env.fails w.calls.length then (none, w.log (.BatchCreateTaskIns tasks))
  else
    (some (assignIDs env w.tasks.length tasks),
      { w.log (.BatchCreateTaskIns tasks) with
        tasks := w.tasks ++ assignIDs env w.tasks.length tasks })

/-- Modelled from the spec: `Store.BatchDeleteTaskIns(ids)`; `true` is an error. -/
def BatchDeleteTaskIns (env : Env) (w : World) (ids : List String) : Bool × World :=
  if env.fails w.calls.length then (true, w.log (.BatchDeleteTaskIns ids))
  else
    (false, { w.log (.BatchDeleteTaskIns ids) with
      tasks := w.tasks.filter (fun t => !ids.contains t.ID) })

/-- Whether a logged call is a `BatchCreateTaskIns`. -/
def Effect.isBatchCreate : Effect → Bool
  | .BatchCreateTaskIns _ => true
  | _ => false

/-- Result of a Go call: a normal return or a run-time panic. -/
inductive Outcome (α : Type) where
  | ret (value : α)
  | panic (msg : String)

/-- The pair that `GenerateIterationTasks` returns; `tasks = none` is the nil
slice, `err = none` the nil error. -/
structure GenReturn where
  tasks : Option (List TaskInstance)
  err : Option String

/-! ## Loop executor: generation of the tasks of one iteration -/

/-- The key prefix `fmt.Sprintf("__loop_%s_", LoopTaskID)`. -/
def loopKeyPrefix (p : LoopParameters) : String :=
  "__loop_" ++ p.LoopTaskID ++ "_"

/-- The expression `strings.Split(LoopTaskID, "_i")[0]`. -/
def baseTaskID (p : LoopParameters) : String :=
  splitHead p.LoopTaskID "_i"

/-- The namespace of the current iteration,
`fmt.Sprintf("%s_i%d_", base, CurrentIteration)`. -/
def currentIterPrefix (p : LoopParameters) : String :=
  baseTaskID p ++ "_i" ++ toString p.CurrentIteration ++ "_"

/-- The gate's key `fmt.Sprintf("%s_iter_%d_", LoopControlID, CurrentIteration - 1)`. -/
def prevIterPrefix (p : LoopParameters) : String :=
  p.LoopControlID ++ "_iter_" ++ toString (p.CurrentIteration - 1) ++ "_"

/-- The task ID of a body step,
`fmt.Sprintf("%s_i%d_s%s", base, CurrentIteration, stepID)`. -/
def stepTaskID (p : LoopParameters) (stepID : String) : String :=
  baseTaskID p ++ "_i" ++ toString p.CurrentIteration ++ "_s" ++ stepID

/-- The dependencies of a body step: the loop task for the first step (`prev`
is `none` when `j = 0`), else the terminal tasks of the previous step. -/
def stepDependOn (c : Common) (p : LoopParameters) : Option Step → List String
  | none => [p.LoopTaskID]
  | some prevStep =>
    if prevStep.Operator = c.ControlFlowParallel then
      getLoopLastTaskIDs.branches c prevStep.Branches (stepTaskID p prevStep.ID) 0
    else if prevStep.Operator = c.BranchOpt then
      getLoopLastTaskIDs.branches c prevStep.Branches (stepTaskID p prevStep.ID) 0
    else [stepTaskID p prevStep.ID]

/-- The loop `for j, step := range e.loopParams.Steps` of
`GenerateIterationTasks`; `prev` is `Steps[j-1]`, `p` is `e.loopParams` and
`dagInsID` is `e.dagIns.ID`. -/
def GenerateIterationTasks.steps (c : Common) (p : LoopParameters) (dagInsID : String)
    (getTimeout : String → Int) (existingTaskIDs : List String) :
    List Step → Option Step → List TaskInstance → List String →
      List TaskInstance × List String
  | [], _, taskInstances, lastTaskIDs => (taskInstances, lastTaskIDs)
  | step :: rest, prev, taskInstances, _ =>
    let taskID := stepTaskID p step.ID
    if existingTaskIDs.contains taskID then
      GenerateIterationTasks.steps c p dagInsID getTimeout existingTaskIDs rest (some step)
        taskInstances [taskID]
    else
      let r := processStepRecursively c dagInsID getTimeout existingTaskIDs taskInstances
        step taskID (stepDependOn c p prev)
      GenerateIterationTasks.steps c p dagInsID getTimeout existingTaskIDs rest (some step)
        r.1 r.2

/-- The scan of iteration 0 for tasks outside the loop body that depend on the
original loop task: the store identities of those tasks. -/
def dependentTasksOf (p : LoopParameters) (tasks : List TaskInstance) : List String :=
  (tasks.filter (fun t =>
    !strings.HasPrefix t.TaskID (baseTaskID p ++ "_i") && t.DependOn.contains p.LoopTaskID)).map
    (fun t => t.ID)

/-- The loop `for _, dependID := range task.DependOn` of the retro-wiring: the
first successful patch ends it, a failed patch goes on with the next entry. -/
def retroWire.inner (env : Env) (loopTaskID newTaskID : String) :
    List String → TaskInstance → World → World
  | [], _, w => w
  | dependID :: rest, task, w =>
    if dependID = loopTaskID then
      let r := PatchTaskIns env w { task with DependOn := task.DependOn ++ [newTaskID] }
      if r.1 then
        retroWire.inner env loopTaskID newTaskID rest
          { task with DependOn := task.DependOn ++ [newTaskID] } r.2
      else r.2
    else retroWire.inner env loopTaskID newTaskID rest task w

/-- The loop `for _, taskID := range dependentTasks` of the retro-wiring.  The
first component is the message of the panic of `taskID.(string)` on an entry
that is no string. -/
def retroWire (env : Env) (loopTaskID newTaskID : String) :
    List Value → World → Option String × World
  | [], w => (none, w)
  | .str id :: rest, w =>
    let r := GetTaskIns env w id
    match r.1 with
    | none => retroWire env loopTaskID newTaskID rest r.2
    | some task =>
      retroWire env loopTaskID newTaskID rest
        (retroWire.inner env loopTaskID newTaskID task.DependOn task r.2)
  | _ :: _, w => (some "interface conversion: interface {} is not string", w)

/-- The type switch on the stored list of dependent tasks: a `[]interface{}`
is taken as it is, a `[]string` is converted, anything else gives no entries. -/
def dependentTasksList : Value → List Value
  | .arr xs => xs
  | .strs ss => ss.map Value.str
  | _ => []

/-- The copy `for k, v := range paramsCopy { newLoopTask.SetParam(k, v) }`.  Go
leaves the order of map iteration open; the entries are visited from the back
of the association list, so that of two entries with one key the one that
`Dict.get` sees is written last. -/
def copyParams (paramsCopy : Dict) (target : Dict) : Dict :=
  paramsCopy.foldr (fun kv m => m.set kv.1 kv.2) target

/-- The new loop-control task of the next iteration, as it is appended to
`taskInstances`; `found` is the result of `GetTaskIns(LoopControlID)`, `p` is
`e.loopParams` and `dagInsID` is `e.dagIns.ID`. -/
def newLoopTask (c : Common) (p : LoopParameters) (dagInsID : String)
    (found : Option TaskInstance) (lastTaskIDs : List String) : TaskInstance :=
  let nextIteration := p.CurrentIteration + 1
  let t0 : TaskInstance :=
    { DagInsID := dagInsID, ActionName := c.Loop, Status := TaskInstanceStatusInit,
      Params := [], Steps := p.Steps }
  let t1 : TaskInstance :=
    match found with
    | some taskIns =>
      { t0 with
        TaskID := baseTaskID p ++ "_i" ++ toString nextIteration
        Params := copyParams taskIns.Params t0.Params }
    | none => t0
  { t1 with
    Params := (t1.Params.set "current_iteration" (.int nextIteration)).set
      "last_iteration_task_id" (.str (lastTaskIDs.getLast?.getD ""))
    DependOn := lastTaskIDs }

/-- The fallback `fmt.Sprintf("%s_iter_%d_%d_%s", ...)` for the last task ID
when nothing was created and no terminal ID is known. -/
def computedLastID (p : LoopParameters) : String :=
  match p.Steps.getLast? with
  | some lastStep =>
    p.LoopControlID ++ "_iter_" ++ toString p.CurrentIteration ++ "_"
      ++ toString (p.Steps.length - 1) ++ "_" ++ lastStep.ID
  | none => ""

/-- The last part of `GenerateIterationTasks`: it records the last task ID and
creates the collected instances in one store call. -/
def GenerateIterationTasks.finish (env : Env) (e : LoopExecutor) (w : World)
    (taskInstances : List TaskInstance) (lastTaskIDs : List String) :
    Outcome GenReturn × LoopExecutor × World :=
  let finalLastTaskID := lastTaskIDs.getLast?.getD ""
  if taskInstances.length = 0 then
    let finalLastTaskID1 :=
      if finalLastTaskID = "" then computedLastID e.loopParams else finalLastTaskID
    (.ret { tasks := some [], err := none },
      { e with
        loopParams := { e.loopParams with LastIterationTaskID := finalLastTaskID1 }
        dagIns := { e.dagIns with
          ShareData := (e.dagIns.ShareData.set
            (loopKeyPrefix e.loopParams ++ "last_iteration_task_id") (.str finalLastTaskID)).set
            (loopKeyPrefix e.loopParams ++ "last_iteration_task_id") (.str finalLastTaskID1) } },
      w)
  else
    let e1 : LoopExecutor :=
      { e with
        loopParams := { e.loopParams with LastIterationTaskID := finalLastTaskID }
        dagIns := { e.dagIns with
          ShareData := e.dagIns.ShareData.set
            (loopKeyPrefix e.loopParams ++ "last_iteration_task_id") (.str finalLastTaskID) } }
    let r := BatchCreateTaskIns env w taskInstances
    match r.1 with
    | none => (.ret { tasks := none, err := some "创建任务实例失败" }, e1, r.2)
    | some createdTasks => (.ret { tasks := some createdTasks, err := none }, e1, r.2)

/-- Lines 683-712 of `GenerateIterationTasks`: in iteration 0 the store
identities of the tasks that wait for the loop are put into ShareData. -/
def GenerateIterationTasks.scan (env : Env) (e : LoopExecutor) (w : World) :
    LoopExecutor × World :=
  if e.loopParams.CurrentIteration = 0 then
    let r := ListTaskInstance env w e.dagIns.ID
    match r.1 with
    | none => (e, r.2)
    | some tasks =>
      if (dependentTasksOf e.loopParams tasks).length > 0 then
        ({ e with dagIns := { e.dagIns with
            ShareData := e.dagIns.ShareData.set
              (loopKeyPrefix e.loopParams ++ "dependent_tasks")
              (.strs (dependentTasksOf e.loopParams tasks)) } }, r.2)
      else (e, r.2)
  else (e, w)

/-- The part of `GenerateIterationTasks` after the body loop: the scan of
iteration 0, the next loop-control task with the retro-wiring, the rest. -/
def GenerateIterationTasks.next (c : Common) (env : Env) (e : LoopExecutor) (w : World)
    (existingTasks : List TaskInstance) (taskInstances : List TaskInstance)
    (lastTaskIDs : List String) : Outcome GenReturn × LoopExecutor × World :=
  let nextIteration := e.loopParams.CurrentIteration + 1
  let e1 := (GenerateIterationTasks.scan env e w).1
  let w1 := (GenerateIterationTasks.scan env e w).2
  if nextIteration ≤ e1.loopParams.Limit ∨
      nextIteration ≤ ((e1.loopParams.Array.getD []).length : Int) then
    if existingTasks.any
        (fun t => t.TaskID = baseTaskID e1.loopParams ++ "_i" ++ toString nextIteration) then
      GenerateIterationTasks.finish env e1 w1 taskInstances lastTaskIDs
    else
      let g := GetTaskIns env w1 e1.loopParams.LoopControlID
      let newTask := newLoopTask c e1.loopParams e1.dagIns.ID g.1 lastTaskIDs
      match e1.dagIns.ShareData.get
          ("__loop_" ++ baseTaskID e1.loopParams ++ "_dependent_tasks") with
      | none =>
        GenerateIterationTasks.finish env e1 g.2 (taskInstances ++ [newTask]) lastTaskIDs
      | some dependentTasksValue =>
        let rw := retroWire env e1.loopParams.LoopTaskID newTask.TaskID
          (dependentTasksList dependentTasksValue) g.2
        match rw.1 with
        | some msg => (.panic msg, e1, rw.2)
        | none =>
          GenerateIterationTasks.finish env e1 rw.2 (taskInstances ++ [newTask]) lastTaskIDs
  else
    GenerateIterationTasks.finish env e1 w1 taskInstances lastTaskIDs

/-- Method `LoopExecutor.GenerateIterationTasks`: the task instances of the
current iteration.  The computation of `prevIterLastTaskID` (lines 564-605) only
feeds log lines and is left out. -/
def GenerateIterationTasks (c : Common) (env : Env) (e : LoopExecutor) (w : World) :
    Outcome GenReturn × LoopExecutor × World :=
  let w0 : World :=
    { w with generations := w.generations ++ [e.loopParams.CurrentIteration] }
  let e0 : LoopExecutor :=
    { e with dagIns := { e.dagIns with
        ShareData := e.dagIns.ShareData.set
          (loopKeyPrefix e.loopParams ++ "current_iteration")
          (.int e.loopParams.CurrentIteration) } }
  let l := ListTaskInstance env w0 e0.dagIns.ID
  match l.1 with
  | none => (.ret { tasks := none, err := some "获取现有任务失败" }, e0, l.2)
  | some existingTasks =>
    if existingTasks.any
        (fun t => strings.HasPrefix t.TaskID (currentIterPrefix e0.loopParams)) then
      (.ret { tasks := some [], err := none }, e0, l.2)
    else if e0.loopParams.CurrentIteration > 0 ∧
        ¬ (existingTasks.filter
            (fun t => strings.HasPrefix t.ID (prevIterPrefix e0.loopParams))).all
          (fun t => t.Status = TaskInstanceStatusSuccess) then
      (.ret { tasks := none, err := none }, e0, l.2)
    else
      let r := GenerateIterationTasks.steps c e0.loopParams e0.dagIns.ID e0.getTimeout
        (existingTasks.map (fun t => t.ID)) e0.loopParams.Steps none [] []
      GenerateIterationTasks.next c env e0 l.2 existingTasks r.1 r.2

/-- The task instances that a call of `GenerateIterationTasks` returns; none
for a nil slice or a panic. -/
def returnedTasks (r : Outcome GenReturn × LoopExecutor × World) : List TaskInstance :=
  match r.1 with
  | .ret { tasks := some ts, err := _ } => ts
  | _ => []

/-- Lists in a ShareData dictionary hold strings only, as the list of
dependent task identities does that `GenerateIterationTasks` stores. -/
def holdsTaskIDs (m : Dict) : Prop :=
  ∀ kv ∈ m, ∀ x ∈ dependentTasksList kv.2, ∃ s, x = Value.str s

/-! ## Loop executor: task tree and push phase -/

/-- Lookup `parser.getTaskTree(dagInsID)`. -/
def getTaskTree (w : World) (dagInsID : String) : Option TaskTree :=
  (w.taskTrees.find? (fun kv => kv.1 = dagInsID)).map (fun kv => kv.2)

/-- Assignment `m[k] = tree` on the registry. -/
def storeTree : List (String × TaskTree) → String → TaskTree → List (String × TaskTree)
  | [], k, v => [(k, v)]
  | (k', v') :: rest, k, v =>
    if k' = k then (k, v) :: rest else (k', v') :: storeTree rest k v

/-- Call `parser.taskTrees.Store(dagInsID, tree)`. -/
def World.storeTaskTree (w : World) (dagInsID : String) (tree : TaskTree) : World :=
  { w with taskTrees := storeTree w.taskTrees dagInsID tree }

/-- The dedup loop of `UpdateTaskTree`: `seen` holds the keys of `taskIDMap`;
the result is `(uniqueTasks, duplicateTasks)`. -/
def dedupTasks : List TaskInstance → List String → List TaskInstance × List String
  | [], _ => ([], [])
  | task :: rest, seen =>
    if seen.contains task.TaskID then
      ((dedupTasks rest seen).1, task.ID :: (dedupTasks rest seen).2)
    else
      (task :: (dedupTasks rest (task.TaskID :: seen)).1,
        (dedupTasks rest (task.TaskID :: seen)).2)

/-- Method `LoopExecutor.UpdateTaskTree`; the first component is the returned
error. -/
def UpdateTaskTree (env : Env) (e : LoopExecutor) (w : World) :
    Option String × LoopExecutor × World :=
  let cached := getTaskTree w e.dagIns.ID
  let l := ListTaskInstance env w e.dagIns.ID
  match l.1 with
  | none => (some "获取任务实例失败", e, l.2)
  | some tasks =>
    let d := dedupTasks tasks []
    let w1 := if d.2.length > 0 then (BatchDeleteTaskIns env l.2 d.2).2 else l.2
    let tasks1 := if d.2.length > 0 then d.1 else tasks
    match env.BuildRootNode tasks1 with
    | none => (some "构建任务树失败", e, w1)
    | some root =>
      match cached with
      | none =>
        (none, { e with taskTree := some { DagInsID := e.dagIns.ID, Root := root } },
          w1.storeTaskTree e.dagIns.ID { DagInsID := e.dagIns.ID, Root := root })
      | some taskTree =>
        (none, { e with taskTree := some { taskTree with Root := root } },
          w1.storeTaskTree e.dagIns.ID { taskTree with Root := root })

/-- The rendering of a `[]string` by the verb `%v`. -/
def formatStrings (xs : List String) : String :=
  "[" ++ " ".intercalate xs ++ "]"

/-- The scan of `PushExecutableTasks` for failed or canceled instances under
the key `fmt.Sprintf("%s_iter_%d_", LoopControlID, CurrentIteration)`. -/
def failedInIteration (p : LoopParameters) (tasks : List TaskInstance) : List TaskInstance :=
  tasks.filter (fun t =>
    strings.HasPrefix t.ID (p.LoopControlID ++ "_iter_" ++ toString p.CurrentIteration ++ "_")
      && (t.Status = TaskInstanceStatusFailed || t.Status = TaskInstanceStatusCanceled))

/-- Lookup in `taskMap`, the map from store identity to instance that the loop
`for _, task := range tasks { taskMap[task.ID] = task }` builds. -/
def taskMapGet (tasks : List TaskInstance) (id : String) : Option TaskInstance :=
  tasks.reverse.find? (fun t => t.ID = id)

/-- The reason that the push phase gives to a reset loop-control task. -/
def failReason (env : Env) (p : LoopParameters) (failed : List TaskInstance) : String :=
  "迭代 " ++ toString p.CurrentIteration ++ " 有失败任务: "
    ++ formatStrings (failed.map (fun t => t.ID)) ++ "; 原因: "
    ++ formatStrings (failed.map (fun t => env.formatValue t.Reason))

/-- The last loop of `PushExecutableTasks`: every executable task that is in
`taskMap` and not in the executor's `cancelMap` is pushed. -/
def pushFrontier (tasks : List TaskInstance) : List String → World → World
  | [], w => w
  | id :: rest, w =>
    match taskMapGet tasks id with
    | some taskInstance =>
      if w.cancelMap.contains taskInstance.ID then pushFrontier tasks rest w
      else pushFrontier tasks rest (w.log (.Push taskInstance))
    | none => pushFrontier tasks rest w

/-- Method `LoopExecutor.PushExecutableTasks`; the first component is the
returned error. -/
def PushExecutableTasks (env : Env) (e : LoopExecutor) (w : World) : Option String × World :=
  match e.taskTree with
  | none => (some "任务树未初始化", w)
  | some taskTree =>
    let executableTaskIds := env.GetExecutableTaskIds taskTree.Root
    let l := ListTaskInstance env w e.dagIns.ID
    match l.1 with
    | none => (some "获取任务实例失败", l.2)
    | some tasks =>
      let failed := failedInIteration e.loopParams tasks
      let reset : Option TaskInstance :=
        if failed.length > 0 then
          match taskMapGet tasks e.loopParams.LoopControlID with
          | some loopTask =>
            if loopTask.Status ≠ TaskInstanceStatusCanceled then
              some { loopTask with
                Status := TaskInstanceStatusInit
                Reason := .str (failReason env e.loopParams failed) }
            else none
          | none => none
        else none
      match reset with
      | some loopTask => (none, ((UpdateTaskIns env l.2 loopTask).2).log (.Push loopTask))
      | none => (none, pushFrontier tasks executableTaskIds l.2)

/-! ## Loop handler: output collection -/

/-- Go `strconv.Atoi`: an optional sign and decimal digits, within 64 bits. -/
def Atoi (s : String) : Option Int :=
  let digits : List Char :=
    match s.data with
    | '-' :: r => r
    | '+' :: r => r
    | cs => cs
  if digits = [] ∨ ¬ digits.all Char.isDigit then none
  else
    let n : Int := digits.foldl (fun a d => 10 * a + ((d.toNat - 48 : Nat) : Int)) 0
    let v : Int := if s.data.head? = some '-' then -n else n
    if v < -9223372036854775808 ∨ 9223372036854775807 < v then none else some v

/-- The iteration number that `collectLoopOutputs` reads off a task ID: the ID
must split at `_` into exactly two parts, and the second part without its
first byte must be a number. -/
def iterationOf (taskID : String) : Option Int :=
  match strings.Split taskID "_" with
  | [_, iterStr] =>
    match iterStr.data with
    | [] => none
    | ch :: rest => if ch.toNat < 128 then Atoi (String.mk rest) else none
  | _ => none

/-- The entry `iterationTasks[iter]` of the grouping of `collectLoopOutputs`. -/
def iterationTasks (p : LoopParameters) (tasks : List TaskInstance) (iter : Int) :
    List TaskInstance :=
  tasks.filter (fun t =>
    strings.HasPrefix t.TaskID (baseTaskID p ++ "_i") && iterationOf t.TaskID = some iter)

/-- The loop over one task's `outputs` parameter: the `value` of the first
entry with the key sought and a `value` field. -/
def findOutput (key : String) : List Value → Option Value
  | [] => none
  | .map outputMap :: rest =>
    match Dict.get outputMap "key" with
    | some (.str k) =>
      if k = key then
        match Dict.get outputMap "value" with
        | some value => some value
        | none => findOutput key rest
      else findOutput key rest
    | _ => findOutput key rest
  | _ :: rest => findOutput key rest

/-- The value that one task records for `key`, nil when it records none. -/
def taskOutput (key : String) (task : TaskInstance) : Value :=
  match task.Params.get "outputs" with
  | some (.primA outputs) => (findOutput key outputs).getD .null
  | _ => .null

/-- The loop `for _, task := range taskList`: the first value that is not nil. -/
def outputOfTasks (key : String) : List TaskInstance → Value
  | [] => .null
  | task :: rest =>
    match taskOutput key task with
    | .null => outputOfTasks key rest
    | v => v

/-- The loop `for _, outputConfig := range loopParams.Outputs` for one
iteration.  The flag tells that the assertion
`outputsMap[key].([]interface{})` panicked; the map is the one at that moment. -/
def collectIteration (taskList : List TaskInstance) (iter : Int) :
    List LoopOutput → Dict → Dict × Bool
  | [], outputsMap => (outputsMap, false)
  | outputConfig :: rest, outputsMap =>
    let outputValue := outputOfTasks outputConfig.Key taskList
    match outputsMap.get outputConfig.Key with
    | none | some .null =>
      collectIteration taskList iter rest
        (if ((0 : Nat) : Int) ≤ iter then outputsMap.set outputConfig.Key (.arr [outputValue])
         else outputsMap)
    | some (.arr temp) =>
      collectIteration taskList iter rest
        (if (temp.length : Int) ≤ iter then
          outputsMap.set outputConfig.Key (.arr (temp ++ [outputValue]))
         else outputsMap)
    | some _ => (outputsMap, true)

/-- The loop `for iter := 1; iter <= CurrentIteration; iter++`, started at
`iter` with `count` rounds to go. -/
def collectIterations (p : LoopParameters) (tasks : List TaskInstance) :
    Nat → Int → Dict → Dict × Bool
  | 0, _, outputsMap => (outputsMap, false)
  | count + 1, iter, outputsMap =>
    let r := collectIteration (iterationTasks p tasks iter) iter p.Outputs outputsMap
    if r.2 then r else collectIterations p tasks count (iter + 1) r.1

/-- The outputs map that `collectLoopOutputs` starts from: the map stored
under `outputs` of the existing entry if there is one (`true`: it is that very
map, so writes to it are writes to `ShareData`), else a fresh map with an
empty array per configured key. -/
def initialOutputs (p : LoopParameters) (existing : Option Value) : Dict × Bool :=
  match existing with
  | some (.map existingMap) =>
    match Dict.get existingMap "outputs" with
    | some (.map outputs) => (outputs, true)
    | _ => (p.Outputs.foldl (fun m o => m.set o.Key (.arr [])) [], false)
  | _ => (p.Outputs.foldl (fun m o => m.set o.Key (.arr [])) [], false)

/-- The ShareData after writes into the outputs map: they are visible only when
that map is the stored one. -/
def writeBack (shareData : Dict) (key : String) (aliased : Bool) (outputsMap : Dict) : Dict :=
  match aliased, shareData.get key with
  | true, some (.map existingMap) =>
    shareData.set key (.map (Dict.set existingMap "outputs" (.map outputsMap)))
  | _, _ => shareData

/-- Method `LoopHandler.collectLoopOutputs`.  The outcome is the returned
error or a panic; the dictionary is the `ShareData` afterwards. -/
def collectLoopOutputs (env : Env) (taskIns : TaskInstance) (p : LoopParameters)
    (shareData : Dict) (w : World) : Outcome (Option String) × Dict × World :=
  if p.Outputs.length = 0 then (.ret none, shareData, w)
  else
    let loopOutputsKey := "__" ++ splitHead taskIns.TaskID "_"
    let init := initialOutputs p (shareData.get loopOutputsKey)
    let l := ListTaskInstance env w taskIns.DagInsID
    match l.1 with
    | none => (.ret (some "failed to list task instances"), shareData, l.2)
    | some tasks =>
      let r := collectIterations p tasks p.CurrentIteration.toNat 1 init.1
      if r.2 then
        (.panic "interface conversion: interface {} is not []interface {}",
          writeBack shareData loopOutputsKey init.2 r.1, l.2)
      else
        (.ret none, shareData.set loopOutputsKey (.map [("outputs", .map r.1)]), l.2)

/-! ## Loop handler -/

/-- The type `LoopHandler`. -/
structure LoopHandler where
  loopParams : LoopParameters

/-- What `HandleLoopAction` leaves behind: the returned error (`none` is nil)
or a panic, the loop-control task instance, its DAG instance and the state of
the collaborators. -/
structure HandleResult where
  out : Outcome (Option String)
  taskIns : TaskInstance
  dagIns : DagInstance
  world : World

/-- The walk `walkNode(root, fn, true)` with the callback of the handler: the
first node of the task instance gets the status and the walk stops. -/
def walkSetStatus (taskInsID status : String) : List TaskNode → List TaskNode
  | [] => []
  | node :: rest =>
    if node.TaskInsID = taskInsID then { node with Status := status } :: rest
    else node :: walkSetStatus taskInsID status rest

/-- The walk on the tree that the registry holds for `dagInsID`. -/
def World.walkNode (w : World) (dagInsID taskInsID status : String) : World :=
  match getTaskTree w dagInsID with
  | some tree =>
    w.storeTaskTree dagInsID { tree with Root := walkSetStatus taskInsID status tree.Root }
  | none => w

/-- Entry of `HandleLoopAction`: the default mode and, in array mode with an
array, the limit set to the array length. -/
def normalizeParams (p : LoopParameters) : LoopParameters :=
  let p1 := if p.Mode = "" then { p with Mode := "limit" } else p
  if p1.Mode = "array" then
    match p1.Array with
    | some arr => { p1 with Limit := (arr.length : Int) }
    | none => p1
  else p1

/-- The local `arrayData` of `HandleLoopAction`; `none` is the nil slice. -/
def arrayDataOf (p : LoopParameters) : Option (List Value) :=
  if (normalizeParams p).Mode = "array" then (normalizeParams p).Array else none

/-- The local `actualLimit` of `HandleLoopAction`, the effective limit. -/
def actualLimit (p : LoopParameters) : Int :=
  if (normalizeParams p).Mode = "array" then (((arrayDataOf p).getD []).length : Int)
  else (normalizeParams p).Limit

/-- Lines 52-78: the task tree of the DAG run is taken from the registry or
rebuilt from the store.  The first component is the returned error. -/
def ensureTaskTree (env : Env) (taskIns : TaskInstance) (dagIns : DagInstance) (w : World) :
    Option String × World :=
  match getTaskTree w taskIns.DagInsID with
  | some _ => (none, w)
  | none =>
    let l := ListTaskInstance env w taskIns.DagInsID
    match l.1 with
    | none => (some "get task instances failed", l.2)
    | some tasks =>
      match env.BuildRootNode tasks with
      | none => (some "build task tree failed", l.2)
      | some root =>
        (none, l.2.storeTaskTree taskIns.DagInsID { DagInsID := dagIns.ID, Root := root })

/-- Verdict of the dependency check of lines 113-145. -/
inductive DepCheck where
  | satisfied
  | failed (dependTaskID : String)
  | notReady

/-- The loop `for _, dependTaskID := range taskIns.DependOn`: each dependency
is judged by the first stored task with that `TaskID`. -/
def checkDependOn (tasks : List TaskInstance) : List String → DepCheck
  | [] => .satisfied
  | dependTaskID :: rest =>
    match tasks.find? (fun t => t.TaskID = dependTaskID) with
    | none => .notReady
    | some task =>
      if task.Status = TaskInstanceStatusFailed then .failed dependTaskID
      else if task.Status ≠ TaskInstanceStatusSuccess ∧
          task.Status ≠ TaskInstanceStatusSkipped then .notReady
      else checkDependOn tasks rest

/-- The record `loopInternalValues`: `index`, and in array mode `value`. -/
def loopInternalValues (p : LoopParameters) (arrayData : List Value) : Dict :=
  if p.Mode = "array" ∧ p.CurrentIteration < (arrayData.length : Int) then
    [("index", .int p.CurrentIteration),
      ("value", arrayData.getD p.CurrentIteration.toNat .null)]
  else [("index", .int p.CurrentIteration)]

/-- Lines 256-273: the writes of the advancing case into `ShareData`. -/
def publishLoopValues (p : LoopParameters) (arrayData : List Value) (taskIns : TaskInstance)
    (shareData : Dict) : Dict :=
  let originKey := splitHead taskIns.TaskID "_"
  let s1 := shareData.set ("__" ++ originKey) (.map (loopInternalValues p arrayData))
  let s2 := s1.set ("__" ++ taskIns.TaskID) (.map (loopInternalValues p arrayData))
  let s3 := s2.set ("__loop_" ++ originKey ++ "_index") (.int p.CurrentIteration)
  let s4 :=
    if p.Mode = "array" ∧ p.CurrentIteration < (arrayData.length : Int) then
      s3.set ("__loop_" ++ originKey ++ "_value")
        (arrayData.getD p.CurrentIteration.toNat .null)
    else s3
  let s5 := s4.set (loopKeyPrefix p ++ "current_iteration") (.int p.CurrentIteration)
  s5.set (loopKeyPrefix p ++ "last_iteration_task_id") (.str p.LastIterationTaskID)

/-- Lines 229-319 of `HandleLoopAction`, the advancing case. -/
def HandleLoopAction.advance (c : Common) (env : Env) (p : LoopParameters)
    (arrayData : Option (List Value)) (taskIns : TaskInstance) (dagIns : DagInstance)
    (w : World) : HandleResult :=
  if p.Mode = "array" ∧ p.CurrentIteration < ((arrayData.getD []).length : Int) ∧
      p.CurrentIteration < 0 then
    { out := .panic "index out of range", taskIns := taskIns, dagIns := dagIns, world := w }
  else
    let values := loopInternalValues p (arrayData.getD [])
    let dagIns1 : DagInstance :=
      { dagIns with ShareData := publishLoopValues p (arrayData.getD []) taskIns dagIns.ShareData }
    let p1 : LoopParameters := { p with Array := arrayData }
    let w1 := w.log (.Run taskIns)
    let loopExecutor : LoopExecutor :=
      { dagIns := dagIns1, loopParams := p1, taskTree := none, getTimeout := env.defaultTimeout }
    let g := GenerateIterationTasks c env loopExecutor w1
    match g.1 with
    | .panic msg => { out := .panic msg, taskIns := taskIns, dagIns := g.2.1.dagIns, world := g.2.2 }
    | .ret { tasks := _, err := some _ } =>
      { out := .ret (some "generate iteration tasks failed"), taskIns := taskIns,
        dagIns := g.2.1.dagIns, world := g.2.2 }
    | .ret { tasks := _, err := none } =>
      let taskIns1 : TaskInstance :=
        { taskIns with
          Params := (taskIns.Params.set "current_iteration" (.int p.CurrentIteration)).set
            "last_iteration_task_id" (.str g.2.1.loopParams.LastIterationTaskID)
          Status := TaskInstanceStatusSuccess
          Reason := .str ("循环迭代 " ++ toString p.CurrentIteration ++ " 完成")
          Results := .map values }
      let u := UpdateTaskIns env g.2.2 taskIns1
      if u.1 then
        { out := .ret (some "update task instance failed"), taskIns := taskIns1,
          dagIns := g.2.1.dagIns, world := u.2 }
      else
        let t := UpdateTaskTree env g.2.1 u.2
        match t.1 with
        | some _ =>
          { out := .ret (some "update task tree failed"), taskIns := taskIns1,
            dagIns := g.2.1.dagIns, world := t.2.2 }
        | none =>
          let q := PushExecutableTasks env t.2.1 t.2.2
          match q.1 with
          | some _ =>
            { out := .ret (some "push executable tasks failed"), taskIns := taskIns1,
              dagIns := g.2.1.dagIns, world := q.2 }
          | none =>
            { out := .ret none, taskIns := taskIns1, dagIns := g.2.1.dagIns, world := q.2 }

/-- Lines 195-227 of `HandleLoopAction`: terminal success at the ceiling
`limit`, the value of `actualLimit`. -/
def HandleLoopAction.complete (env : Env) (limit : Int) (p : LoopParameters)
    (taskIns : TaskInstance) (dagIns : DagInstance) (w : World) : HandleResult :=
  let taskIns1 : TaskInstance :=
    { taskIns with
      Status := SuccessStatus
      Reason := .str ("循环完成，共执行 " ++ toString limit ++ " 次迭代") }
  let u := UpdateTaskIns env w taskIns1
  if u.1 then
    { out := .ret (some "update task instance failed"), taskIns := taskIns1, dagIns := dagIns,
      world := u.2 }
  else
    let w1 := u.2.walkNode taskIns.DagInsID taskIns.ID TaskInstanceStatusSuccess
    let r := collectLoopOutputs env taskIns1 p dagIns.ShareData w1
    match r.1 with
    | .panic msg =>
      { out := .panic msg, taskIns := taskIns1, dagIns := { dagIns with ShareData := r.2.1 },
        world := r.2.2 }
    | .ret _ =>
      { out := .ret none, taskIns := taskIns1, dagIns := { dagIns with ShareData := r.2.1 },
        world := r.2.2 }

/-- Lines 147-162 of `HandleLoopAction`: the body steps are taken from the
task, and a missing `LoopControlID` or `LoopTaskID` is set from the task and
recorded in its parameters. -/
def withLoopIdentifiers (p : LoopParameters) (taskIns : TaskInstance) :
    LoopParameters × TaskInstance :=
  let p1 : LoopParameters := { p with Steps := taskIns.Steps }
  let taskIns1 : TaskInstance :=
    if p1.LoopControlID = "" then
      { taskIns with Params := taskIns.Params.set "loop_control_id" (.str taskIns.ID) }
    else taskIns
  let p2 : LoopParameters :=
    if p1.LoopControlID = "" then { p1 with LoopControlID := taskIns.ID } else p1
  let taskIns2 : TaskInstance :=
    if p2.LoopTaskID = "" then
      { taskIns1 with Params := taskIns1.Params.set "loop_task_id" (.str taskIns.TaskID) }
    else taskIns1
  let p3 : LoopParameters :=
    if p2.LoopTaskID = "" then { p2 with LoopTaskID := taskIns.TaskID } else p2
  (p3, taskIns2)

/-- Lines 164-185 of `HandleLoopAction`: a failed or canceled loop task is set
back to `init` with no reason. -/
def resetTask (taskIns : TaskInstance) : TaskInstance :=
  if taskIns.Status = TaskInstanceStatusFailed ∨ taskIns.Status = TaskInstanceStatusCanceled then
    { taskIns with Status := TaskInstanceStatusInit, Reason := .null }
  else taskIns

/-- Lines 147-227 of `HandleLoopAction`: the loop identifiers, the reset of a
failed or canceled loop task, the ceiling check. -/
def HandleLoopAction.proceed (c : Common) (env : Env) (p : LoopParameters)
    (taskIns : TaskInstance) (dagIns : DagInstance) (w : World) : HandleResult :=
  let pi := withLoopIdentifiers (normalizeParams p) taskIns
  let taskIns3 := resetTask pi.2
  let u : Bool × World :=
    if pi.2.Status = TaskInstanceStatusFailed ∨ pi.2.Status = TaskInstanceStatusCanceled then
      UpdateTaskIns env (w.walkNode taskIns.DagInsID taskIns.ID TaskInstanceStatusInit) taskIns3
    else (false, w)
  if u.1 then
    { out := .ret (some "update task instance failed"), taskIns := taskIns3, dagIns := dagIns,
      world := u.2 }
  else if actualLimit p > 0 ∧ pi.1.CurrentIteration ≥ actualLimit p then
    HandleLoopAction.complete env (actualLimit p) pi.1 taskIns3 dagIns u.2
  else
    HandleLoopAction.advance c env pi.1 (arrayDataOf p) taskIns3 dagIns u.2

/-- Method `LoopHandler.HandleLoopAction` on the loop-control task `taskIns`
of the DAG instance `dagIns`. -/
def HandleLoopAction (c : Common) (env : Env) (h : LoopHandler) (taskIns : TaskInstance)
    (dagIns : DagInstance) (w : World) : HandleResult :=
  let p := normalizeParams h.loopParams
  let t := ensureTaskTree env taskIns dagIns w
  match t.1 with
  | some err => { out := .ret (some err), taskIns := taskIns, dagIns := dagIns, world := t.2 }
  | none =>
    let w1 := t.2.walkNode taskIns.DagInsID taskIns.ID taskIns.Status
    if actualLimit h.loopParams ≤ 0 then
      let taskIns1 : TaskInstance :=
        { taskIns with Status := SuccessStatus, Reason := .str "循环完成，没有迭代项" }
      let u := UpdateTaskIns env w1 taskIns1
      if u.1 then
        { out := .ret (some "update task instance failed"), taskIns := taskIns1,
          dagIns := dagIns, world := u.2 }
      else
        { out := .ret none, taskIns := taskIns1, dagIns := dagIns,
          world := (u.2.walkNode taskIns.DagInsID taskIns.ID
            TaskInstanceStatusSuccess).log (.EntryTaskIns taskIns1) }
    else if p.CurrentIteration > 0 ∧ taskIns.DependOn.length > 0 then
      let l := ListTaskInstance env w1 taskIns.DagInsID
      match l.1 with
      | none =>
        { out := .ret (some "failed to list tasks"), taskIns := taskIns, dagIns := dagIns,
          world := l.2 }
      | some tasks =>
        match checkDependOn tasks taskIns.DependOn with
        | .failed dependTaskID =>
          { out := .ret (some ("依赖任务 [" ++ dependTaskID ++ "] 失败")), taskIns := taskIns,
            dagIns := dagIns, world := l.2 }
        | .notReady => { out := .ret none, taskIns := taskIns, dagIns := dagIns, world := l.2 }
        | .satisfied => HandleLoopAction.proceed c env h.loopParams taskIns dagIns l.2
    else HandleLoopAction.proceed c env h.loopParams taskIns dagIns w1

/-! ## Event reconstruction -/

/-- Modelled from the spec: the three kinds of a `DagInstanceEvent`,
`TaskStatus`, `Variable` and `Trace`. -/
inductive DagInstanceEventType where
  | TaskStatus
  | Variable
  | Trace
  deriving DecidableEq

/-- Modelled from the spec: the type `entity.DagInstanceEvent` with the fields
of the event log schema, `{type, task_id, operator, status, name, data,
timestamp}`; `data` is "an arbitrary key-value payload".  The field `Type_` is
the field `Type` of the source. -/
structure DagInstanceEvent where
  Type_ : DagInstanceEventType
  TaskID : String := ""
  Operator : String := ""
  Status : String := ""
  Name : String := ""
  Data : Dict := []
  Timestamp : Int := 0

/-- Modelled from the spec: the type `entity.Dag`, the DAG definition with its
Step list. -/
structure Dag where
  Steps : List Step := []

/-- Modelled from the spec: the lookup of a task in "the DAG definition's Step
list". -/
def Dag.findStep (dag : Dag) (id : String) : Option Step :=
  dag.Steps.find? (fun s => s.ID = id)

/-- Modelled from the spec: the task that an event belongs to.  A `Variable`
event carries no task ID, its "name encodes the owning TaskID (synthetic key
convention `__<TaskID>`)"; a name without that prefix names no task.  A
`TaskStatus` or `Trace` event names its task in the field `TaskID`. -/
def DagInstanceEvent.owner (ev : DagInstanceEvent) : Option String :=
  match ev.Type_ with
  | .Variable =>
    if strings.HasPrefix ev.Name "__" then some (String.mk (ev.Name.data.drop 2)) else none
  | _ => some ev.TaskID

/-- Modelled from the spec: one field of a trace payload merged over the value
held so far; `none` when the payload holds something other than a number under
the name, an "unparseable payload". -/
def traceField (data : Dict) (k : String) (old : Int) : Option Int :=
  match data.get k with
  | none => some old
  | some (.int n) => some n
  | some _ => none

/-- Modelled from the spec: a `Trace` event "merges duration/attempt/retry
fields into the TaskInstance's metadata"; the payload names them `duration`,
`attempts` and `max_retry`.  The result is `none` for an unparseable payload. -/
def mergeMetaData (old : Option TaskMetaData) (data : Dict) : Option TaskMetaData :=
  match traceField data "attempts" (old.getD {}).Attempts,
      traceField data "duration" (old.getD {}).Duration,
      traceField data "max_retry" (old.getD {}).MaxRetry with
  | some a, some d, some m => some { Attempts := a, Duration := d, MaxRetry := m }
  | _, _, _ => none

/-- Modelled from the spec: the `Results` of a task "set/merged from the event
payload" of a `Variable` event: the payload is merged key by key into results
that are a key-value map already, and becomes the results otherwise. -/
def mergeResults (old : Value) (data : Dict) : Value :=
  match old with
  | .map m => .map (data.foldl (fun acc kv => Dict.set acc kv.1 kv.2) m)
  | _ => .map data

/-- Modelled from the spec: a new task instance of the reconstruction,
"looking up title/operator from the DAG definition's Step list when
available"; without a step the operator is the one given. -/
def newEventInstance (dagIns : DagInstance) (dag : Dag) (id operator : String) : TaskInstance :=
  match dag.findStep id with
  | some step =>
    { TaskID := id, DagInsID := dagIns.ID, Name := step.Title, ActionName := step.Operator }
  | none => { TaskID := id, DagInsID := dagIns.ID, ActionName := operator }

/-- Replacement of the reconstructed instance of task `id` by its image under `f`. -/
def updateInstance (id : String) (f : TaskInstance → TaskInstance) (tasks : List TaskInstance) :
    List TaskInstance :=
  tasks.map (fun t => if t.TaskID = id then f t else t)

/-- Modelled from the spec: the step of the event reconstructor on one event
(section 4.1).  `tasks` holds the instances reconstructed so far in the order of
the order sequence.
* `TaskStatus`: "if the TaskID is unseen, create a new TaskInstance with the
  event's status, and append its TaskID to the order sequence; if seen, update
  the status and operator on the existing instance in place".
* `Variable`: the results of the owning task are set/merged from the payload;
  the event may come before the first status event of its task, and then a
  placeholder instance is created, "to be completed by a later status event".
* `Trace`: the metadata is merged "by the same late-or-early tolerance rule".
* "Malformed events (unparseable payload, unknown TaskID not resolvable from
  DAG definition) are skipped": a `Variable` event whose name names no task,
  a `Variable` or `Trace` event whose task is neither reconstructed yet nor a
  step of the DAG definition, and a `Trace` event with an unparseable payload
  leave `tasks` as it is. -/
def applyEvent (dagIns : DagInstance) (dag : Dag) (tasks : List TaskInstance)
    (ev : DagInstanceEvent) : List TaskInstance :=
  match ev.Type_ with
  | .TaskStatus =>
    if tasks.any (fun t => t.TaskID = ev.TaskID) then
      updateInstance ev.TaskID
        (fun t => { t with Status := ev.Status, ActionName := ev.Operator }) tasks
    else
      tasks ++ [{ newEventInstance dagIns dag ev.TaskID ev.Operator with Status := ev.Status }]
  | .Variable =>
    match ev.owner with
    | none => tasks
    | some id =>
      if tasks.any (fun t => t.TaskID = id) then
        updateInstance id (fun t => { t with Results := mergeResults t.Results ev.Data }) tasks
      else if (dag.findStep id).isSome then
        tasks ++ [{ newEventInstance dagIns dag id "" with Results := .map ev.Data }]
      else tasks
  | .Trace =>
    match mergeMetaData none ev.Data with
    | none => tasks
    | some fresh =>
      if tasks.any (fun t => t.TaskID = ev.TaskID) then
        updateInstance ev.TaskID
          (fun t => { t with MetaData := mergeMetaData t.MetaData ev.Data }) tasks
      else if (dag.findStep ev.TaskID).isSome then
        tasks ++ [{ newEventInstance dagIns dag ev.TaskID "" with MetaData := some fresh }]
      else tasks

/-- A step ID that holds no underscore. -/
def noUnderscore (s : String) : Bool :=
  !s.data.contains '_'

mutual
/-- The steps of a list, and the steps of their branches at every depth, have
IDs without underscore, and the steps of each branch have pairwise distinct
IDs. -/
def wellNamedSteps : List Step → Bool
  | [] => true
  | s :: rest => wellNamedStep s && wellNamedSteps rest
/-- The condition of `wellNamedSteps` on one step. -/
def wellNamedStep : Step → Bool
  | .mk id _ _ _ branches => noUnderscore id && wellNamedBranches branches
/-- The condition of `wellNamedSteps` on the branches of a step. -/
def wellNamedBranches : List Branch → Bool
  | [] => true
  | .mk _ steps :: rest =>
    decide ((steps.map Step.ID).Nodup) && wellNamedSteps steps && wellNamedBranches rest
end

/-- A loop body in which the steps of each step list, the body and every branch
at every depth, have pairwise distinct IDs that hold no underscore. -/
def wellNamedBody (steps : List Step) : Bool :=
  decide ((steps.map Step.ID).Nodup) && wellNamedSteps steps

/-- The task ID `x` is `p` or `p` followed by a part that starts with an
underscore, as the IDs of the tasks below the task `p` are. -/
def Extends (p x : String) : Prop :=
  ∃ r : List Char, x.data = p.data ++ r ∧ (r = [] ∨ r.head? = some '_')

/-- The TaskIDs of `ts` are those of `acc` followed by pairwise distinct new
ones, each of which satisfies `P`. -/
def AddsDistinct (acc ts : List TaskInstance) (P : String → Prop) : Prop :=
  ∃ new : List String,
    ts.map TaskInstance.TaskID = acc.map TaskInstance.TaskID ++ new ∧
      new.Nodup ∧ ∀ x ∈ new, P x

/-! ## Count of the tasks of a step tree -/

mutual
/-- The count of tasks that the specification assigns to a step: 1 for an
ordinary step, for a parallel step the sum of the counts of all steps of all
its branches, for a conditional step 1 plus that sum.  The definition follows
the wording of the specification, not the code; an operator that is both the
parallel and the conditional one counts as the parallel one. -/
def taskCount (c : Common) : Step → Nat
  | .mk _ _ op _ branches =>
    if op = c.ControlFlowParallel then taskCount.branches c branches
    else if op = c.BranchOpt then 1 + taskCount.branches c branches
    else 1
/-- The sum of `taskCount` over all steps of the branches. -/
def taskCount.branches (c : Common) : List Branch → Nat
  | [] => 0
  | .mk _ steps :: rest => taskCount.steps c steps + taskCount.branches c rest
/-- The sum of `taskCount` over the steps of a list. -/
def taskCount.steps (c : Common) : List Step → Nat
  | [] => 0
  | s :: rest => taskCount c s + taskCount.steps c rest
end

/-! ## Sample data -/

/-- Operator names for the examples. -/
def sampleCommon : Common :=
  { ControlFlowParallel := "@control/flow/parallel"
    BranchOpt := "@control/flow/branches"
    Loop := "@control/flow/loop"
    ActiveActionSkip := "skip" }

/-- Collaborators that never fail: identities `t<n>`, a tree with one node per
task and no executable task. -/
def sampleEnv : Env :=
  { fails := fun _ => false
    newID := fun n => "t" ++ toString n
    BuildRootNode := fun tasks =>
      some (tasks.map (fun t => { TaskInsID := t.ID, Status := t.Status }))
    GetExecutableTaskIds := fun _ => []
    formatValue := fun _ => ""
    defaultTimeout := fun _ => 30 }

/-- An ordinary step. -/
def sampleStep (id : String) : Step :=
  .mk id ("step " ++ id) "@internal/tool/py3" [] []

/-- A parallel step `P` with the two single-step branches `[x]` and `[y]`. -/
def sampleParallel : Step :=
  .mk "P" "fan out" "@control/flow/parallel" []
    [.mk [] [sampleStep "x"], .mk [] [sampleStep "y"]]

/-- A conditional step `C` whose only branch holds the parallel step `P`. -/
def sampleCond : Step :=
  .mk "C" "choose" "@control/flow/branches" [] [.mk [.str "cond"] [sampleParallel]]

/-- The loop-control task of iteration 0 of loop `1` in DAG run `d`. -/
def sampleLoopTask : TaskInstance :=
  { ID := "t0", TaskID := "1", DagInsID := "d", ActionName := "@control/flow/loop",
    Status := TaskInstanceStatusInit, Params := [("mode", .str "limit"), ("limit", .int 3)],
    Steps := [sampleStep "A"] }

/-- Loop parameters of iteration 0 with limit 3 and the body `[A]`. -/
def sampleParams : LoopParameters :=
  { Mode := "limit", Limit := 3, CurrentIteration := 0, LoopControlID := "t0",
    LoopTaskID := "1", Steps := [sampleStep "A"] }

/-- An executor on the sample parameters. -/
def sampleExecutor : LoopExecutor :=
  { dagIns := { ID := "d" }, loopParams := sampleParams, getTimeout := fun _ => 30 }

/-- The body task of step `A` in iteration 0, as stored. -/
def sampleBodyTask : TaskInstance :=
  { ID := "t1", TaskID := "1_i0_sA", DagInsID := "d", DependOn := ["1"],
    ActionName := "@internal/tool/py3", Status := TaskInstanceStatusSuccess }

/-- A store that holds the loop-control task and the body task of iteration 0. -/
def sampleWorld : World :=
  { tasks := [sampleLoopTask, sampleBodyTask] }

/-- The body task of step `A` in iteration 0, failed. -/
def sampleFailedTask : TaskInstance :=
  { sampleBodyTask with Status := TaskInstanceStatusFailed, Reason := .str "exit status 1" }

/-- The loop-control task of iteration 1, waiting for the body of iteration 0. -/
def sampleNextLoopTask : TaskInstance :=
  { ID := "t2", TaskID := "1_i1", DagInsID := "d", DependOn := ["1_i0_sA"],
    ActionName := "@control/flow/loop", Status := TaskInstanceStatusInit,
    Params := [("mode", .str "limit"), ("limit", .int 3), ("current_iteration", .int 1),
      ("loop_control_id", .str "t0"), ("loop_task_id", .str "1")],
    Steps := [sampleStep "A"] }

/-- A store in which the body task of iteration 0 has failed. -/
def sampleFailedWorld : World :=
  { tasks := [sampleLoopTask, sampleFailedTask, sampleNextLoopTask] }

/-- An executor for iteration 1 of the sample loop. -/
def sampleExecutorIter1 : LoopExecutor :=
  { dagIns := { ID := "d" }, loopParams := { sampleParams with CurrentIteration := 1 },
    getTimeout := fun _ => 30 }

/-- A task of the DAG run outside the loop. -/
def sampleOutsideTask : TaskInstance :=
  { ID := "t3", TaskID := "2", DagInsID := "d", ActionName := "@internal/tool/py3",
    Status := TaskInstanceStatusInit }

/-- Collaborators whose task tree reports the outside task as executable. -/
def sampleFrontierEnv : Env :=
  { sampleEnv with GetExecutableTaskIds := fun _ => ["t3"] }

/-- A store at the push phase of iteration 0: the body task has failed, the
outside task is pending. -/
def samplePushWorld : World :=
  { tasks := [sampleLoopTask, sampleFailedTask, sampleOutsideTask] }

/-- An executor of iteration 0 that holds a task tree. -/
def samplePushExecutor : LoopExecutor :=
  { sampleExecutor with taskTree := some { DagInsID := "d", Root := [] } }

/-- The loop-control task of iteration 1 as `GenerateIterationTasks` left it
at iteration 0, with the last task ID of that iteration. -/
def sampleLoopTaskIter1 : TaskInstance :=
  { sampleNextLoopTask with
    Params := [("mode", .str "limit"), ("limit", .int 3), ("current_iteration", .int 1),
      ("last_iteration_task_id", .str "1_i0_sA")] }

/-- The handler of the sample loop-control task. -/
def sampleHandler : LoopHandler :=
  { loopParams := { Mode := "limit", Limit := 3, CurrentIteration := 0 } }

/-- The DAG instance of the sample run, with empty ShareData. -/
def sampleDag : DagInstance :=
  { ID := "d" }

/-- A handler of a loop with limit 0. -/
def sampleZeroHandler : LoopHandler :=
  { loopParams := { Mode := "limit", Limit := 0 } }

/-- A store with the loop-control task only, and no cached task tree. -/
def sampleFreshWorld : World :=
  { tasks := [sampleLoopTask] }

/-- The same store with the task tree of the run in the parser's registry. -/
def sampleCachedWorld : World :=
  { tasks := [sampleLoopTask],
    taskTrees := [("d", { DagInsID := "d", Root := [{ TaskInsID := "t0", Status := "init" }] })] }

/-- Collaborators whose first store call fails. -/
def sampleListFailsEnv : Env :=
  { sampleEnv with fails := fun n => n = 0 }

/-- Collaborators whose tree builder fails. -/
def sampleBuildFailsEnv : Env :=
  { sampleEnv with BuildRootNode := fun _ => none }

/-- A handler of iteration 1 of the sample loop. -/
def sampleHandlerIter1 : LoopHandler :=
  { loopParams := { Mode := "limit", Limit := 3, CurrentIteration := 1 } }

/-- A store in which the body task of iteration 0 is still running, with the
task tree cached. -/
def sampleRunningWorld : World :=
  { tasks := [sampleLoopTask, { sampleBodyTask with Status := TaskInstanceStatusRunning },
      sampleNextLoopTask],
    taskTrees := [("d", { DagInsID := "d", Root := [] })] }

/-- A handler of the array loop over `[x, y, z]` at the given iteration. -/
def sampleArrayHandler (iteration : Int) : LoopHandler :=
  { loopParams :=
      { Mode := "array", Array := some [.str "x", .str "y", .str "z"],
        CurrentIteration := iteration } }

/-- The loop-control task `1_i1` of iteration 1 after it has run. -/
def sampleRedeliveredTask : TaskInstance :=
  { sampleLoopTaskIter1 with Status := TaskInstanceStatusSuccess }

/-- A store in which iteration 2 of the sample loop is under way: iterations 0
and 1 have run to success and the body task of iteration 2 is running. -/
def sampleRedeliveredWorld : World :=
  { tasks := [{ sampleLoopTask with Status := TaskInstanceStatusSuccess }, sampleBodyTask,
      sampleRedeliveredTask,
      { ID := "t3", TaskID := "1_i1_sA", DagInsID := "d", DependOn := ["1_i1"],
        ActionName := "@internal/tool/py3", Status := TaskInstanceStatusSuccess },
      { ID := "t4", TaskID := "1_i2", DagInsID := "d", DependOn := ["1_i1_sA"],
        ActionName := "@control/flow/loop", Status := TaskInstanceStatusSuccess,
        Steps := [sampleStep "A"] },
      { ID := "t5", TaskID := "1_i2_sA", DagInsID := "d", DependOn := ["1_i2"],
        ActionName := "@internal/tool/py3", Status := TaskInstanceStatusRunning }] }

/-- The DAG instance of that run: iterations 1 and 2 have published their
values, so the key `__1_i1` of iteration 1 exists and the loop-namespaced key
`__1` holds the index of iteration 2. -/
def sampleRedeliveredDag : DagInstance :=
  { ID := "d",
    ShareData := [("__1", .map [("index", .int 2)]), ("__1_i1", .map [("index", .int 1)]),
      ("__1_i2", .map [("index", .int 2)]), ("__loop_1_index", .int 2)] }

/-- A store that lists the body task of iteration 0 twice, the second time
under the identity `t7`. -/
def sampleDupWorld : World :=
  { tasks := [sampleLoopTask, sampleBodyTask, { sampleBodyTask with ID := "t7" }] }

/-- The loop-control task `1_i1` at the ceiling of a loop with limit 1; its
parameters record the value `v` for the output key `k`. -/
def sampleOutputTask : TaskInstance :=
  { ID := "t2", TaskID := "1_i1", DagInsID := "d", DependOn := ["1_i0_sA"],
    ActionName := "@control/flow/loop", Status := TaskInstanceStatusSuccess,
    Params := [("current_iteration", .int 1),
      ("outputs", .primA [.map [("key", .str "k"), ("value", .str "v")]])] }

/-- Loop parameters at the ceiling of a loop with limit 1 and the output key `k`. -/
def sampleOutputParams : LoopParameters :=
  { Mode := "limit", Limit := 1, CurrentIteration := 1, LoopControlID := "t2",
    LoopTaskID := "1_i1", Outputs := [{ Key := "k", Value := "v" }] }

/-- A store after the single iteration of that loop. -/
def sampleOutputWorld : World :=
  { tasks := [{ sampleLoopTask with Status := TaskInstanceStatusSuccess }, sampleBodyTask,
      sampleOutputTask] }

/-- A conditional step `C` whose only branch is empty. -/
def sampleEmptyCond : Step :=
  .mk "C" "choose" "@control/flow/branches" [] [.mk [.str "cond"] []]

/-- A parallel step `P` with the branch `[x]` and an empty branch. -/
def sampleHalfParallel : Step :=
  .mk "P" "fan out" "@control/flow/parallel" [] [.mk [] [sampleStep "x"], .mk [] []]

/-- A conditional step `C` with the branch `[x]` and an empty branch. -/
def sampleHalfCond : Step :=
  .mk "C" "choose" "@control/flow/branches" []
    [.mk [.str "cond"] [sampleStep "x"], .mk [.str "else"] []]

/-- An executor of iteration 0 of the sample loop with the given body. -/
def sampleExecutorOf (steps : List Step) : LoopExecutor :=
  { dagIns := { ID := "d" }, loopParams := { sampleParams with Steps := steps },
    getTimeout := fun _ => 30 }

/-- Collaborators whose third store call fails: in iteration 0 that is the
lookup of the current loop-control task. -/
def sampleLookupFailsEnv : Env :=
  { sampleEnv with fails := fun n => n = 2 }

/-- The loop-control task of iteration 0 after a failure. -/
def sampleFailedLoopTask : TaskInstance :=
  { sampleLoopTask with Status := TaskInstanceStatusFailed, Reason := .str "exit status 1" }

/-- A loop-control task whose TaskID `loop_loop_index` makes the key `__<TaskID>`
the key `__loop_<origin>_index`. -/
def sampleClashTask : TaskInstance :=
  { sampleLoopTask with TaskID := "loop_loop_index" }

/-- A task of the DAG run outside the loop that waits for the task `loopID`. -/
def sampleWaitingTask (loopID : String) : TaskInstance :=
  { sampleOutsideTask with DependOn := [loopID] }

/-- A store with the loop-control task and a task that waits for the loop. -/
def sampleWaitingWorld : World :=
  { tasks := [sampleLoopTask, sampleWaitingTask "1"] }

/-- An executor of iteration 0 of the sample loop under the TaskID
`fetch_items`. -/
def sampleItemsExecutor : LoopExecutor :=
  { sampleExecutor with loopParams := { sampleParams with LoopTaskID := "fetch_items" } }

/-- A store with the loop-control task `fetch_items` and a task that waits for
it. -/
def sampleItemsWorld : World :=
  { tasks := [{ sampleLoopTask with TaskID := "fetch_items" }, sampleWaitingTask "fetch_items"] }

/-- The task of an ordinary body step with the ID `C_0_P` in iteration 0 of
the sample loop. -/
def sampleEarlierTask : TaskInstance :=
  NewTaskInstance "d"
    { ID := "1_i0_sC_0_P", ActionName := "@internal/tool/py3", DependOn := ["1"], Params := [],
      TimeoutSecs := 30, Name := "step C_0_P" }

/-! ## Theorems -/

/-- C1: `GenerateIterationTasks` is a no-op for an iteration that is already
materialized.  For every loop executor and every task list `existing` that the
store lists for the DAG run, if some task of it has a `TaskID` that starts
with `<base>_i<CurrentIteration>_`, the method returns the empty list and no
error, the store's task list is unchanged, and the listing is the only call
made, so `BatchCreateTaskIns` is never called. -/
theorem generate_noop_when_materialized (c : Common) (env : Env) (e : LoopExecutor)
    (w : World) (existing : List TaskInstance)
    (hlist : (ListTaskInstance env w e.dagIns.ID).1 = some existing)
    (hex : ∃ t ∈ existing,
      strings.HasPrefix t.TaskID (currentIterPrefix e.loopParams) = true) :
    (GenerateIterationTasks c env e w).1 = .ret { tasks := some [], err := none } ∧
    (GenerateIterationTasks c env e w).2.2.tasks = w.tasks ∧
    (GenerateIterationTasks c env e w).2.2.calls
      = w.calls ++ [Effect.ListTaskInstance e.dagIns.ID] := by
  have hany : existing.any
      (fun t => strings.HasPrefix t.TaskID (currentIterPrefix e.loopParams)) = true := by
    rw [List.any_eq_true]
    exact hex
  unfold ListTaskInstance at hlist
  by_cases hf : env.fails w.calls.length = true
  · simp [hf] at hlist
  · have hf2 : env.fails w.calls.length = false := by simpa using hf
    simp only [hf2, Bool.false_eq_true, if_false, Option.some.injEq] at hlist
    subst hlist
    simp [GenerateIterationTasks, ListTaskInstance, World.log, hf2, hany]

/-- Witness of C1: the store holds `1_i0_sA`, a task of iteration 0 of loop `1`. -/
theorem generate_noop_when_materialized_witness :
    (GenerateIterationTasks sampleCommon sampleEnv sampleExecutor sampleWorld).1
      = .ret { tasks := some [], err := none } ∧
    (GenerateIterationTasks sampleCommon sampleEnv sampleExecutor sampleWorld).2.2.tasks
      = sampleWorld.tasks ∧
    (GenerateIterationTasks sampleCommon sampleEnv sampleExecutor sampleWorld).2.2.calls
      = sampleWorld.calls ++ [Effect.ListTaskInstance sampleExecutor.dagIns.ID] :=
  generate_noop_when_materialized sampleCommon sampleEnv sampleExecutor sampleWorld
    [sampleLoopTask, sampleBodyTask] rfl
    ⟨sampleBodyTask, List.Mem.tail _ (List.Mem.head _), by decide⟩

/-- Assigning pre-checks changes neither task IDs nor dependencies. -/
theorem setPreChecksFirst_map_ids (stepTaskID : String) (prechecks : PreChecks)
    (ts : List TaskInstance) :
    (setPreChecksFirst stepTaskID prechecks ts).map (fun t => (t.TaskID, t.DependOn))
      = ts.map (fun t => (t.TaskID, t.DependOn)) := by
  induction ts with
  | nil => rfl
  | cons t rest ih =>
    unfold setPreChecksFirst
    split
    · simp
    · simp [ih]

/-- Assigning pre-checks changes neither task IDs nor dependencies. -/
theorem setPreChecks_map_ids (ts : List TaskInstance) (stepTaskID : String)
    (prechecks : PreChecks) :
    (setPreChecks ts stepTaskID prechecks).map (fun t => (t.TaskID, t.DependOn))
      = ts.map (fun t => (t.TaskID, t.DependOn)) := by
  unfold setPreChecks
  rw [List.map_reverse, setPreChecksFirst_map_ids, ← List.map_reverse, List.reverse_reverse]

/-- Assigning pre-checks keeps the task IDs. -/
theorem setPreChecks_map_TaskID (ts : List TaskInstance) (stepTaskID : String)
    (prechecks : PreChecks) :
    (setPreChecks ts stepTaskID prechecks).map TaskInstance.TaskID
      = ts.map TaskInstance.TaskID := by
  have h := congrArg (List.map Prod.fst) (setPreChecks_map_ids ts stepTaskID prechecks)
  simpa [List.map_map, Function.comp_def] using h

mutual
/-- Tasks collected before a step is expanded are kept. -/
theorem processStep_keeps (c : Common) (dagInsID : String)
    (getTimeout : String → Int) (ex : List String) (id : String) :
    ∀ (step : Step) (acc : List TaskInstance) (taskID : String) (dependOn : List String),
      id ∈ acc.map TaskInstance.TaskID →
      id ∈ (processStepRecursively c dagInsID getTimeout ex acc step taskID dependOn).1.map TaskInstance.TaskID
  | .mk _ title op params branches, acc, taskID, dependOn, h => by
    unfold processStepRecursively
    split
    · exact parallelBranches_keeps c dagInsID getTimeout ex id branches acc taskID dependOn 0 [] h
    · split
      · have h2 := condBranches_keeps c dagInsID getTimeout ex id branches
          (acc ++ [NewTaskInstance dagInsID
            { ID := taskID, ActionName := c.BranchOpt, DependOn := dependOn, Params := params,
              TimeoutSecs := getTimeout c.BranchOpt, Name := title }]) taskID 0 []
          (by simp only [List.map_append, List.mem_append]; exact Or.inl h)
        simp only []
        split
        · exact h2
        · exact h2
      · simp only [List.map_append, List.mem_append]
        exact Or.inl h
/-- Tasks collected before the branches of a parallel step are kept. -/
theorem parallelBranches_keeps (c : Common) (dagInsID : String)
    (getTimeout : String → Int) (ex : List String) (id : String) :
    ∀ (branches : List Branch) (acc : List TaskInstance) (taskID : String)
      (dependOn : List String) (i : Nat) (coll : List String),
      id ∈ acc.map TaskInstance.TaskID →
      id ∈ (processStepRecursively.parallelBranches c dagInsID getTimeout ex acc branches taskID dependOn i
        coll).1.map TaskInstance.TaskID
  | [], acc, taskID, dependOn, i, coll, h => by
    simpa [processStepRecursively.parallelBranches] using h
  | .mk _ steps :: rest, acc, taskID, dependOn, i, coll, h => by
    unfold processStepRecursively.parallelBranches
    exact parallelBranches_keeps c dagInsID getTimeout ex id rest _ taskID dependOn (i + 1) _
      (parallelSteps_keeps c dagInsID getTimeout ex id steps acc taskID i dependOn 0 dependOn h)
/-- Tasks collected before the steps of a parallel branch are kept. -/
theorem parallelSteps_keeps (c : Common) (dagInsID : String)
    (getTimeout : String → Int) (ex : List String) (id : String) :
    ∀ (steps : List Step) (acc : List TaskInstance) (taskID : String) (i : Nat)
      (entry : List String) (j : Nat) (cur : List String),
      id ∈ acc.map TaskInstance.TaskID →
      id ∈ (processStepRecursively.parallelSteps c dagInsID getTimeout ex acc steps taskID i entry j
        cur).1.map TaskInstance.TaskID
  | [], acc, taskID, i, entry, j, cur, h => by
    simpa [processStepRecursively.parallelSteps] using h
  | step :: rest, acc, taskID, i, entry, j, cur, h => by
    unfold processStepRecursively.parallelSteps
    simp only []
    split
    · exact parallelSteps_keeps c dagInsID getTimeout ex id rest acc taskID i entry (j + 1) _ h
    · exact parallelSteps_keeps c dagInsID getTimeout ex id rest _ taskID i entry (j + 1) _
        (processStep_keeps c dagInsID getTimeout ex id step acc _ _ h)
/-- Tasks collected before the branches of a conditional step are kept. -/
theorem condBranches_keeps (c : Common) (dagInsID : String)
    (getTimeout : String → Int) (ex : List String) (id : String) :
    ∀ (branches : List Branch) (acc : List TaskInstance) (taskID : String) (i : Nat)
      (coll : List String),
      id ∈ acc.map TaskInstance.TaskID →
      id ∈ (processStepRecursively.condBranches c dagInsID getTimeout ex acc branches taskID i
        coll).1.map TaskInstance.TaskID
  | [], acc, taskID, i, coll, h => by
    simpa [processStepRecursively.condBranches] using h
  | .mk conditions steps :: rest, acc, taskID, i, coll, h => by
    unfold processStepRecursively.condBranches
    exact condBranches_keeps c dagInsID getTimeout ex id rest _ taskID (i + 1) _
      (condSteps_keeps c dagInsID getTimeout ex id steps acc taskID i _ [taskID] h)
/-- Tasks collected before the steps of a conditional branch are kept. -/
theorem condSteps_keeps (c : Common) (dagInsID : String)
    (getTimeout : String → Int) (ex : List String) (id : String) :
    ∀ (steps : List Step) (acc : List TaskInstance) (taskID : String) (i : Nat)
      (prechecks : PreChecks) (path : List String),
      id ∈ acc.map TaskInstance.TaskID →
      id ∈ (processStepRecursively.condSteps c dagInsID getTimeout ex acc steps taskID i prechecks
        path).1.map TaskInstance.TaskID
  | [], acc, taskID, i, prechecks, path, h => by
    simpa [processStepRecursively.condSteps] using h
  | step :: rest, acc, taskID, i, prechecks, path, h => by
    unfold processStepRecursively.condSteps
    simp only []
    split
    · exact condSteps_keeps c dagInsID getTimeout ex id rest acc taskID i prechecks _ h
    · refine condSteps_keeps c dagInsID getTimeout ex id rest _ taskID i prechecks _ ?_
      have h1 := processStep_keeps c dagInsID getTimeout ex id step acc (nestedID taskID i step.ID) path h
      split
      · rw [setPreChecks_map_TaskID]; exact h1
      · exact h1
end

mutual
/-- With no pre-existing tasks, the terminal IDs that `getLoopLastTaskIDs`
derives from a last step are IDs of tasks that the expansion of that step
creates. -/
theorem ofLast_created (c : Common) (dagInsID : String)
    (getTimeout : String → Int) (id : String) :
    ∀ (step : Step) (acc : List TaskInstance) (parent : String) (idx : Nat)
      (dependOn : List String),
      id ∈ getLoopLastTaskIDs.ofLast c step parent idx →
      id ∈ (processStepRecursively c dagInsID getTimeout [] acc step (nestedID parent idx step.ID)
        dependOn).1.map TaskInstance.TaskID
  | .mk sid title op params branches, acc, parent, idx, dependOn, h => by
    unfold getLoopLastTaskIDs.ofLast at h
    unfold processStepRecursively
    simp only [Step.ID]
    by_cases hp : op = c.ControlFlowParallel
    · simp only [hp, if_true] at h ⊢
      exact parallelBranches_created c dagInsID getTimeout id branches acc _ dependOn 0 [] h
    · simp only [hp, if_false] at h ⊢
      by_cases hb : op = c.BranchOpt
      · simp only [hb, if_true, true_and] at h ⊢
        have hctl : nestedID parent idx sid ∈
            (acc ++ [NewTaskInstance dagInsID
              { ID := nestedID parent idx sid, ActionName := c.BranchOpt, DependOn := dependOn,
                Params := params, TimeoutSecs := getTimeout c.BranchOpt,
                Name := title }]).map TaskInstance.TaskID := by
          simp [NewTaskInstance]
        have hres : id ∈ (processStepRecursively.condBranches c dagInsID getTimeout []
            (acc ++ [NewTaskInstance dagInsID
              { ID := nestedID parent idx sid, ActionName := c.BranchOpt, DependOn := dependOn,
                Params := params, TimeoutSecs := getTimeout c.BranchOpt, Name := title }])
            branches (nestedID parent idx sid) 0 []).1.map TaskInstance.TaskID := by
          split at h
          · exact condBranches_created c dagInsID getTimeout id branches _ _ 0 [] h
          · rw [List.mem_singleton] at h
            rw [h]
            exact condBranches_keeps c dagInsID getTimeout [] _ branches _ _ 0 [] hctl
        split
        · exact hres
        · exact hres
      · simp only [hb, if_false, false_and] at h ⊢
        rw [List.mem_singleton] at h
        simp [h, NewTaskInstance]
/-- The terminal IDs of the branches of a parallel step are created. -/
theorem parallelBranches_created (c : Common) (dagInsID : String)
    (getTimeout : String → Int) (id : String) :
    ∀ (branches : List Branch) (acc : List TaskInstance) (taskID : String)
      (dependOn : List String) (i : Nat) (coll : List String),
      id ∈ getLoopLastTaskIDs.branches c branches taskID i →
      id ∈ (processStepRecursively.parallelBranches c dagInsID getTimeout [] acc branches taskID dependOn i
        coll).1.map TaskInstance.TaskID
  | [], acc, taskID, dependOn, i, coll, h => by
    simp [getLoopLastTaskIDs.branches] at h
  | .mk _ steps :: rest, acc, taskID, dependOn, i, coll, h => by
    unfold getLoopLastTaskIDs.branches at h
    unfold processStepRecursively.parallelBranches
    rcases List.mem_append.mp h with h1 | h2
    · exact parallelBranches_keeps c dagInsID getTimeout [] id rest _ taskID dependOn (i + 1) _
        (parallelSteps_created c dagInsID getTimeout id steps acc taskID i dependOn 0 dependOn h1)
    · exact parallelBranches_created c dagInsID getTimeout id rest _ taskID dependOn (i + 1) _ h2
/-- The terminal IDs of the steps of a parallel branch are created. -/
theorem parallelSteps_created (c : Common) (dagInsID : String)
    (getTimeout : String → Int) (id : String) :
    ∀ (steps : List Step) (acc : List TaskInstance) (taskID : String) (i : Nat)
      (entry : List String) (j : Nat) (cur : List String),
      id ∈ getLoopLastTaskIDs c steps taskID i →
      id ∈ (processStepRecursively.parallelSteps c dagInsID getTimeout [] acc steps taskID i entry j
        cur).1.map TaskInstance.TaskID
  | [], acc, taskID, i, entry, j, cur, h => by
    simp [getLoopLastTaskIDs] at h
  | [last], acc, taskID, i, entry, j, cur, h => by
    unfold getLoopLastTaskIDs at h
    unfold processStepRecursively.parallelSteps
    simp only [List.contains_nil, Bool.false_eq_true, if_false]
    unfold processStepRecursively.parallelSteps
    exact ofLast_created c dagInsID getTimeout id last acc taskID i _ h
  | step :: s :: rest, acc, taskID, i, entry, j, cur, h => by
    unfold getLoopLastTaskIDs at h
    unfold processStepRecursively.parallelSteps
    simp only [List.contains_nil, Bool.false_eq_true, if_false]
    exact parallelSteps_created c dagInsID getTimeout id (s :: rest) _ taskID i entry (j + 1) _ h
/-- The terminal IDs of the branches of a conditional step are created. -/
theorem condBranches_created (c : Common) (dagInsID : String)
    (getTimeout : String → Int) (id : String) :
    ∀ (branches : List Branch) (acc : List TaskInstance) (taskID : String) (i : Nat)
      (coll : List String),
      id ∈ getLoopLastTaskIDs.branches c branches taskID i →
      id ∈ (processStepRecursively.condBranches c dagInsID getTimeout [] acc branches taskID i
        coll).1.map TaskInstance.TaskID
  | [], acc, taskID, i, coll, h => by
    simp [getLoopLastTaskIDs.branches] at h
  | .mk conditions steps :: rest, acc, taskID, i, coll, h => by
    unfold getLoopLastTaskIDs.branches at h
    unfold processStepRecursively.condBranches
    rcases List.mem_append.mp h with h1 | h2
    · exact condBranches_keeps c dagInsID getTimeout [] id rest _ taskID (i + 1) _
        (condSteps_created c dagInsID getTimeout id steps acc taskID i _ [taskID] h1)
    · exact condBranches_created c dagInsID getTimeout id rest _ taskID (i + 1) _ h2
/-- The terminal IDs of the steps of a conditional branch are created. -/
theorem condSteps_created (c : Common) (dagInsID : String)
    (getTimeout : String → Int) (id : String) :
    ∀ (steps : List Step) (acc : List TaskInstance) (taskID : String) (i : Nat)
      (prechecks : PreChecks) (path : List String),
      id ∈ getLoopLastTaskIDs c steps taskID i →
      id ∈ (processStepRecursively.condSteps c dagInsID getTimeout [] acc steps taskID i prechecks
        path).1.map TaskInstance.TaskID
  | [], acc, taskID, i, prechecks, path, h => by
    simp [getLoopLastTaskIDs] at h
  | [last], acc, taskID, i, prechecks, path, h => by
    unfold getLoopLastTaskIDs at h
    unfold processStepRecursively.condSteps
    simp only [List.contains_nil, Bool.false_eq_true, if_false]
    unfold processStepRecursively.condSteps
    have h1 := ofLast_created c dagInsID getTimeout id last acc taskID i path h
    split
    · rw [setPreChecks_map_TaskID]; exact h1
    · exact h1
  | step :: s :: rest, acc, taskID, i, prechecks, path, h => by
    unfold getLoopLastTaskIDs at h
    unfold processStepRecursively.condSteps
    simp only [List.contains_nil, Bool.false_eq_true, if_false]
    exact condSteps_created c dagInsID getTimeout id (s :: rest) _ taskID i prechecks _ h
end

/-- The terminal IDs of one branch are among those of the whole branch loop. -/
theorem branches_mem_of_getElem (c : Common) (id parent : String) :
    ∀ (branches : List Branch) (k i : Nat) (branch : Branch),
      branches[i]? = some branch →
      id ∈ getLoopLastTaskIDs c branch.Steps parent (k + i) →
      id ∈ getLoopLastTaskIDs.branches c branches parent k
  | [], _, _, _, hb, _ => by simp at hb
  | .mk conds steps :: rest, k, 0, branch, hb, h => by
    simp only [List.getElem?_cons_zero, Option.some.injEq] at hb
    subst hb
    unfold getLoopLastTaskIDs.branches
    exact List.mem_append.mpr (Or.inl (by simpa [Branch.Steps] using h))
  | .mk conds steps :: rest, k, i + 1, branch, hb, h => by
    simp only [List.getElem?_cons_succ] at hb
    unfold getLoopLastTaskIDs.branches
    refine List.mem_append.mpr (Or.inr ?_)
    exact branches_mem_of_getElem c id parent rest (k + 1) i branch hb
      (by rw [Nat.add_assoc, Nat.add_comm 1 i]; exact h)

/-- C3: no dangling dependency references.  For every parallel or conditional
step `step` with task ID `taskID` (at any nesting depth, since both are
arbitrary), every branch index `i` and every ID that
`getLoopLastTaskIDs(step.Branches[i].Steps, taskID, i)` yields, the call
`processStepRecursively(step, taskID, ...)` with no pre-existing tasks creates
a task with that `TaskID`. -/
theorem no_dangling_terminal_ids (c : Common) (dagInsID : String)
    (getTimeout : String → Int) (step : Step)
    (taskID : String) (dependOn : List String) (i : Nat) (branch : Branch) (id : String)
    (hop : step.Operator = c.ControlFlowParallel ∨ step.Operator = c.BranchOpt)
    (hb : step.Branches[i]? = some branch)
    (hid : id ∈ getLoopLastTaskIDs c branch.Steps taskID i) :
    ∃ t ∈ (processStepRecursively c dagInsID getTimeout [] [] step taskID dependOn).1, t.TaskID = id := by
  obtain ⟨sid, title, op, params, branches⟩ := step
  simp only [Step.Operator, Step.Branches] at hop hb
  have hall : id ∈ getLoopLastTaskIDs.branches c branches taskID 0 :=
    branches_mem_of_getElem c id taskID branches 0 i branch hb (by simpa using hid)
  have hmem : id ∈ (processStepRecursively c dagInsID getTimeout [] [] (.mk sid title op params branches)
      taskID dependOn).1.map TaskInstance.TaskID := by
    unfold processStepRecursively
    by_cases hp : op = c.ControlFlowParallel
    · simp only [hp, if_true]
      exact parallelBranches_created c dagInsID getTimeout id branches [] taskID dependOn 0 [] hall
    · have hbr : op = c.BranchOpt := hop.resolve_left hp
      simp only [hp, if_false]
      simp only [hbr, if_true]
      have hres := condBranches_created c dagInsID getTimeout id branches
        ([] ++ [NewTaskInstance dagInsID
          { ID := taskID, ActionName := c.BranchOpt, DependOn := dependOn, Params := params,
            TimeoutSecs := getTimeout c.BranchOpt, Name := title }]) taskID 0 [] hall
      split
      · exact hres
      · exact hres
  obtain ⟨t, ht, hteq⟩ := List.mem_map.mp hmem
  exact ⟨t, ht, hteq⟩

/-- Witness of C3: the terminal ID of the first parallel branch below the
conditional step `C` is the ID of a created task. -/
theorem no_dangling_terminal_ids_witness :
    ∃ t ∈ (processStepRecursively sampleCommon "d" sampleEnv.defaultTimeout [] []
        sampleCond "1_i0_sC" ["1"]).1, t.TaskID = "1_i0_sC_0_P_0_x" :=
  no_dangling_terminal_ids sampleCommon "d" sampleEnv.defaultTimeout sampleCond "1_i0_sC"
    ["1"] 0 (.mk [.str "cond"] [sampleParallel]) "1_i0_sC_0_P_0_x" (Or.inr rfl) rfl
    (by decide)

/-- C9, the code at the failing input: iteration 1 is generated although the
task `1_i0_sA` of iteration 0 has status `failed`.  The gate looks for store
identities that start with `<LoopControlID>_iter_0_`, here `t0_iter_0_`; the
task of iteration 0 has the identity `t1` and is never examined. -/
theorem previous_iteration_gate_missed :
    (sampleFailedWorld.tasks.map (fun t => (t.TaskID, t.Status)))
      = [("1", "init"), ("1_i0_sA", "failed"), ("1_i1", "init")] ∧
    (GenerateIterationTasks sampleCommon sampleEnv sampleExecutorIter1
        sampleFailedWorld).2.2.tasks.map (fun t => t.TaskID)
      = ["1", "1_i0_sA", "1_i1", "1_i1_sA", "1_i2"] := by
  decide

/-- C6, the code at the failing input: the body task `1_i0_sA` of iteration 0
has failed and the loop-control task is not canceled, yet the push phase
leaves the loop-control task as it is and pushes the executable outside task.
The scan looks for store identities that start with
`<LoopControlID>_iter_0_`; the failed task has the identity `t1`. -/
theorem failed_iteration_not_retried :
    (PushExecutableTasks sampleFrontierEnv samplePushExecutor samplePushWorld).2.calls
      = [Effect.ListTaskInstance "d", Effect.Push sampleOutsideTask] ∧
    (PushExecutableTasks sampleFrontierEnv samplePushExecutor samplePushWorld).2.tasks
      = samplePushWorld.tasks :=
  ⟨rfl, rfl⟩

/-- A value read from a dictionary is the value of one of its entries. -/
theorem Dict.mem_of_get {m : Dict} {k : String} {v : Value} (h : m.get k = some v) :
    ∃ kv ∈ m, kv.2 = v := by
  unfold Dict.get at h
  cases hf : m.find? (fun kv => kv.1 == k) with
  | none => simp [hf] at h
  | some kv =>
    simp only [hf, Option.map_some', Option.some.injEq] at h
    exact ⟨kv, List.mem_of_find?_eq_some hf, h⟩

/-- Reading a key after writing it gives the written value. -/
theorem Dict.get_set_self (m : Dict) (k : String) (v : Value) :
    (m.set k v).get k = some v := by
  induction m with
  | nil => simp [Dict.set, Dict.get]
  | cons kv rest ih =>
    obtain ⟨k', v'⟩ := kv
    unfold Dict.set
    by_cases hk : k' = k
    · simp [hk, Dict.get]
    · have hb : (k' == k) = false := by simpa using hk
      simp only [hb, Bool.false_eq_true, if_false]
      unfold Dict.get at ih ⊢
      simp only [List.find?, hb]
      exact ih

/-- Writing a key leaves the other keys as they are. -/
theorem Dict.get_set_ne (m : Dict) (k k' : String) (v : Value) (h : k' ≠ k) :
    (m.set k v).get k' = m.get k' := by
  induction m with
  | nil =>
    have hb : (k == k') = false := by simpa using Ne.symm h
    simp [Dict.set, Dict.get, List.find?, hb]
  | cons kv rest ih =>
    obtain ⟨k0, v0⟩ := kv
    unfold Dict.set
    by_cases hk : k0 = k
    · have hb : (k == k') = false := by simpa using Ne.symm h
      have hb0 : (k0 == k') = false := by rw [hk]; exact hb
      simp [hk, Dict.get, List.find?, hb]
    · have hb : (k0 == k) = false := by simpa using hk
      simp only [hb, Bool.false_eq_true, if_false]
      unfold Dict.get at ih ⊢
      by_cases hk0 : k0 = k'
      · simp [List.find?, hk0]
      · have hb0 : (k0 == k') = false := by simpa using hk0
        simp only [List.find?, hb0]
        exact ih

/-- Writing a list of strings, or no list, keeps a dictionary's lists lists of strings. -/
theorem holdsTaskIDs_set (m : Dict) (k : String) (v : Value) (hm : holdsTaskIDs m)
    (hv : ∀ x ∈ dependentTasksList v, ∃ s, x = Value.str s) : holdsTaskIDs (m.set k v) := by
  induction m with
  | nil =>
    intro kv hkv
    simp only [Dict.set, List.mem_singleton] at hkv
    subst hkv
    exact hv
  | cons kv0 rest ih =>
    obtain ⟨k0, v0⟩ := kv0
    have hrest : holdsTaskIDs rest := fun kv hkv => hm kv (List.mem_cons_of_mem _ hkv)
    unfold Dict.set
    split
    · intro kv hkv
      rcases List.mem_cons.mp hkv with h1 | h1
      · subst h1; exact hv
      · exact hrest kv h1
    · intro kv hkv
      rcases List.mem_cons.mp hkv with h1 | h1
      · subst h1; exact hm _ (List.mem_cons_self _ _)
      · exact ih hrest kv h1

/-- A patch keeps the number of stored tasks. -/
theorem PatchTaskIns_length (env : Env) (w : World) (t : TaskInstance) :
    (PatchTaskIns env w t).2.tasks.length = w.tasks.length := by
  unfold PatchTaskIns
  split <;> simp [World.log, replaceTask]

/-- The retro-wiring of one dependent task keeps the number of stored tasks. -/
theorem retroWire_inner_length (env : Env) (l n : String) :
    ∀ (deps : List String) (task : TaskInstance) (w : World),
      (retroWire.inner env l n deps task w).tasks.length = w.tasks.length
  | [], _, _ => rfl
  | d :: rest, task, w => by
    unfold retroWire.inner
    split
    · simp only []
      split
      · rw [retroWire_inner_length env l n rest, PatchTaskIns_length]
      · exact PatchTaskIns_length env w _
    · exact retroWire_inner_length env l n rest task w

/-- A lookup keeps the stored tasks. -/
theorem GetTaskIns_tasks (env : Env) (w : World) (id : String) :
    (GetTaskIns env w id).2.tasks = w.tasks := by
  unfold GetTaskIns
  split <;> rfl

/-- On a list of strings the retro-wiring does not panic, and it keeps the
number of stored tasks. -/
theorem retroWire_strings (env : Env) (l n : String) :
    ∀ (vs : List Value) (w : World), (∀ x ∈ vs, ∃ s, x = Value.str s) →
      (retroWire env l n vs w).1 = none ∧
      (retroWire env l n vs w).2.tasks.length = w.tasks.length
  | [], w, _ => ⟨rfl, rfl⟩
  | v :: rest, w, h => by
    obtain ⟨s, hs⟩ := h v (List.mem_cons_self _ _)
    subst hs
    have hrest : ∀ x ∈ rest, ∃ s, x = Value.str s :=
      fun x hx => h x (List.mem_cons_of_mem _ hx)
    unfold retroWire
    simp only []
    split
    · have ih := retroWire_strings env l n rest (GetTaskIns env w s).2 hrest
      exact ⟨ih.1, by rw [ih.2, GetTaskIns_tasks]⟩
    · rename_i task _
      have ih := retroWire_strings env l n rest
        (retroWire.inner env l n task.DependOn task (GetTaskIns env w s).2) hrest
      exact ⟨ih.1, by rw [ih.2, retroWire_inner_length, GetTaskIns_tasks]⟩

/-- With a store that does not fail, the last part of `GenerateIterationTasks`
returns the collected instances with their new identities. -/
theorem finish_returns (env : Env) (e : LoopExecutor) (w : World)
    (taskInstances : List TaskInstance) (lastTaskIDs : List String)
    (hs : ∀ n, env.fails n = false) :
    (GenerateIterationTasks.finish env e w taskInstances lastTaskIDs).1
      = .ret { tasks := some (assignIDs env w.tasks.length taskInstances), err := none } := by
  unfold GenerateIterationTasks.finish
  cases taskInstances with
  | nil => simp [assignIDs]
  | cons t rest => simp [BatchCreateTaskIns, hs]

/-- The scan of iteration 0 keeps the loop parameters, the DAG run, the
string lists of ShareData and the stored tasks. -/
theorem scan_facts (env : Env) (e : LoopExecutor) (w : World)
    (hsd : holdsTaskIDs e.dagIns.ShareData) :
    (GenerateIterationTasks.scan env e w).1.loopParams = e.loopParams ∧
    (GenerateIterationTasks.scan env e w).1.dagIns.ID = e.dagIns.ID ∧
    holdsTaskIDs (GenerateIterationTasks.scan env e w).1.dagIns.ShareData ∧
    (GenerateIterationTasks.scan env e w).2.tasks = w.tasks := by
  unfold GenerateIterationTasks.scan
  split
  · simp only []
    have hl : (ListTaskInstance env w e.dagIns.ID).2.tasks = w.tasks := by
      unfold ListTaskInstance
      split <;> rfl
    split
    · exact ⟨rfl, rfl, hsd, hl⟩
    · split
      · refine ⟨rfl, rfl, ?_, hl⟩
        apply holdsTaskIDs_set _ _ _ hsd
        intro x hx
        simp only [dependentTasksList, List.mem_map] at hx
        obtain ⟨s, _, hs⟩ := hx
        exact ⟨s, hs.symm⟩
      · exact ⟨rfl, rfl, hsd, hl⟩
  · exact ⟨rfl, rfl, hsd, rfl⟩

/-- With a store that does not fail and string lists in ShareData, the part of
`GenerateIterationTasks` after the body loop returns the body tasks, followed
by the new loop-control task when the next iteration is within the limit and
its loop-control task does not exist yet. -/
theorem next_returns (c : Common) (env : Env) (e : LoopExecutor) (w : World)
    (existingTasks taskInstances : List TaskInstance) (lastTaskIDs : List String)
    (hs : ∀ n, env.fails n = false) (hsd : holdsTaskIDs e.dagIns.ShareData) :
    (GenerateIterationTasks.next c env e w existingTasks taskInstances lastTaskIDs).1
      = .ret { tasks := some (assignIDs env w.tasks.length
          (taskInstances ++
            if (e.loopParams.CurrentIteration + 1 ≤ e.loopParams.Limit ∨
                e.loopParams.CurrentIteration + 1
                  ≤ ((e.loopParams.Array.getD []).length : Int)) ∧
                existingTasks.any (fun t => t.TaskID = baseTaskID e.loopParams ++ "_i"
                  ++ toString (e.loopParams.CurrentIteration + 1)) = false then
              [newLoopTask c e.loopParams e.dagIns.ID
                (w.tasks.find? (fun t => t.ID = e.loopParams.LoopControlID)) lastTaskIDs]
            else [])), err := none } := by
  have hp : (GenerateIterationTasks.scan env e w).1.loopParams = e.loopParams :=
    (scan_facts env e w hsd).1
  have hid : (GenerateIterationTasks.scan env e w).1.dagIns.ID = e.dagIns.ID :=
    (scan_facts env e w hsd).2.1
  have hsd1 := (scan_facts env e w hsd).2.2.1
  have htasks := (scan_facts env e w hsd).2.2.2
  unfold GenerateIterationTasks.next
  simp only [hp, hid]
  by_cases hcond : e.loopParams.CurrentIteration + 1 ≤ e.loopParams.Limit ∨
      e.loopParams.CurrentIteration + 1 ≤ ((e.loopParams.Array.getD []).length : Int)
  · simp only [hcond, if_true, true_and]
    cases hany : existingTasks.any (fun t => decide (t.TaskID = baseTaskID e.loopParams ++ "_i"
        ++ toString (e.loopParams.CurrentIteration + 1)))
    · simp only [Bool.false_eq_true, if_false, if_true]
      have hget : (GetTaskIns env (GenerateIterationTasks.scan env e w).2
          e.loopParams.LoopControlID).1
            = w.tasks.find? (fun t => t.ID = e.loopParams.LoopControlID) := by
        simp [GetTaskIns, hs, htasks]
      have hlen : (GetTaskIns env (GenerateIterationTasks.scan env e w).2
          e.loopParams.LoopControlID).2.tasks.length = w.tasks.length := by
        rw [GetTaskIns_tasks, htasks]
      rw [hget]
      split
      · rw [finish_returns _ _ _ _ _ hs, hlen]
      · rename_i v hv
        obtain ⟨kv, hkv, hkv2⟩ := Dict.mem_of_get hv
        have hstr := hsd1 kv hkv
        rw [hkv2] at hstr
        have hrw := retroWire_strings env e.loopParams.LoopTaskID
          (newLoopTask c e.loopParams e.dagIns.ID
            (w.tasks.find? (fun t => t.ID = e.loopParams.LoopControlID)) lastTaskIDs).TaskID
          (dependentTasksList v) (GetTaskIns env (GenerateIterationTasks.scan env e w).2
            e.loopParams.LoopControlID).2 hstr
        simp only [hrw.1]
        rw [finish_returns _ _ _ _ _ hs, hrw.2, hlen]
    · simp only [if_true, Bool.true_eq_false, if_false, List.append_nil]
      rw [finish_returns _ _ _ _ _ hs, htasks]
  · simp only [hcond, if_false, false_and, List.append_nil]
    rw [finish_returns _ _ _ _ _ hs, htasks]

/-- The mode defaulting keeps the iteration counter. -/
theorem normalizeParams_CurrentIteration (p : LoopParameters) :
    (normalizeParams p).CurrentIteration = p.CurrentIteration := by
  unfold normalizeParams
  simp only []
  split <;> split <;> (try split) <;> rfl

/-- The walk over the task tree touches the registry only. -/
theorem walkNode_fields (w : World) (dagInsID taskInsID status : String) :
    (w.walkNode dagInsID taskInsID status).tasks = w.tasks ∧
    (w.walkNode dagInsID taskInsID status).calls = w.calls ∧
    (w.walkNode dagInsID taskInsID status).generations = w.generations := by
  unfold World.walkNode
  split <;> exact ⟨rfl, rfl, rfl⟩

/-- The task-tree setup keeps the stored tasks and enters no generation. -/
theorem ensureTaskTree_fields (env : Env) (taskIns : TaskInstance) (dagIns : DagInstance)
    (w : World) :
    (ensureTaskTree env taskIns dagIns w).2.tasks = w.tasks ∧
    (ensureTaskTree env taskIns dagIns w).2.generations = w.generations := by
  unfold ensureTaskTree ListTaskInstance
  split
  · exact ⟨rfl, rfl⟩
  · simp only []
    split <;> split <;> (try split) <;> exact ⟨rfl, rfl⟩

/-- The effective limit is `Limit` in limit mode, which is the default mode,
and the array length in array mode (0 for a nil array). -/
theorem actualLimit_eq (p : LoopParameters) :
    actualLimit p
      = if p.Mode = "array" then ((p.Array.getD []).length : Int) else p.Limit := by
  obtain ⟨mode, limit, arr, outputs, cur, lastID, controlID, steps, loopTaskID⟩ := p
  unfold actualLimit arrayDataOf normalizeParams
  by_cases hm : mode = "array"
  · subst hm
    cases arr <;> simp
  · by_cases he : mode = ""
    · subst he
      simp
    · simp [he, hm]

/-- C5 as stated fails: with limit 0 and a succeeding `UpdateTaskIns` the
handler still returns an error when the task tree of the run is not cached
and cannot be rebuilt, be it that the listing fails or that the tree builder
fails; the loop-control task keeps its status `init`. -/
theorem zero_limit_needs_task_tree :
    (HandleLoopAction sampleCommon sampleListFailsEnv sampleZeroHandler sampleLoopTask
        sampleDag sampleFreshWorld).out = .ret (some "get task instances failed") ∧
    (HandleLoopAction sampleCommon sampleListFailsEnv sampleZeroHandler sampleLoopTask
        sampleDag sampleFreshWorld).taskIns.Status = "init" ∧
    (HandleLoopAction sampleCommon sampleBuildFailsEnv sampleZeroHandler sampleLoopTask
        sampleDag sampleFreshWorld).out = .ret (some "build task tree failed") ∧
    (HandleLoopAction sampleCommon sampleBuildFailsEnv sampleZeroHandler sampleLoopTask
        sampleDag sampleFreshWorld).taskIns.Status = "init" :=
  ⟨rfl, rfl, rfl, rfl⟩

/-- C5, amended.  For every loop-control task whose effective limit (`Limit`
in limit mode, the array length in array mode, 0 for a nil array) is at most
0, whatever its iteration counter, status and dependencies: when the task tree
of the run is cached or rebuilt without error and `UpdateTaskIns` succeeds,
`HandleLoopAction` returns no error and leaves the task with status `success`
and the "no iterations" reason; `GenerateIterationTasks` is not entered, the
only calls after the tree setup are `UpdateTaskIns` and `EntryTaskIns`, and the
store holds the tasks it held, with the loop-control task updated. -/
theorem zero_limit_completes (c : Common) (env : Env) (h : LoopHandler)
    (taskIns : TaskInstance) (dagIns : DagInstance) (w : World)
    (hzero : actualLimit h.loopParams ≤ 0)
    (htree : (ensureTaskTree env taskIns dagIns w).1 = none)
    (hupd : env.fails (ensureTaskTree env taskIns dagIns w).2.calls.length = false) :
    actualLimit h.loopParams
      = (if h.loopParams.Mode = "array" then ((h.loopParams.Array.getD []).length : Int)
         else h.loopParams.Limit) ∧
    (HandleLoopAction c env h taskIns dagIns w).out = .ret none ∧
    (HandleLoopAction c env h taskIns dagIns w).taskIns
      = { taskIns with Status := SuccessStatus, Reason := .str "循环完成，没有迭代项" } ∧
    (HandleLoopAction c env h taskIns dagIns w).world.generations = w.generations ∧
    (HandleLoopAction c env h taskIns dagIns w).world.calls
      = (ensureTaskTree env taskIns dagIns w).2.calls
        ++ [Effect.UpdateTaskIns (HandleLoopAction c env h taskIns dagIns w).taskIns,
            Effect.EntryTaskIns (HandleLoopAction c env h taskIns dagIns w).taskIns] ∧
    (HandleLoopAction c env h taskIns dagIns w).world.tasks
      = replaceTask (HandleLoopAction c env h taskIns dagIns w).taskIns w.tasks := by
  have hw := walkNode_fields (ensureTaskTree env taskIns dagIns w).2 taskIns.DagInsID
    taskIns.ID taskIns.Status
  have he := ensureTaskTree_fields env taskIns dagIns w
  refine ⟨actualLimit_eq h.loopParams, ?_⟩
  unfold HandleLoopAction
  simp only [htree, hzero, if_true, UpdateTaskIns, hw.2.1, hupd, Bool.false_eq_true, if_false,
    World.log, walkNode_fields, hw.1, hw.2.2, he.1, he.2, List.append_assoc,
    List.singleton_append, and_self]

/-- Witness of the amended C5: limit 0 with the task tree cached. -/
theorem zero_limit_completes_witness :
    (HandleLoopAction sampleCommon sampleEnv sampleZeroHandler sampleLoopTask sampleDag
        sampleCachedWorld).out = .ret none ∧
    (HandleLoopAction sampleCommon sampleEnv sampleZeroHandler sampleLoopTask sampleDag
        sampleCachedWorld).taskIns.Status = "success" :=
  ⟨(zero_limit_completes sampleCommon sampleEnv sampleZeroHandler sampleLoopTask sampleDag
      sampleCachedWorld (by decide) rfl rfl).2.1,
    congrArg TaskInstance.Status
      (zero_limit_completes sampleCommon sampleEnv sampleZeroHandler sampleLoopTask sampleDag
        sampleCachedWorld (by decide) rfl rfl).2.2.1⟩

/-- The dependency loop stops with an error at the first dependency that is
failed when all dependencies before it are `success` or `skipped`. -/
theorem checkDependOn_failed (tasks : List TaskInstance) (d : String) (t : TaskInstance)
    (post : List String)
    (hd : tasks.find? (fun t => t.TaskID = d) = some t)
    (hfailed : t.Status = TaskInstanceStatusFailed) :
    ∀ (pre : List String),
      (∀ x ∈ pre, ∃ tx, tasks.find? (fun t => t.TaskID = x) = some tx ∧
        (tx.Status = TaskInstanceStatusSuccess ∨ tx.Status = TaskInstanceStatusSkipped)) →
      checkDependOn tasks (pre ++ d :: post) = .failed d
  | [], _ => by
    simp [checkDependOn, hd, hfailed]
  | x :: pre, hpre => by
    obtain ⟨tx, hx, hst⟩ := hpre x (List.mem_cons_self _ _)
    have ih := checkDependOn_failed tasks d t post hd hfailed pre
      (fun y hy => hpre y (List.mem_cons_of_mem _ hy))
    have hnf : tx.Status ≠ TaskInstanceStatusFailed := by
      rcases hst with h1 | h1 <;> rw [h1] <;> decide
    have hok : ¬ (tx.Status ≠ TaskInstanceStatusSuccess ∧
        tx.Status ≠ TaskInstanceStatusSkipped) := by
      rintro ⟨h1, h2⟩
      rcases hst with h3 | h3
      · exact h1 h3
      · exact h2 h3
    simp only [List.cons_append, checkDependOn, hx, hnf, if_false, hok]
    exact ih

/-- The dependency loop is satisfied when every dependency is `success` or
`skipped`. -/
theorem checkDependOn_satisfied (tasks : List TaskInstance) :
    ∀ (deps : List String),
      (∀ x ∈ deps, ∃ tx, tasks.find? (fun t => t.TaskID = x) = some tx ∧
        (tx.Status = TaskInstanceStatusSuccess ∨ tx.Status = TaskInstanceStatusSkipped)) →
      checkDependOn tasks deps = .satisfied
  | [], _ => rfl
  | x :: deps, h => by
    obtain ⟨tx, hx, hst⟩ := h x (List.mem_cons_self _ _)
    have ih := checkDependOn_satisfied tasks deps
      (fun y hy => h y (List.mem_cons_of_mem _ hy))
    have hnf : tx.Status ≠ TaskInstanceStatusFailed := by
      rcases hst with h1 | h1 <;> rw [h1] <;> decide
    have hok : ¬ (tx.Status ≠ TaskInstanceStatusSuccess ∧
        tx.Status ≠ TaskInstanceStatusSkipped) := by
      rintro ⟨h1, h2⟩
      rcases hst with h3 | h3
      · exact h1 h3
      · exact h2 h3
    simp only [checkDependOn, hx, hnf, if_false, hok]
    exact ih

/-- The dependency loop returns quietly when no dependency is failed and one
is missing or neither `success` nor `skipped`. -/
theorem checkDependOn_notReady (tasks : List TaskInstance) :
    ∀ (deps : List String),
      (∀ d ∈ deps, ∀ t, tasks.find? (fun t => t.TaskID = d) = some t →
        t.Status ≠ TaskInstanceStatusFailed) →
      (∃ d ∈ deps, ∀ t, tasks.find? (fun t => t.TaskID = d) = some t →
        t.Status ≠ TaskInstanceStatusSuccess ∧ t.Status ≠ TaskInstanceStatusSkipped) →
      checkDependOn tasks deps = .notReady
  | [], _, hp => by
    obtain ⟨d, hd, _⟩ := hp
    simp at hd
  | x :: deps, hnf, hp => by
    unfold checkDependOn
    cases hx : tasks.find? (fun t => decide (t.TaskID = x)) with
    | none => rfl
    | some tx =>
      have h1 : tx.Status ≠ TaskInstanceStatusFailed := hnf x (List.mem_cons_self _ _) tx hx
      simp only [h1, if_false]
      split
      · rfl
      · rename_i hok
        apply checkDependOn_notReady tasks deps
          (fun d hd => hnf d (List.mem_cons_of_mem _ hd))
        obtain ⟨d, hd, hpd⟩ := hp
        rcases List.mem_cons.mp hd with h2 | h2
        · subst h2
          exact absurd (hpd tx hx) hok
        · exact ⟨d, h2, hpd⟩

/-- C7 as stated fails: the loop-control task depends on `1_i0_sA`, which is
running, and on `1_i0_sB`, which has failed; the handler returns nil. -/
theorem failed_dependency_behind_pending :
    (HandleLoopAction sampleCommon sampleEnv
        { loopParams := { Mode := "limit", Limit := 3, CurrentIteration := 1 } }
        { sampleNextLoopTask with DependOn := ["1_i0_sA", "1_i0_sB"] } sampleDag
        { tasks := [sampleLoopTask,
            { sampleBodyTask with Status := TaskInstanceStatusRunning },
            { sampleBodyTask with
              ID := "t4", TaskID := "1_i0_sB", Status := TaskInstanceStatusFailed },
            { sampleNextLoopTask with DependOn := ["1_i0_sA", "1_i0_sB"] }],
          taskTrees := [("d", { DagInsID := "d", Root := [] })] }).out = .ret none :=
  rfl

/-- C7, amended.  For every loop-control task with `CurrentIteration > 0` and
effective limit `> 0`: if a TaskID `d` of `DependOn` names a task (the first
stored task with that TaskID) whose status is `failed`, and every TaskID before
`d` in `DependOn` names a task with status `success` or `skipped`, then
`HandleLoopAction` returns a non-nil error. -/
theorem dependency_failed_is_error (c : Common) (env : Env) (h : LoopHandler)
    (taskIns : TaskInstance) (dagIns : DagInstance) (w : World)
    (pre post : List String) (d : String) (t : TaskInstance)
    (hlim : 0 < actualLimit h.loopParams) (hiter : 0 < h.loopParams.CurrentIteration)
    (hdep : taskIns.DependOn = pre ++ d :: post)
    (hpre : ∀ x ∈ pre, ∃ tx,
      (w.tasks.filter (fun t => t.DagInsID = taskIns.DagInsID)).find?
        (fun t => t.TaskID = x) = some tx ∧
      (tx.Status = TaskInstanceStatusSuccess ∨ tx.Status = TaskInstanceStatusSkipped))
    (hd : (w.tasks.filter (fun t => t.DagInsID = taskIns.DagInsID)).find?
      (fun t => t.TaskID = d) = some t)
    (hfailed : t.Status = TaskInstanceStatusFailed) :
    ∃ msg, (HandleLoopAction c env h taskIns dagIns w).out = .ret (some msg) := by
  have hw := walkNode_fields (ensureTaskTree env taskIns dagIns w).2 taskIns.DagInsID
    taskIns.ID taskIns.Status
  have he := ensureTaskTree_fields env taskIns dagIns w
  have hchk := checkDependOn_failed _ d t post hd hfailed pre hpre
  have hlen : taskIns.DependOn.length > 0 := by rw [hdep]; simp
  unfold HandleLoopAction
  simp only []
  split
  · exact ⟨_, rfl⟩
  · rw [if_neg (by omega), if_pos ⟨by rw [normalizeParams_CurrentIteration]; exact hiter, hlen⟩]
    by_cases hf : env.fails ((ensureTaskTree env taskIns dagIns w).2.walkNode
        taskIns.DagInsID taskIns.ID taskIns.Status).calls.length = true
    · simp only [ListTaskInstance, hf, if_true]
      exact ⟨_, rfl⟩
    · have hf2 : env.fails ((ensureTaskTree env taskIns dagIns w).2.walkNode
          taskIns.DagInsID taskIns.ID taskIns.Status).calls.length = false := by
        simpa using hf
      simp only [ListTaskInstance, hf2, Bool.false_eq_true, if_false, hw.1, he.1, hdep, hchk]
      exact ⟨_, rfl⟩

/-- Witness of the amended C7: the only dependency `1_i0_sA` has failed. -/
theorem dependency_failed_is_error_witness :
    ∃ msg, (HandleLoopAction sampleCommon sampleEnv sampleHandlerIter1 sampleNextLoopTask
      sampleDag sampleFailedWorld).out = .ret (some msg) :=
  dependency_failed_is_error sampleCommon sampleEnv sampleHandlerIter1 sampleNextLoopTask
    sampleDag sampleFailedWorld [] [] "1_i0_sA" sampleFailedTask (by decide) (by decide) rfl
    (fun x hx => nomatch hx) rfl rfl

/-- The task-tree setup makes no call but the listing of the run's tasks. -/
theorem ensureTaskTree_calls (env : Env) (taskIns : TaskInstance) (dagIns : DagInstance)
    (w : World) :
    ∀ eff ∈ (ensureTaskTree env taskIns dagIns w).2.calls,
      eff ∈ w.calls ∨ eff = Effect.ListTaskInstance taskIns.DagInsID := by
  have hlog : ∀ eff ∈ (w.log (Effect.ListTaskInstance taskIns.DagInsID)).calls,
      eff ∈ w.calls ∨ eff = Effect.ListTaskInstance taskIns.DagInsID := by
    intro eff heff
    simp only [World.log, List.mem_append, List.mem_singleton] at heff
    exact heff
  unfold ensureTaskTree ListTaskInstance
  split
  · intro eff heff
    exact Or.inl heff
  · simp only []
    split <;> split <;> (try split) <;> exact hlog

/-- C8 as stated fails: the only dependency `1_i0_sA` is running and none has
failed, but the handler returns an error instead of nil when the listing of
the dependency check fails (task tree cached), and also when the task tree is
not cached and cannot be rebuilt. -/
theorem not_ready_needs_listing :
    (HandleLoopAction sampleCommon sampleListFailsEnv sampleHandlerIter1 sampleNextLoopTask
        sampleDag sampleRunningWorld).out = .ret (some "failed to list tasks") ∧
    (HandleLoopAction sampleCommon sampleBuildFailsEnv sampleHandlerIter1 sampleNextLoopTask
        sampleDag { sampleRunningWorld with taskTrees := [] }).out
      = .ret (some "build task tree failed") :=
  ⟨rfl, rfl⟩

/-- C8, amended.  For every loop-control task with `CurrentIteration > 0` and
effective limit `> 0` in which no dependency is failed but some dependency is
missing from the store or neither `success` nor `skipped`: when the task tree
is cached or rebuilt without error and the listing of the dependency check
succeeds, `HandleLoopAction` returns nil; and in every case it leaves the
store's tasks, the task instance and the DAG instance with its ShareData as
they were, enters no task generation and makes no call but listings. -/
theorem dependency_not_ready_noop (c : Common) (env : Env) (h : LoopHandler)
    (taskIns : TaskInstance) (dagIns : DagInstance) (w : World)
    (hlim : 0 < actualLimit h.loopParams) (hiter : 0 < h.loopParams.CurrentIteration)
    (hnofail : ∀ d ∈ taskIns.DependOn, ∀ t,
      (w.tasks.filter (fun t => t.DagInsID = taskIns.DagInsID)).find?
        (fun t => t.TaskID = d) = some t → t.Status ≠ TaskInstanceStatusFailed)
    (hpend : ∃ d ∈ taskIns.DependOn, ∀ t,
      (w.tasks.filter (fun t => t.DagInsID = taskIns.DagInsID)).find?
        (fun t => t.TaskID = d) = some t →
      t.Status ≠ TaskInstanceStatusSuccess ∧ t.Status ≠ TaskInstanceStatusSkipped) :
    ((ensureTaskTree env taskIns dagIns w).1 = none →
      env.fails (ensureTaskTree env taskIns dagIns w).2.calls.length = false →
      (HandleLoopAction c env h taskIns dagIns w).out = .ret none) ∧
    (HandleLoopAction c env h taskIns dagIns w).world.tasks = w.tasks ∧
    (HandleLoopAction c env h taskIns dagIns w).taskIns = taskIns ∧
    (HandleLoopAction c env h taskIns dagIns w).dagIns = dagIns ∧
    (HandleLoopAction c env h taskIns dagIns w).world.generations = w.generations ∧
    (∀ eff ∈ (HandleLoopAction c env h taskIns dagIns w).world.calls,
      eff ∈ w.calls ∨ eff = Effect.ListTaskInstance taskIns.DagInsID) := by
  have hw := walkNode_fields (ensureTaskTree env taskIns dagIns w).2 taskIns.DagInsID
    taskIns.ID taskIns.Status
  have he := ensureTaskTree_fields env taskIns dagIns w
  have hc := ensureTaskTree_calls env taskIns dagIns w
  have hchk := checkDependOn_notReady _ taskIns.DependOn hnofail hpend
  have hlen : taskIns.DependOn.length > 0 := by
    obtain ⟨d, hd, _⟩ := hpend
    exact List.length_pos_of_mem hd
  have hcond : (normalizeParams h.loopParams).CurrentIteration > 0 ∧
      taskIns.DependOn.length > 0 :=
    ⟨by rw [normalizeParams_CurrentIteration]; exact hiter, hlen⟩
  have hlog : ∀ eff ∈ (((ensureTaskTree env taskIns dagIns w).2.walkNode taskIns.DagInsID
      taskIns.ID taskIns.Status).log (Effect.ListTaskInstance taskIns.DagInsID)).calls,
      eff ∈ w.calls ∨ eff = Effect.ListTaskInstance taskIns.DagInsID := by
    intro eff heff
    simp only [World.log, hw.2.1, List.mem_append, List.mem_singleton] at heff
    rcases heff with h1 | h1
    · exact hc eff h1
    · exact Or.inr h1
  unfold HandleLoopAction
  simp only []
  cases ht : (ensureTaskTree env taskIns dagIns w).1 with
  | some err =>
    simp only []
    exact ⟨fun h0 => by simp at h0, he.1, trivial, trivial, he.2, hc⟩
  | none =>
    simp only []
    rw [if_neg (by omega), if_pos hcond]
    by_cases hf : env.fails ((ensureTaskTree env taskIns dagIns w).2.walkNode
        taskIns.DagInsID taskIns.ID taskIns.Status).calls.length = true
    · simp only [ListTaskInstance, hf, if_true]
      refine ⟨fun _ h1 => ?_, ?_, trivial, trivial, ?_, hlog⟩
      · rw [hw.2.1] at hf
        rw [hf] at h1
        exact absurd h1 (by decide)
      · simp only [World.log, hw.1, he.1]
      · simp only [World.log, hw.2.2, he.2]
    · have hf2 : env.fails ((ensureTaskTree env taskIns dagIns w).2.walkNode
          taskIns.DagInsID taskIns.ID taskIns.Status).calls.length = false := by
        simpa using hf
      simp only [ListTaskInstance, hf2, Bool.false_eq_true, if_false, hw.1, he.1, hchk]
      refine ⟨fun _ _ => trivial, ?_, trivial, trivial, ?_, hlog⟩
      · simp only [World.log, hw.1, he.1]
      · simp only [World.log, hw.2.2, he.2]

/-- Witness of the amended C8: the dependency `1_i0_sA` is running. -/
theorem dependency_not_ready_noop_witness :
    (HandleLoopAction sampleCommon sampleEnv sampleHandlerIter1 sampleNextLoopTask sampleDag
        sampleRunningWorld).out = .ret none ∧
    (HandleLoopAction sampleCommon sampleEnv sampleHandlerIter1 sampleNextLoopTask sampleDag
        sampleRunningWorld).world.tasks = sampleRunningWorld.tasks := by
  have hfind : (sampleRunningWorld.tasks.filter
      (fun t => t.DagInsID = sampleNextLoopTask.DagInsID)).find?
        (fun t => t.TaskID = "1_i0_sA")
      = some { sampleBodyTask with Status := TaskInstanceStatusRunning } := rfl
  have h := dependency_not_ready_noop sampleCommon sampleEnv sampleHandlerIter1
    sampleNextLoopTask sampleDag sampleRunningWorld (by decide) (by decide)
    (by
      intro d hd t ht
      have hd1 : d = "1_i0_sA" := List.mem_singleton.mp hd
      subst hd1
      rw [hfind] at ht
      cases ht
      decide)
    ⟨"1_i0_sA", List.mem_singleton.mpr rfl, by
      intro t ht
      rw [hfind] at ht
      cases ht
      decide⟩
  exact ⟨h.1 rfl rfl, h.2.1⟩

/-- A listing enters no generation. -/
theorem ListTaskInstance_generations (env : Env) (w : World) (id : String) :
    (ListTaskInstance env w id).2.generations = w.generations := by
  unfold ListTaskInstance
  split <;> rfl

/-- A lookup enters no generation. -/
theorem GetTaskIns_generations (env : Env) (w : World) (id : String) :
    (GetTaskIns env w id).2.generations = w.generations := by
  unfold GetTaskIns
  split <;> rfl

/-- An update enters no generation. -/
theorem UpdateTaskIns_generations (env : Env) (w : World) (t : TaskInstance) :
    (UpdateTaskIns env w t).2.generations = w.generations := by
  unfold UpdateTaskIns
  split <;> rfl

/-- A patch enters no generation. -/
theorem PatchTaskIns_generations (env : Env) (w : World) (t : TaskInstance) :
    (PatchTaskIns env w t).2.generations = w.generations := by
  unfold PatchTaskIns
  split <;> rfl

/-- A batch creation enters no generation. -/
theorem BatchCreateTaskIns_generations (env : Env) (w : World) (ts : List TaskInstance) :
    (BatchCreateTaskIns env w ts).2.generations = w.generations := by
  unfold BatchCreateTaskIns
  split <;> rfl

/-- A batch deletion enters no generation. -/
theorem BatchDeleteTaskIns_generations (env : Env) (w : World) (ids : List String) :
    (BatchDeleteTaskIns env w ids).2.generations = w.generations := by
  unfold BatchDeleteTaskIns
  split <;> rfl

/-- The retro-wiring of one dependent task enters no generation. -/
theorem retroWire_inner_generations (env : Env) (l n : String) :
    ∀ (deps : List String) (task : TaskInstance) (w : World),
      (retroWire.inner env l n deps task w).generations = w.generations
  | [], _, _ => rfl
  | d :: rest, task, w => by
    unfold retroWire.inner
    split
    · simp only []
      split
      · rw [retroWire_inner_generations env l n rest, PatchTaskIns_generations]
      · exact PatchTaskIns_generations env w _
    · exact retroWire_inner_generations env l n rest task w

/-- The retro-wiring enters no generation. -/
theorem retroWire_generations (env : Env) (l n : String) :
    ∀ (vs : List Value) (w : World),
      (retroWire env l n vs w).2.generations = w.generations
  | [], _ => rfl
  | .str s :: rest, w => by
    unfold retroWire
    simp only []
    split
    · rw [retroWire_generations env l n rest, GetTaskIns_generations]
    · rw [retroWire_generations env l n rest, retroWire_inner_generations,
        GetTaskIns_generations]
  | .null :: _, _ => rfl
  | .bool _ :: _, _ => rfl
  | .int _ :: _, _ => rfl
  | .strs _ :: _, _ => rfl
  | .arr _ :: _, _ => rfl
  | .primA _ :: _, _ => rfl
  | .map _ :: _, _ => rfl

/-- The scan of iteration 0 enters no generation. -/
theorem scan_generations (env : Env) (e : LoopExecutor) (w : World) :
    (GenerateIterationTasks.scan env e w).2.generations = w.generations := by
  unfold GenerateIterationTasks.scan
  split
  · simp only []
    split
    · exact ListTaskInstance_generations env w _
    · split <;> exact ListTaskInstance_generations env w _
  · rfl

/-- The last part of `GenerateIterationTasks` enters no generation. -/
theorem finish_generations (env : Env) (e : LoopExecutor) (w : World)
    (ts : List TaskInstance) (last : List String) :
    (GenerateIterationTasks.finish env e w ts last).2.2.generations = w.generations := by
  unfold GenerateIterationTasks.finish
  simp only []
  split
  · rfl
  · split <;> exact BatchCreateTaskIns_generations env w ts

/-- The part of `GenerateIterationTasks` after the body loop enters no further
generation. -/
theorem next_generations (c : Common) (env : Env) (e : LoopExecutor) (w : World)
    (ex ts : List TaskInstance) (last : List String) :
    (GenerateIterationTasks.next c env e w ex ts last).2.2.generations = w.generations := by
  unfold GenerateIterationTasks.next
  simp only []
  split
  · split
    · rw [finish_generations, scan_generations]
    · split
      · rw [finish_generations, GetTaskIns_generations, scan_generations]
      · split
        · simp only []
          rw [retroWire_generations, GetTaskIns_generations, scan_generations]
        · rw [finish_generations, retroWire_generations, GetTaskIns_generations,
            scan_generations]
  · rw [finish_generations, scan_generations]

/-- A call of `GenerateIterationTasks` records exactly its own entry. -/
theorem GenerateIterationTasks_generations (c : Common) (env : Env) (e : LoopExecutor)
    (w : World) :
    (GenerateIterationTasks c env e w).2.2.generations
      = w.generations ++ [e.loopParams.CurrentIteration] := by
  unfold GenerateIterationTasks
  simp only []
  split
  · rw [ListTaskInstance_generations]
  · split
    · rw [ListTaskInstance_generations]
    · split
      · rw [ListTaskInstance_generations]
      · rw [next_generations, ListTaskInstance_generations]

/-- The refresh of the task tree enters no generation. -/
theorem UpdateTaskTree_generations (env : Env) (e : LoopExecutor) (w : World) :
    (UpdateTaskTree env e w).2.2.generations = w.generations := by
  have hl := ListTaskInstance_generations env w e.dagIns.ID
  unfold UpdateTaskTree
  simp only []
  split
  · exact hl
  · have hw1 : ∀ (ids : List String),
        (if ids.length > 0 then
          (BatchDeleteTaskIns env (ListTaskInstance env w e.dagIns.ID).2 ids).2
         else (ListTaskInstance env w e.dagIns.ID).2).generations = w.generations := by
      intro ids
      split
      · rw [BatchDeleteTaskIns_generations, hl]
      · exact hl
    split
    · exact hw1 _
    · split
      · exact hw1 _
      · exact hw1 _

/-- The push of the executable tasks enters no generation. -/
theorem pushFrontier_generations (tasks : List TaskInstance) :
    ∀ (ids : List String) (w : World), (pushFrontier tasks ids w).generations = w.generations
  | [], _ => rfl
  | id :: rest, w => by
    unfold pushFrontier
    split
    · split
      · exact pushFrontier_generations tasks rest w
      · rw [pushFrontier_generations tasks rest]
        rfl
    · exact pushFrontier_generations tasks rest w

/-- The push phase enters no generation. -/
theorem PushExecutableTasks_generations (env : Env) (e : LoopExecutor) (w : World) :
    (PushExecutableTasks env e w).2.generations = w.generations := by
  have hl := ListTaskInstance_generations env w e.dagIns.ID
  unfold PushExecutableTasks
  split
  · rfl
  · simp only []
    split
    · exact hl
    · split
      · simp only [World.log]
        rw [UpdateTaskIns_generations, hl]
      · rw [pushFrontier_generations, hl]

/-- In the advancing case the handler enters task generation exactly once,
with the current iteration, unless the array index panics. -/
theorem advance_generations (c : Common) (env : Env) (p : LoopParameters)
    (arrayData : Option (List Value)) (taskIns : TaskInstance) (dagIns : DagInstance)
    (w : World) (hnonneg : 0 ≤ p.CurrentIteration) :
    (HandleLoopAction.advance c env p arrayData taskIns dagIns w).world.generations
      = w.generations ++ [p.CurrentIteration] := by
  have hg := GenerateIterationTasks_generations c env
    { dagIns := { dagIns with
        ShareData := publishLoopValues p (arrayData.getD []) taskIns dagIns.ShareData },
      loopParams := { p with Array := arrayData }, taskTree := none,
      getTimeout := env.defaultTimeout } (w.log (Effect.Run taskIns))
  simp only [World.log] at hg
  unfold HandleLoopAction.advance
  rw [if_neg (by omega)]
  simp only [World.log]
  split
  · exact hg
  · exact hg
  · split
    · rw [UpdateTaskIns_generations]
      exact hg
    · split
      · rw [UpdateTaskTree_generations, UpdateTaskIns_generations]
        exact hg
      · split
        · rw [PushExecutableTasks_generations, UpdateTaskTree_generations,
            UpdateTaskIns_generations]
          exact hg
        · rw [PushExecutableTasks_generations, UpdateTaskTree_generations,
            UpdateTaskIns_generations]
          exact hg

/-- Replacing a task twice under one identity is replacing it once. -/
theorem replaceTask_replaceTask (t1 t3 : TaskInstance) (ts : List TaskInstance)
    (hid : t1.ID = t3.ID) : replaceTask t1 (replaceTask t3 ts) = replaceTask t1 ts := by
  unfold replaceTask
  rw [List.map_map]
  apply List.map_congr_left
  intro t _
  simp only [Function.comp]
  by_cases h : t.ID = t3.ID
  · simp [h, hid]
  · simp [h, hid]

/-- Output collection keeps the stored tasks, enters no generation and makes
no call but a listing. -/
theorem collectLoopOutputs_fields (env : Env) (taskIns : TaskInstance) (p : LoopParameters)
    (shareData : Dict) (w : World) :
    (collectLoopOutputs env taskIns p shareData w).2.2.tasks = w.tasks ∧
    (collectLoopOutputs env taskIns p shareData w).2.2.generations = w.generations ∧
    (collectLoopOutputs env taskIns p shareData w).2.2.calls.filter Effect.isBatchCreate
      = w.calls.filter Effect.isBatchCreate := by
  have hl : (ListTaskInstance env w taskIns.DagInsID).2.tasks = w.tasks ∧
      (ListTaskInstance env w taskIns.DagInsID).2.generations = w.generations ∧
      (ListTaskInstance env w taskIns.DagInsID).2.calls.filter Effect.isBatchCreate
        = w.calls.filter Effect.isBatchCreate := by
    unfold ListTaskInstance
    split <;> simp [World.log, List.filter_append, Effect.isBatchCreate]
  unfold collectLoopOutputs
  split
  · exact ⟨rfl, rfl, rfl⟩
  · simp only []
    split
    · exact hl
    · split <;> exact hl

/-- At the ceiling the handler marks the loop-control task `success` with the
completion reason, persists it, and generates nothing. -/
theorem complete_spec (env : Env) (limit : Int) (p : LoopParameters) (taskIns : TaskInstance)
    (dagIns : DagInstance) (w : World) (hupd : env.fails w.calls.length = false) :
    (HandleLoopAction.complete env limit p taskIns dagIns w).taskIns
      = { taskIns with
          Status := SuccessStatus
          Reason := .str ("循环完成，共执行 " ++ toString limit ++ " 次迭代") } ∧
    (HandleLoopAction.complete env limit p taskIns dagIns w).world.tasks
      = replaceTask { taskIns with
          Status := SuccessStatus
          Reason := .str ("循环完成，共执行 " ++ toString limit ++ " 次迭代") } w.tasks ∧
    (HandleLoopAction.complete env limit p taskIns dagIns w).world.generations
      = w.generations ∧
    (HandleLoopAction.complete env limit p taskIns dagIns w).world.calls.filter
        Effect.isBatchCreate = w.calls.filter Effect.isBatchCreate := by
  have hc := collectLoopOutputs_fields env
    { taskIns with
      Status := SuccessStatus
      Reason := .str ("循环完成，共执行 " ++ toString limit ++ " 次迭代") } p dagIns.ShareData
    (({ w.log (Effect.UpdateTaskIns { taskIns with
          Status := SuccessStatus
          Reason := .str ("循环完成，共执行 " ++ toString limit ++ " 次迭代") }) with
        tasks := replaceTask { taskIns with
          Status := SuccessStatus
          Reason := .str ("循环完成，共执行 " ++ toString limit ++ " 次迭代") }
          w.tasks } : World).walkNode taskIns.DagInsID taskIns.ID TaskInstanceStatusSuccess)
  have hw := walkNode_fields ({ w.log (Effect.UpdateTaskIns { taskIns with
          Status := SuccessStatus
          Reason := .str ("循环完成，共执行 " ++ toString limit ++ " 次迭代") }) with
        tasks := replaceTask { taskIns with
          Status := SuccessStatus
          Reason := .str ("循环完成，共执行 " ++ toString limit ++ " 次迭代") }
          w.tasks } : World) taskIns.DagInsID taskIns.ID TaskInstanceStatusSuccess
  rw [hw.1, hw.2.1, hw.2.2] at hc
  simp only [World.log, List.filter_append, List.filter_cons, Effect.isBatchCreate,
    Bool.false_eq_true, if_false, List.filter_nil, List.append_nil] at hc
  unfold HandleLoopAction.complete
  simp only [UpdateTaskIns, hupd, Bool.false_eq_true, if_false]
  split
  · exact ⟨rfl, hc.1, hc.2.1, hc.2.2⟩
  · exact ⟨rfl, hc.1, hc.2.1, hc.2.2⟩

/-- Setting the loop identifiers keeps the iteration counter and the identity
and status of the task. -/
theorem withLoopIdentifiers_fields (p : LoopParameters) (taskIns : TaskInstance) :
    (withLoopIdentifiers p taskIns).1.CurrentIteration = p.CurrentIteration ∧
    (withLoopIdentifiers p taskIns).2.ID = taskIns.ID ∧
    (withLoopIdentifiers p taskIns).2.Status = taskIns.Status := by
  unfold withLoopIdentifiers
  simp only []
  split <;> split <;> exact ⟨rfl, rfl, rfl⟩

/-- The reset keeps the identity of the task. -/
theorem resetTask_ID (taskIns : TaskInstance) : (resetTask taskIns).ID = taskIns.ID := by
  unfold resetTask
  split <;> rfl

/-- The part of the handler after the dependency check: below the effective
limit it enters task generation for the current iteration, at or above it the
loop-control task becomes `success` with the completion reason and nothing is
generated. -/
theorem proceed_spec (c : Common) (env : Env) (p : LoopParameters) (taskIns : TaskInstance)
    (dagIns : DagInstance) (w : World) (hs : ∀ n, env.fails n = false)
    (hlim : 0 < actualLimit p) (hnonneg : 0 ≤ p.CurrentIteration) :
    (p.CurrentIteration < actualLimit p →
      (HandleLoopAction.proceed c env p taskIns dagIns w).world.generations
        = w.generations ++ [p.CurrentIteration]) ∧
    (actualLimit p ≤ p.CurrentIteration →
      (HandleLoopAction.proceed c env p taskIns dagIns w).taskIns.Status = SuccessStatus ∧
      (HandleLoopAction.proceed c env p taskIns dagIns w).taskIns.Reason
        = .str ("循环完成，共执行 " ++ toString (actualLimit p) ++ " 次迭代") ∧
      (HandleLoopAction.proceed c env p taskIns dagIns w).world.tasks
        = replaceTask (HandleLoopAction.proceed c env p taskIns dagIns w).taskIns w.tasks ∧
      (HandleLoopAction.proceed c env p taskIns dagIns w).world.generations = w.generations ∧
      (HandleLoopAction.proceed c env p taskIns dagIns w).world.calls.filter
          Effect.isBatchCreate = w.calls.filter Effect.isBatchCreate) := by
  have hpi := withLoopIdentifiers_fields (normalizeParams p) taskIns
  rw [normalizeParams_CurrentIteration] at hpi
  have hww := walkNode_fields w taskIns.DagInsID taskIns.ID TaskInstanceStatusInit
  -- the world after the reset of a failed or canceled task
  have hu : ∀ (b : Prop) [Decidable b],
      (if b then UpdateTaskIns env
          (w.walkNode taskIns.DagInsID taskIns.ID TaskInstanceStatusInit)
          (resetTask (withLoopIdentifiers (normalizeParams p) taskIns).2)
        else (false, w)).1 = false ∧
      (if b then UpdateTaskIns env
          (w.walkNode taskIns.DagInsID taskIns.ID TaskInstanceStatusInit)
          (resetTask (withLoopIdentifiers (normalizeParams p) taskIns).2)
        else (false, w)).2.generations = w.generations ∧
      (if b then UpdateTaskIns env
          (w.walkNode taskIns.DagInsID taskIns.ID TaskInstanceStatusInit)
          (resetTask (withLoopIdentifiers (normalizeParams p) taskIns).2)
        else (false, w)).2.calls.filter Effect.isBatchCreate
          = w.calls.filter Effect.isBatchCreate ∧
      ((if b then UpdateTaskIns env
          (w.walkNode taskIns.DagInsID taskIns.ID TaskInstanceStatusInit)
          (resetTask (withLoopIdentifiers (normalizeParams p) taskIns).2)
        else (false, w)).2.tasks = w.tasks ∨
       (if b then UpdateTaskIns env
          (w.walkNode taskIns.DagInsID taskIns.ID TaskInstanceStatusInit)
          (resetTask (withLoopIdentifiers (normalizeParams p) taskIns).2)
        else (false, w)).2.tasks
          = replaceTask (resetTask (withLoopIdentifiers (normalizeParams p) taskIns).2)
              w.tasks) := by
    intro b _
    by_cases hb : b
    · simp only [hb, if_true, UpdateTaskIns, hs, Bool.false_eq_true, if_false, World.log,
        hww.1, hww.2.1, hww.2.2, List.filter_append, List.filter_cons, Effect.isBatchCreate,
        List.filter_nil, List.append_nil, or_true, and_self]
    · simp only [hb, if_false, true_or, and_self]
  have hu0 := hu ((withLoopIdentifiers (normalizeParams p) taskIns).2.Status
      = TaskInstanceStatusFailed ∨
    (withLoopIdentifiers (normalizeParams p) taskIns).2.Status = TaskInstanceStatusCanceled)
  unfold HandleLoopAction.proceed
  simp only []
  generalize (if (withLoopIdentifiers (normalizeParams p) taskIns).2.Status
        = TaskInstanceStatusFailed ∨
      (withLoopIdentifiers (normalizeParams p) taskIns).2.Status = TaskInstanceStatusCanceled
    then UpdateTaskIns env (w.walkNode taskIns.DagInsID taskIns.ID TaskInstanceStatusInit)
      (resetTask (withLoopIdentifiers (normalizeParams p) taskIns).2)
    else (false, w)) = u at hu0 ⊢
  rw [if_neg (by rw [hu0.1]; decide)]
  constructor
  · intro hlt
    rw [if_neg (by rw [hpi.1]; omega)]
    rw [advance_generations _ _ _ _ _ _ _ (by rw [hpi.1]; exact hnonneg), hu0.2.1, hpi.1]
  · intro hge
    rw [if_pos ⟨hlim, by rw [hpi.1]; exact hge⟩]
    have hcs := complete_spec env (actualLimit p)
      (withLoopIdentifiers (normalizeParams p) taskIns).1
      (resetTask (withLoopIdentifiers (normalizeParams p) taskIns).2) dagIns u.2 (hs _)
    rw [hcs.1]
    refine ⟨rfl, rfl, ?_, ?_, ?_⟩
    · rw [hcs.2.1]
      rcases hu0.2.2.2 with h1 | h1
      · rw [h1]
      · rw [h1]
        exact replaceTask_replaceTask _ _ _ rfl
    · rw [hcs.2.2.1, hu0.2.1]
    · rw [hcs.2.2.2, hu0.2.2.1]

/-- The task-tree setup calls no `BatchCreateTaskIns`. -/
theorem ensureTaskTree_creates_nothing (env : Env) (taskIns : TaskInstance)
    (dagIns : DagInstance) (w : World) :
    (ensureTaskTree env taskIns dagIns w).2.calls.filter Effect.isBatchCreate
      = w.calls.filter Effect.isBatchCreate := by
  have hlog : (w.log (Effect.ListTaskInstance taskIns.DagInsID)).calls.filter
      Effect.isBatchCreate = w.calls.filter Effect.isBatchCreate := by
    simp [World.log, List.filter_append, Effect.isBatchCreate]
  unfold ensureTaskTree ListTaskInstance
  split
  · rfl
  · simp only []
    split <;> split <;> (try split) <;> exact hlog

/-- C4 as stated fails: all store calls succeed and there is no dependency,
but the task tree of the run is not cached and the tree builder fails; the
handler returns an error at iteration 0 of a loop with limit 3 and enters no
task generation. -/
theorem advancing_needs_task_tree :
    (HandleLoopAction sampleCommon sampleBuildFailsEnv sampleHandler sampleLoopTask sampleDag
        sampleFreshWorld).out = .ret (some "build task tree failed") ∧
    (HandleLoopAction sampleCommon sampleBuildFailsEnv sampleHandler sampleLoopTask sampleDag
        sampleFreshWorld).world.generations = [] :=
  ⟨rfl, rfl⟩

/-- C4, amended.  Let `L > 0` be the effective limit (`Limit` in limit mode,
the default; the array length in array mode), the task tree be cached or
rebuilt without error, the store calls succeed, every dependency be `success`
or `skipped`, and `CurrentIteration ≥ 0`.  When `CurrentIteration < L`,
`HandleLoopAction` enters `GenerateIterationTasks` exactly once, for the
current iteration.  When `CurrentIteration ≥ L`, it sets the loop-control task
to `success` with the completion reason, persists it, and generates nothing:
`GenerateIterationTasks` is not entered, `BatchCreateTaskIns` is not called
and the store holds the tasks it held, with the loop-control task updated. -/
theorem loop_runs_to_limit (c : Common) (env : Env) (h : LoopHandler)
    (taskIns : TaskInstance) (dagIns : DagInstance) (w : World)
    (hs : ∀ n, env.fails n = false)
    (htree : (ensureTaskTree env taskIns dagIns w).1 = none)
    (hlim : 0 < actualLimit h.loopParams)
    (hnonneg : 0 ≤ h.loopParams.CurrentIteration)
    (hdeps : ∀ d ∈ taskIns.DependOn, ∃ t,
      (w.tasks.filter (fun t => t.DagInsID = taskIns.DagInsID)).find?
        (fun t => t.TaskID = d) = some t ∧
      (t.Status = TaskInstanceStatusSuccess ∨ t.Status = TaskInstanceStatusSkipped)) :
    actualLimit h.loopParams
      = (if h.loopParams.Mode = "array" then ((h.loopParams.Array.getD []).length : Int)
         else h.loopParams.Limit) ∧
    (h.loopParams.CurrentIteration < actualLimit h.loopParams →
      (HandleLoopAction c env h taskIns dagIns w).world.generations
        = w.generations ++ [h.loopParams.CurrentIteration]) ∧
    (actualLimit h.loopParams ≤ h.loopParams.CurrentIteration →
      (HandleLoopAction c env h taskIns dagIns w).taskIns.Status = SuccessStatus ∧
      (HandleLoopAction c env h taskIns dagIns w).taskIns.Reason
        = .str ("循环完成，共执行 " ++ toString (actualLimit h.loopParams) ++ " 次迭代") ∧
      (HandleLoopAction c env h taskIns dagIns w).world.tasks
        = replaceTask (HandleLoopAction c env h taskIns dagIns w).taskIns w.tasks ∧
      (HandleLoopAction c env h taskIns dagIns w).world.generations = w.generations ∧
      (HandleLoopAction c env h taskIns dagIns w).world.calls.filter Effect.isBatchCreate
        = w.calls.filter Effect.isBatchCreate) := by
  have hw := walkNode_fields (ensureTaskTree env taskIns dagIns w).2 taskIns.DagInsID
    taskIns.ID taskIns.Status
  have he := ensureTaskTree_fields env taskIns dagIns w
  have hec := ensureTaskTree_creates_nothing env taskIns dagIns w
  have hchk := checkDependOn_satisfied _ taskIns.DependOn hdeps
  -- the handler continues with `proceed` on a world that differs by listings only
  have key : ∃ w1 : World, HandleLoopAction c env h taskIns dagIns w
      = HandleLoopAction.proceed c env h.loopParams taskIns dagIns w1 ∧
      w1.tasks = w.tasks ∧ w1.generations = w.generations ∧
      w1.calls.filter Effect.isBatchCreate = w.calls.filter Effect.isBatchCreate := by
    unfold HandleLoopAction
    simp only [htree]
    rw [if_neg (by omega)]
    split
    · simp only [ListTaskInstance, hs, Bool.false_eq_true, if_false, hw.1, he.1, hchk]
      refine ⟨_, rfl, ?_, ?_, ?_⟩
      · simp only [World.log, hw.1, he.1]
      · simp only [World.log, hw.2.2, he.2]
      · simp only [World.log, hw.2.1, List.filter_append, List.filter_cons,
          Effect.isBatchCreate, Bool.false_eq_true, if_false, List.filter_nil,
          List.append_nil, hec]
    · exact ⟨_, rfl, by rw [hw.1, he.1], by rw [hw.2.2, he.2], by rw [hw.2.1, hec]⟩
  obtain ⟨w1, hr, ht, hg, hc⟩ := key
  have hp := proceed_spec c env h.loopParams taskIns dagIns w1 hs hlim hnonneg
  refine ⟨actualLimit_eq h.loopParams, ?_⟩
  rw [hr]
  rw [ht, hg, hc] at hp
  exact hp

/-- Witness of the amended C4: the array loop over `[x, y, z]` enters task
generation at iteration 2. -/
theorem loop_runs_to_limit_witness :
    (HandleLoopAction sampleCommon sampleEnv (sampleArrayHandler 2)
        { sampleLoopTask with DependOn := [] } sampleDag sampleCachedWorld).world.generations
      = [2] :=
  (loop_runs_to_limit sampleCommon sampleEnv (sampleArrayHandler 2)
    { sampleLoopTask with DependOn := [] } sampleDag sampleCachedWorld (fun _ => rfl) rfl
    (by decide) (by decide) (fun d hd => nomatch hd)).2.1 (by decide)

/-- C11, the code at the failing input: the handler is invoked once more for
the loop-control task `1_i1` of iteration 1 while iteration 2 is under way.
The per-iteration key `__1_i1` is present in `ShareData`, yet the values of
iteration 1 are written again: the loop-namespaced entries `__1` and
`__loop_1_index`, which held the index 2 of the running iteration, hold the
index 1 afterwards.  Only the log line depends on the presence of the key. -/
theorem published_values_overwritten :
    sampleRedeliveredDag.ShareData.get "__1_i1" = some (.map [("index", .int 1)]) ∧
    sampleRedeliveredDag.ShareData.get "__1" = some (.map [("index", .int 2)]) ∧
    sampleRedeliveredDag.ShareData.get "__loop_1_index" = some (.int 2) ∧
    (HandleLoopAction sampleCommon sampleEnv sampleHandlerIter1 sampleRedeliveredTask
        sampleRedeliveredDag sampleRedeliveredWorld).out = .ret none ∧
    (HandleLoopAction sampleCommon sampleEnv sampleHandlerIter1 sampleRedeliveredTask
        sampleRedeliveredDag sampleRedeliveredWorld).dagIns.ShareData.get "__1"
      = some (.map [("index", .int 1)]) ∧
    (HandleLoopAction sampleCommon sampleEnv sampleHandlerIter1 sampleRedeliveredTask
        sampleRedeliveredDag sampleRedeliveredWorld).dagIns.ShareData.get "__loop_1_index"
      = some (.int 1) :=
  ⟨rfl, rfl, rfl, rfl, rfl, rfl⟩

/-- The dedup loop keeps the instances that no earlier instance shares the
`TaskID` with; `seen` holds the task IDs of the instances `pre` looked at so far. -/
theorem dedupTasks_fst (rest : List TaskInstance) :
    ∀ (pre : List TaskInstance) (seen : List String),
      (∀ x, seen.contains x = true ↔ x ∈ pre.map TaskInstance.TaskID) →
      (dedupTasks rest seen).1
        = ((rest.enumFrom pre.length).filter
            (fun it => !((pre ++ rest).take it.1).any (fun u => u.TaskID = it.2.TaskID))).map
            Prod.snd := by
  induction rest with
  | nil => intro pre seen _; rfl
  | cons t r ih =>
    intro pre seen hseen
    have hpre : ((pre ++ t :: r).take pre.length).any (fun u => decide (u.TaskID = t.TaskID))
        = seen.contains t.TaskID := by
      rw [List.take_left' rfl, Bool.eq_iff_iff, hseen, List.any_eq_true]
      simp only [decide_eq_true_eq, List.mem_map]
    unfold dedupTasks
    simp only [List.enumFrom_cons, List.filter_cons, hpre]
    by_cases hc : seen.contains t.TaskID = true
    · have hseen2 : ∀ x, seen.contains x = true ↔ x ∈ (pre ++ [t]).map TaskInstance.TaskID := by
        intro x
        rw [hseen x]
        simp only [List.map_append, List.mem_append, List.map_cons, List.map_nil,
          List.mem_singleton]
        constructor
        · exact Or.inl
        · rintro (h | h)
          · exact h
          · rw [h]; exact (hseen _).mp hc
      have := ih (pre ++ [t]) seen hseen2
      simp only [List.length_append, List.length_singleton, List.append_assoc,
        List.singleton_append] at this
      have hm : t.TaskID ∈ seen := by simpa using hc
      simp [hm, this]
    · have hseen2 : ∀ x, (t.TaskID :: seen).contains x = true
          ↔ x ∈ (pre ++ [t]).map TaskInstance.TaskID := by
        intro x
        simp only [List.map_append, List.mem_append, List.map_cons, List.map_nil,
          List.mem_singleton, List.contains_cons, Bool.or_eq_true, beq_iff_eq, hseen x]
        constructor
        · rintro (h | h)
          · exact Or.inr h
          · exact Or.inl h
        · rintro (h | h)
          · exact Or.inr h
          · exact Or.inl h
      have := ih (pre ++ [t]) (t.TaskID :: seen) hseen2
      simp only [List.length_append, List.length_singleton, List.append_assoc,
        List.singleton_append] at this
      have hm : t.TaskID ∉ seen := by simpa using hc
      simp [hm, this]

/-- The dedup loop collects the store identities of the instances that share
the `TaskID` with an earlier one. -/
theorem dedupTasks_snd (rest : List TaskInstance) :
    ∀ (pre : List TaskInstance) (seen : List String),
      (∀ x, seen.contains x = true ↔ x ∈ pre.map TaskInstance.TaskID) →
      (dedupTasks rest seen).2
        = ((rest.enumFrom pre.length).filter
            (fun it => ((pre ++ rest).take it.1).any (fun u => u.TaskID = it.2.TaskID))).map
            (fun it => it.2.ID) := by
  induction rest with
  | nil => intro pre seen _; rfl
  | cons t r ih =>
    intro pre seen hseen
    have hpre : ((pre ++ t :: r).take pre.length).any (fun u => decide (u.TaskID = t.TaskID))
        = seen.contains t.TaskID := by
      rw [List.take_left' rfl, Bool.eq_iff_iff, hseen, List.any_eq_true]
      simp only [decide_eq_true_eq, List.mem_map]
    unfold dedupTasks
    simp only [List.enumFrom_cons, List.filter_cons, hpre]
    by_cases hc : seen.contains t.TaskID = true
    · have hseen2 : ∀ x, seen.contains x = true ↔ x ∈ (pre ++ [t]).map TaskInstance.TaskID := by
        intro x
        rw [hseen x]
        simp only [List.map_append, List.mem_append, List.map_cons, List.map_nil,
          List.mem_singleton]
        constructor
        · exact Or.inl
        · rintro (h | h)
          · exact h
          · rw [h]; exact (hseen _).mp hc
      have := ih (pre ++ [t]) seen hseen2
      simp only [List.length_append, List.length_singleton, List.append_assoc,
        List.singleton_append] at this
      have hm : t.TaskID ∈ seen := by simpa using hc
      simp [hm, this]
    · have hseen2 : ∀ x, (t.TaskID :: seen).contains x = true
          ↔ x ∈ (pre ++ [t]).map TaskInstance.TaskID := by
        intro x
        simp only [List.map_append, List.mem_append, List.map_cons, List.map_nil,
          List.mem_singleton, List.contains_cons, Bool.or_eq_true, beq_iff_eq, hseen x]
        constructor
        · rintro (h | h)
          · exact Or.inr h
          · exact Or.inl h
        · rintro (h | h)
          · exact Or.inr h
          · exact Or.inl h
      have := ih (pre ++ [t]) (t.TaskID :: seen) hseen2
      simp only [List.length_append, List.length_singleton, List.append_assoc,
        List.singleton_append] at this
      have hm : t.TaskID ∉ seen := by simpa using hc
      simp [hm, this]

/-- The instances that the dedup loop keeps have pairwise distinct task IDs,
none of them seen before. -/
theorem dedupTasks_nodup (rest : List TaskInstance) :
    ∀ seen : List String,
      ((dedupTasks rest seen).1.map TaskInstance.TaskID).Nodup ∧
      ∀ x ∈ (dedupTasks rest seen).1.map TaskInstance.TaskID, x ∉ seen := by
  induction rest with
  | nil => intro seen; simp [dedupTasks]
  | cons t r ih =>
    intro seen
    unfold dedupTasks
    by_cases hc : seen.contains t.TaskID = true
    · simp only [hc, if_true]
      exact ih seen
    · simp only [hc, Bool.false_eq_true, if_false, List.map_cons, List.nodup_cons,
        List.mem_cons, forall_eq_or_imp]
      have h := ih (t.TaskID :: seen)
      refine ⟨⟨fun hmem => ?_, h.1⟩, by simpa using hc, fun x hx hs => ?_⟩
      · exact h.2 _ hmem (List.mem_cons_self _ _)
      · exact h.2 x hx (List.mem_cons_of_mem _ hs)

/-- Without duplicates the dedup loop keeps the whole list. -/
theorem dedupTasks_unique (rest : List TaskInstance) :
    ∀ seen : List String, (dedupTasks rest seen).2 = [] → (dedupTasks rest seen).1 = rest := by
  induction rest with
  | nil => intro seen _; rfl
  | cons t r ih =>
    intro seen
    unfold dedupTasks
    by_cases hc : seen.contains t.TaskID = true
    · simp only [hc, if_true]
      intro h
      simp at h
    · simp only [hc, Bool.false_eq_true, if_false]
      intro h
      rw [ih _ h]

/-- C12: defensive dedup in `UpdateTaskTree`.  For every task list `tasks`
that the store lists for the DAG run, let `kept` be the instances at the
positions where no earlier position has the same `TaskID`, in the order of the
list, and `later` the store identities at the other positions.  The task IDs
of `kept` are pairwise distinct; the calls made are the listing and, when
`later` is not empty, one `BatchDeleteTaskIns` with exactly `later`; the method
fails exactly when the tree builder fails on `kept`, whatever the delete call
returns; and the root that the builder makes of `kept` is the root of the
executor's tree and of the tree in the registry.  No assumption is made on the
registry, so this covers the missing-tree and the existing-tree branch. -/
theorem update_task_tree_dedup (env : Env) (e : LoopExecutor) (w : World)
    (tasks : List TaskInstance)
    (hlist : (ListTaskInstance env w e.dagIns.ID).1 = some tasks) :
    let kept := (tasks.enum.filter
      (fun it => !(tasks.take it.1).any (fun u => u.TaskID = it.2.TaskID))).map Prod.snd
    let later := (tasks.enum.filter
      (fun it => (tasks.take it.1).any (fun u => u.TaskID = it.2.TaskID))).map (fun it => it.2.ID)
    (kept.map TaskInstance.TaskID).Nodup ∧
    (UpdateTaskTree env e w).2.2.calls
      = w.calls ++ Effect.ListTaskInstance e.dagIns.ID
          :: (if later = [] then [] else [Effect.BatchDeleteTaskIns later]) ∧
    ((UpdateTaskTree env e w).1 = none ↔ (env.BuildRootNode kept).isSome = true) ∧
    (∀ root, env.BuildRootNode kept = some root →
      (UpdateTaskTree env e w).2.1.taskTree.map TaskTree.Root = some root ∧
      (getTaskTree (UpdateTaskTree env e w).2.2 e.dagIns.ID).map TaskTree.Root = some root) := by
  intro kept later
  have hk : (dedupTasks tasks []).1 = kept := dedupTasks_fst tasks [] [] (by simp)
  have hl : (dedupTasks tasks []).2 = later := dedupTasks_snd tasks [] [] (by simp)
  have hnd : (kept.map TaskInstance.TaskID).Nodup := hk ▸ (dedupTasks_nodup tasks []).1
  refine ⟨hnd, ?_⟩
  unfold ListTaskInstance at hlist
  by_cases hf : env.fails w.calls.length = true
  · simp [hf] at hlist
  · have hf2 : env.fails w.calls.length = false := by simpa using hf
    simp only [hf2, Bool.false_eq_true, if_false, Option.some.injEq] at hlist
    have hl1 : ListTaskInstance env w e.dagIns.ID
        = (some tasks, w.log (Effect.ListTaskInstance e.dagIns.ID)) := by
      simp [ListTaskInstance, hf2, hlist]
    have hcalls : ∀ (w1 : World) (k : String) (t : TaskTree),
        (w1.storeTaskTree k t).calls = w1.calls := fun _ _ _ => rfl
    have htree : ∀ (w1 : World) (k : String) (t : TaskTree),
        getTaskTree (w1.storeTaskTree k t) k = some t := by
      intro w1 k t
      simp only [getTaskTree, World.storeTaskTree]
      induction w1.taskTrees with
      | nil => simp [storeTree]
      | cons kv rest ih =>
        unfold storeTree
        by_cases hkv : kv.1 = k
        · simp [hkv]
        · simp [hkv, List.find?_cons, ih]
    have hdel : ∀ w1 : World, (BatchDeleteTaskIns env w1 later).2.calls
        = w1.calls ++ [Effect.BatchDeleteTaskIns later] := by
      intro w1
      unfold BatchDeleteTaskIns World.log
      split <;> rfl
    unfold UpdateTaskTree
    simp only [hl1, hk, hl]
    by_cases hlat : later = []
    · have hkt : kept = tasks := by
        rw [← hk]
        exact dedupTasks_unique tasks [] (hl.trans hlat)
      simp only [hlat, List.length_nil, gt_iff_lt, Nat.lt_irrefl, if_false, ← hkt]
      cases hb : env.BuildRootNode kept with
      | none => simp [World.log]
      | some root =>
        cases hc : getTaskTree w e.dagIns.ID with
        | none => simp [World.log, hcalls, htree]
        | some tree => simp [World.log, hcalls, htree]
    · have hpos : later.length > 0 := List.length_pos.mpr hlat
      simp only [hpos, if_true, hlat, if_false]
      cases hb : env.BuildRootNode kept with
      | none => simp [World.log, hdel]
      | some root =>
        cases hc : getTaskTree w e.dagIns.ID with
        | none => simp [World.log, hcalls, htree, hdel]
        | some tree => simp [World.log, hcalls, htree, hdel]

/-- Witness of C12: the store lists the body task `1_i0_sA` twice, under the
identities `t1` and `t7`; the second one is deleted and the tree is built from
the loop-control task and the first one. -/
theorem update_task_tree_dedup_witness :
    (UpdateTaskTree sampleEnv sampleExecutor sampleDupWorld).2.2.calls
      = [Effect.ListTaskInstance "d", Effect.BatchDeleteTaskIns ["t7"]] ∧
    (UpdateTaskTree sampleEnv sampleExecutor sampleDupWorld).2.1.taskTree.map TaskTree.Root
      = some [{ TaskInsID := "t0", Status := "init" }, { TaskInsID := "t1", Status := "success" }] :=
  ⟨(update_task_tree_dedup sampleEnv sampleExecutor sampleDupWorld
      [sampleLoopTask, sampleBodyTask, { sampleBodyTask with ID := "t7" }] rfl).2.1,
    ((update_task_tree_dedup sampleEnv sampleExecutor sampleDupWorld
      [sampleLoopTask, sampleBodyTask, { sampleBodyTask with ID := "t7" }] rfl).2.2.2
      _ rfl).1⟩

/-- C13, the code at the failing input: a loop with limit 1 and the output key
`k` collects its outputs twice over the same task list.  The first call leaves
the array `[v]` under `k`, one entry for the one iteration; the second call
finds that array, and since its length 1 is not greater than the iteration
number 1 it appends the value again: the array is `[v, v]`. -/
theorem outputs_appended_again :
    (collectLoopOutputs sampleEnv sampleOutputTask sampleOutputParams [] sampleOutputWorld).1
      = .ret none ∧
    (collectLoopOutputs sampleEnv sampleOutputTask sampleOutputParams []
        sampleOutputWorld).2.1
      = [("__1", .map [("outputs", .map [("k", .arr [.str "v"])])])] ∧
    (collectLoopOutputs sampleEnv sampleOutputTask sampleOutputParams
        [("__1", .map [("outputs", .map [("k", .arr [.str "v"])])])] sampleOutputWorld).1
      = .ret none ∧
    (collectLoopOutputs sampleEnv sampleOutputTask sampleOutputParams
        [("__1", .map [("outputs", .map [("k", .arr [.str "v"])])])] sampleOutputWorld).2.1
      = [("__1", .map [("outputs", .map [("k", .arr [.str "v", .str "v"])])])] :=
  ⟨rfl, rfl, rfl, rfl⟩

/-- The step of the reconstructor does not read the timestamp. -/
theorem applyEvent_timestamp (dagIns : DagInstance) (dag : Dag) (tasks : List TaskInstance)
    (ev : DagInstanceEvent) (ts : Int) :
    applyEvent dagIns dag tasks { ev with Timestamp := ts } = applyEvent dagIns dag tasks ev :=
  rfl

/-- C18, the code at the failing input: the body `[C, N]` of iteration 0, where
the conditional step `C` has one branch, without steps.  For `C`,
`processStepRecursively` returns the ID of the control task of `C`, while
`getLoopLastTaskIDs` over the branches of `C` yields nothing: the task of the
next sibling `N` is created without any dependency.  For the parallel step `P`
with the branches `[x]` and `[]`, `processStepRecursively` returns the task of
`x` and the dependency that entered `P`, the wiring the task of `x` only. -/
theorem wiring_diverges_on_empty_branch :
    (processStepRecursively sampleCommon "d" (fun _ => 30) [] [] sampleEmptyCond "1_i0_sC"
        ["1"]).2 = ["1_i0_sC"] ∧
    stepDependOn sampleCommon sampleParams (some sampleEmptyCond) = [] ∧
    (returnedTasks (GenerateIterationTasks sampleCommon sampleEnv
        (sampleExecutorOf [sampleEmptyCond, sampleStep "N"]) sampleFreshWorld)).map
        (fun t => (t.TaskID, t.DependOn))
      = [("1_i0_sC", ["1"]), ("1_i0_sN", []), ("1_i1", ["1_i0_sN"])] ∧
    (processStepRecursively sampleCommon "d" (fun _ => 30) [] [] sampleHalfParallel "1_i0_sP"
        ["1"]).2 = ["1_i0_sP_0_x", "1"] ∧
    stepDependOn sampleCommon sampleParams (some sampleHalfParallel) = ["1_i0_sP_0_x"] := by
  decide

/-- C20 as stated fails for a conditional step: `C` has the branch `[x]` and an
empty branch, and the dependency `1` enters it.  The terminal IDs are the task
of `x` and, for the empty branch, the control task of `C` itself; the
dependency `1` is not among them. -/
theorem conditional_empty_branch_ends_at_own_task :
    (processStepRecursively sampleCommon "d" (fun _ => 30) [] [] sampleHalfCond "1_i0_sC"
        ["1"]).2 = ["1_i0_sC_0_x", "1_i0_sC"] ∧
    "1" ∉ (processStepRecursively sampleCommon "d" (fun _ => 30) [] [] sampleHalfCond
        "1_i0_sC" ["1"]).2 := by
  decide

/-- The branch loop of the parallel case on a first branch. -/
theorem parallelBranches_cons (c : Common) (dagInsID : String) (getTimeout : String → Int)
    (ex : List String) (conds : List Value) (steps : List Step) (rest : List Branch)
    (acc : List TaskInstance) (taskID : String) (dependOn : List String) (i : Nat)
    (coll : List String) :
    processStepRecursively.parallelBranches c dagInsID getTimeout ex acc
        (.mk conds steps :: rest) taskID dependOn i coll
      = processStepRecursively.parallelBranches c dagInsID getTimeout ex
          (processStepRecursively.parallelSteps c dagInsID getTimeout ex acc steps taskID i
            dependOn 0 dependOn).1
          rest taskID dependOn (i + 1)
          (coll ++ (processStepRecursively.parallelSteps c dagInsID getTimeout ex acc steps
            taskID i dependOn 0 dependOn).2) := by
  rw [processStepRecursively.parallelBranches]

/-- The branch loop of the conditional case on a first branch. -/
theorem condBranches_cons (c : Common) (dagInsID : String) (getTimeout : String → Int)
    (ex : List String) (conds : List Value) (steps : List Step) (rest : List Branch)
    (acc : List TaskInstance) (taskID : String) (i : Nat) (coll : List String) :
    processStepRecursively.condBranches c dagInsID getTimeout ex acc
        (.mk conds steps :: rest) taskID i coll
      = processStepRecursively.condBranches c dagInsID getTimeout ex
          (processStepRecursively.condSteps c dagInsID getTimeout ex acc steps taskID i
            (buildPreChecks c taskID i conds 0 []) [taskID]).1
          rest taskID (i + 1)
          (coll ++ (processStepRecursively.condSteps c dagInsID getTimeout ex acc steps
            taskID i (buildPreChecks c taskID i conds 0 []) [taskID]).2) := by
  rw [processStepRecursively.condBranches]

/-- The branch loop of the parallel case appends to the terminal IDs collected so far. -/
theorem parallelBranches_coll (c : Common) (dagInsID : String) (getTimeout : String → Int)
    (ex : List String) :
    ∀ (branches : List Branch) (acc : List TaskInstance) (taskID : String)
      (dependOn : List String) (i : Nat) (coll : List String),
      processStepRecursively.parallelBranches c dagInsID getTimeout ex acc branches taskID
          dependOn i coll
        = ((processStepRecursively.parallelBranches c dagInsID getTimeout ex acc branches taskID
            dependOn i []).1,
          coll ++ (processStepRecursively.parallelBranches c dagInsID getTimeout ex acc branches
            taskID dependOn i []).2)
  | [], acc, taskID, dependOn, i, coll => by
    simp [processStepRecursively.parallelBranches]
  | .mk _ steps :: rest, acc, taskID, dependOn, i, coll => by
    rw [parallelBranches_cons, parallelBranches_cons,
      parallelBranches_coll c dagInsID getTimeout ex rest _ taskID dependOn (i + 1) (coll ++ _),
      parallelBranches_coll c dagInsID getTimeout ex rest _ taskID dependOn (i + 1) ([] ++ _)]
    simp only [List.nil_append, List.append_assoc]

/-- The branch loop of the parallel case on two runs of branches, one after the other. -/
theorem parallelBranches_append (c : Common) (dagInsID : String) (getTimeout : String → Int)
    (ex : List String) (post : List Branch) :
    ∀ (pre : List Branch) (acc : List TaskInstance) (taskID : String)
      (dependOn : List String) (i : Nat) (coll : List String),
      processStepRecursively.parallelBranches c dagInsID getTimeout ex acc (pre ++ post) taskID
          dependOn i coll
        = processStepRecursively.parallelBranches c dagInsID getTimeout ex
            (processStepRecursively.parallelBranches c dagInsID getTimeout ex acc pre taskID
              dependOn i coll).1
            post taskID dependOn (i + pre.length)
            (processStepRecursively.parallelBranches c dagInsID getTimeout ex acc pre taskID
              dependOn i coll).2
  | [], acc, taskID, dependOn, i, coll => by
    simp [processStepRecursively.parallelBranches]
  | .mk _ steps :: rest, acc, taskID, dependOn, i, coll => by
    rw [List.cons_append, parallelBranches_cons, parallelBranches_cons,
      parallelBranches_append c dagInsID getTimeout ex post rest]
    simp only [List.length_cons]
    rw [show i + 1 + rest.length = i + (rest.length + 1) by omega]

/-- The branch loop of the conditional case appends to the terminal IDs collected so far. -/
theorem condBranches_coll (c : Common) (dagInsID : String) (getTimeout : String → Int)
    (ex : List String) :
    ∀ (branches : List Branch) (acc : List TaskInstance) (taskID : String)
      (i : Nat) (coll : List String),
      processStepRecursively.condBranches c dagInsID getTimeout ex acc branches taskID i coll
        = ((processStepRecursively.condBranches c dagInsID getTimeout ex acc branches taskID
            i []).1,
          coll ++ (processStepRecursively.condBranches c dagInsID getTimeout ex acc branches
            taskID i []).2)
  | [], acc, taskID, i, coll => by
    simp [processStepRecursively.condBranches]
  | .mk _ steps :: rest, acc, taskID, i, coll => by
    rw [condBranches_cons, condBranches_cons,
      condBranches_coll c dagInsID getTimeout ex rest _ taskID (i + 1) (coll ++ _),
      condBranches_coll c dagInsID getTimeout ex rest _ taskID (i + 1) ([] ++ _)]
    simp only [List.nil_append, List.append_assoc]

/-- The branch loop of the conditional case on two runs of branches, one after the other. -/
theorem condBranches_append (c : Common) (dagInsID : String) (getTimeout : String → Int)
    (ex : List String) (post : List Branch) :
    ∀ (pre : List Branch) (acc : List TaskInstance) (taskID : String)
      (i : Nat) (coll : List String),
      processStepRecursively.condBranches c dagInsID getTimeout ex acc (pre ++ post) taskID
          i coll
        = processStepRecursively.condBranches c dagInsID getTimeout ex
            (processStepRecursively.condBranches c dagInsID getTimeout ex acc pre taskID
              i coll).1
            post taskID (i + pre.length)
            (processStepRecursively.condBranches c dagInsID getTimeout ex acc pre taskID
              i coll).2
  | [], acc, taskID, i, coll => by
    simp [processStepRecursively.condBranches]
  | .mk _ steps :: rest, acc, taskID, i, coll => by
    rw [List.cons_append, condBranches_cons, condBranches_cons,
      condBranches_append c dagInsID getTimeout ex post rest]
    simp only [List.length_cons]
    rw [show i + 1 + rest.length = i + (rest.length + 1) by omega]

/-- C20, amended: an empty branch is a pass-through of `processStepRecursively`.
Let a parallel or conditional step have an empty branch between the branches
`pre` and `post`.  The task list that the branches `pre` leave is the one the
branches `post` start from, so no task is created for the empty branch, and
the terminal IDs returned are those of `pre`, then the dependency with which
the empty branch starts, unchanged, then those of `post`.  For a parallel step
that dependency is the list `dependOn` that entered the step; for a
conditional step it is the ID of the step's own task, with which every branch
of a conditional step starts. -/
theorem empty_branch_passes_through (c : Common) (dagInsID : String)
    (getTimeout : String → Int) (ex : List String) (acc : List TaskInstance)
    (id title : String) (params : Dict) (pre post : List Branch) (conds : List Value)
    (taskID : String) (dependOn : List String) :
    (let r1 := processStepRecursively.parallelBranches c dagInsID getTimeout ex acc pre taskID
        dependOn 0 []
      let r2 := processStepRecursively.parallelBranches c dagInsID getTimeout ex r1.1 post
        taskID dependOn (pre.length + 1) []
      processStepRecursively c dagInsID getTimeout ex acc
          (.mk id title c.ControlFlowParallel params (pre ++ .mk conds [] :: post)) taskID
          dependOn
        = (r2.1, r1.2 ++ dependOn ++ r2.2)) ∧
    (c.BranchOpt ≠ c.ControlFlowParallel →
      let branchTask := NewTaskInstance dagInsID
        { ID := taskID, ActionName := c.BranchOpt, DependOn := dependOn, Params := params,
          TimeoutSecs := getTimeout c.BranchOpt, Name := title }
      let r1 := processStepRecursively.condBranches c dagInsID getTimeout ex
        (acc ++ [branchTask]) pre taskID 0 []
      let r2 := processStepRecursively.condBranches c dagInsID getTimeout ex r1.1 post
        taskID (pre.length + 1) []
      processStepRecursively c dagInsID getTimeout ex acc
          (.mk id title c.BranchOpt params (pre ++ .mk conds [] :: post)) taskID dependOn
        = (r2.1, r1.2 ++ [taskID] ++ r2.2)) := by
  constructor
  · intro r1 r2
    unfold processStepRecursively
    simp only [if_true]
    rw [parallelBranches_append, parallelBranches_cons]
    simp only [processStepRecursively.parallelSteps, Nat.zero_add]
    rw [parallelBranches_coll c dagInsID getTimeout ex post]
  · intro hne branchTask r1 r2
    unfold processStepRecursively
    simp only [hne, if_false, if_true]
    rw [condBranches_append, condBranches_cons]
    simp only [processStepRecursively.condSteps, Nat.zero_add]
    rw [condBranches_coll c dagInsID getTimeout ex post]
    simp only [List.length_append, List.length_cons, List.length_nil]
    rw [if_neg (by omega)]

/-- Witness of the amended C20: the parallel step `P` with the branches `[x]`
and `[]` creates the task of `x` only and returns its ID and the entering
dependency `1`; the conditional step `C` with the same branches creates its
control task and the task of `x` and returns the ID of `x` and its own. -/
theorem empty_branch_passes_through_witness :
    (processStepRecursively sampleCommon "d" (fun _ => 30) [] [] sampleHalfParallel "1_i0_sP"
        ["1"]).2 = ["1_i0_sP_0_x", "1"] ∧
    (processStepRecursively sampleCommon "d" (fun _ => 30) [] [] sampleHalfCond "1_i0_sC"
        ["1"]).2 = ["1_i0_sC_0_x", "1_i0_sC"] :=
  ⟨(congrArg Prod.snd (empty_branch_passes_through sampleCommon "d" (fun _ => 30) [] [] "P"
      "fan out" [] [.mk [] [sampleStep "x"]] [] [] "1_i0_sP" ["1"]).1).trans (by decide),
    (congrArg Prod.snd ((empty_branch_passes_through sampleCommon "d" (fun _ => 30) [] [] "C"
      "choose" [] [.mk [.str "cond"] [sampleStep "x"]] [] [.str "else"] "1_i0_sC" ["1"]).2
      (by decide))).trans (by decide)⟩

/-- With a store that does not fail, an iteration that is not materialized, the
gate passed and string lists in ShareData, `GenerateIterationTasks` returns
the tasks of the body loop, followed by the new loop-control task when the
next iteration is within the limit and its loop-control task does not exist. -/
theorem generate_returns (c : Common) (env : Env) (e : LoopExecutor) (w : World)
    (hs : ∀ n, env.fails n = false)
    (hfresh : ∀ t ∈ w.tasks, t.DagInsID = e.dagIns.ID →
      strings.HasPrefix t.TaskID (currentIterPrefix e.loopParams) = false)
    (hgate : e.loopParams.CurrentIteration ≤ 0 ∨
      ∀ t ∈ w.tasks, t.DagInsID = e.dagIns.ID →
        strings.HasPrefix t.ID (prevIterPrefix e.loopParams) = true →
        t.Status = TaskInstanceStatusSuccess)
    (hsd : holdsTaskIDs e.dagIns.ShareData) :
    (GenerateIterationTasks c env e w).1
      = .ret ⟨some (assignIDs env w.tasks.length
          ((GenerateIterationTasks.steps c e.loopParams e.dagIns.ID e.getTimeout
              ((w.tasks.filter (fun t => t.DagInsID = e.dagIns.ID)).map (fun t => t.ID))
              e.loopParams.Steps none [] []).1 ++
            if (e.loopParams.CurrentIteration + 1 ≤ e.loopParams.Limit ∨
                e.loopParams.CurrentIteration + 1
                  ≤ ((e.loopParams.Array.getD []).length : Int)) ∧
                (w.tasks.filter (fun t => t.DagInsID = e.dagIns.ID)).any
                  (fun t => t.TaskID = baseTaskID e.loopParams ++ "_i"
                    ++ toString (e.loopParams.CurrentIteration + 1)) = false then
              [newLoopTask c e.loopParams e.dagIns.ID
                (w.tasks.find? (fun t => t.ID = e.loopParams.LoopControlID))
                (GenerateIterationTasks.steps c e.loopParams e.dagIns.ID e.getTimeout
                  ((w.tasks.filter (fun t => t.DagInsID = e.dagIns.ID)).map (fun t => t.ID))
                  e.loopParams.Steps none [] []).2]
            else [])), none⟩ := by
  have hany : (w.tasks.filter (fun t => t.DagInsID = e.dagIns.ID)).any
      (fun t => strings.HasPrefix t.TaskID (currentIterPrefix e.loopParams)) = false := by
    rw [List.any_eq_false]
    intro t ht
    have hm := List.mem_filter.mp ht
    simp [hfresh t hm.1 (by simpa using hm.2)]
  have hg : ¬ (e.loopParams.CurrentIteration > 0 ∧
      ¬ ((w.tasks.filter (fun t => t.DagInsID = e.dagIns.ID)).filter
          (fun t => strings.HasPrefix t.ID (prevIterPrefix e.loopParams))).all
        (fun t => t.Status = TaskInstanceStatusSuccess) = true) := by
    rintro ⟨hpos, hnot⟩
    rcases hgate with h0 | hall
    · omega
    · apply hnot
      rw [List.all_eq_true]
      intro t ht
      have hm := List.mem_filter.mp ht
      have hm2 := List.mem_filter.mp hm.1
      simpa using hall t hm2.1 (by simpa using hm2.2) hm.2
  unfold GenerateIterationTasks
  simp only [ListTaskInstance, hs, Bool.false_eq_true, if_false]
  rw [if_neg (by simpa using hany), if_neg hg]
  rw [next_returns c env _ _ _ _ _ hs
    (holdsTaskIDs_set _ _ _ hsd (by intro x hx; simp [dependentTasksList] at hx))]
  simp only [World.log]

/-- A decimal digit as a character is a digit of `0` to `9`. -/
theorem digitChar_isDigit (d : Nat) (h : d < 10) : (Nat.digitChar d).isDigit = true := by
  interval_cases d <;> decide

/-- Distinct decimal digits are distinct characters. -/
theorem digitChar_inj (d e : Nat) (hd : d < 10) (he : e < 10)
    (h : Nat.digitChar d = Nat.digitChar e) : d = e := by
  interval_cases d <;> interval_cases e <;> first | rfl | (exact absurd h (by decide))

/-- The digits of a number are put in front of the digits collected so far, and with
enough fuel they do not depend on the fuel. -/
theorem toDigitsCore_eq (fuel : Nat) :
    ∀ (n : Nat) (ds : List Char), n < fuel →
      Nat.toDigitsCore 10 fuel n ds = Nat.toDigits 10 n ++ ds := by
  induction fuel using Nat.strong_induction_on with
  | _ fuel ih =>
    intro n ds hn
    cases fuel with
    | zero => omega
    | succ f =>
      unfold Nat.toDigits
      simp only [Nat.toDigitsCore]
      by_cases h0 : n / 10 = 0
      · simp [h0]
      · simp only [h0, if_false]
        have hlt : n / 10 < n := Nat.div_lt_self (by omega) (by decide)
        rw [ih f (Nat.lt_succ_self f) (n / 10) _ (by omega),
          ih n (by omega) (n / 10) _ hlt]
        simp

/-- The decimal digits of a number: those of its tenth, then its last digit. -/
theorem toDigits_eq (n : Nat) :
    Nat.toDigits 10 n
      = if n / 10 = 0 then [Nat.digitChar (n % 10)]
        else Nat.toDigits 10 (n / 10) ++ [Nat.digitChar (n % 10)] := by
  conv_lhs => unfold Nat.toDigits
  simp only [Nat.toDigitsCore]
  by_cases h0 : n / 10 = 0
  · simp [h0]
  · simp only [h0, if_false]
    exact toDigitsCore_eq n (n / 10) _ (Nat.div_lt_self (by omega) (by decide))

/-- The decimal digits of a number are digits. -/
theorem toDigits_isDigit (n : Nat) : ∀ c ∈ Nat.toDigits 10 n, c.isDigit = true := by
  induction n using Nat.strong_induction_on with
  | _ n ih =>
    intro c hc
    rw [toDigits_eq] at hc
    split at hc
    · rw [List.mem_singleton] at hc
      rw [hc]
      exact digitChar_isDigit _ (Nat.mod_lt _ (by decide))
    · rename_i h0
      rcases List.mem_append.mp hc with h | h
      · exact ih (n / 10) (Nat.div_lt_self (by omega) (by decide)) c h
      · rw [List.mem_singleton] at h
        rw [h]
        exact digitChar_isDigit _ (Nat.mod_lt _ (by decide))

/-- A number has at least one decimal digit. -/
theorem toDigits_ne_nil (n : Nat) : Nat.toDigits 10 n ≠ [] := by
  rw [toDigits_eq]
  split <;> simp

/-- Numbers with the same decimal digits are equal. -/
theorem toDigits_inj : ∀ n m : Nat, Nat.toDigits 10 n = Nat.toDigits 10 m → n = m := by
  intro n
  induction n using Nat.strong_induction_on with
  | _ n ih =>
    intro m h
    rw [toDigits_eq n, toDigits_eq m] at h
    have hn := Nat.div_add_mod n 10
    have hm := Nat.div_add_mod m 10
    by_cases h0 : n / 10 = 0 <;> by_cases h1 : m / 10 = 0
    · simp only [h0, h1, if_true, List.cons.injEq, and_true] at h
      have := digitChar_inj _ _ (Nat.mod_lt _ (by decide)) (Nat.mod_lt _ (by decide)) h
      omega
    · simp only [h0, h1, if_true, if_false] at h
      have hl := congrArg List.length h
      have hne := toDigits_ne_nil (m / 10)
      have : 0 < (Nat.toDigits 10 (m / 10)).length := List.length_pos.mpr hne
      simp only [List.length_append, List.length_singleton, List.length_cons,
        List.length_nil] at hl
      omega
    · simp only [h0, h1, if_true, if_false] at h
      have hl := congrArg List.length h
      have hne := toDigits_ne_nil (n / 10)
      have : 0 < (Nat.toDigits 10 (n / 10)).length := List.length_pos.mpr hne
      simp only [List.length_append, List.length_singleton, List.length_cons,
        List.length_nil] at hl
      omega
    · simp only [h0, h1, if_false] at h
      have h2 := List.append_inj' h rfl
      have hd := digitChar_inj _ _ (Nat.mod_lt _ (by decide)) (Nat.mod_lt _ (by decide))
        (by simpa using h2.2)
      have hq := ih (n / 10) (Nat.div_lt_self (by omega) (by decide)) (m / 10) h2.1
      omega

/-- The characters of a number printed by `%d` are digits. -/
theorem toString_nat_isDigit (n : Nat) : ∀ c ∈ (toString n).data, c.isDigit = true :=
  toDigits_isDigit n

/-- Distinct numbers are printed differently. -/
theorem toString_nat_inj (n m : Nat) (h : toString n = toString m) : n = m :=
  toDigits_inj n m (congrArg String.data h)

/-- An integer printed by `%d` holds no underscore. -/
theorem toString_int_no_underscore (i : Int) : '_' ∉ (toString i).data := by
  intro h
  cases i with
  | ofNat m =>
    have := toString_nat_isDigit m '_' h
    exact absurd this (by decide)
  | negSucc m =>
    have h2 : '_' ∈ '-' :: (toString (m + 1)).data := h
    rcases List.mem_cons.mp h2 with h3 | h3
    · exact absurd h3 (by decide)
    · exact absurd (toString_nat_isDigit (m + 1) '_' h3) (by decide)

/-- Distinct integers are printed differently. -/
theorem toString_int_inj (i j : Int) (h : toString i = toString j) : i = j := by
  have hd := congrArg String.data h
  cases i with
  | ofNat n =>
    cases j with
    | ofNat m =>
      have : n = m := toDigits_inj n m hd
      rw [this]
    | negSucc m =>
      exfalso
      have h2 : (toString n).data = '-' :: (toString (m + 1)).data := hd
      have hmem : '-' ∈ (toString n).data := by rw [h2]; exact List.mem_cons_self _ _
      exact absurd (toString_nat_isDigit n '-' hmem) (by decide)
  | negSucc n =>
    cases j with
    | ofNat m =>
      exfalso
      have h2 : '-' :: (toString (n + 1)).data = (toString m).data := hd
      have hmem : '-' ∈ (toString m).data := by rw [← h2]; exact List.mem_cons_self _ _
      exact absurd (toString_nat_isDigit m '-' hmem) (by decide)
    | negSucc m =>
      have h2 : '-' :: (toString (n + 1)).data = '-' :: (toString (m + 1)).data := hd
      have h3 : (toString (n + 1)).data = (toString (m + 1)).data := (List.cons.inj h2).2
      have : n + 1 = m + 1 := toDigits_inj _ _ h3
      have : n = m := by omega
      rw [this]


/-- Two words without underscore, each followed by nothing or by a part that
starts with an underscore, are equal when the whole strings are. -/
theorem split_at_underscore :
    ∀ (a b s t : List Char), '_' ∉ a → '_' ∉ b →
      (s = [] ∨ s.head? = some '_') → (t = [] ∨ t.head? = some '_') →
      a ++ s = b ++ t → a = b
  | [], [], _, _, _, _, _, _, _ => rfl
  | [], d :: b, s, t, _, hb, hs, _, h => by
    exfalso
    rw [List.nil_append] at h
    rcases hs with hs | hs
    · rw [hs] at h
      exact absurd h (by simp)
    · rw [h] at hs
      simp only [List.cons_append, List.head?_cons, Option.some.injEq] at hs
      exact hb (hs ▸ List.mem_cons_self _ _)
  | c :: a, [], s, t, ha, _, _, ht, h => by
    exfalso
    rw [List.nil_append] at h
    rcases ht with ht | ht
    · rw [ht] at h
      exact absurd h (by simp)
    · rw [← h] at ht
      simp only [List.cons_append, List.head?_cons, Option.some.injEq] at ht
      exact ha (ht ▸ List.mem_cons_self _ _)
  | c :: a, d :: b, s, t, ha, hb, hs, ht, h => by
    simp only [List.cons_append, List.cons.injEq] at h
    rw [h.1, split_at_underscore a b s t
      (fun hm => ha (List.mem_cons_of_mem _ hm)) (fun hm => hb (List.mem_cons_of_mem _ hm))
      hs ht h.2]

/-- The characters of a nested task ID. -/
theorem nestedID_data (p : String) (i : Nat) (s : String) :
    (nestedID p i s).data = p.data ++ '_' :: ((toString i).data ++ '_' :: s.data) := by
  unfold nestedID
  simp only [String.data_append, List.append_assoc]
  rfl

/-- The characters of the task ID of a body step. -/
theorem stepTaskID_data (p : LoopParameters) (s : String) :
    (stepTaskID p s).data
      = (baseTaskID p).data ++ '_' :: 'i' ::
          ((toString p.CurrentIteration).data ++ '_' :: 's' :: s.data) := by
  unfold stepTaskID
  simp only [String.data_append, List.append_assoc]
  rfl

/-- A step ID without underscore, as a statement on its characters. -/
theorem noUnderscore_iff (s : String) : noUnderscore s = true ↔ '_' ∉ s.data := by
  unfold noUnderscore
  simp

/-- A task ID extends itself. -/
theorem Extends.of_self (p : String) : Extends p p :=
  ⟨[], by simp, Or.inl rfl⟩

/-- What extends a nested task ID extends its parent. -/
theorem Extends.of_nested (p : String) (i : Nat) (s x : String)
    (h : Extends (nestedID p i s) x) : Extends p x := by
  obtain ⟨r, hr, _⟩ := h
  refine ⟨'_' :: ((toString i).data ++ '_' :: s.data) ++ r, ?_, Or.inr rfl⟩
  rw [hr, nestedID_data, List.append_assoc]

/-- What extends a nested task ID is not its parent. -/
theorem Extends.ne_parent (p : String) (i : Nat) (s x : String)
    (h : Extends (nestedID p i s) x) : x ≠ p := by
  obtain ⟨r, hr, _⟩ := h
  intro he
  rw [he, nestedID_data, List.append_assoc] at hr
  have := congrArg List.length hr
  simp at this

/-- Tasks below steps with different IDs of one branch have different IDs. -/
theorem Extends.ne_of_step (p : String) (i : Nat) (s1 s2 x y : String)
    (h1 : noUnderscore s1 = true) (h2 : noUnderscore s2 = true) (hne : s1 ≠ s2)
    (hx : Extends (nestedID p i s1) x) (hy : Extends (nestedID p i s2) y) : x ≠ y := by
  obtain ⟨r1, hr1, ht1⟩ := hx
  obtain ⟨r2, hr2, ht2⟩ := hy
  intro he
  rw [he, hr2, nestedID_data, nestedID_data] at hr1
  simp only [List.append_assoc, List.cons_append, List.append_cancel_left_eq,
    List.cons.injEq, true_and] at hr1
  have := split_at_underscore s2.data s1.data r2 r1 ((noUnderscore_iff _).mp h2)
    ((noUnderscore_iff _).mp h1) ht2 ht1 hr1
  exact hne (String.ext this).symm

/-- Tasks below different branches of a step have different IDs. -/
theorem Extends.ne_of_branch (p : String) (i j : Nat) (s1 s2 x y : String) (hne : i ≠ j)
    (hx : Extends (nestedID p i s1) x) (hy : Extends (nestedID p j s2) y) : x ≠ y := by
  obtain ⟨r1, hr1, _⟩ := hx
  obtain ⟨r2, hr2, _⟩ := hy
  intro he
  rw [he, hr2, nestedID_data, nestedID_data] at hr1
  simp only [List.append_assoc, List.cons_append, List.append_cancel_left_eq,
    List.cons.injEq, true_and] at hr1
  have hd : ∀ n : Nat, '_' ∉ (toString n).data := fun n hm =>
    absurd (toString_nat_isDigit n '_' hm) (by decide)
  have := split_at_underscore (toString j).data (toString i).data
    ('_' :: (s2.data ++ r2)) ('_' :: (s1.data ++ r1)) (hd j) (hd i)
    (Or.inr rfl) (Or.inr rfl) hr1
  exact hne (toString_nat_inj _ _ (String.ext this)).symm

/-- Tasks below body steps with different IDs have different IDs. -/
theorem Extends.ne_of_body_step (p : LoopParameters) (s1 s2 x y : String)
    (h1 : noUnderscore s1 = true) (h2 : noUnderscore s2 = true) (hne : s1 ≠ s2)
    (hx : Extends (stepTaskID p s1) x) (hy : Extends (stepTaskID p s2) y) : x ≠ y := by
  obtain ⟨r1, hr1, ht1⟩ := hx
  obtain ⟨r2, hr2, ht2⟩ := hy
  intro he
  rw [he, hr2, stepTaskID_data, stepTaskID_data] at hr1
  simp only [List.append_assoc, List.cons_append, List.append_cancel_left_eq,
    List.cons.injEq, true_and] at hr1
  have := split_at_underscore s2.data s1.data r2 r1 ((noUnderscore_iff _).mp h2)
    ((noUnderscore_iff _).mp h1) ht2 ht1 hr1
  exact hne (String.ext this).symm

/-- A task below a body step is not the loop-control task of the next
iteration, and its ID is not empty. -/
theorem Extends.ne_control (p : LoopParameters) (s x : String)
    (hx : Extends (stepTaskID p s) x) :
    x ≠ baseTaskID p ++ "_i" ++ toString (p.CurrentIteration + 1) ∧ x ≠ "" := by
  obtain ⟨r, hr, _⟩ := hx
  constructor
  · intro he
    have hd : (baseTaskID p ++ "_i" ++ toString (p.CurrentIteration + 1)).data
        = (baseTaskID p).data ++ '_' :: 'i' :: (toString (p.CurrentIteration + 1)).data := by
      simp only [String.data_append, List.append_assoc]
      rfl
    rw [he, hd, stepTaskID_data] at hr
    simp only [List.append_assoc, List.cons_append, List.append_cancel_left_eq,
      List.cons.injEq, true_and] at hr
    have := split_at_underscore (toString (p.CurrentIteration + 1)).data
      (toString p.CurrentIteration).data [] ('_' :: 's' :: (s.data ++ r))
      (toString_int_no_underscore _)
      (toString_int_no_underscore _) (Or.inl rfl) (Or.inr rfl) (by simpa using hr)
    have := toString_int_inj _ _ (String.ext this)
    omega
  · intro he
    rw [he, stepTaskID_data] at hr
    have := congrArg List.length hr
    simp only [List.length_append, List.length_cons] at this
    have h0 : ("".data).length = 0 := rfl
    rw [h0] at this
    omega

/-- Nothing added. -/
theorem AddsDistinct.of_nothing (acc : List TaskInstance) (P : String → Prop) :
    AddsDistinct acc acc P :=
  ⟨[], by simp, List.nodup_nil, fun _ h => absurd h (List.not_mem_nil _)⟩

/-- One task added. -/
theorem AddsDistinct.single (acc : List TaskInstance) (t : TaskInstance) (P : String → Prop)
    (h : P t.TaskID) : AddsDistinct acc (acc ++ [t]) P :=
  ⟨[t.TaskID], by simp, List.nodup_singleton _, fun x hx => by
    rw [List.mem_singleton] at hx
    rw [hx]
    exact h⟩

/-- A weaker property of the added TaskIDs. -/
theorem AddsDistinct.mono {acc ts : List TaskInstance} {P Q : String → Prop}
    (h : AddsDistinct acc ts P) (hpq : ∀ x, P x → Q x) : AddsDistinct acc ts Q := by
  obtain ⟨new, h1, h2, h3⟩ := h
  exact ⟨new, h1, h2, fun x hx => hpq x (h3 x hx)⟩

/-- Only the TaskIDs of the result count. -/
theorem AddsDistinct.congr {acc ts ts2 : List TaskInstance} {P : String → Prop}
    (h : AddsDistinct acc ts P)
    (he : ts2.map TaskInstance.TaskID = ts.map TaskInstance.TaskID) :
    AddsDistinct acc ts2 P := by
  obtain ⟨new, h1, h2, h3⟩ := h
  exact ⟨new, he.trans h1, h2, h3⟩

/-- Two additions in a row whose TaskIDs cannot meet. -/
theorem AddsDistinct.trans {acc mid ts : List TaskInstance} {P Q : String → Prop}
    (h1 : AddsDistinct acc mid P) (h2 : AddsDistinct mid ts Q)
    (hd : ∀ x y, P x → Q y → x ≠ y) : AddsDistinct acc ts (fun x => P x ∨ Q x) := by
  obtain ⟨n1, e1, d1, p1⟩ := h1
  obtain ⟨n2, e2, d2, p2⟩ := h2
  refine ⟨n1 ++ n2, ?_, ?_, ?_⟩
  · rw [e2, e1, List.append_assoc]
  · refine List.Nodup.append d1 d2 ?_
    intro x hx1 hx2
    exact hd x x (p1 x hx1) (p2 x hx2) rfl
  · intro x hx
    rcases List.mem_append.mp hx with hx | hx
    · exact Or.inl (p1 x hx)
    · exact Or.inr (p2 x hx)

/-- A well-named step has an ID without underscore. -/
theorem wellNamedStep_noUnderscore (s : Step) (h : wellNamedStep s = true) :
    noUnderscore s.ID = true := by
  cases s with
  | mk id title op params branches =>
    rw [wellNamedStep] at h
    simp only [Bool.and_eq_true] at h
    exact h.1

/-- The steps of a well-named list have IDs without underscore. -/
theorem wellNamedSteps_mem :
    ∀ (steps : List Step), wellNamedSteps steps = true →
      ∀ s ∈ steps, noUnderscore s.ID = true
  | [], _, s, hs => absurd hs (List.not_mem_nil _)
  | t :: rest, h, s, hs => by
    rw [wellNamedSteps] at h
    simp only [Bool.and_eq_true] at h
    rcases List.mem_cons.mp hs with he | hm
    · rw [he]
      exact wellNamedStep_noUnderscore t h.1
    · exact wellNamedSteps_mem rest h.2 s hm

mutual
/-- The tasks that a well-named step adds have pairwise distinct TaskIDs under
the task ID of the step. -/
theorem processStep_distinct (c : Common) (dagInsID : String)
    (getTimeout : String → Int) (ex : List String) :
    ∀ (step : Step) (acc : List TaskInstance) (taskID : String) (dependOn : List String),
      wellNamedStep step = true →
      AddsDistinct acc
        (processStepRecursively c dagInsID getTimeout ex acc step taskID dependOn).1
        (Extends taskID)
  | .mk _ title op params branches, acc, taskID, dependOn, h => by
    rw [wellNamedStep] at h
    simp only [Bool.and_eq_true] at h
    unfold processStepRecursively
    split
    · exact (parallelBranches_distinct c dagInsID getTimeout ex branches acc taskID dependOn 0 []
        h.2).mono (fun x hx => by
          obtain ⟨j, s, _, hx⟩ := hx
          exact hx.of_nested)
    · split
      · have h1 : AddsDistinct acc (acc ++ [NewTaskInstance dagInsID
            { ID := taskID, ActionName := c.BranchOpt, DependOn := dependOn, Params := params,
              TimeoutSecs := getTimeout c.BranchOpt, Name := title }]) (fun x => x = taskID) :=
          AddsDistinct.single acc _ _ rfl
        have h2 := condBranches_distinct c dagInsID getTimeout ex branches
          (acc ++ [NewTaskInstance dagInsID
            { ID := taskID, ActionName := c.BranchOpt, DependOn := dependOn, Params := params,
              TimeoutSecs := getTimeout c.BranchOpt, Name := title }]) taskID 0 [] h.2
        have h3 : AddsDistinct acc
            (processStepRecursively.condBranches c dagInsID getTimeout ex
              (acc ++ [NewTaskInstance dagInsID
                { ID := taskID, ActionName := c.BranchOpt, DependOn := dependOn,
                  Params := params, TimeoutSecs := getTimeout c.BranchOpt, Name := title }])
              branches taskID 0 []).1 (Extends taskID) :=
          (h1.trans h2 (fun x y hx hy => by
          obtain ⟨j, s, _, hy⟩ := hy
          rw [hx]
          exact (hy.ne_parent).symm)).mono (fun x hx => by
            rcases hx with hx | hx
            · rw [hx]
              exact Extends.of_self taskID
            · obtain ⟨j, s, _, hx⟩ := hx
              exact hx.of_nested)
        simp only []
        split
        · exact h3
        · exact h3
      · exact AddsDistinct.single acc _ _ (Extends.of_self taskID)
/-- The tasks that the well-named branches of a parallel step add have
pairwise distinct TaskIDs under the branches from `i` on. -/
theorem parallelBranches_distinct (c : Common) (dagInsID : String)
    (getTimeout : String → Int) (ex : List String) :
    ∀ (branches : List Branch) (acc : List TaskInstance) (taskID : String)
      (dependOn : List String) (i : Nat) (coll : List String),
      wellNamedBranches branches = true →
      AddsDistinct acc
        (processStepRecursively.parallelBranches c dagInsID getTimeout ex acc branches taskID
          dependOn i coll).1
        (fun x => ∃ (j : Nat) (s : String), i ≤ j ∧ Extends (nestedID taskID j s) x)
  | [], acc, taskID, dependOn, i, coll, _ => by
    unfold processStepRecursively.parallelBranches
    exact AddsDistinct.of_nothing acc _
  | .mk _ steps :: rest, acc, taskID, dependOn, i, coll, h => by
    rw [wellNamedBranches] at h
    simp only [Bool.and_eq_true, decide_eq_true_eq] at h
    unfold processStepRecursively.parallelBranches
    have h1 := parallelSteps_distinct c dagInsID getTimeout ex steps acc taskID i dependOn 0
      dependOn h.1.1 h.1.2
    have h2 := parallelBranches_distinct c dagInsID getTimeout ex rest
      (processStepRecursively.parallelSteps c dagInsID getTimeout ex acc steps taskID i dependOn 0
        dependOn).1 taskID dependOn (i + 1)
      (coll ++ (processStepRecursively.parallelSteps c dagInsID getTimeout ex acc steps taskID i
        dependOn 0 dependOn).2) h.2
    exact (h1.trans h2 (fun x y hx hy => by
      obtain ⟨s, _, hx⟩ := hx
      obtain ⟨j, s2, hj, hy⟩ := hy
      exact Extends.ne_of_branch taskID i j s.ID s2 x y (by omega) hx hy)).mono
        (fun x hx => by
          rcases hx with hx | hx
          · obtain ⟨s, _, hx⟩ := hx
            exact ⟨i, s.ID, Nat.le_refl i, hx⟩
          · obtain ⟨j, s2, hj, hx⟩ := hx
            exact ⟨j, s2, by omega, hx⟩)
/-- The tasks that the well-named steps of a parallel branch add have pairwise
distinct TaskIDs under the steps of the branch. -/
theorem parallelSteps_distinct (c : Common) (dagInsID : String)
    (getTimeout : String → Int) (ex : List String) :
    ∀ (steps : List Step) (acc : List TaskInstance) (taskID : String) (i : Nat)
      (entry : List String) (j : Nat) (cur : List String),
      (steps.map Step.ID).Nodup → wellNamedSteps steps = true →
      AddsDistinct acc
        (processStepRecursively.parallelSteps c dagInsID getTimeout ex acc steps taskID i entry j
          cur).1
        (fun x => ∃ s ∈ steps, Extends (nestedID taskID i s.ID) x)
  | [], acc, taskID, i, entry, j, cur, _, _ => by
    unfold processStepRecursively.parallelSteps
    exact AddsDistinct.of_nothing acc _
  | step :: rest, acc, taskID, i, entry, j, cur, hnd, h => by
    rw [wellNamedSteps] at h
    simp only [Bool.and_eq_true] at h
    rw [List.map_cons, List.nodup_cons] at hnd
    unfold processStepRecursively.parallelSteps
    simp only []
    split
    · exact (parallelSteps_distinct c dagInsID getTimeout ex rest acc taskID i entry (j + 1) _
        hnd.2 h.2).mono (fun x hx => by
          obtain ⟨s, hs, hx⟩ := hx
          exact ⟨s, List.mem_cons_of_mem _ hs, hx⟩)
    · have h1 := processStep_distinct c dagInsID getTimeout ex step acc
        (nestedID taskID i step.ID) (if j = 0 then entry else cur) h.1
      have h2 := parallelSteps_distinct c dagInsID getTimeout ex rest
        (processStepRecursively c dagInsID getTimeout ex acc step (nestedID taskID i step.ID)
          (if j = 0 then entry else cur)).1 taskID i entry (j + 1)
        (if (processStepRecursively c dagInsID getTimeout ex acc step
            (nestedID taskID i step.ID) (if j = 0 then entry else cur)).2.length > 0 then
          (processStepRecursively c dagInsID getTimeout ex acc step
            (nestedID taskID i step.ID) (if j = 0 then entry else cur)).2
        else cur) hnd.2 h.2
      exact (h1.trans h2 (fun x y hx hy => by
        obtain ⟨s, hs, hy⟩ := hy
        exact Extends.ne_of_step taskID i step.ID s.ID x y
          (wellNamedStep_noUnderscore step h.1) (wellNamedSteps_mem rest h.2 s hs)
          (fun he => hnd.1 (he ▸ List.mem_map_of_mem Step.ID hs)) hx hy)).mono
          (fun x hx => by
            rcases hx with hx | hx
            · exact ⟨step, List.mem_cons_self _ _, hx⟩
            · obtain ⟨s, hs, hx⟩ := hx
              exact ⟨s, List.mem_cons_of_mem _ hs, hx⟩)
/-- The tasks that the well-named branches of a conditional step add have
pairwise distinct TaskIDs under the branches from `i` on. -/
theorem condBranches_distinct (c : Common) (dagInsID : String)
    (getTimeout : String → Int) (ex : List String) :
    ∀ (branches : List Branch) (acc : List TaskInstance) (taskID : String) (i : Nat)
      (coll : List String),
      wellNamedBranches branches = true →
      AddsDistinct acc
        (processStepRecursively.condBranches c dagInsID getTimeout ex acc branches taskID i
          coll).1
        (fun x => ∃ (j : Nat) (s : String), i ≤ j ∧ Extends (nestedID taskID j s) x)
  | [], acc, taskID, i, coll, _ => by
    unfold processStepRecursively.condBranches
    exact AddsDistinct.of_nothing acc _
  | .mk conditions steps :: rest, acc, taskID, i, coll, h => by
    rw [wellNamedBranches] at h
    simp only [Bool.and_eq_true, decide_eq_true_eq] at h
    unfold processStepRecursively.condBranches
    have h1 := condSteps_distinct c dagInsID getTimeout ex steps acc taskID i
      (buildPreChecks c taskID i conditions 0 []) [taskID] h.1.1 h.1.2
    have h2 := condBranches_distinct c dagInsID getTimeout ex rest
      (processStepRecursively.condSteps c dagInsID getTimeout ex acc steps taskID i
        (buildPreChecks c taskID i conditions 0 []) [taskID]).1 taskID (i + 1)
      (coll ++ (processStepRecursively.condSteps c dagInsID getTimeout ex acc steps taskID i
        (buildPreChecks c taskID i conditions 0 []) [taskID]).2) h.2
    exact (h1.trans h2 (fun x y hx hy => by
      obtain ⟨s, _, hx⟩ := hx
      obtain ⟨j, s2, hj, hy⟩ := hy
      exact Extends.ne_of_branch taskID i j s.ID s2 x y (by omega) hx hy)).mono
        (fun x hx => by
          rcases hx with hx | hx
          · obtain ⟨s, _, hx⟩ := hx
            exact ⟨i, s.ID, Nat.le_refl i, hx⟩
          · obtain ⟨j, s2, hj, hx⟩ := hx
            exact ⟨j, s2, by omega, hx⟩)
/-- The tasks that the well-named steps of a conditional branch add have
pairwise distinct TaskIDs under the steps of the branch. -/
theorem condSteps_distinct (c : Common) (dagInsID : String)
    (getTimeout : String → Int) (ex : List String) :
    ∀ (steps : List Step) (acc : List TaskInstance) (taskID : String) (i : Nat)
      (prechecks : PreChecks) (path : List String),
      (steps.map Step.ID).Nodup → wellNamedSteps steps = true →
      AddsDistinct acc
        (processStepRecursively.condSteps c dagInsID getTimeout ex acc steps taskID i prechecks
          path).1
        (fun x => ∃ s ∈ steps, Extends (nestedID taskID i s.ID) x)
  | [], acc, taskID, i, prechecks, path, _, _ => by
    unfold processStepRecursively.condSteps
    exact AddsDistinct.of_nothing acc _
  | step :: rest, acc, taskID, i, prechecks, path, hnd, h => by
    rw [wellNamedSteps] at h
    simp only [Bool.and_eq_true] at h
    rw [List.map_cons, List.nodup_cons] at hnd
    unfold processStepRecursively.condSteps
    simp only []
    split
    · exact (condSteps_distinct c dagInsID getTimeout ex rest acc taskID i prechecks _
        hnd.2 h.2).mono (fun x hx => by
          obtain ⟨s, hs, hx⟩ := hx
          exact ⟨s, List.mem_cons_of_mem _ hs, hx⟩)
    · have h1 := processStep_distinct c dagInsID getTimeout ex step acc
        (nestedID taskID i step.ID) path h.1
      have h1b : AddsDistinct acc
          (if (processStepRecursively c dagInsID getTimeout ex acc step
              (nestedID taskID i step.ID) path).1.length > 0 then
            setPreChecks (processStepRecursively c dagInsID getTimeout ex acc step
              (nestedID taskID i step.ID) path).1 (nestedID taskID i step.ID) prechecks
          else (processStepRecursively c dagInsID getTimeout ex acc step
              (nestedID taskID i step.ID) path).1)
          (Extends (nestedID taskID i step.ID)) := by
        split
        · exact h1.congr (setPreChecks_map_TaskID _ _ _)
        · exact h1
      have h2 := condSteps_distinct c dagInsID getTimeout ex rest
        (if (processStepRecursively c dagInsID getTimeout ex acc step
              (nestedID taskID i step.ID) path).1.length > 0 then
            setPreChecks (processStepRecursively c dagInsID getTimeout ex acc step
              (nestedID taskID i step.ID) path).1 (nestedID taskID i step.ID) prechecks
          else (processStepRecursively c dagInsID getTimeout ex acc step
              (nestedID taskID i step.ID) path).1) taskID i prechecks
        (if (processStepRecursively c dagInsID getTimeout ex acc step
            (nestedID taskID i step.ID) path).2.length > 0 then
          (processStepRecursively c dagInsID getTimeout ex acc step
            (nestedID taskID i step.ID) path).2
        else path) hnd.2 h.2
      exact (h1b.trans h2 (fun x y hx hy => by
        obtain ⟨s, hs, hy⟩ := hy
        exact Extends.ne_of_step taskID i step.ID s.ID x y
          (wellNamedStep_noUnderscore step h.1) (wellNamedSteps_mem rest h.2 s hs)
          (fun he => hnd.1 (he ▸ List.mem_map_of_mem Step.ID hs)) hx hy)).mono
          (fun x hx => by
            rcases hx with hx | hx
            · exact ⟨step, List.mem_cons_self _ _, hx⟩
            · obtain ⟨s, hs, hx⟩ := hx
              exact ⟨s, List.mem_cons_of_mem _ hs, hx⟩)
end

/-- The tasks that the body loop adds for a well-named body have pairwise
distinct TaskIDs under the task IDs of the body steps. -/
theorem steps_distinct (c : Common) (p : LoopParameters) (dagInsID : String)
    (getTimeout : String → Int) (ex : List String) :
    ∀ (steps : List Step) (prev : Option Step) (acc : List TaskInstance) (last : List String),
      (steps.map Step.ID).Nodup → wellNamedSteps steps = true →
      AddsDistinct acc
        (GenerateIterationTasks.steps c p dagInsID getTimeout ex steps prev acc last).1
        (fun x => ∃ s ∈ steps, Extends (stepTaskID p s.ID) x)
  | [], prev, acc, last, _, _ => by
    unfold GenerateIterationTasks.steps
    exact AddsDistinct.of_nothing acc _
  | step :: rest, prev, acc, last, hnd, h => by
    rw [wellNamedSteps] at h
    simp only [Bool.and_eq_true] at h
    rw [List.map_cons, List.nodup_cons] at hnd
    unfold GenerateIterationTasks.steps
    simp only []
    split
    · exact (steps_distinct c p dagInsID getTimeout ex rest (some step) acc _
        hnd.2 h.2).mono (fun x hx => by
          obtain ⟨s, hs, hx⟩ := hx
          exact ⟨s, List.mem_cons_of_mem _ hs, hx⟩)
    · have h1 := processStep_distinct c dagInsID getTimeout ex step acc
        (stepTaskID p step.ID) (stepDependOn c p prev) h.1
      have h2 := steps_distinct c p dagInsID getTimeout ex rest (some step)
        (processStepRecursively c dagInsID getTimeout ex acc step (stepTaskID p step.ID)
          (stepDependOn c p prev)).1
        (processStepRecursively c dagInsID getTimeout ex acc step (stepTaskID p step.ID)
          (stepDependOn c p prev)).2 hnd.2 h.2
      exact (h1.trans h2 (fun x y hx hy => by
        obtain ⟨s, hs, hy⟩ := hy
        exact Extends.ne_of_body_step p step.ID s.ID x y
          (wellNamedStep_noUnderscore step h.1) (wellNamedSteps_mem rest h.2 s hs)
          (fun he => hnd.1 (he ▸ List.mem_map_of_mem Step.ID hs)) hx hy)).mono
          (fun x hx => by
            rcases hx with hx | hx
            · exact ⟨step, List.mem_cons_self _ _, hx⟩
            · obtain ⟨s, hs, hx⟩ := hx
              exact ⟨s, List.mem_cons_of_mem _ hs, hx⟩)

/-- The TaskID of the new loop-control task: that of the next iteration, or
none when the current loop-control task is not found. -/
theorem newLoopTask_TaskID (c : Common) (p : LoopParameters) (dagInsID : String)
    (found : Option TaskInstance) (last : List String) :
    (newLoopTask c p dagInsID found last).TaskID = "" ∨
    (newLoopTask c p dagInsID found last).TaskID
      = baseTaskID p ++ "_i" ++ toString (p.CurrentIteration + 1) := by
  unfold newLoopTask
  cases found with
  | none => exact Or.inl rfl
  | some t => exact Or.inr rfl

/-- The tasks of a well-named body and the new loop-control task have pairwise
distinct TaskIDs. -/
theorem body_and_control_distinct (c : Common) (p : LoopParameters) (dagInsID : String)
    (getTimeout : String → Int) (ex : List String) (found : Option TaskInstance)
    (last : List String) (h : wellNamedBody p.Steps = true) :
    (((GenerateIterationTasks.steps c p dagInsID getTimeout ex p.Steps none [] []).1
        ++ [newLoopTask c p dagInsID found last]).map TaskInstance.TaskID).Nodup := by
  unfold wellNamedBody at h
  simp only [Bool.and_eq_true, decide_eq_true_eq] at h
  obtain ⟨new, h1, h2, h3⟩ := steps_distinct c p dagInsID getTimeout ex p.Steps none [] []
    h.1 h.2
  rw [List.map_append, h1]
  simp only [List.map_nil, List.nil_append, List.map_cons]
  refine List.Nodup.append h2 (List.nodup_singleton _) ?_
  intro x hx hx2
  rw [List.mem_singleton] at hx2
  obtain ⟨s, _, hs⟩ := h3 x hx
  have hne := Extends.ne_control p s.ID x hs
  rcases newLoopTask_TaskID c p dagInsID found last with he | he
  · exact hne.2 (hx2.trans he)
  · exact hne.1 (hx2.trans he)

/-- The store's identity assignment keeps the TaskIDs. -/
theorem assignIDs_map_TaskID (env : Env) :
    ∀ (n : Nat) (ts : List TaskInstance),
      (assignIDs env n ts).map TaskInstance.TaskID = ts.map TaskInstance.TaskID
  | _, [] => rfl
  | n, t :: rest => by
    unfold assignIDs
    rw [List.map_cons, List.map_cons, assignIDs_map_TaskID env (n + 1) rest]
    split <;> rfl

/-- The last part of `GenerateIterationTasks` returns nothing or the collected
tasks with their TaskIDs. -/
theorem finish_returned_ids (env : Env) (e : LoopExecutor) (w : World)
    (taskInstances : List TaskInstance) (lastTaskIDs : List String) :
    (returnedTasks (GenerateIterationTasks.finish env e w taskInstances lastTaskIDs)).map
        TaskInstance.TaskID = [] ∨
    (returnedTasks (GenerateIterationTasks.finish env e w taskInstances lastTaskIDs)).map
        TaskInstance.TaskID = taskInstances.map TaskInstance.TaskID := by
  unfold GenerateIterationTasks.finish
  simp only []
  split
  · exact Or.inl rfl
  · cases hf : env.fails w.calls.length
    · right
      simp only [BatchCreateTaskIns, hf, Bool.false_eq_true, if_false, returnedTasks]
      exact assignIDs_map_TaskID env _ _
    · left
      simp only [BatchCreateTaskIns, hf, if_true, returnedTasks, List.map_nil]

/-- The scan of iteration 0 keeps the loop parameters and the DAG run. -/
theorem scan_keeps (env : Env) (e : LoopExecutor) (w : World) :
    (GenerateIterationTasks.scan env e w).1.loopParams = e.loopParams ∧
    (GenerateIterationTasks.scan env e w).1.dagIns.ID = e.dagIns.ID := by
  unfold GenerateIterationTasks.scan
  split
  · simp only []
    split
    · exact ⟨rfl, rfl⟩
    · split
      · exact ⟨rfl, rfl⟩
      · exact ⟨rfl, rfl⟩
  · exact ⟨rfl, rfl⟩

/-- The part of `GenerateIterationTasks` after the body loop returns nothing,
the body tasks, or the body tasks followed by a new loop-control task. -/
theorem next_returned_ids (c : Common) (env : Env) (e : LoopExecutor) (w : World)
    (existingTasks taskInstances : List TaskInstance) (lastTaskIDs : List String) :
    (returnedTasks (GenerateIterationTasks.next c env e w existingTasks taskInstances
        lastTaskIDs)).map TaskInstance.TaskID = [] ∨
    (returnedTasks (GenerateIterationTasks.next c env e w existingTasks taskInstances
        lastTaskIDs)).map TaskInstance.TaskID = taskInstances.map TaskInstance.TaskID ∨
    ∃ found, (returnedTasks (GenerateIterationTasks.next c env e w existingTasks taskInstances
        lastTaskIDs)).map TaskInstance.TaskID
      = (taskInstances ++ [newLoopTask c e.loopParams e.dagIns.ID found lastTaskIDs]).map
          TaskInstance.TaskID := by
  have hp := (scan_keeps env e w).1
  have hid := (scan_keeps env e w).2
  unfold GenerateIterationTasks.next
  simp only [hp, hid]
  split
  · split
    · rcases finish_returned_ids env (GenerateIterationTasks.scan env e w).1
        (GenerateIterationTasks.scan env e w).2 taskInstances lastTaskIDs with h | h
      · exact Or.inl h
      · exact Or.inr (Or.inl h)
    · split
      · rcases finish_returned_ids env (GenerateIterationTasks.scan env e w).1
          (GetTaskIns env (GenerateIterationTasks.scan env e w).2 e.loopParams.LoopControlID).2
          (taskInstances ++ [newLoopTask c e.loopParams e.dagIns.ID
            (GetTaskIns env (GenerateIterationTasks.scan env e w).2
              e.loopParams.LoopControlID).1 lastTaskIDs]) lastTaskIDs with h | h
        · exact Or.inl h
        · exact Or.inr (Or.inr ⟨_, h⟩)
      · split
        · exact Or.inl rfl
        · rename_i hrw
          rcases finish_returned_ids env (GenerateIterationTasks.scan env e w).1
            (retroWire env e.loopParams.LoopTaskID
              (newLoopTask c e.loopParams e.dagIns.ID
                (GetTaskIns env (GenerateIterationTasks.scan env e w).2
                  e.loopParams.LoopControlID).1 lastTaskIDs).TaskID
              (dependentTasksList _)
              (GetTaskIns env (GenerateIterationTasks.scan env e w).2
                e.loopParams.LoopControlID).2).2
            (taskInstances ++ [newLoopTask c e.loopParams e.dagIns.ID
              (GetTaskIns env (GenerateIterationTasks.scan env e w).2
                e.loopParams.LoopControlID).1 lastTaskIDs]) lastTaskIDs with h | h
          · exact Or.inl h
          · exact Or.inr (Or.inr ⟨_, h⟩)
  · rcases finish_returned_ids env (GenerateIterationTasks.scan env e w).1
      (GenerateIterationTasks.scan env e w).2 taskInstances lastTaskIDs with h | h
    · exact Or.inl h
    · exact Or.inr (Or.inl h)

/-- What `GenerateIterationTasks` returns: nothing, the tasks of the body loop,
or these followed by a new loop-control task. -/
theorem generate_returned_ids (c : Common) (env : Env) (e : LoopExecutor) (w : World) :
    (returnedTasks (GenerateIterationTasks c env e w)).map TaskInstance.TaskID = [] ∨
    ∃ (ex : List String),
      (returnedTasks (GenerateIterationTasks c env e w)).map TaskInstance.TaskID
        = (GenerateIterationTasks.steps c e.loopParams e.dagIns.ID e.getTimeout ex
            e.loopParams.Steps none [] []).1.map TaskInstance.TaskID ∨
      ∃ found,
        (returnedTasks (GenerateIterationTasks c env e w)).map TaskInstance.TaskID
          = ((GenerateIterationTasks.steps c e.loopParams e.dagIns.ID e.getTimeout ex
              e.loopParams.Steps none [] []).1 ++
            [newLoopTask c e.loopParams e.dagIns.ID found
              (GenerateIterationTasks.steps c e.loopParams e.dagIns.ID e.getTimeout ex
                e.loopParams.Steps none [] []).2]).map TaskInstance.TaskID := by
  unfold GenerateIterationTasks
  simp only []
  split
  · exact Or.inl rfl
  · rename_i existingTasks _
    split
    · exact Or.inl rfl
    · split
      · exact Or.inl rfl
      · rcases next_returned_ids c env
          { e with dagIns := { e.dagIns with
              ShareData := e.dagIns.ShareData.set
                (loopKeyPrefix e.loopParams ++ "current_iteration")
                (.int e.loopParams.CurrentIteration) } }
          (ListTaskInstance env
            { w with generations := w.generations ++ [e.loopParams.CurrentIteration] }
            e.dagIns.ID).2 existingTasks
          (GenerateIterationTasks.steps c e.loopParams e.dagIns.ID e.getTimeout
            (existingTasks.map (fun t => t.ID)) e.loopParams.Steps none [] []).1
          (GenerateIterationTasks.steps c e.loopParams e.dagIns.ID e.getTimeout
            (existingTasks.map (fun t => t.ID)) e.loopParams.Steps none [] []).2 with h | h | h
        · exact Or.inl h
        · exact Or.inr ⟨_, Or.inl h⟩
        · obtain ⟨found, h⟩ := h
          exact Or.inr ⟨_, Or.inr ⟨found, h⟩⟩

/-- C17: per-iteration tasks are uniquely identified.  For every loop body in
which the steps of each step list, the body and every branch at every depth,
have pairwise distinct IDs without underscore, the task instances that one
call of `GenerateIterationTasks` creates and returns have pairwise distinct
TaskIDs; and whatever tasks the store holds and whatever the lookup of the
current loop-control task finds, the body tasks and conditional control tasks
of the body loop together with the new loop-control task of the next
iteration, the list that the call hands to the store, have pairwise distinct
TaskIDs. -/
theorem iteration_task_ids_distinct (c : Common) (env : Env) (e : LoopExecutor) (w : World)
    (h : wellNamedBody e.loopParams.Steps = true) :
    ((returnedTasks (GenerateIterationTasks c env e w)).map TaskInstance.TaskID).Nodup ∧
    ∀ (ex : List String) (found : Option TaskInstance),
      (((GenerateIterationTasks.steps c e.loopParams e.dagIns.ID e.getTimeout ex
            e.loopParams.Steps none [] []).1 ++
          [newLoopTask c e.loopParams e.dagIns.ID found
            (GenerateIterationTasks.steps c e.loopParams e.dagIns.ID e.getTimeout ex
              e.loopParams.Steps none [] []).2]).map TaskInstance.TaskID).Nodup := by
  have hall : ∀ (ex : List String) (found : Option TaskInstance),
      (((GenerateIterationTasks.steps c e.loopParams e.dagIns.ID e.getTimeout ex
            e.loopParams.Steps none [] []).1 ++
          [newLoopTask c e.loopParams e.dagIns.ID found
            (GenerateIterationTasks.steps c e.loopParams e.dagIns.ID e.getTimeout ex
              e.loopParams.Steps none [] []).2]).map TaskInstance.TaskID).Nodup :=
    fun ex found => body_and_control_distinct c e.loopParams e.dagIns.ID e.getTimeout ex found _ h
  refine ⟨?_, hall⟩
  rcases generate_returned_ids c env e w with h0 | ⟨ex, h1 | ⟨found, h2⟩⟩
  · rw [h0]
    exact List.nodup_nil
  · rw [h1]
    have := hall ex none
    rw [List.map_append] at this
    exact (List.nodup_append.mp this).1
  · rw [h2]
    exact hall ex found

/-- Witness of C17: the body `[C, N]`, where the conditional step `C` holds
the parallel step `P` with the branches `[x]` and `[y]`, gives the control
task of `C`, the tasks of `x`, `y` and `N` and the loop-control task of the
next iteration under five different TaskIDs. -/
theorem iteration_task_ids_distinct_witness :
    wellNamedBody [sampleCond, sampleStep "N"] = true ∧
    (returnedTasks (GenerateIterationTasks sampleCommon sampleEnv
        (sampleExecutorOf [sampleCond, sampleStep "N"]) sampleFreshWorld)).map
        TaskInstance.TaskID
      = ["1_i0_sC", "1_i0_sC_0_P_0_x", "1_i0_sC_0_P_1_y", "1_i0_sN", "1_i1"] ∧
    ((returnedTasks (GenerateIterationTasks sampleCommon sampleEnv
        (sampleExecutorOf [sampleCond, sampleStep "N"]) sampleFreshWorld)).map
        TaskInstance.TaskID).Nodup :=
  ⟨by decide, by decide,
    (iteration_task_ids_distinct sampleCommon sampleEnv
      (sampleExecutorOf [sampleCond, sampleStep "N"]) sampleFreshWorld (by decide)).1⟩

/-- The loop over the branches of the last step concatenates the terminal IDs
of the branches, each under its index. -/
theorem getLoopLastTaskIDs_branches_eq (c : Common) (nestedParentID : String) :
    ∀ (branches : List Branch) (i : Nat),
      getLoopLastTaskIDs.branches c branches nestedParentID i
        = ((branches.enumFrom i).map
            (fun kb => getLoopLastTaskIDs c kb.2.Steps nestedParentID kb.1)).flatten
  | [], _ => by
    rw [getLoopLastTaskIDs.branches]
    rfl
  | .mk _ steps :: rest, i => by
    rw [getLoopLastTaskIDs.branches, getLoopLastTaskIDs_branches_eq c nestedParentID rest (i + 1)]
    rfl

/-- Only the last step of a step list matters. -/
theorem getLoopLastTaskIDs_append_last (c : Common) (lastStep : Step) (parentTaskID : String)
    (branchIndex : Nat) :
    ∀ (pre : List Step),
      getLoopLastTaskIDs c (pre ++ [lastStep]) parentTaskID branchIndex
        = getLoopLastTaskIDs.ofLast c lastStep parentTaskID branchIndex
  | [] => by
    rw [List.nil_append, getLoopLastTaskIDs]
  | [s] => by
    rw [List.singleton_append, getLoopLastTaskIDs, getLoopLastTaskIDs]
  | s :: t :: rest => by
    have ih := getLoopLastTaskIDs_append_last c lastStep parentTaskID branchIndex (t :: rest)
    rw [List.cons_append, List.cons_append, getLoopLastTaskIDs, ← List.cons_append]
    exact ih

/-- C22: `getLoopLastTaskIDs` is a total function on step trees that satisfies
its recursive definition.  It returns `[]` for the empty step list.  For a
list that ends in the step `L`, only `L` matters, with
`own = <parent>_<branchIndex>_<L.ID>`: if `L` is parallel the result is the
concatenation over the branches `k` of
`getLoopLastTaskIDs(branch_k.Steps, own, k)`; if `L` is conditional it is the
same concatenation, or `[own]` when the concatenation is empty; if `L` is
ordinary it is `[own]`. -/
theorem getLoopLastTaskIDs_recursive_definition (c : Common) (parentTaskID : String)
    (branchIndex : Nat) :
    getLoopLastTaskIDs c [] parentTaskID branchIndex = [] ∧
    ∀ (pre : List Step) (L : Step),
      let own := nestedID parentTaskID branchIndex L.ID
      let concat := (L.Branches.enum.map
        (fun kb => getLoopLastTaskIDs c kb.2.Steps own kb.1)).flatten
      getLoopLastTaskIDs c (pre ++ [L]) parentTaskID branchIndex
        = if L.Operator = c.ControlFlowParallel then concat
          else if L.Operator = c.BranchOpt then (if concat = [] then [own] else concat)
          else [own] := by
  refine ⟨by rw [getLoopLastTaskIDs], ?_⟩
  intro pre L
  rw [getLoopLastTaskIDs_append_last]
  cases L with
  | mk id title op params branches =>
    simp only [Step.ID, Step.Branches, Step.Operator, List.enum]
    rw [getLoopLastTaskIDs.ofLast, getLoopLastTaskIDs_branches_eq]
    by_cases hp : op = c.ControlFlowParallel
    · simp only [hp, if_true]
    · simp only [hp, if_false]
      by_cases hb : op = c.BranchOpt
      · simp only [hb, if_true, true_and]
        by_cases he : ((branches.enumFrom 0).map
            (fun kb => getLoopLastTaskIDs c kb.2.Steps
              (nestedID parentTaskID branchIndex id) kb.1)).flatten = []
        · rw [if_neg (by rw [he]; simp), if_pos he]
        · have hl : ((branches.enumFrom 0).map
              (fun kb => getLoopLastTaskIDs c kb.2.Steps
                (nestedID parentTaskID branchIndex id) kb.1)).flatten.length > 0 :=
            List.length_pos.mpr he
          rw [if_pos hl, if_neg he]
      · simp [hb]

/-- When the last part of `GenerateIterationTasks` returns created tasks, they
are the collected instances with store identities, and the last terminal ID
is recorded in the loop parameters and in ShareData. -/
theorem finish_created (env : Env) (e : LoopExecutor) (w : World)
    (taskInstances : List TaskInstance) (lastTaskIDs : List String) (ts : List TaskInstance)
    (h : (GenerateIterationTasks.finish env e w taskInstances lastTaskIDs).1
      = .ret { tasks := some ts, err := none }) (hne : ts ≠ []) :
    ts = assignIDs env w.tasks.length taskInstances ∧
    (GenerateIterationTasks.finish env e w taskInstances
        lastTaskIDs).2.1.loopParams.LastIterationTaskID = lastTaskIDs.getLast?.getD "" ∧
    (GenerateIterationTasks.finish env e w taskInstances lastTaskIDs).2.1.dagIns.ShareData.get
        (loopKeyPrefix e.loopParams ++ "last_iteration_task_id")
      = some (.str (lastTaskIDs.getLast?.getD "")) := by
  unfold GenerateIterationTasks.finish at h ⊢
  simp only [] at h ⊢
  by_cases hl : taskInstances.length = 0
  · rw [if_pos hl] at h
    simp only [Outcome.ret.injEq, GenReturn.mk.injEq, Option.some.injEq, and_true] at h
    exact absurd h.symm hne
  · rw [if_neg hl] at h ⊢
    cases hf : env.fails w.calls.length
    · simp only [BatchCreateTaskIns, hf, Bool.false_eq_true, if_false, Outcome.ret.injEq,
        GenReturn.mk.injEq, Option.some.injEq, and_true] at h ⊢
      exact ⟨h.symm, trivial, Dict.get_set_self _ _ _⟩
    · simp only [BatchCreateTaskIns, hf, if_true, Outcome.ret.injEq, GenReturn.mk.injEq,
        and_false] at h
      exact absurd h.1 (by simp)

/-- The new loop-control task carries the last terminal ID as its parameter
`last_iteration_task_id` and depends on all terminal IDs. -/
theorem newLoopTask_last (c : Common) (p : LoopParameters) (dagInsID : String)
    (found : Option TaskInstance) (lastTaskIDs : List String) :
    (newLoopTask c p dagInsID found lastTaskIDs).Params.get "last_iteration_task_id"
      = some (.str (lastTaskIDs.getLast?.getD "")) ∧
    (newLoopTask c p dagInsID found lastTaskIDs).DependOn = lastTaskIDs :=
  ⟨Dict.get_set_self _ _ _, rfl⟩

/-- The store's identity assignment changes the identities only. -/
theorem assignIDs_fields (env : Env) :
    ∀ (n : Nat) (ts : List TaskInstance),
      (assignIDs env n ts).map (fun t => { t with ID := "" })
        = ts.map (fun t => { t with ID := "" })
  | _, [] => rfl
  | n, t :: rest => by
    unfold assignIDs
    rw [List.map_cons, List.map_cons, assignIDs_fields env (n + 1) rest]
    split <;> rfl

/-- The part of `GenerateIterationTasks` after the body loop panics in the
retro-wiring or ends in its last part, with the body tasks or with the body
tasks followed by the new loop-control task. -/
theorem next_shape (c : Common) (env : Env) (e : LoopExecutor) (w : World)
    (existingTasks taskInstances : List TaskInstance) (lastTaskIDs : List String) :
    (∃ msg, (GenerateIterationTasks.next c env e w existingTasks taskInstances lastTaskIDs).1
      = .panic msg) ∨
    ∃ (w1 : World) (ctl : List TaskInstance),
      GenerateIterationTasks.next c env e w existingTasks taskInstances lastTaskIDs
        = GenerateIterationTasks.finish env (GenerateIterationTasks.scan env e w).1 w1
            (taskInstances ++ ctl) lastTaskIDs ∧
      (ctl = [] ∨ ∃ found, ctl = [newLoopTask c e.loopParams e.dagIns.ID found lastTaskIDs]) := by
  have hp := (scan_keeps env e w).1
  have hid := (scan_keeps env e w).2
  unfold GenerateIterationTasks.next
  simp only [hp, hid]
  split
  · split
    · exact Or.inr ⟨_, [], by rw [List.append_nil], Or.inl rfl⟩
    · split
      · exact Or.inr ⟨_, _, rfl, Or.inr ⟨_, rfl⟩⟩
      · split
        · exact Or.inl ⟨_, rfl⟩
        · exact Or.inr ⟨_, _, rfl, Or.inr ⟨_, rfl⟩⟩
  · exact Or.inr ⟨_, [], by rw [List.append_nil], Or.inl rfl⟩

/-- When the part of `GenerateIterationTasks` after the body loop returns
created tasks, they are the body tasks, followed by the new loop-control task
if one is made, and the last terminal ID is recorded. -/
theorem next_created (c : Common) (env : Env) (e : LoopExecutor) (w : World)
    (existingTasks taskInstances : List TaskInstance) (lastTaskIDs : List String)
    (ts : List TaskInstance)
    (h : (GenerateIterationTasks.next c env e w existingTasks taskInstances lastTaskIDs).1
      = .ret { tasks := some ts, err := none }) (hne : ts ≠ []) :
    (∃ (n : Nat) (ctl : List TaskInstance), ts = assignIDs env n (taskInstances ++ ctl) ∧
      (ctl = [] ∨ ∃ found, ctl = [newLoopTask c e.loopParams e.dagIns.ID found lastTaskIDs])) ∧
    (GenerateIterationTasks.next c env e w existingTasks taskInstances
        lastTaskIDs).2.1.loopParams.LastIterationTaskID = lastTaskIDs.getLast?.getD "" ∧
    (GenerateIterationTasks.next c env e w existingTasks taskInstances
        lastTaskIDs).2.1.dagIns.ShareData.get
        (loopKeyPrefix e.loopParams ++ "last_iteration_task_id")
      = some (.str (lastTaskIDs.getLast?.getD "")) := by
  have hp := (scan_keeps env e w).1
  rcases next_shape c env e w existingTasks taskInstances lastTaskIDs with ⟨msg, hm⟩ |
    ⟨w1, ctl, heq, hctl⟩
  · rw [hm] at h
    exact absurd h (by simp)
  · rw [heq] at h ⊢
    have hf := finish_created _ _ _ _ _ _ h hne
    rw [hp] at hf
    exact ⟨⟨_, ctl, hf.1, hctl⟩, hf.2⟩

/-- Only the last body step decides the terminal IDs of the body loop: they are
its task ID when a task is stored under it, else what its expansion returns. -/
theorem steps_terminal_of_last (c : Common) (p : LoopParameters) (dagInsID : String)
    (getTimeout : String → Int) (ex : List String) (L : Step) :
    ∀ (pre : List Step) (prev : Option Step) (acc : List TaskInstance) (last : List String),
      ∃ acc1 : List TaskInstance,
        (GenerateIterationTasks.steps c p dagInsID getTimeout ex (pre ++ [L]) prev acc last).2
          = if ex.contains (stepTaskID p L.ID) then [stepTaskID p L.ID]
            else (processStepRecursively c dagInsID getTimeout ex acc1 L (stepTaskID p L.ID)
              (stepDependOn c p ((pre.getLast?).orElse (fun _ => prev)))).2
  | [], prev, acc, last => by
    refine ⟨acc, ?_⟩
    rw [List.nil_append, GenerateIterationTasks.steps]
    simp only [List.getLast?_nil, Option.orElse]
    split
    · rw [GenerateIterationTasks.steps]
    · rw [GenerateIterationTasks.steps]
  | s :: rest, prev, acc, last => by
    rw [List.cons_append, GenerateIterationTasks.steps]
    simp only []
    have hl : ((s :: rest).getLast?).orElse (fun _ => prev)
        = (rest.getLast?).orElse (fun _ => some s) := by
      cases rest with
      | nil => rfl
      | cons t r =>
        rw [List.getLast?_cons_cons]
        cases hr : (t :: r).getLast? with
        | none => simp at hr
        | some x => rfl
    rw [hl]
    split
    · exact steps_terminal_of_last c p dagInsID getTimeout ex L rest (some s) acc _
    · exact steps_terminal_of_last c p dagInsID getTimeout ex L rest (some s) _ _

/-- The identity that the store gives to the last instance of a batch. -/
theorem assignIDs_append_singleton (env : Env) (x : TaskInstance) :
    ∀ (n : Nat) (ts : List TaskInstance),
      assignIDs env n (ts ++ [x])
        = assignIDs env n ts
          ++ [if x.ID = "" then { x with ID := env.newID (n + ts.length) } else x]
  | n, [] => by
    simp [assignIDs]
  | n, t :: rest => by
    rw [List.cons_append, assignIDs, assignIDs, assignIDs_append_singleton env x (n + 1) rest,
      List.cons_append, List.length_cons]
    have : n + 1 + rest.length = n + (rest.length + 1) := by omega
    rw [this]

/-- C27: `last_iteration_task_id` takes the last terminal.  Whenever
`GenerateIterationTasks` returns created tasks, at least one, the field
`LoopParameters.LastIterationTaskID` and the ShareData entry
`__loop_<LoopTaskID>_last_iteration_task_id` both equal the last element of
the terminal task-ID list of the body loop, the empty string when that list is
empty; the created tasks are the body tasks followed by the new loop-control
task if one is made, and that task has the same value as its parameter
`last_iteration_task_id` and the whole list as its `DependOn`.  The terminal
list of the body loop is empty for an empty body and else is that of the last
body step: its task ID when a task is stored under it, else what
`processStepRecursively` returns for it. -/
theorem last_iteration_task_id_takes_last_terminal (c : Common) (env : Env)
    (e : LoopExecutor) (w : World) (ts : List TaskInstance)
    (hret : (GenerateIterationTasks c env e w).1 = .ret { tasks := some ts, err := none })
    (hne : ts ≠ []) :
    let ex := (w.tasks.filter (fun t => t.DagInsID = e.dagIns.ID)).map (fun t => t.ID)
    let body := GenerateIterationTasks.steps c e.loopParams e.dagIns.ID e.getTimeout ex
      e.loopParams.Steps none [] []
    let v := body.2.getLast?.getD ""
    (GenerateIterationTasks c env e w).2.1.loopParams.LastIterationTaskID = v ∧
    (GenerateIterationTasks c env e w).2.1.dagIns.ShareData.get
        ("__loop_" ++ e.loopParams.LoopTaskID ++ "_" ++ "last_iteration_task_id")
      = some (.str v) ∧
    (∃ (n : Nat) (ctl : List TaskInstance), ts = assignIDs env n (body.1 ++ ctl) ∧
      (ctl = [] ∨ ∃ found, ctl = [newLoopTask c e.loopParams e.dagIns.ID found body.2]) ∧
      (ctl ≠ [] → ∃ t, ts.getLast? = some t ∧ t.ActionName = c.Loop ∧
        t.Params.get "last_iteration_task_id" = some (.str v) ∧ t.DependOn = body.2)) ∧
    (e.loopParams.Steps = [] → body.2 = []) ∧
    (∀ (pre : List Step) (L : Step), e.loopParams.Steps = pre ++ [L] →
      ∃ acc : List TaskInstance,
        body.2 = if ex.contains (stepTaskID e.loopParams L.ID) then [stepTaskID e.loopParams L.ID]
          else (processStepRecursively c e.dagIns.ID e.getTimeout ex acc L
            (stepTaskID e.loopParams L.ID) (stepDependOn c e.loopParams pre.getLast?)).2) := by
  intro ex body v
  have hmain : (∃ (n : Nat) (ctl : List TaskInstance), ts = assignIDs env n (body.1 ++ ctl) ∧
      (ctl = [] ∨ ∃ found, ctl = [newLoopTask c e.loopParams e.dagIns.ID found body.2])) ∧
      (GenerateIterationTasks c env e w).2.1.loopParams.LastIterationTaskID = v ∧
      (GenerateIterationTasks c env e w).2.1.dagIns.ShareData.get
          (loopKeyPrefix e.loopParams ++ "last_iteration_task_id") = some (.str v) := by
    unfold GenerateIterationTasks at hret ⊢
    simp only [ListTaskInstance] at hret ⊢
    cases hf : env.fails w.calls.length
    · simp only [hf, Bool.false_eq_true, if_false] at hret ⊢
      by_cases hany : (w.tasks.filter (fun t => t.DagInsID = e.dagIns.ID)).any
          (fun t => strings.HasPrefix t.TaskID (currentIterPrefix e.loopParams)) = true
      · rw [if_pos hany] at hret
        simp only [Outcome.ret.injEq, GenReturn.mk.injEq, Option.some.injEq, and_true] at hret
        exact absurd hret.symm hne
      · rw [if_neg hany] at hret ⊢
        split at hret
        · exact absurd hret (by simp)
        · rename_i hgate
          rw [if_neg hgate]
          exact next_created c env _ _ _ _ _ ts hret hne
    · simp only [hf, if_true] at hret
      exact absurd hret (by simp)
  obtain ⟨⟨n, ctl, hts, hctl⟩, hlast, hsd⟩ := hmain
  refine ⟨hlast, ?_, ⟨n, ctl, hts, hctl, ?_⟩, ?_, ?_⟩
  · have hk : "__loop_" ++ e.loopParams.LoopTaskID ++ "_" ++ "last_iteration_task_id"
        = loopKeyPrefix e.loopParams ++ "last_iteration_task_id" := rfl
    rw [hk]
    exact hsd
  · intro hc
    rcases hctl with h0 | ⟨found, h1⟩
    · exact absurd h0 hc
    · rw [hts, h1, assignIDs_append_singleton, List.getLast?_append,
        List.getLast?_singleton]
      refine ⟨_, rfl, ?_, ?_, ?_⟩
      · split
        · unfold newLoopTask
          simp only []
          split <;> rfl
        · unfold newLoopTask
          simp only []
          split <;> rfl
      · split
        · exact (newLoopTask_last c e.loopParams e.dagIns.ID found body.2).1
        · exact (newLoopTask_last c e.loopParams e.dagIns.ID found body.2).1
      · split <;> rfl
  · intro h0
    simp only [body, h0, GenerateIterationTasks.steps]
  · intro pre L hL
    have := steps_terminal_of_last c e.loopParams e.dagIns.ID e.getTimeout ex L pre none [] []
    obtain ⟨acc, hacc⟩ := this
    refine ⟨acc, ?_⟩
    simp only [body, hL]
    rw [hacc]
    cases pre.getLast? <;> rfl

/-- Witness of C27: the body `[P]` with the parallel branches `[x]` and `[y]`
ends in the two tasks `1_i0_sP_0_x` and `1_i0_sP_1_y`; the last of them is
recorded, and the loop-control task `1_i1` depends on both. -/
theorem last_iteration_task_id_takes_last_terminal_witness :
    (GenerateIterationTasks sampleCommon sampleEnv (sampleExecutorOf [sampleParallel])
        sampleFreshWorld).2.1.loopParams.LastIterationTaskID = "1_i0_sP_1_y" ∧
    (GenerateIterationTasks sampleCommon sampleEnv (sampleExecutorOf [sampleParallel])
        sampleFreshWorld).2.1.dagIns.ShareData.get "__loop_1_last_iteration_task_id"
      = some (.str "1_i0_sP_1_y") ∧
    (returnedTasks (GenerateIterationTasks sampleCommon sampleEnv
        (sampleExecutorOf [sampleParallel]) sampleFreshWorld)).map
        (fun t => (t.TaskID, t.DependOn))
      = [("1_i0_sP_0_x", ["1"]), ("1_i0_sP_1_y", ["1"]),
          ("1_i1", ["1_i0_sP_0_x", "1_i0_sP_1_y"])] := by
  have h := last_iteration_task_id_takes_last_terminal sampleCommon sampleEnv
    (sampleExecutorOf [sampleParallel]) sampleFreshWorld
    (returnedTasks (GenerateIterationTasks sampleCommon sampleEnv
      (sampleExecutorOf [sampleParallel]) sampleFreshWorld)) rfl
    (fun h0 => absurd (congrArg List.length h0) (by decide))
  exact ⟨h.1, h.2.1, by decide⟩

/-- The last part of `GenerateIterationTasks` hands a non-empty batch to the
store in its last call, and returns the created instances or the error of the
store. -/
theorem finish_batch (env : Env) (e : LoopExecutor) (w : World)
    (taskInstances : List TaskInstance) (lastTaskIDs : List String)
    (hne : taskInstances ≠ []) :
    (GenerateIterationTasks.finish env e w taskInstances lastTaskIDs).2.2.calls
      = w.calls ++ [Effect.BatchCreateTaskIns taskInstances] ∧
    ((GenerateIterationTasks.finish env e w taskInstances lastTaskIDs).1
        = .ret { tasks := some (assignIDs env w.tasks.length taskInstances), err := none } ∨
      (GenerateIterationTasks.finish env e w taskInstances lastTaskIDs).1
        = .ret { tasks := none, err := some "创建任务实例失败" }) := by
  have hl : ¬ taskInstances.length = 0 := fun h => hne (List.length_eq_zero.mp h)
  unfold GenerateIterationTasks.finish
  simp only []
  rw [if_neg hl]
  cases hf : env.fails w.calls.length
  · simp only [BatchCreateTaskIns, hf, Bool.false_eq_true, if_false, World.log, true_or,
      and_self]
  · simp only [BatchCreateTaskIns, hf, if_true, World.log, or_true, and_self]

/-- The world after the scan of iteration 0: one more listing in iteration 0,
the same world otherwise. -/
theorem scan_world (env : Env) (e : LoopExecutor) (w : World) :
    (GenerateIterationTasks.scan env e w).2
      = if e.loopParams.CurrentIteration = 0 then w.log (.ListTaskInstance e.dagIns.ID)
        else w := by
  unfold GenerateIterationTasks.scan
  split
  · simp only [ListTaskInstance]
    cases hf : env.fails w.calls.length
    · simp only [Bool.false_eq_true, if_false]
      split <;> rfl
    · simp only [if_true]
  · rfl

/-- When the next iteration is within the limit, its loop-control task does not
exist, the lists in ShareData hold strings and the lookup of the current
loop-control task fails, the part of `GenerateIterationTasks` after the body
loop ends in its last part with the body tasks followed by a loop-control task
that has no `TaskID`. -/
theorem next_lookup_fails (c : Common) (env : Env) (e : LoopExecutor) (w : World)
    (existingTasks taskInstances : List TaskInstance) (lastTaskIDs : List String)
    (hlim : e.loopParams.CurrentIteration + 1 ≤ e.loopParams.Limit ∨
      e.loopParams.CurrentIteration + 1 ≤ ((e.loopParams.Array.getD []).length : Int))
    (hnone : existingTasks.any (fun t => t.TaskID = baseTaskID e.loopParams ++ "_i"
      ++ toString (e.loopParams.CurrentIteration + 1)) = false)
    (hsd : holdsTaskIDs e.dagIns.ShareData)
    (hget : (GetTaskIns env (GenerateIterationTasks.scan env e w).2
      e.loopParams.LoopControlID).1 = none) :
    ∃ w1 : World,
      GenerateIterationTasks.next c env e w existingTasks taskInstances lastTaskIDs
        = GenerateIterationTasks.finish env (GenerateIterationTasks.scan env e w).1 w1
            (taskInstances ++ [newLoopTask c e.loopParams e.dagIns.ID none lastTaskIDs])
            lastTaskIDs := by
  have hp : (GenerateIterationTasks.scan env e w).1.loopParams = e.loopParams :=
    (scan_facts env e w hsd).1
  have hid : (GenerateIterationTasks.scan env e w).1.dagIns.ID = e.dagIns.ID :=
    (scan_facts env e w hsd).2.1
  have hsd1 := (scan_facts env e w hsd).2.2.1
  unfold GenerateIterationTasks.next
  simp only [hp, hid]
  rw [if_pos hlim, if_neg (by rw [hnone]; decide), hget]
  split
  · exact ⟨_, rfl⟩
  · rename_i v hv
    obtain ⟨kv, hkv, hkv2⟩ := Dict.mem_of_get hv
    have hstr := hsd1 kv hkv
    rw [hkv2] at hstr
    have hrw := retroWire_strings env e.loopParams.LoopTaskID
      (newLoopTask c e.loopParams e.dagIns.ID none lastTaskIDs).TaskID
      (dependentTasksList v) (GetTaskIns env (GenerateIterationTasks.scan env e w).2
        e.loopParams.LoopControlID).2 hstr
    simp only [hrw.1]
    exact ⟨_, rfl⟩

/-- C29: the next loop-control task when the store lookup fails.  Let the call
of `GenerateIterationTasks` for iteration `N` get the list of the existing
tasks, find the iteration not materialized and the gate passed, let `N + 1` be
within the limit with no task `<base>_i<N+1>` stored, and let the lists in
ShareData hold strings.  If then `GetTaskIns(LoopControlID)` fails, by an
error of the store at that call or because no task has that identity, the batch
that the call hands to `BatchCreateTaskIns` in its last call is the body tasks
followed by a loop-control task with an empty `TaskID`, status `init`, the
parameters `current_iteration = N + 1` and `last_iteration_task_id` and no
other, and the terminal IDs of the body as `DependOn`; the call returns the
created batch or the error of the store.  For every result of the lookup the
new task has the `TaskID` `<base>_i<N+1>` if the lookup finds a task and the
empty one if not. -/
theorem next_control_task_without_lookup (c : Common) (env : Env) (e : LoopExecutor)
    (w : World)
    (hl0 : env.fails w.calls.length = false)
    (hfresh : ∀ t ∈ w.tasks, t.DagInsID = e.dagIns.ID →
      strings.HasPrefix t.TaskID (currentIterPrefix e.loopParams) = false)
    (hgate : e.loopParams.CurrentIteration ≤ 0 ∨
      ∀ t ∈ w.tasks, t.DagInsID = e.dagIns.ID →
        strings.HasPrefix t.ID (prevIterPrefix e.loopParams) = true →
        t.Status = TaskInstanceStatusSuccess)
    (hlim : e.loopParams.CurrentIteration + 1 ≤ e.loopParams.Limit ∨
      e.loopParams.CurrentIteration + 1 ≤ ((e.loopParams.Array.getD []).length : Int))
    (hnone : ∀ t ∈ w.tasks, t.DagInsID = e.dagIns.ID →
      t.TaskID ≠ baseTaskID e.loopParams ++ "_i" ++ toString (e.loopParams.CurrentIteration + 1))
    (hsd : holdsTaskIDs e.dagIns.ShareData)
    (hget : env.fails (w.calls.length + 1
        + (if e.loopParams.CurrentIteration = 0 then 1 else 0)) = true ∨
      ∀ t ∈ w.tasks, t.ID ≠ e.loopParams.LoopControlID) :
    let body := GenerateIterationTasks.steps c e.loopParams e.dagIns.ID e.getTimeout
      ((w.tasks.filter (fun t => t.DagInsID = e.dagIns.ID)).map (fun t => t.ID))
      e.loopParams.Steps none [] []
    let ctl : TaskInstance :=
      { TaskID := "", DagInsID := e.dagIns.ID, ActionName := c.Loop,
        Status := TaskInstanceStatusInit,
        Params := [("current_iteration", .int (e.loopParams.CurrentIteration + 1)),
          ("last_iteration_task_id", .str (body.2.getLast?.getD ""))],
        DependOn := body.2, Steps := e.loopParams.Steps }
    (GenerateIterationTasks c env e w).2.2.calls.getLast?
      = some (Effect.BatchCreateTaskIns (body.1 ++ [ctl])) ∧
    ((∃ n, (GenerateIterationTasks c env e w).1
        = .ret { tasks := some (assignIDs env n (body.1 ++ [ctl])), err := none }) ∨
      (GenerateIterationTasks c env e w).1
        = .ret { tasks := none, err := some "创建任务实例失败" }) ∧
    (∀ (found : Option TaskInstance) (last : List String),
      (newLoopTask c e.loopParams e.dagIns.ID found last).TaskID
        = if found.isSome then
            baseTaskID e.loopParams ++ "_i" ++ toString (e.loopParams.CurrentIteration + 1)
          else "") := by
  intro body ctl
  have hany : (w.tasks.filter (fun t => t.DagInsID = e.dagIns.ID)).any
      (fun t => strings.HasPrefix t.TaskID (currentIterPrefix e.loopParams)) = false := by
    rw [List.any_eq_false]
    intro t ht
    have hm := List.mem_filter.mp ht
    simp [hfresh t hm.1 (by simpa using hm.2)]
  have hg : ¬ (e.loopParams.CurrentIteration > 0 ∧
      ¬ ((w.tasks.filter (fun t => t.DagInsID = e.dagIns.ID)).filter
          (fun t => strings.HasPrefix t.ID (prevIterPrefix e.loopParams))).all
        (fun t => t.Status = TaskInstanceStatusSuccess) = true) := by
    rintro ⟨hpos, hnot⟩
    rcases hgate with h0 | hall
    · omega
    · apply hnot
      rw [List.all_eq_true]
      intro t ht
      have hm := List.mem_filter.mp ht
      have hm2 := List.mem_filter.mp hm.1
      simpa using hall t hm2.1 (by simpa using hm2.2) hm.2
  have hnx : (w.tasks.filter (fun t => t.DagInsID = e.dagIns.ID)).any
      (fun t => t.TaskID = baseTaskID e.loopParams ++ "_i"
        ++ toString (e.loopParams.CurrentIteration + 1)) = false := by
    rw [List.any_eq_false]
    intro t ht
    have hm := List.mem_filter.mp ht
    simpa using hnone t hm.1 (by simpa using hm.2)
  have hctl : newLoopTask c e.loopParams e.dagIns.ID none body.2 = ctl := rfl
  have key : ∃ (e1 : LoopExecutor) (w1 : World), GenerateIterationTasks c env e w
      = GenerateIterationTasks.finish env e1 w1 (body.1 ++ [ctl]) body.2 := by
    unfold GenerateIterationTasks
    simp only [ListTaskInstance, hl0, Bool.false_eq_true, if_false]
    rw [if_neg (by simpa using hany), if_neg hg]
    obtain ⟨w1, hw1⟩ := next_lookup_fails c env
      { e with dagIns := { e.dagIns with
          ShareData := e.dagIns.ShareData.set
            (loopKeyPrefix e.loopParams ++ "current_iteration")
            (.int e.loopParams.CurrentIteration) } }
      (({ w with generations := w.generations ++ [e.loopParams.CurrentIteration] } : World).log
        (.ListTaskInstance e.dagIns.ID))
      (w.tasks.filter (fun t => t.DagInsID = e.dagIns.ID)) body.1 body.2 hlim hnx
      (holdsTaskIDs_set _ _ _ hsd (by intro x hx; simp [dependentTasksList] at hx))
      (by
        rw [scan_world]
        unfold GetTaskIns
        rcases hget with hfail | hmiss
        · split
          · rename_i h0
            simp only [] at h0
            simp only [h0, if_true] at hfail
            simp only [World.log, List.length_append, List.length_singleton]
            rw [if_pos (by simpa using hfail)]
          · rename_i h0
            simp only [] at h0
            simp only [h0, if_false, Nat.add_zero] at hfail
            simp only [World.log, List.length_append, List.length_singleton]
            rw [if_pos (by simpa using hfail)]
        · have hfind : w.tasks.find? (fun t => t.ID = e.loopParams.LoopControlID) = none := by
            rw [List.find?_eq_none]
            intro t ht
            simpa using hmiss t ht
          split <;> split <;> first | rfl | (simp only [World.log]; exact hfind))
    simp only [] at hw1
    rw [hw1, hctl]
    exact ⟨_, _, rfl⟩
  obtain ⟨e1, w1, hk⟩ := key
  have hb := finish_batch env e1 w1 (body.1 ++ [ctl]) body.2 (by simp)
  rw [hk]
  refine ⟨?_, ?_, ?_⟩
  · rw [hb.1, List.getLast?_append, List.getLast?_singleton]
    rfl
  · rcases hb.2 with h1 | h1
    · exact Or.inl ⟨_, h1⟩
    · exact Or.inr h1
  · intro found last
    unfold newLoopTask
    cases found <;> rfl

/-- Witness of C29: iteration 0 of the sample loop with a store that fails at
the lookup of the loop-control task hands the body task `1_i0_sA` and a
loop-control task without `TaskID` to the store. -/
theorem next_control_task_without_lookup_witness :
    (GenerateIterationTasks sampleCommon sampleLookupFailsEnv sampleExecutor
        sampleFreshWorld).2.2.calls.getLast?
      = some (Effect.BatchCreateTaskIns
          [{ TaskID := "1_i0_sA", DagInsID := "d", Name := "step A", DependOn := ["1"],
             ActionName := "@internal/tool/py3", TimeoutSecs := 30, Params := [],
             Status := "init" },
           { TaskID := "", DagInsID := "d", ActionName := "@control/flow/loop", Status := "init",
             Params := [("current_iteration", .int 1),
               ("last_iteration_task_id", .str "1_i0_sA")],
             DependOn := ["1_i0_sA"], Steps := [sampleStep "A"] }]) ∧
    (returnedTasks (GenerateIterationTasks sampleCommon sampleLookupFailsEnv sampleExecutor
        sampleFreshWorld)).map (fun t => (t.TaskID, t.DependOn, t.Params.map Prod.fst))
      = [("1_i0_sA", ["1"], []),
          ("", ["1_i0_sA"], ["current_iteration", "last_iteration_task_id"])] :=
  ⟨(next_control_task_without_lookup sampleCommon sampleLookupFailsEnv sampleExecutor
      sampleFreshWorld (by decide) (by decide) (Or.inl (by decide)) (Or.inl (by decide))
      (by decide) (fun kv hkv => nomatch hkv) (Or.inl (by decide))).1,
    by decide⟩

/-- Writing an array keeps a map of arrays and nil values under the keys
`keys`. -/
theorem Dict.set_arr_typed (keys : List String) (m : Dict) (k : String) (xs : List Value)
    (h : ∀ K ∈ keys, ∀ v, m.get K = some v → v = Value.null ∨ ∃ ys, v = Value.arr ys) :
    ∀ K ∈ keys, ∀ v, (m.set k (.arr xs)).get K = some v → v = Value.null ∨ ∃ ys, v = Value.arr ys := by
  intro K hK v hv
  by_cases hk : K = k
  · rw [hk, Dict.get_set_self] at hv
    exact Or.inr ⟨xs, (Option.some.inj hv).symm⟩
  · rw [Dict.get_set_ne _ _ _ _ hk] at hv
    exact h K hK v hv

/-- One round of the collection does not panic on a map of arrays and nil
values, and it leaves such a map. -/
theorem collectIteration_typed (keys : List String) (taskList : List TaskInstance)
    (iter : Int) :
    ∀ (outs : List LoopOutput) (m : Dict), (∀ o ∈ outs, o.Key ∈ keys) →
      (∀ K ∈ keys, ∀ v, m.get K = some v → v = Value.null ∨ ∃ ys, v = Value.arr ys) →
      (collectIteration taskList iter outs m).2 = false ∧
      ∀ K ∈ keys, ∀ v, (collectIteration taskList iter outs m).1.get K = some v →
        v = Value.null ∨ ∃ ys, v = Value.arr ys
  | [], m, _, hm => by
    rw [collectIteration]
    exact ⟨rfl, hm⟩
  | o :: rest, m, hk, hm => by
    have hrest : ∀ o' ∈ rest, o'.Key ∈ keys := fun o' ho' => hk o' (List.mem_cons_of_mem _ ho')
    have ho := hk o (List.mem_cons_self _ _)
    rw [collectIteration]
    cases hg : m.get o.Key with
    | none =>
      apply collectIteration_typed keys taskList iter rest _ hrest
      split
      · exact Dict.set_arr_typed keys m _ _ hm
      · exact hm
    | some v =>
      rcases hm o.Key ho v hg with hv | ⟨ys, hv⟩
      · subst hv
        simp only []
        apply collectIteration_typed keys taskList iter rest _ hrest
        split
        · exact Dict.set_arr_typed keys m _ _ hm
        · exact hm
      · subst hv
        simp only []
        apply collectIteration_typed keys taskList iter rest _ hrest
        split
        · exact Dict.set_arr_typed keys m _ _ hm
        · exact hm

/-- The rounds of the collection do not panic on a map of arrays and nil values
under the configured keys. -/
theorem collectIterations_typed (p : LoopParameters) (tasks : List TaskInstance) :
    ∀ (count : Nat) (iter : Int) (m : Dict),
      (∀ o ∈ p.Outputs, ∀ v, m.get o.Key = some v → v = Value.null ∨ ∃ ys, v = Value.arr ys) →
      (collectIterations p tasks count iter m).2 = false
  | 0, _, _, _ => by
    rw [collectIterations]
  | count + 1, iter, m, hm => by
    have hm2 : ∀ K ∈ p.Outputs.map (fun o => o.Key), ∀ v, m.get K = some v →
        v = Value.null ∨ ∃ ys, v = Value.arr ys := by
      intro K hK v hv
      obtain ⟨o, ho, hoK⟩ := List.mem_map.mp hK
      exact hm o ho v (hoK ▸ hv)
    have h1 := collectIteration_typed (p.Outputs.map (fun o => o.Key))
      (iterationTasks p tasks iter) iter p.Outputs m
      (fun o ho => List.mem_map_of_mem (fun o => o.Key) ho) hm2
    rw [collectIterations]
    simp only [h1.1, Bool.false_eq_true, if_false]
    apply collectIterations_typed p tasks count (iter + 1)
    intro o ho v hv
    exact h1.2 o.Key (List.mem_map_of_mem (fun o => o.Key) ho) v hv

/-- A fresh outputs map holds arrays only. -/
theorem freshOutputs_typed (outs : List LoopOutput) :
    ∀ (m : Dict), (∀ K v, m.get K = some v → v = Value.null ∨ ∃ ys, v = Value.arr ys) →
      ∀ K v, Dict.get (outs.foldl (fun (m : Dict) o => m.set o.Key (.arr [])) m) K = some v →
        v = Value.null ∨ ∃ ys, v = Value.arr ys := by
  induction outs with
  | nil => intro m hm; exact hm
  | cons o rest ih =>
    intro m hm
    rw [List.foldl_cons]
    apply ih
    intro K v hv
    exact Dict.set_arr_typed [K] m o.Key [] (fun K' hK' v' hv' => hm K' v' hv') K
      (List.mem_singleton.mpr rfl) v hv

/-- C30: outputs overwrite the loop-namespaced values.  With no configured
output `collectLoopOutputs` returns at once: ShareData and the world are
unchanged, so the store is not queried.  With at least one configured output
and a successful task listing, and when the outputs record that ShareData may
already hold under `__<origin>` has arrays or nil under the configured keys,
`collectLoopOutputs` returns no error and sets the entry `__<origin>`
(`origin` is the part of the loop-control TaskID before its first underscore)
to a record whose only field is `outputs`; the fields `index` and `value` of a
record stored there before are gone, and every other key of ShareData is as it
was. -/
theorem outputs_overwrite_loop_values (env : Env) (taskIns : TaskInstance)
    (p : LoopParameters) (shareData : Dict) (w : World) :
    (p.Outputs = [] →
      collectLoopOutputs env taskIns p shareData w = (.ret none, shareData, w)) ∧
    (p.Outputs ≠ [] → env.fails w.calls.length = false →
      (∀ (existingMap outputs : Dict),
        shareData.get ("__" ++ splitHead taskIns.TaskID "_") = some (.map existingMap) →
        existingMap.get "outputs" = some (.map outputs) →
        ∀ o ∈ p.Outputs, ∀ v, outputs.get o.Key = some v →
          v = Value.null ∨ ∃ ys, v = Value.arr ys) →
      ∃ m : Dict,
        (collectLoopOutputs env taskIns p shareData w).1 = .ret none ∧
        (collectLoopOutputs env taskIns p shareData w).2.1
          = shareData.set ("__" ++ splitHead taskIns.TaskID "_") (.map [("outputs", .map m)]) ∧
        (collectLoopOutputs env taskIns p shareData w).2.1.get
            ("__" ++ splitHead taskIns.TaskID "_") = some (.map [("outputs", .map m)]) ∧
        Dict.get [("outputs", Value.map m)] "index" = none ∧
        Dict.get [("outputs", Value.map m)] "value" = none ∧
        ∀ k, k ≠ "__" ++ splitHead taskIns.TaskID "_" →
          (collectLoopOutputs env taskIns p shareData w).2.1.get k = shareData.get k) := by
  constructor
  · intro h0
    unfold collectLoopOutputs
    rw [if_pos (by rw [h0]; rfl)]
  · intro hne hl hty
    have hlen : ¬ p.Outputs.length = 0 := fun h => hne (List.length_eq_zero.mp h)
    have hinit : ∀ o ∈ p.Outputs, ∀ v,
        (initialOutputs p (shareData.get ("__" ++ splitHead taskIns.TaskID "_"))).1.get o.Key
          = some v → v = Value.null ∨ ∃ ys, v = Value.arr ys := by
      have hfresh : ∀ o ∈ p.Outputs, ∀ v,
          Dict.get (p.Outputs.foldl (fun (m : Dict) o => m.set o.Key (.arr [])) []) o.Key
            = some v →
            v = Value.null ∨ ∃ ys, v = Value.arr ys :=
        fun o _ v hv => freshOutputs_typed p.Outputs [] (fun K v h => by simp [Dict.get] at h)
          o.Key v hv
      unfold initialOutputs
      split
      · rename_i existingMap hex
        split
        · rename_i outputs hout
          exact hty existingMap outputs hex hout
        · exact hfresh
      · exact hfresh
    have hnp := collectIterations_typed p
      (w.tasks.filter (fun t => t.DagInsID = taskIns.DagInsID)) p.CurrentIteration.toNat 1 _ hinit
    unfold collectLoopOutputs
    rw [if_neg hlen]
    simp only [ListTaskInstance, hl, Bool.false_eq_true, if_false, hnp]
    refine ⟨_, trivial, rfl, Dict.get_set_self _ _ _, rfl, rfl, ?_⟩
    intro k hk
    exact Dict.get_set_ne _ _ _ _ hk

/-- Witness of C30: at the ceiling of the sample loop with limit 1 the entry
`__1`, which holds the record `index = 0` of the advancing handler, is
replaced by the outputs record. -/
theorem outputs_overwrite_loop_values_witness :
    (collectLoopOutputs sampleEnv sampleOutputTask sampleOutputParams
        [("__1", .map [("index", .int 0)]), ("__loop_1_index", .int 0)] sampleOutputWorld).2.1
      = [("__1", .map [("outputs", .map [("k", .arr [.str "v"])])]), ("__loop_1_index", .int 0)] ∧
    ∃ m : Dict,
      (collectLoopOutputs sampleEnv sampleOutputTask sampleOutputParams
        [("__1", .map [("index", .int 0)]), ("__loop_1_index", .int 0)] sampleOutputWorld).2.1.get
          "__1" = some (.map [("outputs", .map m)]) := by
  obtain ⟨m, _, _, h3, _⟩ := (outputs_overwrite_loop_values sampleEnv sampleOutputTask
    sampleOutputParams [("__1", .map [("index", .int 0)]), ("__loop_1_index", .int 0)]
    sampleOutputWorld).2 (fun h0 => absurd (congrArg List.length h0) (by decide)) rfl
    (fun existingMap outputs h1 h2 => by
      have : existingMap = [("index", .int 0)] := by
        have h1' : some (Value.map [("index", .int 0)]) = some (Value.map existingMap) := h1
        injection h1' with h1'
        injection h1' with h1'
        exact h1'.symm
      subst this
      have h0 : Dict.get [("index", Value.int 0)] "outputs" = none := rfl
      rw [h0] at h2
      exact absurd h2 (by simp))
  exact ⟨rfl, m, h3⟩

/-- C24 as stated fails: the loop-control task has status `failed`, the limit
is 3, there is no dependency and every store call succeeds, but the task tree
of the run is not cached and the tree builder fails.  The handler returns an
error before the reset: the task keeps its status and the only call made is the
listing of the tree setup, so `UpdateTaskIns` is not called. -/
theorem resumption_needs_task_tree :
    (HandleLoopAction sampleCommon sampleBuildFailsEnv sampleHandler
        sampleFailedLoopTask sampleDag sampleFreshWorld).out = .ret (some "build task tree failed") ∧
    (HandleLoopAction sampleCommon sampleBuildFailsEnv sampleHandler
        sampleFailedLoopTask sampleDag sampleFreshWorld).taskIns.Status = "failed" ∧
    (HandleLoopAction sampleCommon sampleBuildFailsEnv sampleHandler
        sampleFailedLoopTask sampleDag sampleFreshWorld).world.calls.length = 1 :=
  ⟨rfl, rfl, rfl⟩

/-- When the task tree is cached or rebuilt, the effective limit is positive
and the dependency check passes, the handler goes on with the part after the
dependency check, in a world that differs from the given one by listings and
the registry only. -/
theorem handler_reaches_proceed (c : Common) (env : Env) (h : LoopHandler)
    (taskIns : TaskInstance) (dagIns : DagInstance) (w : World)
    (htree : (ensureTaskTree env taskIns dagIns w).1 = none)
    (hlim : 0 < actualLimit h.loopParams)
    (hdeps : 0 < h.loopParams.CurrentIteration → taskIns.DependOn ≠ [] →
      env.fails (ensureTaskTree env taskIns dagIns w).2.calls.length = false ∧
      ∀ d ∈ taskIns.DependOn, ∃ t,
        (w.tasks.filter (fun t => t.DagInsID = taskIns.DagInsID)).find?
          (fun t => t.TaskID = d) = some t ∧
        (t.Status = TaskInstanceStatusSuccess ∨ t.Status = TaskInstanceStatusSkipped)) :
    ∃ w1 : World, HandleLoopAction c env h taskIns dagIns w
        = HandleLoopAction.proceed c env h.loopParams taskIns dagIns w1 ∧
      w1.tasks = w.tasks ∧ w1.generations = w.generations ∧
      ∀ eff ∈ w1.calls, eff ∈ w.calls ∨ eff = Effect.ListTaskInstance taskIns.DagInsID := by
  have hw := walkNode_fields (ensureTaskTree env taskIns dagIns w).2 taskIns.DagInsID
    taskIns.ID taskIns.Status
  have he := ensureTaskTree_fields env taskIns dagIns w
  have hcalls := ensureTaskTree_calls env taskIns dagIns w
  unfold HandleLoopAction
  simp only [htree]
  rw [if_neg (by omega)]
  split
  · rename_i hcond
    rw [normalizeParams_CurrentIteration] at hcond
    have hd := hdeps hcond.1 (fun h0 => by rw [h0] at hcond; simp at hcond)
    have hchk := checkDependOn_satisfied
      (w.tasks.filter (fun t => t.DagInsID = taskIns.DagInsID)) taskIns.DependOn hd.2
    simp only [ListTaskInstance, hw.2.1, hd.1, Bool.false_eq_true, if_false, hw.1, he.1, hchk]
    refine ⟨_, rfl, ?_, ?_, ?_⟩
    · simp only [World.log, hw.1, he.1]
    · simp only [World.log, hw.2.2, he.2]
    · intro eff heff
      simp only [World.log, hw.2.1, List.mem_append, List.mem_singleton] at heff
      rcases heff with h1 | h1
      · exact hcalls eff h1
      · exact Or.inr h1
  · refine ⟨_, rfl, by rw [hw.1, he.1], by rw [hw.2.2, he.2], ?_⟩
    intro eff heff
    rw [hw.2.1] at heff
    exact hcalls eff heff

/-- C24, amended: the resumption reset.  Let the loop-control task have status
`failed` or `canceled` on entry, the effective limit be positive, the task tree
of the run be cached or rebuilt without error, and the dependency check pass
(at an iteration above 0 with dependencies: the listing succeeds and every
dependency is `success` or `skipped`).  Then the first call that
`HandleLoopAction` makes after listings is `UpdateTaskIns` on the task with
status `init` and no reason.  If this call fails the handler returns an error
with ShareData, the stored tasks and the record of entered generations as they
were, so no task is generated.  If it succeeds, the rest of the handler, the
ceiling check with the completion or the advancing case with the ShareData
writes and the task generation, runs on the reset task and on the store that
holds the reset task. -/
theorem resumption_reset (c : Common) (env : Env) (h : LoopHandler)
    (taskIns : TaskInstance) (dagIns : DagInstance) (w : World)
    (htree : (ensureTaskTree env taskIns dagIns w).1 = none)
    (hlim : 0 < actualLimit h.loopParams)
    (hstatus : taskIns.Status = TaskInstanceStatusFailed ∨
      taskIns.Status = TaskInstanceStatusCanceled)
    (hdeps : 0 < h.loopParams.CurrentIteration → taskIns.DependOn ≠ [] →
      env.fails (ensureTaskTree env taskIns dagIns w).2.calls.length = false ∧
      ∀ d ∈ taskIns.DependOn, ∃ t,
        (w.tasks.filter (fun t => t.DagInsID = taskIns.DagInsID)).find?
          (fun t => t.TaskID = d) = some t ∧
        (t.Status = TaskInstanceStatusSuccess ∨ t.Status = TaskInstanceStatusSkipped)) :
    let p := (withLoopIdentifiers (normalizeParams h.loopParams) taskIns).1
    let t1 : TaskInstance :=
      { (withLoopIdentifiers (normalizeParams h.loopParams) taskIns).2 with
        Status := TaskInstanceStatusInit, Reason := .null }
    t1.ID = taskIns.ID ∧
    ∃ w2 : World,
      w2.tasks = w.tasks ∧ w2.generations = w.generations ∧
      (∀ eff ∈ w2.calls, eff ∈ w.calls ∨ eff = Effect.ListTaskInstance taskIns.DagInsID) ∧
      (env.fails w2.calls.length = true →
        (HandleLoopAction c env h taskIns dagIns w).out
          = .ret (some "update task instance failed") ∧
        (HandleLoopAction c env h taskIns dagIns w).dagIns = dagIns ∧
        (HandleLoopAction c env h taskIns dagIns w).world = w2.log (.UpdateTaskIns t1) ∧
        (HandleLoopAction c env h taskIns dagIns w).world.tasks = w.tasks ∧
        (HandleLoopAction c env h taskIns dagIns w).world.generations = w.generations) ∧
      (env.fails w2.calls.length = false →
        HandleLoopAction c env h taskIns dagIns w
          = if p.CurrentIteration ≥ actualLimit h.loopParams then
              HandleLoopAction.complete env (actualLimit h.loopParams) p t1 dagIns
                { w2.log (.UpdateTaskIns t1) with tasks := replaceTask t1 w.tasks }
            else
              HandleLoopAction.advance c env p (arrayDataOf h.loopParams) t1 dagIns
                { w2.log (.UpdateTaskIns t1) with tasks := replaceTask t1 w.tasks }) := by
  intro p t1
  obtain ⟨w1, hr, ht, hg, hc⟩ := handler_reaches_proceed c env h taskIns dagIns w htree hlim hdeps
  have hpi := withLoopIdentifiers_fields (normalizeParams h.loopParams) taskIns
  have hst : (withLoopIdentifiers (normalizeParams h.loopParams) taskIns).2.Status
      = TaskInstanceStatusFailed ∨
    (withLoopIdentifiers (normalizeParams h.loopParams) taskIns).2.Status
      = TaskInstanceStatusCanceled := by
    rw [hpi.2.2]
    exact hstatus
  have hreset : resetTask (withLoopIdentifiers (normalizeParams h.loopParams) taskIns).2 = t1 := by
    unfold resetTask
    rw [if_pos hst]
  have hww := walkNode_fields w1 taskIns.DagInsID taskIns.ID TaskInstanceStatusInit
  refine ⟨hpi.2.1, w1.walkNode taskIns.DagInsID taskIns.ID TaskInstanceStatusInit,
    by rw [hww.1, ht], by rw [hww.2.2, hg], by rw [hww.2.1]; exact hc, ?_, ?_⟩
  · intro hf
    rw [hr]
    unfold HandleLoopAction.proceed
    simp only [if_pos hst, hreset, UpdateTaskIns, hf, if_true]
    refine ⟨trivial, trivial, trivial, ?_, ?_⟩
    · simp only [World.log, hww.1, ht]
    · simp only [World.log, hww.2.2, hg]
  · intro hf
    rw [hr]
    unfold HandleLoopAction.proceed
    simp only [if_pos hst, hreset, UpdateTaskIns, hf, Bool.false_eq_true, if_false, hww.1, ht]
    by_cases hge : p.CurrentIteration ≥ actualLimit h.loopParams
    · rw [if_pos hge, if_pos ⟨hlim, hge⟩]
    · rw [if_neg hge, if_neg (fun hx => hge hx.2)]

/-- Witness of the amended C24: the failed loop-control task of the sample
loop, with the task tree cached.  The first call of the handler persists the
task with status `init` and no reason; with a store whose first call fails the
handler returns the error of the persist and enters no generation. -/
theorem resumption_reset_witness :
    ({ (withLoopIdentifiers (normalizeParams sampleHandler.loopParams)
          sampleFailedLoopTask).2 with
        Status := TaskInstanceStatusInit, Reason := .null } : TaskInstance).ID
      = sampleFailedLoopTask.ID ∧
    (HandleLoopAction sampleCommon sampleEnv sampleHandler sampleFailedLoopTask sampleDag
        sampleCachedWorld).world.calls.head?
      = some (Effect.UpdateTaskIns
          { sampleLoopTask with
            Params := [("mode", .str "limit"), ("limit", .int 3), ("loop_control_id", .str "t0"),
              ("loop_task_id", .str "1")],
            Status := "init", Reason := .null }) ∧
    (HandleLoopAction sampleCommon sampleListFailsEnv sampleHandler sampleFailedLoopTask
        sampleDag sampleCachedWorld).out = .ret (some "update task instance failed") ∧
    (HandleLoopAction sampleCommon sampleListFailsEnv sampleHandler sampleFailedLoopTask
        sampleDag sampleCachedWorld).world.generations = [] :=
  ⟨(resumption_reset sampleCommon sampleEnv sampleHandler sampleFailedLoopTask sampleDag
      sampleCachedWorld rfl (by decide) (Or.inl rfl) (fun h0 _ => absurd h0 (by decide))).1,
    rfl, rfl, rfl⟩

/-- Go `strings.HasPrefix` as a statement on the characters. -/
theorem HasPrefix_iff (s pre : String) :
    strings.HasPrefix s pre = true ↔ pre.data <+: s.data := by
  unfold strings.HasPrefix
  exact List.isPrefixOf_iff_prefix

/-- A string that extends `pre` has the prefix `pre`. -/
theorem HasPrefix_append_self (pre x : String) : strings.HasPrefix (pre ++ x) pre = true := by
  rw [HasPrefix_iff, String.data_append]
  exact List.prefix_append _ _

/-- A prefix of a string is a prefix of its extensions. -/
theorem HasPrefix_append_of (s pre x : String) (h : strings.HasPrefix s pre = true) :
    strings.HasPrefix (s ++ x) pre = true := by
  rw [HasPrefix_iff] at h ⊢
  rw [String.data_append]
  exact h.trans (List.prefix_append _ _)

/-- Writing a key of the `__loop_` namespace leaves the keys outside of it as
they are. -/
theorem Dict.get_set_loop (m : Dict) (k k' : String) (v : Value)
    (hk : strings.HasPrefix k "__loop_" = false) (hk' : strings.HasPrefix k' "__loop_" = true) :
    (m.set k' v).get k = m.get k := by
  apply Dict.get_set_ne
  intro h
  rw [h, hk'] at hk
  exact absurd hk (by decide)

/-- The keys under `loopKeyPrefix` are in the `__loop_` namespace. -/
theorem loopKeyPrefix_loop (p : LoopParameters) (x : String) :
    strings.HasPrefix (loopKeyPrefix p ++ x) "__loop_" = true := by
  unfold loopKeyPrefix
  exact HasPrefix_append_of _ _ _ (HasPrefix_append_of _ _ _ (HasPrefix_append_self _ _))

/-- The scan of iteration 0 writes into the `__loop_` namespace only. -/
theorem scan_shareData (env : Env) (e : LoopExecutor) (w : World) (k : String)
    (hk : strings.HasPrefix k "__loop_" = false) :
    (GenerateIterationTasks.scan env e w).1.dagIns.ShareData.get k
      = e.dagIns.ShareData.get k := by
  unfold GenerateIterationTasks.scan
  split
  · simp only []
    split
    · rfl
    · split
      · exact Dict.get_set_loop _ _ _ _ hk (loopKeyPrefix_loop _ _)
      · rfl
  · rfl

/-- The last part of `GenerateIterationTasks` writes into the `__loop_`
namespace only. -/
theorem finish_shareData (env : Env) (e : LoopExecutor) (w : World)
    (taskInstances : List TaskInstance) (lastTaskIDs : List String) (k : String)
    (hk : strings.HasPrefix k "__loop_" = false) :
    (GenerateIterationTasks.finish env e w taskInstances lastTaskIDs).2.1.dagIns.ShareData.get k
      = e.dagIns.ShareData.get k := by
  unfold GenerateIterationTasks.finish
  simp only []
  split
  · simp only []
    rw [Dict.get_set_loop _ _ _ _ hk (loopKeyPrefix_loop _ _),
      Dict.get_set_loop _ _ _ _ hk (loopKeyPrefix_loop _ _)]
  · split
    · exact Dict.get_set_loop _ _ _ _ hk (loopKeyPrefix_loop _ _)
    · exact Dict.get_set_loop _ _ _ _ hk (loopKeyPrefix_loop _ _)

/-- The part of `GenerateIterationTasks` after the body loop writes into the
`__loop_` namespace only. -/
theorem next_shareData (c : Common) (env : Env) (e : LoopExecutor) (w : World)
    (existingTasks taskInstances : List TaskInstance) (lastTaskIDs : List String) (k : String)
    (hk : strings.HasPrefix k "__loop_" = false) :
    (GenerateIterationTasks.next c env e w existingTasks taskInstances
        lastTaskIDs).2.1.dagIns.ShareData.get k = e.dagIns.ShareData.get k := by
  have hs := scan_shareData env e w k hk
  unfold GenerateIterationTasks.next
  simp only []
  split
  · split
    · rw [finish_shareData _ _ _ _ _ _ hk, hs]
    · split
      · rw [finish_shareData _ _ _ _ _ _ hk, hs]
      · split
        · exact hs
        · rw [finish_shareData _ _ _ _ _ _ hk, hs]
  · rw [finish_shareData _ _ _ _ _ _ hk, hs]

/-- `GenerateIterationTasks` writes into the `__loop_` namespace of ShareData
only. -/
theorem GenerateIterationTasks_shareData (c : Common) (env : Env) (e : LoopExecutor)
    (w : World) (k : String) (hk : strings.HasPrefix k "__loop_" = false) :
    (GenerateIterationTasks c env e w).2.1.dagIns.ShareData.get k
      = e.dagIns.ShareData.get k := by
  have h0 : (e.dagIns.ShareData.set (loopKeyPrefix e.loopParams ++ "current_iteration")
      (.int e.loopParams.CurrentIteration)).get k = e.dagIns.ShareData.get k :=
    Dict.get_set_loop _ _ _ _ hk (loopKeyPrefix_loop _ _)
  unfold GenerateIterationTasks
  simp only []
  split
  · exact h0
  · split
    · exact h0
    · split
      · exact h0
      · rw [next_shareData _ _ _ _ _ _ _ _ hk]
        exact h0

/-- The first piece of a split at `_` holds no underscore. -/
theorem splitAux_head_no_underscore :
    ∀ (fuel : Nat) (cs cur : List Char), '_' ∉ cur →
      '_' ∉ ((strings.splitAux ['_'] fuel cs cur).headD "").data
  | 0, _, cur, h => by
    rw [strings.splitAux]
    simpa using h
  | _ + 1, [], cur, h => by
    rw [strings.splitAux]
    simpa using h
  | fuel + 1, ch :: cs, cur, h => by
    rw [strings.splitAux]
    split
    · simpa using h
    · rename_i hp
      apply splitAux_head_no_underscore fuel cs (ch :: cur)
      intro hm
      rcases List.mem_cons.mp hm with h1 | h1
      · apply hp
        rw [← h1]
        simp [List.isPrefixOf]
      · exact h h1

/-- The origin of a task ID, its part before the first underscore, holds no
underscore. -/
theorem splitHead_no_underscore (s : String) : '_' ∉ (splitHead s "_").data := by
  unfold splitHead strings.Split
  rw [if_neg (by decide)]
  exact splitAux_head_no_underscore _ _ [] (List.not_mem_nil _)

/-- The key `__<origin>` is outside the `__loop_` namespace. -/
theorem originKey_not_loop (s : String) :
    strings.HasPrefix ("__" ++ splitHead s "_") "__loop_" = false := by
  rw [Bool.eq_false_iff]
  intro h
  rw [HasPrefix_iff, String.data_append] at h
  obtain ⟨t, ht⟩ := h
  have hd : "__loop_".data = '_' :: '_' :: 'l' :: 'o' :: 'o' :: 'p' :: '_' :: [] := rfl
  have hd2 : "__".data = '_' :: '_' :: [] := rfl
  rw [hd, hd2] at ht
  simp only [List.cons_append, List.nil_append, List.cons.injEq, true_and] at ht
  apply splitHead_no_underscore s
  rw [← ht]
  simp

/-- The key `__<t>` is outside the `__loop_` namespace when `t` does not start
with `loop_`. -/
theorem taskKey_not_loop (t : String) (h : strings.HasPrefix t "loop_" = false) :
    strings.HasPrefix ("__" ++ t) "__loop_" = false := by
  rw [Bool.eq_false_iff] at h ⊢
  intro h2
  apply h
  rw [HasPrefix_iff] at h2 ⊢
  rw [String.data_append] at h2
  have hd : "__loop_".data = '_' :: '_' :: "loop_".data := rfl
  have hd2 : "__".data = '_' :: '_' :: [] := rfl
  rw [hd, hd2] at h2
  simp only [List.cons_append, List.nil_append] at h2
  exact (List.prefix_cons_inj _).mp ((List.prefix_cons_inj _).mp h2)

/-- The advancing handler leaves the record of the iteration under the key
`__<origin>`, and under the key `__<t>` when `t` does not start with `loop_`. -/
theorem publishLoopValues_get (p : LoopParameters) (arrayData : List Value)
    (taskIns : TaskInstance) (shareData : Dict) :
    (publishLoopValues p arrayData taskIns shareData).get ("__" ++ splitHead taskIns.TaskID "_")
      = some (.map (loopInternalValues p arrayData)) ∧
    (strings.HasPrefix taskIns.TaskID "loop_" = false →
      (publishLoopValues p arrayData taskIns shareData).get ("__" ++ taskIns.TaskID)
        = some (.map (loopInternalValues p arrayData))) := by
  have h1 := originKey_not_loop taskIns.TaskID
  have hidx : strings.HasPrefix ("__loop_" ++ splitHead taskIns.TaskID "_" ++ "_index")
      "__loop_" = true := HasPrefix_append_of _ _ _ (HasPrefix_append_self _ _)
  have hval : strings.HasPrefix ("__loop_" ++ splitHead taskIns.TaskID "_" ++ "_value")
      "__loop_" = true := HasPrefix_append_of _ _ _ (HasPrefix_append_self _ _)
  have tail : ∀ (k : String) (s2 : Dict), strings.HasPrefix k "__loop_" = false →
      Dict.get (Dict.set (Dict.set
        (if p.Mode = "array" ∧ p.CurrentIteration < (arrayData.length : Int) then
          Dict.set (Dict.set s2 ("__loop_" ++ splitHead taskIns.TaskID "_" ++ "_index")
            (.int p.CurrentIteration)) ("__loop_" ++ splitHead taskIns.TaskID "_" ++ "_value")
            (arrayData.getD p.CurrentIteration.toNat .null)
        else Dict.set s2 ("__loop_" ++ splitHead taskIns.TaskID "_" ++ "_index")
          (.int p.CurrentIteration))
        (loopKeyPrefix p ++ "current_iteration") (.int p.CurrentIteration))
        (loopKeyPrefix p ++ "last_iteration_task_id") (.str p.LastIterationTaskID)) k
        = Dict.get s2 k := by
    intro k s2 hk
    rw [Dict.get_set_loop _ _ _ _ hk (loopKeyPrefix_loop _ _),
      Dict.get_set_loop _ _ _ _ hk (loopKeyPrefix_loop _ _)]
    split
    · rw [Dict.get_set_loop _ _ _ _ hk hval, Dict.get_set_loop _ _ _ _ hk hidx]
    · rw [Dict.get_set_loop _ _ _ _ hk hidx]
  unfold publishLoopValues
  simp only []
  constructor
  · rw [tail _ _ h1]
    by_cases hk : "__" ++ splitHead taskIns.TaskID "_" = "__" ++ taskIns.TaskID
    · rw [← hk, Dict.get_set_self]
    · rw [Dict.get_set_ne _ _ _ _ hk, Dict.get_set_self]
  · intro hl
    rw [tail _ _ (taskKey_not_loop _ hl), Dict.get_set_self]

/-- In the advancing case the keys of ShareData outside the `__loop_`
namespace are as the publication of the iteration values leaves them. -/
theorem advance_shareData (c : Common) (env : Env) (p : LoopParameters)
    (arrayData : Option (List Value)) (taskIns : TaskInstance) (dagIns : DagInstance)
    (w : World) (hnonneg : 0 ≤ p.CurrentIteration) (k : String)
    (hk : strings.HasPrefix k "__loop_" = false) :
    (HandleLoopAction.advance c env p arrayData taskIns dagIns w).dagIns.ShareData.get k
      = (publishLoopValues p (arrayData.getD []) taskIns dagIns.ShareData).get k := by
  have hg := GenerateIterationTasks_shareData c env
    { dagIns := { dagIns with
        ShareData := publishLoopValues p (arrayData.getD []) taskIns dagIns.ShareData },
      loopParams := { p with Array := arrayData }, taskTree := none,
      getTimeout := env.defaultTimeout } (w.log (.Run taskIns)) k hk
  unfold HandleLoopAction.advance
  rw [if_neg (by omega)]
  simp only []
  split
  · exact hg
  · exact hg
  · split
    · exact hg
    · split
      · exact hg
      · split <;> exact hg

/-- The completion at the ceiling enters no generation. -/
theorem complete_generations (env : Env) (limit : Int) (p : LoopParameters)
    (taskIns : TaskInstance) (dagIns : DagInstance) (w : World) :
    (HandleLoopAction.complete env limit p taskIns dagIns w).world.generations
      = w.generations := by
  unfold HandleLoopAction.complete
  simp only []
  split
  · exact UpdateTaskIns_generations env w _
  · split
    · rw [(collectLoopOutputs_fields _ _ _ _ _).2.1, (walkNode_fields _ _ _ _).2.2,
        UpdateTaskIns_generations]
    · rw [(collectLoopOutputs_fields _ _ _ _ _).2.1, (walkNode_fields _ _ _ _).2.2,
        UpdateTaskIns_generations]

/-- Setting the loop identifiers and the reset keep the TaskID of the task and
the mode of the loop. -/
theorem withLoopIdentifiers_TaskID (p : LoopParameters) (taskIns : TaskInstance) :
    (resetTask (withLoopIdentifiers p taskIns).2).TaskID = taskIns.TaskID ∧
    (withLoopIdentifiers p taskIns).1.Mode = p.Mode := by
  unfold withLoopIdentifiers resetTask
  simp only []
  split <;> split <;> split <;> exact ⟨rfl, rfl⟩

/-- The part of the handler after the dependency check enters no generation,
or it is the advancing case on the task with its loop identifiers. -/
theorem proceed_cases (c : Common) (env : Env) (p : LoopParameters) (taskIns : TaskInstance)
    (dagIns : DagInstance) (w : World) :
    (HandleLoopAction.proceed c env p taskIns dagIns w).world.generations = w.generations ∨
    ∃ (t3 : TaskInstance) (w1 : World),
      HandleLoopAction.proceed c env p taskIns dagIns w
        = HandleLoopAction.advance c env (withLoopIdentifiers (normalizeParams p) taskIns).1
            (arrayDataOf p) t3 dagIns w1 ∧
      t3.TaskID = taskIns.TaskID := by
  have hww := walkNode_fields w taskIns.DagInsID taskIns.ID TaskInstanceStatusInit
  have hu : (if (withLoopIdentifiers (normalizeParams p) taskIns).2.Status
        = TaskInstanceStatusFailed ∨
      (withLoopIdentifiers (normalizeParams p) taskIns).2.Status = TaskInstanceStatusCanceled
    then UpdateTaskIns env (w.walkNode taskIns.DagInsID taskIns.ID TaskInstanceStatusInit)
      (resetTask (withLoopIdentifiers (normalizeParams p) taskIns).2)
    else (false, w)).2.generations = w.generations := by
    split
    · rw [UpdateTaskIns_generations, hww.2.2]
    · rfl
  unfold HandleLoopAction.proceed
  simp only []
  generalize (if (withLoopIdentifiers (normalizeParams p) taskIns).2.Status
        = TaskInstanceStatusFailed ∨
      (withLoopIdentifiers (normalizeParams p) taskIns).2.Status = TaskInstanceStatusCanceled
    then UpdateTaskIns env (w.walkNode taskIns.DagInsID taskIns.ID TaskInstanceStatusInit)
      (resetTask (withLoopIdentifiers (normalizeParams p) taskIns).2)
    else (false, w)) = u at hu ⊢
  split
  · exact Or.inl hu
  · split
    · left
      rw [complete_generations, hu]
    · exact Or.inr ⟨_, _, rfl, (withLoopIdentifiers_TaskID _ _).1⟩

/-- The handler enters no generation, or it is the advancing case on the task
with its loop identifiers. -/
theorem handler_cases (c : Common) (env : Env) (h : LoopHandler) (taskIns : TaskInstance)
    (dagIns : DagInstance) (w : World) :
    (HandleLoopAction c env h taskIns dagIns w).world.generations = w.generations ∨
    ∃ (t3 : TaskInstance) (w1 : World),
      HandleLoopAction c env h taskIns dagIns w
        = HandleLoopAction.advance c env
            (withLoopIdentifiers (normalizeParams h.loopParams) taskIns).1
            (arrayDataOf h.loopParams) t3 dagIns w1 ∧
      t3.TaskID = taskIns.TaskID := by
  have he := ensureTaskTree_fields env taskIns dagIns w
  have hw := walkNode_fields (ensureTaskTree env taskIns dagIns w).2 taskIns.DagInsID
    taskIns.ID taskIns.Status
  have hl : (ListTaskInstance env ((ensureTaskTree env taskIns dagIns w).2.walkNode
      taskIns.DagInsID taskIns.ID taskIns.Status) taskIns.DagInsID).2.generations
        = w.generations := by
    rw [ListTaskInstance_generations, hw.2.2, he.2]
  unfold HandleLoopAction
  simp only []
  split
  · exact Or.inl he.2
  · split
    · left
      split
      · rw [UpdateTaskIns_generations, hw.2.2, he.2]
      · simp only [World.log]
        rw [(walkNode_fields _ _ _ _).2.2, UpdateTaskIns_generations, hw.2.2, he.2]
    · split
      · split
        · exact Or.inl hl
        · split
          · exact Or.inl hl
          · exact Or.inl hl
          · rcases proceed_cases c env h.loopParams taskIns dagIns
              (ListTaskInstance env ((ensureTaskTree env taskIns dagIns w).2.walkNode
                taskIns.DagInsID taskIns.ID taskIns.Status) taskIns.DagInsID).2 with h1 | h1
            · exact Or.inl (h1.trans hl)
            · exact Or.inr h1
      · rcases proceed_cases c env h.loopParams taskIns dagIns
          ((ensureTaskTree env taskIns dagIns w).2.walkNode
            taskIns.DagInsID taskIns.ID taskIns.Status) with h1 | h1
        · exact Or.inl (h1.trans (by rw [hw.2.2, he.2]))
        · exact Or.inr h1

/-- The mode defaulting keeps the array, and it gives the mode `array` to the
loops of that mode only. -/
theorem normalizeParams_mode (p : LoopParameters) :
    ((normalizeParams p).Mode = "array" ↔ p.Mode = "array") ∧
    (normalizeParams p).Array = p.Array := by
  unfold normalizeParams
  simp only []
  by_cases h0 : p.Mode = ""
  · simp [h0]
  · simp only [h0, if_false]
    by_cases h1 : p.Mode = "array"
    · simp only [h1, if_true]
      cases hA : p.Array <;> simp [h1, hA]
    · simp [h1]

/-- C23 as stated fails: the handler advances at iteration 0 for a loop-control
task with the TaskID `loop_loop_index`, whose origin is `loop`.  The key
`__loop_loop_index` of the task is also the key `__loop_<origin>_index` of the
bare index, which is written later: ShareData maps it to the number 0 and not
to a record. -/
theorem task_key_clash_loses_record :
    (HandleLoopAction sampleCommon sampleEnv sampleHandler sampleClashTask sampleDag
        sampleCachedWorld).world.generations = [0] ∧
    (HandleLoopAction sampleCommon sampleEnv sampleHandler sampleClashTask sampleDag
        sampleCachedWorld).dagIns.ShareData.get "__loop" = some (.map [("index", .int 0)]) ∧
    (HandleLoopAction sampleCommon sampleEnv sampleHandler sampleClashTask sampleDag
        sampleCachedWorld).dagIns.ShareData.get "__loop_loop_index" = some (.int 0) :=
  ⟨rfl, rfl, rfl⟩

/-- C23, amended: publication of the bound values of the iteration.  Let
`HandleLoopAction` advance, that is enter the task generation for the current
iteration, with `0 ≤ CurrentIteration < effective limit`, for a loop-control
task whose TaskID `t` does not start with `loop_`.  Afterwards ShareData maps
both the key `__<origin>` (`origin` is the part of `t` before its first
underscore) and the key `__<t>` to one record: in array mode it holds `index =
CurrentIteration` and `value = Array[CurrentIteration]`, in every other mode
it holds `index = CurrentIteration` and nothing else. -/
theorem publication_of_bound_values (c : Common) (env : Env) (h : LoopHandler)
    (taskIns : TaskInstance) (dagIns : DagInstance) (w : World)
    (hnonneg : 0 ≤ h.loopParams.CurrentIteration)
    (hlt : h.loopParams.CurrentIteration < actualLimit h.loopParams)
    (hadv : (HandleLoopAction c env h taskIns dagIns w).world.generations
      = w.generations ++ [h.loopParams.CurrentIteration])
    (hloop : strings.HasPrefix taskIns.TaskID "loop_" = false) :
    (h.loopParams.Mode = "array" →
      ∃ x, (h.loopParams.Array.getD [])[h.loopParams.CurrentIteration.toNat]? = some x ∧
        (HandleLoopAction c env h taskIns dagIns w).dagIns.ShareData.get
            ("__" ++ splitHead taskIns.TaskID "_")
          = some (.map [("index", .int h.loopParams.CurrentIteration), ("value", x)]) ∧
        (HandleLoopAction c env h taskIns dagIns w).dagIns.ShareData.get
            ("__" ++ taskIns.TaskID)
          = some (.map [("index", .int h.loopParams.CurrentIteration), ("value", x)])) ∧
    (h.loopParams.Mode ≠ "array" →
      (HandleLoopAction c env h taskIns dagIns w).dagIns.ShareData.get
          ("__" ++ splitHead taskIns.TaskID "_")
        = some (.map [("index", .int h.loopParams.CurrentIteration)]) ∧
      (HandleLoopAction c env h taskIns dagIns w).dagIns.ShareData.get
          ("__" ++ taskIns.TaskID)
        = some (.map [("index", .int h.loopParams.CurrentIteration)])) := by
  rcases handler_cases c env h taskIns dagIns w with h0 | ⟨t3, w1, heq, ht3⟩
  · rw [h0] at hadv
    exact absurd hadv (by simp)
  have hcur : (withLoopIdentifiers (normalizeParams h.loopParams) taskIns).1.CurrentIteration
      = h.loopParams.CurrentIteration := by
    rw [(withLoopIdentifiers_fields _ _).1, normalizeParams_CurrentIteration]
  have hmode : (withLoopIdentifiers (normalizeParams h.loopParams) taskIns).1.Mode
      = (normalizeParams h.loopParams).Mode := (withLoopIdentifiers_TaskID _ _).2
  have hnm := normalizeParams_mode h.loopParams
  have hpub := publishLoopValues_get (withLoopIdentifiers (normalizeParams h.loopParams) taskIns).1
    ((arrayDataOf h.loopParams).getD []) t3 dagIns.ShareData
  rw [ht3] at hpub
  have hk1 := advance_shareData c env
    (withLoopIdentifiers (normalizeParams h.loopParams) taskIns).1 (arrayDataOf h.loopParams)
    t3 dagIns w1 (by rw [hcur]; exact hnonneg) _ (originKey_not_loop taskIns.TaskID)
  have hk2 := advance_shareData c env
    (withLoopIdentifiers (normalizeParams h.loopParams) taskIns).1 (arrayDataOf h.loopParams)
    t3 dagIns w1 (by rw [hcur]; exact hnonneg) _ (taskKey_not_loop taskIns.TaskID hloop)
  rw [← heq, hpub.1] at hk1
  rw [← heq, hpub.2 hloop] at hk2
  rw [hk1, hk2]
  unfold loopInternalValues
  rw [hcur, hmode]
  constructor
  · intro harr
    have hlen : h.loopParams.CurrentIteration
        < (((arrayDataOf h.loopParams).getD []).length : Int) := by
      rw [actualLimit_eq, if_pos harr] at hlt
      unfold arrayDataOf
      rw [if_pos (hnm.1.mpr harr), hnm.2]
      exact hlt
    have harrd : (arrayDataOf h.loopParams).getD [] = h.loopParams.Array.getD [] := by
      unfold arrayDataOf
      rw [if_pos (hnm.1.mpr harr), hnm.2]
    rw [if_pos ⟨hnm.1.mpr harr, hlen⟩, harrd]
    rw [harrd] at hlen
    have hidx : h.loopParams.CurrentIteration.toNat < (h.loopParams.Array.getD []).length := by
      omega
    refine ⟨(h.loopParams.Array.getD [])[h.loopParams.CurrentIteration.toNat],
      List.getElem?_eq_getElem hidx, ?_, ?_⟩
    · rw [List.getD_eq_getElem _ _ hidx]
    · rw [List.getD_eq_getElem _ _ hidx]
  · intro hnarr
    rw [if_neg (fun hx => hnarr (hnm.1.mp hx.1))]
    exact ⟨rfl, rfl⟩

/-- Witness of the amended C23: the array loop over `[x, y, z]` at iteration 2
publishes the record `index = 2, value = z` under `__1`, the key of the origin
and of the task. -/
theorem publication_of_bound_values_witness :
    (HandleLoopAction sampleCommon sampleEnv (sampleArrayHandler 2)
        { sampleLoopTask with DependOn := [] } sampleDag sampleCachedWorld).dagIns.ShareData.get
        "__1" = some (.map [("index", .int 2), ("value", .str "z")]) ∧
    ∃ x, [Value.str "x", .str "y", .str "z"][2]? = some x ∧
      (HandleLoopAction sampleCommon sampleEnv (sampleArrayHandler 2)
        { sampleLoopTask with DependOn := [] } sampleDag sampleCachedWorld).dagIns.ShareData.get
          ("__" ++ splitHead "1" "_")
        = some (.map [("index", .int 2), ("value", x)]) := by
  obtain ⟨x, h1, h2, _⟩ := (publication_of_bound_values sampleCommon sampleEnv
    (sampleArrayHandler 2) { sampleLoopTask with DependOn := [] } sampleDag sampleCachedWorld
    (by decide) (by decide) rfl (by decide)).1 rfl
  exact ⟨rfl, x, h1, h2⟩

/-- In a store with distinct identities the lookup by the identity of a stored
task finds that task. -/
theorem find?_of_nodup_ID :
    ∀ (tasks : List TaskInstance), (tasks.map (fun t => t.ID)).Nodup →
      ∀ t ∈ tasks, tasks.find? (fun x => x.ID = t.ID) = some t
  | [], _, t, ht => absurd ht (List.not_mem_nil _)
  | x :: rest, hid, t, ht => by
    rw [List.map_cons, List.nodup_cons] at hid
    rw [List.find?_cons]
    by_cases hx : x.ID = t.ID
    · have hxt : x = t := by
        rcases List.mem_cons.mp ht with h | h
        · exact h.symm
        · exact absurd (hx ▸ List.mem_map_of_mem (fun t => t.ID) h) hid.1
      simp [hxt]
    · rcases List.mem_cons.mp ht with h | h
      · exact absurd (h ▸ rfl) hx
      · simp only [hx, decide_False]
        exact find?_of_nodup_ID rest hid.2 t h

/-- A replacement under the identity of the replaced task keeps the
identities of the store. -/
theorem replaceTask_map_ID (task : TaskInstance) (tasks : List TaskInstance) :
    (replaceTask task tasks).map (fun t => t.ID) = tasks.map (fun t => t.ID) := by
  unfold replaceTask
  rw [List.map_map]
  apply List.map_congr_left
  intro t _
  simp only [Function.comp]
  split
  · rename_i h
    exact h.symm
  · rfl

/-- With a store that does not fail, the retro-wiring of one dependent task
patches it once when it depends on the loop task, and not at all when it does
not. -/
theorem retroWire_inner_spec (env : Env) (hs : ∀ n, env.fails n = false) (l n : String) :
    ∀ (deps : List String) (task : TaskInstance) (w : World),
      (retroWire.inner env l n deps task w).tasks
        = if l ∈ deps then
            replaceTask { task with DependOn := task.DependOn ++ [n] } w.tasks
          else w.tasks
  | [], _, _ => by simp [retroWire.inner]
  | d :: rest, task, w => by
    unfold retroWire.inner
    by_cases hd : d = l
    · have hmem : l ∈ d :: rest := by rw [hd]; exact List.mem_cons_self _ _
      rw [if_pos hd, if_pos hmem]
      simp [PatchTaskIns, hs, World.log]
    · rw [if_neg hd, retroWire_inner_spec env hs l n rest task w]
      have : l ∈ d :: rest ↔ l ∈ rest := by
        rw [List.mem_cons]
        exact ⟨fun h => h.resolve_left (fun h1 => hd h1.symm), Or.inr⟩
      simp only [this]

/-- With a store that does not fail and distinct identities, the retro-wiring
over a list of distinct identities does not panic and appends the new TaskID to
the dependencies of exactly those stored tasks that are listed and depend on
the loop task. -/
theorem retroWire_spec (env : Env) (hs : ∀ n, env.fails n = false) (l n : String) :
    ∀ (ids : List String) (w : World), ids.Nodup → (w.tasks.map (fun t => t.ID)).Nodup →
      (retroWire env l n (ids.map Value.str) w).1 = none ∧
      (retroWire env l n (ids.map Value.str) w).2.tasks
        = w.tasks.map (fun t =>
            if t.ID ∈ ids ∧ l ∈ t.DependOn then { t with DependOn := t.DependOn ++ [n] }
            else t)
  | [], w, _, _ => by
    refine ⟨rfl, ?_⟩
    simp [retroWire]
  | id :: rest, w, hnd, hid => by
    rw [List.nodup_cons] at hnd
    rw [List.map_cons]
    unfold retroWire
    simp only [GetTaskIns, hs, Bool.false_eq_true, if_false]
    cases hfind : w.tasks.find? (fun t => t.ID = id) with
    | none =>
      simp only []
      have ih := retroWire_spec env hs l n rest (w.log (.GetTaskIns id)) hnd.2 hid
      refine ⟨ih.1, ?_⟩
      rw [ih.2]
      apply List.map_congr_left
      intro t ht
      have hne : t.ID ≠ id := by
        have := List.find?_eq_none.mp hfind t ht
        simpa using this
      simp [hne]
    | some task =>
      simp only []
      have hmem : task ∈ w.tasks := List.mem_of_find?_eq_some hfind
      have htid : task.ID = id := by
        have := List.find?_some hfind
        simpa using this
      have hin := retroWire_inner_spec env hs l n task.DependOn task (w.log (.GetTaskIns id))
      have hid1 : ((retroWire.inner env l n task.DependOn task
          (w.log (.GetTaskIns id))).tasks.map (fun t => t.ID)).Nodup := by
        rw [hin]
        split
        · rw [replaceTask_map_ID]
          exact hid
        · exact hid
      have ih := retroWire_spec env hs l n rest _ hnd.2 hid1
      refine ⟨ih.1, ?_⟩
      rw [ih.2, hin]
      have heq : ∀ t ∈ w.tasks, t.ID = id → t = task := fun t ht h =>
        List.inj_on_of_nodup_map hid ht hmem (h.trans htid.symm)
      by_cases hl : l ∈ task.DependOn
      · rw [if_pos hl]
        unfold replaceTask
        rw [List.map_map]
        apply List.map_congr_left
        intro t ht
        simp only [Function.comp, World.log]
        by_cases ht1 : t.ID = id
        · have := heq t ht ht1
          subst this
          simp [ht1, hl, hnd.1, htid]
        · simp [ht1, htid]
      · rw [if_neg hl]
        apply List.map_congr_left
        intro t ht
        by_cases ht1 : t.ID = id
        · have := heq t ht ht1
          subst this
          simp [ht1, hl, hnd.1]
        · simp [ht1]

/-- The scan of iteration 0 with a store that does not fail and at least one
task that waits for the loop: the identities of those tasks are stored under
`loopKeyPrefix + "dependent_tasks"`. -/
theorem scan_stores (env : Env) (e : LoopExecutor) (w : World)
    (hs : ∀ n, env.fails n = false) (h0 : e.loopParams.CurrentIteration = 0)
    (hdeps : dependentTasksOf e.loopParams
      (w.tasks.filter (fun t => t.DagInsID = e.dagIns.ID)) ≠ []) :
    GenerateIterationTasks.scan env e w
      = ({ e with dagIns := { e.dagIns with
            ShareData := e.dagIns.ShareData.set
              (loopKeyPrefix e.loopParams ++ "dependent_tasks")
              (.strs (dependentTasksOf e.loopParams
                (w.tasks.filter (fun t => t.DagInsID = e.dagIns.ID)))) } },
          w.log (.ListTaskInstance e.dagIns.ID)) := by
  unfold GenerateIterationTasks.scan
  rw [if_pos h0]
  simp only [ListTaskInstance, hs, Bool.false_eq_true, if_false]
  rw [if_pos (List.length_pos.mpr hdeps)]

/-- The key that the retro-wiring reads is the key that the scan writes when
the loop TaskID holds no `_i`. -/
theorem dependent_tasks_key (p : LoopParameters) (hbase : baseTaskID p = p.LoopTaskID) :
    "__loop_" ++ baseTaskID p ++ "_dependent_tasks" = loopKeyPrefix p ++ "dependent_tasks" := by
  unfold loopKeyPrefix
  rw [hbase, String.append_assoc ("__loop_" ++ p.LoopTaskID) "_" "dependent_tasks"]
  rfl

/-- The part of `GenerateIterationTasks` after the body loop at iteration 0,
with a store that does not fail and at least one task that waits for the loop:
the scan, the lookup, the retro-wiring over the scanned list and the last
part. -/
theorem next_wires (c : Common) (env : Env) (e : LoopExecutor) (w : World)
    (existingTasks taskInstances : List TaskInstance) (lastTaskIDs : List String)
    (hs : ∀ n, env.fails n = false) (h0 : e.loopParams.CurrentIteration = 0)
    (hbase : baseTaskID e.loopParams = e.loopParams.LoopTaskID)
    (hlim : e.loopParams.CurrentIteration + 1 ≤ e.loopParams.Limit ∨
      e.loopParams.CurrentIteration + 1 ≤ ((e.loopParams.Array.getD []).length : Int))
    (hnone : existingTasks.any (fun t => t.TaskID = baseTaskID e.loopParams ++ "_i"
      ++ toString (e.loopParams.CurrentIteration + 1)) = false)
    (hid : (w.tasks.map (fun t => t.ID)).Nodup)
    (hdeps : dependentTasksOf e.loopParams
      (w.tasks.filter (fun t => t.DagInsID = e.dagIns.ID)) ≠ []) :
    ∃ w2 : World,
      w2.tasks = w.tasks.map (fun t =>
        if t.ID ∈ dependentTasksOf e.loopParams
              (w.tasks.filter (fun t => t.DagInsID = e.dagIns.ID)) ∧
            e.loopParams.LoopTaskID ∈ t.DependOn then
          { t with DependOn := t.DependOn ++ [(newLoopTask c e.loopParams e.dagIns.ID
            (w.tasks.find? (fun t => t.ID = e.loopParams.LoopControlID)) lastTaskIDs).TaskID] }
        else t) ∧
      GenerateIterationTasks.next c env e w existingTasks taskInstances lastTaskIDs
        = GenerateIterationTasks.finish env
            { e with dagIns := { e.dagIns with
              ShareData := e.dagIns.ShareData.set
                (loopKeyPrefix e.loopParams ++ "dependent_tasks")
                (.strs (dependentTasksOf e.loopParams
                  (w.tasks.filter (fun t => t.DagInsID = e.dagIns.ID)))) } }
            w2
            (taskInstances ++ [newLoopTask c e.loopParams e.dagIns.ID
              (w.tasks.find? (fun t => t.ID = e.loopParams.LoopControlID)) lastTaskIDs])
            lastTaskIDs := by
  have hnd : (dependentTasksOf e.loopParams
      (w.tasks.filter (fun t => t.DagInsID = e.dagIns.ID))).Nodup := by
    unfold dependentTasksOf
    exact hid.sublist (((List.filter_sublist _).trans (List.filter_sublist _)).map _)
  have hrw := retroWire_spec env hs e.loopParams.LoopTaskID
    (newLoopTask c e.loopParams e.dagIns.ID
      (w.tasks.find? (fun t => t.ID = e.loopParams.LoopControlID)) lastTaskIDs).TaskID
    (dependentTasksOf e.loopParams (w.tasks.filter (fun t => t.DagInsID = e.dagIns.ID)))
    ((w.log (.ListTaskInstance e.dagIns.ID)).log (.GetTaskIns e.loopParams.LoopControlID))
    hnd hid
  refine ⟨_, hrw.2, ?_⟩
  unfold GenerateIterationTasks.next
  rw [scan_stores env e w hs h0 hdeps]
  simp only []
  rw [if_pos hlim, if_neg (by rw [hnone]; decide), dependent_tasks_key _ hbase,
    Dict.get_set_self]
  simp only [GetTaskIns, hs, Bool.false_eq_true, if_false, dependentTasksList, World.log] at hrw ⊢
  simp only [hrw.1]

/-- With a store that does not fail, the last part of `GenerateIterationTasks`
appends the created instances to the store and records the last terminal ID
in ShareData. -/
theorem finish_world (env : Env) (e : LoopExecutor) (w : World)
    (taskInstances : List TaskInstance) (lastTaskIDs : List String)
    (hs : ∀ n, env.fails n = false) (hne : taskInstances ≠ []) :
    (GenerateIterationTasks.finish env e w taskInstances lastTaskIDs).2.2.tasks
      = w.tasks ++ assignIDs env w.tasks.length taskInstances ∧
    (GenerateIterationTasks.finish env e w taskInstances lastTaskIDs).2.1.dagIns.ShareData
      = e.dagIns.ShareData.set (loopKeyPrefix e.loopParams ++ "last_iteration_task_id")
          (.str (lastTaskIDs.getLast?.getD "")) := by
  have hl : ¬ taskInstances.length = 0 := fun h => hne (List.length_eq_zero.mp h)
  unfold GenerateIterationTasks.finish
  simp only []
  rw [if_neg hl]
  simp only [BatchCreateTaskIns, hs, Bool.false_eq_true, if_false, World.log, and_self]

/-- The key of the dependent tasks is not the key of the last task ID. -/
theorem dependent_tasks_key_ne (p : LoopParameters) :
    loopKeyPrefix p ++ "dependent_tasks" ≠ loopKeyPrefix p ++ "last_iteration_task_id" := by
  intro h
  have h1 := congrArg String.data h
  rw [String.data_append, String.data_append] at h1
  exact absurd (List.append_cancel_left h1) (by decide)

/-- C25, counterexample: the loop task has the TaskID `fetch_items`, which
holds `_i`, and the task `2` of the run waits for it.  The call of
`GenerateIterationTasks` at iteration 0 creates the body task and the
loop-control task `fetch_i1`; the list of waiting tasks is stored under
`__loop_fetch_items_dependent_tasks`, the retro-wiring reads
`__loop_fetch_dependent_tasks`, where nothing is stored, and the task `2` keeps
its dependencies. -/
theorem retro_wiring_key_mismatch :
    (returnedTasks (GenerateIterationTasks sampleCommon sampleEnv sampleItemsExecutor
      sampleItemsWorld)).map (fun t => t.TaskID) = ["fetch_i0_sA", "fetch_i1"] ∧
    (GenerateIterationTasks sampleCommon sampleEnv sampleItemsExecutor
      sampleItemsWorld).2.2.tasks.map (fun t => (t.TaskID, t.DependOn))
      = [("fetch_items", []), ("2", ["fetch_items"]), ("fetch_i0_sA", ["fetch_items"]),
          ("fetch_i1", ["fetch_i0_sA"])] ∧
    (GenerateIterationTasks sampleCommon sampleEnv sampleItemsExecutor
      sampleItemsWorld).2.1.dagIns.ShareData.get "__loop_fetch_items_dependent_tasks"
      = some (.strs ["t3"]) ∧
    (GenerateIterationTasks sampleCommon sampleEnv sampleItemsExecutor
      sampleItemsWorld).2.1.dagIns.ShareData.get "__loop_fetch_dependent_tasks" = none :=
  ⟨rfl, rfl, rfl, rfl⟩

/-- C25, amended: retro-wiring of the tasks that wait for the loop, for a loop
TaskID without `_i`.  Let `GenerateIterationTasks` run at iteration 0 with a
store that does not fail and has distinct identities, the iteration not
materialized, iteration 1 within the limit, no task `<base>_i1` stored and the
lists in ShareData holding strings.  Then the call returns the created body
tasks followed by the new loop-control task.  Every stored task of the run
whose TaskID does not start with `<base>_i` and whose DependOn contains the
loop TaskID is afterwards stored with its previous DependOn followed by the
TaskID of the new loop-control task, and when there is such a task the
identities of all of them are stored in ShareData under
`__loop_<base>_dependent_tasks`, the key that the retro-wiring reads.  The
stored list holds the identities of exactly those tasks. -/
theorem retro_wiring_of_waiting_tasks (c : Common) (env : Env) (e : LoopExecutor) (w : World)
    (h0 : e.loopParams.CurrentIteration = 0)
    (hbase : baseTaskID e.loopParams = e.loopParams.LoopTaskID)
    (hs : ∀ n, env.fails n = false)
    (hfresh : ∀ t ∈ w.tasks, t.DagInsID = e.dagIns.ID →
      strings.HasPrefix t.TaskID (currentIterPrefix e.loopParams) = false)
    (hlim : e.loopParams.CurrentIteration + 1 ≤ e.loopParams.Limit ∨
      e.loopParams.CurrentIteration + 1 ≤ ((e.loopParams.Array.getD []).length : Int))
    (hnone : ∀ t ∈ w.tasks, t.DagInsID = e.dagIns.ID →
      t.TaskID ≠ baseTaskID e.loopParams ++ "_i" ++ toString (e.loopParams.CurrentIteration + 1))
    (hid : (w.tasks.map (fun t => t.ID)).Nodup)
    (hsd : holdsTaskIDs e.dagIns.ShareData) :
    let body := GenerateIterationTasks.steps c e.loopParams e.dagIns.ID e.getTimeout
      ((w.tasks.filter (fun t => t.DagInsID = e.dagIns.ID)).map (fun t => t.ID))
      e.loopParams.Steps none [] []
    let ctl := newLoopTask c e.loopParams e.dagIns.ID
      (w.tasks.find? (fun t => t.ID = e.loopParams.LoopControlID)) body.2
    let waiting := dependentTasksOf e.loopParams
      (w.tasks.filter (fun t => t.DagInsID = e.dagIns.ID))
    (GenerateIterationTasks c env e w).1
      = .ret { tasks := some (assignIDs env w.tasks.length (body.1 ++ [ctl])), err := none } ∧
    (∀ t ∈ w.tasks, t.DagInsID = e.dagIns.ID →
      strings.HasPrefix t.TaskID (baseTaskID e.loopParams ++ "_i") = false →
      e.loopParams.LoopTaskID ∈ t.DependOn →
        (GenerateIterationTasks c env e w).2.2.tasks.find? (fun x => x.ID = t.ID)
          = some { t with DependOn := t.DependOn ++ [ctl.TaskID] } ∧
        (GenerateIterationTasks c env e w).2.1.dagIns.ShareData.get
            ("__loop_" ++ baseTaskID e.loopParams ++ "_dependent_tasks")
          = some (.strs waiting)) ∧
    (∀ id, id ∈ waiting ↔ ∃ t ∈ w.tasks, t.DagInsID = e.dagIns.ID ∧
      strings.HasPrefix t.TaskID (baseTaskID e.loopParams ++ "_i") = false ∧
      e.loopParams.LoopTaskID ∈ t.DependOn ∧ t.ID = id) := by
  intro body ctl waiting
  have hany : (w.tasks.filter (fun t => t.DagInsID = e.dagIns.ID)).any
      (fun t => strings.HasPrefix t.TaskID (currentIterPrefix e.loopParams)) = false := by
    rw [List.any_eq_false]
    intro t ht
    have hm := List.mem_filter.mp ht
    simp [hfresh t hm.1 (by simpa using hm.2)]
  have hg : ¬ (e.loopParams.CurrentIteration > 0 ∧
      ¬ ((w.tasks.filter (fun t => t.DagInsID = e.dagIns.ID)).filter
          (fun t => strings.HasPrefix t.ID (prevIterPrefix e.loopParams))).all
        (fun t => t.Status = TaskInstanceStatusSuccess) = true) := by
    rintro ⟨hpos, _⟩
    omega
  have hnx : (w.tasks.filter (fun t => t.DagInsID = e.dagIns.ID)).any
      (fun t => t.TaskID = baseTaskID e.loopParams ++ "_i"
        ++ toString (e.loopParams.CurrentIteration + 1)) = false := by
    rw [List.any_eq_false]
    intro t ht
    have hm := List.mem_filter.mp ht
    simpa using hnone t hm.1 (by simpa using hm.2)
  have hmem : ∀ id, id ∈ waiting ↔ ∃ t ∈ w.tasks, t.DagInsID = e.dagIns.ID ∧
      strings.HasPrefix t.TaskID (baseTaskID e.loopParams ++ "_i") = false ∧
      e.loopParams.LoopTaskID ∈ t.DependOn ∧ t.ID = id := by
    intro id
    simp only [waiting, dependentTasksOf, List.mem_map, List.mem_filter, Bool.and_eq_true,
      Bool.not_eq_true', decide_eq_true_eq]
    constructor
    · rintro ⟨t, ⟨⟨h1, h2⟩, h3, h4⟩, h5⟩
      exact ⟨t, h1, h2, h3, by simpa using h4, h5⟩
    · rintro ⟨t, h1, h2, h3, h4, h5⟩
      exact ⟨t, ⟨⟨h1, h2⟩, h3, by simpa using h4⟩, h5⟩
  refine ⟨?_, ?_, hmem⟩
  · rw [generate_returns c env e w hs hfresh (Or.inl (by omega)) hsd, if_pos ⟨hlim, hnx⟩]
  · intro t ht hdag hpre hdep
    have htw : t.ID ∈ waiting := (hmem t.ID).mpr ⟨t, ht, hdag, hpre, hdep, rfl⟩
    have hdeps : waiting ≠ [] := List.ne_nil_of_mem htw
    obtain ⟨w2, hw2, hnext⟩ := next_wires c env
      { e with dagIns := { e.dagIns with
          ShareData := e.dagIns.ShareData.set
            (loopKeyPrefix e.loopParams ++ "current_iteration")
            (.int e.loopParams.CurrentIteration) } }
      (({ w with generations := w.generations ++ [e.loopParams.CurrentIteration] } : World).log
        (.ListTaskInstance e.dagIns.ID))
      (w.tasks.filter (fun t => t.DagInsID = e.dagIns.ID)) body.1 body.2 hs h0 hbase hlim hnx
      hid hdeps
    have hG : GenerateIterationTasks c env e w = GenerateIterationTasks.next c env
        { e with dagIns := { e.dagIns with
            ShareData := e.dagIns.ShareData.set
              (loopKeyPrefix e.loopParams ++ "current_iteration")
              (.int e.loopParams.CurrentIteration) } }
        (({ w with generations := w.generations ++ [e.loopParams.CurrentIteration] } : World).log
          (.ListTaskInstance e.dagIns.ID))
        (w.tasks.filter (fun t => t.DagInsID = e.dagIns.ID)) body.1 body.2 := by
      unfold GenerateIterationTasks
      simp only [ListTaskInstance, hs, Bool.false_eq_true, if_false]
      rw [if_neg (by simpa using hany), if_neg hg]
    have key : ∃ e1 : LoopExecutor,
        GenerateIterationTasks c env e w
          = GenerateIterationTasks.finish env e1 w2 (body.1 ++ [ctl]) body.2 ∧
        e1.dagIns.ShareData = (e.dagIns.ShareData.set
          (loopKeyPrefix e.loopParams ++ "current_iteration")
          (.int e.loopParams.CurrentIteration)).set
            (loopKeyPrefix e.loopParams ++ "dependent_tasks") (.strs waiting) ∧
        e1.loopParams = e.loopParams := ⟨_, hG.trans hnext, rfl, rfl⟩
    obtain ⟨e1, hE, hsd1, hp1⟩ := key
    have hfin := finish_world env e1 w2 (body.1 ++ [ctl]) body.2 hs (by simp)
    rw [hE, hfin.1, hfin.2, hsd1, hp1]
    constructor
    · rw [List.find?_append]
      have hid2 : (w2.tasks.map (fun t => t.ID)).Nodup := by
        rw [hw2, List.map_map]
        have : ((fun (t : TaskInstance) => t.ID) ∘ fun (t : TaskInstance) =>
            if t.ID ∈ waiting ∧ e.loopParams.LoopTaskID ∈ t.DependOn then
              { t with DependOn := t.DependOn ++ [ctl.TaskID] }
            else t) = fun t => t.ID := by
          funext t
          simp only [Function.comp]
          split <;> rfl
        simp only [World.log] at this ⊢
        rw [this]
        exact hid
      have hin : ({ t with DependOn := t.DependOn ++ [ctl.TaskID] } : TaskInstance)
          ∈ w2.tasks := by
        rw [hw2]
        simp only [World.log]
        apply List.mem_map.mpr
        exact ⟨t, ht, by rw [if_pos ⟨htw, hdep⟩]⟩
      have hf := find?_of_nodup_ID w2.tasks hid2 _ hin
      simp only [] at hf
      rw [hf]
      rfl
    · have hk := dependent_tasks_key e.loopParams hbase
      simp only [] at hk ⊢
      rw [hk, Dict.get_set_ne _ _ _ _ (dependent_tasks_key_ne e.loopParams), Dict.get_set_self]

/-- Witness of C25: in the sample run the task `2` waits for the loop `1`;
after iteration 0 it depends on `1` and on the new loop-control task `1_i1`,
and its identity is stored under `__loop_1_dependent_tasks`. -/
theorem retro_wiring_of_waiting_tasks_witness :
    (GenerateIterationTasks sampleCommon sampleEnv sampleExecutor
      sampleWaitingWorld).2.2.tasks.map (fun t => (t.TaskID, t.DependOn))
      = [("1", []), ("2", ["1", "1_i1"]), ("1_i0_sA", ["1"]), ("1_i1", ["1_i0_sA"])] ∧
    (GenerateIterationTasks sampleCommon sampleEnv sampleExecutor
      sampleWaitingWorld).2.1.dagIns.ShareData.get "__loop_1_dependent_tasks"
      = some (.strs ["t3"]) :=
  ⟨rfl, ((retro_wiring_of_waiting_tasks sampleCommon sampleEnv sampleExecutor sampleWaitingWorld
    rfl rfl (fun _ => rfl) (by decide) (by decide) (by decide) (by decide)
    (fun kv hkv => absurd hkv (List.not_mem_nil _))).2.1 (sampleWaitingTask "1")
    (by simp [sampleWaitingWorld]) rfl rfl (by decide)).2⟩

/-- A task ID under `p ++ "_"` extends `p`. -/
theorem Extends.of_prefix (p x : String) (h : strings.HasPrefix x (p ++ "_") = true) :
    Extends p x := by
  rw [HasPrefix_iff, String.data_append] at h
  obtain ⟨r, hr⟩ := h
  refine ⟨'_' :: r, ?_, Or.inr rfl⟩
  rw [← hr, List.append_assoc]
  rfl

/-- What extends a nested task ID lies under the parent followed by an
underscore. -/
theorem Extends.prefix_of_nested (p : String) (i : Nat) (s x : String)
    (h : Extends (nestedID p i s) x) : strings.HasPrefix x (p ++ "_") = true := by
  obtain ⟨r, hr, _⟩ := h
  rw [HasPrefix_iff, String.data_append, hr, nestedID_data]
  exact ⟨(toString i).data ++ '_' :: s.data ++ r, by simp⟩

/-- The scan from the front keeps the length of the list. -/
theorem setPreChecksFirst_length (id : String) (pc : PreChecks) :
    ∀ (l : List TaskInstance), (setPreChecksFirst id pc l).length = l.length
  | [] => rfl
  | t :: rest => by
    unfold setPreChecksFirst
    split
    · rfl
    · simp [setPreChecksFirst_length id pc rest]

/-- The scan from the front changes nothing when no task has the ID sought. -/
theorem setPreChecksFirst_none (id : String) (pc : PreChecks) :
    ∀ (l : List TaskInstance), (∀ t ∈ l, t.TaskID ≠ id) → setPreChecksFirst id pc l = l
  | [], _ => rfl
  | t :: rest, h => by
    unfold setPreChecksFirst
    rw [if_neg (h t (List.mem_cons_self _ _)),
      setPreChecksFirst_none id pc rest (fun x hx => h x (List.mem_cons_of_mem _ hx))]

/-- The scan from the front over two lists: it acts on the first list as it
does on that list alone, and it leaves the second as it is when none of its
tasks has the ID sought. -/
theorem setPreChecksFirst_append (id : String) (pc : PreChecks) (ys : List TaskInstance) :
    ∀ (xs : List TaskInstance), ∃ ys2 : List TaskInstance, ys2.length = ys.length ∧
      setPreChecksFirst id pc (xs ++ ys) = setPreChecksFirst id pc xs ++ ys2 ∧
      ((∀ t ∈ ys, t.TaskID ≠ id) → ys2 = ys)
  | [] => ⟨setPreChecksFirst id pc ys, setPreChecksFirst_length id pc ys, rfl,
      setPreChecksFirst_none id pc ys⟩
  | x :: xs => by
    obtain ⟨ys2, h1, h2, h3⟩ := setPreChecksFirst_append id pc ys xs
    by_cases hx : x.TaskID = id
    · refine ⟨ys, rfl, ?_, fun _ => rfl⟩
      rw [List.cons_append]
      unfold setPreChecksFirst
      rw [if_pos hx, if_pos hx, List.cons_append]
    · refine ⟨ys2, h1, ?_, h3⟩
      rw [List.cons_append]
      unfold setPreChecksFirst
      rw [if_neg hx, if_neg hx, h2, List.cons_append]

/-- The assignment of pre-checks over two lists: it acts on the second list as
it does on that list alone, and it leaves the first as it is when none of its
tasks has the ID sought. -/
theorem setPreChecks_append (pre mid : List TaskInstance) (id : String) (pc : PreChecks) :
    ∃ pre2 : List TaskInstance, pre2.length = pre.length ∧
      setPreChecks (pre ++ mid) id pc = pre2 ++ setPreChecks mid id pc ∧
      ((∀ t ∈ pre, t.TaskID ≠ id) → pre2 = pre) := by
  obtain ⟨ys2, h1, h2, h3⟩ := setPreChecksFirst_append id pc pre.reverse mid.reverse
  refine ⟨ys2.reverse, by rw [List.length_reverse, h1, List.length_reverse], ?_, ?_⟩
  · unfold setPreChecks
    rw [List.reverse_append, h2, List.reverse_append]
  · intro h
    rw [h3 (fun t ht => h t (List.mem_reverse.mp ht)), List.reverse_reverse]

/-- The guard `len(taskInstances) > 0` before the assignment of pre-checks
makes no difference. -/
theorem setPreChecks_guard (l : List TaskInstance) (id : String) (pc : PreChecks) :
    (if l.length > 0 then setPreChecks l id pc else l) = setPreChecks l id pc := by
  cases l with
  | nil => rfl
  | cons t rest => rw [if_pos (by simp)]

/-- The assignment of pre-checks keeps the length of the list. -/
theorem setPreChecks_length (l : List TaskInstance) (id : String) (pc : PreChecks) :
    (setPreChecks l id pc).length = l.length := by
  unfold setPreChecks
  rw [List.length_reverse, setPreChecksFirst_length, List.length_reverse]

mutual
/-- The expansion of a step acts on the tasks collected last as it does on those
alone: the tasks collected before them keep their number, and they are
unchanged when none of them has a TaskID under that of the step. -/
theorem processStep_frame (c : Common) (dagInsID : String)
    (getTimeout : String → Int) (ex : List String) :
    ∀ (step : Step) (pre mid : List TaskInstance) (taskID : String) (dependOn : List String),
      ∃ pre2 : List TaskInstance, pre2.length = pre.length ∧
        (processStepRecursively c dagInsID getTimeout ex (pre ++ mid) step taskID dependOn).1
          = pre2 ++ (processStepRecursively c dagInsID getTimeout ex mid step taskID
              dependOn).1 ∧
        (processStepRecursively c dagInsID getTimeout ex (pre ++ mid) step taskID dependOn).2
          = (processStepRecursively c dagInsID getTimeout ex mid step taskID dependOn).2 ∧
        ((∀ t ∈ pre, strings.HasPrefix t.TaskID (taskID ++ "_") = false) → pre2 = pre)
  | .mk _ title op params branches, pre, mid, taskID, dependOn => by
    unfold processStepRecursively
    by_cases hp : op = c.ControlFlowParallel
    · rw [if_pos hp, if_pos hp]
      obtain ⟨pre2, h1, h2, h3, h4⟩ := parallelBranches_frame c dagInsID getTimeout ex branches
        pre mid taskID dependOn 0 []
      refine ⟨pre2, h1, h2, h3, fun h => h4 (fun t ht k s _ hE => ?_)⟩
      have := hE.prefix_of_nested
      rw [h t ht] at this
      exact absurd this (by decide)
    · rw [if_neg hp, if_neg hp]
      by_cases hb : op = c.BranchOpt
      · rw [if_pos hb, if_pos hb]
        obtain ⟨pre2, h1, h2, h3, h4⟩ := condBranches_frame c dagInsID getTimeout ex branches
          pre (mid ++ [NewTaskInstance dagInsID
            { ID := taskID, ActionName := c.BranchOpt, DependOn := dependOn, Params := params,
              TimeoutSecs := getTimeout c.BranchOpt, Name := title }]) taskID 0 []
        rw [← List.append_assoc] at h2 h3
        refine ⟨pre2, h1, ?_, ?_, fun h => h4 (fun t ht k s _ hE => ?_)⟩
        · simp only []
          rw [h3]
          split
          · exact h2
          · exact h2
        · simp only []
          rw [h3]
          split
          · rfl
          · exact h3
        · have := hE.prefix_of_nested
          rw [h t ht] at this
          exact absurd this (by decide)
      · rw [if_neg hb, if_neg hb]
        exact ⟨pre, rfl, List.append_assoc _ _ _, rfl, fun _ => rfl⟩
/-- The branches of a parallel step act on the tasks collected last as they do
on those alone. -/
theorem parallelBranches_frame (c : Common) (dagInsID : String)
    (getTimeout : String → Int) (ex : List String) :
    ∀ (branches : List Branch) (pre mid : List TaskInstance) (taskID : String)
      (dependOn : List String) (i : Nat) (coll : List String),
      ∃ pre2 : List TaskInstance, pre2.length = pre.length ∧
        (processStepRecursively.parallelBranches c dagInsID getTimeout ex (pre ++ mid) branches
            taskID dependOn i coll).1
          = pre2 ++ (processStepRecursively.parallelBranches c dagInsID getTimeout ex mid
              branches taskID dependOn i coll).1 ∧
        (processStepRecursively.parallelBranches c dagInsID getTimeout ex (pre ++ mid) branches
            taskID dependOn i coll).2
          = (processStepRecursively.parallelBranches c dagInsID getTimeout ex mid branches
              taskID dependOn i coll).2 ∧
        ((∀ t ∈ pre, ∀ (k : Nat) (s : String), i ≤ k →
            ¬ Extends (nestedID taskID k s) t.TaskID) → pre2 = pre)
  | [], pre, mid, taskID, dependOn, i, coll => by
    unfold processStepRecursively.parallelBranches
    exact ⟨pre, rfl, rfl, rfl, fun _ => rfl⟩
  | .mk _ steps :: rest, pre, mid, taskID, dependOn, i, coll => by
    unfold processStepRecursively.parallelBranches
    obtain ⟨pre1, a1, a2, a3, a4⟩ := parallelSteps_frame c dagInsID getTimeout ex steps pre mid
      taskID i dependOn 0 dependOn
    simp only []
    rw [a2, a3]
    obtain ⟨pre2, b1, b2, b3, b4⟩ := parallelBranches_frame c dagInsID getTimeout ex rest pre1
      (processStepRecursively.parallelSteps c dagInsID getTimeout ex mid steps taskID i
        dependOn 0 dependOn).1 taskID dependOn (i + 1)
      (coll ++ (processStepRecursively.parallelSteps c dagInsID getTimeout ex mid steps taskID i
        dependOn 0 dependOn).2)
    refine ⟨pre2, b1.trans a1, b2, b3, fun h => ?_⟩
    have e1 : pre1 = pre := a4 (fun t ht s _ => h t ht i s.ID (Nat.le_refl i))
    rw [e1] at b4
    exact b4 (fun t ht k s hk => h t ht k s (by omega))
/-- The steps of a parallel branch act on the tasks collected last as they do
on those alone. -/
theorem parallelSteps_frame (c : Common) (dagInsID : String)
    (getTimeout : String → Int) (ex : List String) :
    ∀ (steps : List Step) (pre mid : List TaskInstance) (taskID : String) (i : Nat)
      (entry : List String) (j : Nat) (cur : List String),
      ∃ pre2 : List TaskInstance, pre2.length = pre.length ∧
        (processStepRecursively.parallelSteps c dagInsID getTimeout ex (pre ++ mid) steps taskID
            i entry j cur).1
          = pre2 ++ (processStepRecursively.parallelSteps c dagInsID getTimeout ex mid steps
              taskID i entry j cur).1 ∧
        (processStepRecursively.parallelSteps c dagInsID getTimeout ex (pre ++ mid) steps taskID
            i entry j cur).2
          = (processStepRecursively.parallelSteps c dagInsID getTimeout ex mid steps taskID
              i entry j cur).2 ∧
        ((∀ t ∈ pre, ∀ s ∈ steps, ¬ Extends (nestedID taskID i s.ID) t.TaskID) → pre2 = pre)
  | [], pre, mid, taskID, i, entry, j, cur => by
    unfold processStepRecursively.parallelSteps
    exact ⟨pre, rfl, rfl, rfl, fun _ => rfl⟩
  | step :: rest, pre, mid, taskID, i, entry, j, cur => by
    unfold processStepRecursively.parallelSteps
    simp only []
    by_cases hex : ex.contains (nestedID taskID i step.ID) = true
    · rw [if_pos hex, if_pos hex]
      obtain ⟨pre2, b1, b2, b3, b4⟩ := parallelSteps_frame c dagInsID getTimeout ex rest pre mid
        taskID i entry (j + 1) [nestedID taskID i step.ID]
      exact ⟨pre2, b1, b2, b3, fun h => b4 (fun t ht s hs =>
        h t ht s (List.mem_cons_of_mem _ hs))⟩
    · rw [if_neg hex, if_neg hex]
      obtain ⟨pre1, a1, a2, a3, a4⟩ := processStep_frame c dagInsID getTimeout ex step pre mid
        (nestedID taskID i step.ID) (if j = 0 then entry else cur)
      rw [a2, a3]
      obtain ⟨pre2, b1, b2, b3, b4⟩ := parallelSteps_frame c dagInsID getTimeout ex rest pre1
        (processStepRecursively c dagInsID getTimeout ex mid step (nestedID taskID i step.ID)
          (if j = 0 then entry else cur)).1 taskID i entry (j + 1)
        (if (processStepRecursively c dagInsID getTimeout ex mid step
            (nestedID taskID i step.ID) (if j = 0 then entry else cur)).2.length > 0 then
          (processStepRecursively c dagInsID getTimeout ex mid step
            (nestedID taskID i step.ID) (if j = 0 then entry else cur)).2
        else cur)
      refine ⟨pre2, b1.trans a1, b2, b3, fun h => ?_⟩
      have e1 : pre1 = pre := a4 (fun t ht => by
        cases hp : strings.HasPrefix t.TaskID (nestedID taskID i step.ID ++ "_") with
        | false => rfl
        | true => exact absurd (Extends.of_prefix _ _ hp) (h t ht step (List.mem_cons_self _ _)))
      rw [e1] at b4
      exact b4 (fun t ht s hs => h t ht s (List.mem_cons_of_mem _ hs))
/-- The branches of a conditional step act on the tasks collected last as they
do on those alone. -/
theorem condBranches_frame (c : Common) (dagInsID : String)
    (getTimeout : String → Int) (ex : List String) :
    ∀ (branches : List Branch) (pre mid : List TaskInstance) (taskID : String) (i : Nat)
      (coll : List String),
      ∃ pre2 : List TaskInstance, pre2.length = pre.length ∧
        (processStepRecursively.condBranches c dagInsID getTimeout ex (pre ++ mid) branches
            taskID i coll).1
          = pre2 ++ (processStepRecursively.condBranches c dagInsID getTimeout ex mid branches
              taskID i coll).1 ∧
        (processStepRecursively.condBranches c dagInsID getTimeout ex (pre ++ mid) branches
            taskID i coll).2
          = (processStepRecursively.condBranches c dagInsID getTimeout ex mid branches
              taskID i coll).2 ∧
        ((∀ t ∈ pre, ∀ (k : Nat) (s : String), i ≤ k →
            ¬ Extends (nestedID taskID k s) t.TaskID) → pre2 = pre)
  | [], pre, mid, taskID, i, coll => by
    unfold processStepRecursively.condBranches
    exact ⟨pre, rfl, rfl, rfl, fun _ => rfl⟩
  | .mk conditions steps :: rest, pre, mid, taskID, i, coll => by
    unfold processStepRecursively.condBranches
    obtain ⟨pre1, a1, a2, a3, a4⟩ := condSteps_frame c dagInsID getTimeout ex steps pre mid
      taskID i (buildPreChecks c taskID i conditions 0 []) [taskID]
    simp only []
    rw [a2, a3]
    obtain ⟨pre2, b1, b2, b3, b4⟩ := condBranches_frame c dagInsID getTimeout ex rest pre1
      (processStepRecursively.condSteps c dagInsID getTimeout ex mid steps taskID i
        (buildPreChecks c taskID i conditions 0 []) [taskID]).1 taskID (i + 1)
      (coll ++ (processStepRecursively.condSteps c dagInsID getTimeout ex mid steps taskID i
        (buildPreChecks c taskID i conditions 0 []) [taskID]).2)
    refine ⟨pre2, b1.trans a1, b2, b3, fun h => ?_⟩
    have e1 : pre1 = pre := a4 (fun t ht s _ => h t ht i s.ID (Nat.le_refl i))
    rw [e1] at b4
    exact b4 (fun t ht k s hk => h t ht k s (by omega))
/-- The steps of a conditional branch act on the tasks collected last as they
do on those alone. -/
theorem condSteps_frame (c : Common) (dagInsID : String)
    (getTimeout : String → Int) (ex : List String) :
    ∀ (steps : List Step) (pre mid : List TaskInstance) (taskID : String) (i : Nat)
      (prechecks : PreChecks) (path : List String),
      ∃ pre2 : List TaskInstance, pre2.length = pre.length ∧
        (processStepRecursively.condSteps c dagInsID getTimeout ex (pre ++ mid) steps taskID i
            prechecks path).1
          = pre2 ++ (processStepRecursively.condSteps c dagInsID getTimeout ex mid steps taskID
              i prechecks path).1 ∧
        (processStepRecursively.condSteps c dagInsID getTimeout ex (pre ++ mid) steps taskID i
            prechecks path).2
          = (processStepRecursively.condSteps c dagInsID getTimeout ex mid steps taskID
              i prechecks path).2 ∧
        ((∀ t ∈ pre, ∀ s ∈ steps, ¬ Extends (nestedID taskID i s.ID) t.TaskID) → pre2 = pre)
  | [], pre, mid, taskID, i, prechecks, path => by
    unfold processStepRecursively.condSteps
    exact ⟨pre, rfl, rfl, rfl, fun _ => rfl⟩
  | step :: rest, pre, mid, taskID, i, prechecks, path => by
    unfold processStepRecursively.condSteps
    simp only [setPreChecks_guard]
    by_cases hex : ex.contains (nestedID taskID i step.ID) = true
    · rw [if_pos hex, if_pos hex]
      obtain ⟨pre2, b1, b2, b3, b4⟩ := condSteps_frame c dagInsID getTimeout ex rest pre mid
        taskID i prechecks [nestedID taskID i step.ID]
      exact ⟨pre2, b1, b2, b3, fun h => b4 (fun t ht s hs =>
        h t ht s (List.mem_cons_of_mem _ hs))⟩
    · rw [if_neg hex, if_neg hex]
      obtain ⟨pre1, a1, a2, a3, a4⟩ := processStep_frame c dagInsID getTimeout ex step pre mid
        (nestedID taskID i step.ID) path
      rw [a2, a3]
      obtain ⟨pre1b, s1, s2, s3⟩ := setPreChecks_append pre1
        (processStepRecursively c dagInsID getTimeout ex mid step (nestedID taskID i step.ID)
          path).1 (nestedID taskID i step.ID) prechecks
      rw [s2]
      obtain ⟨pre2, b1, b2, b3, b4⟩ := condSteps_frame c dagInsID getTimeout ex rest pre1b
        (setPreChecks (processStepRecursively c dagInsID getTimeout ex mid step
          (nestedID taskID i step.ID) path).1 (nestedID taskID i step.ID) prechecks) taskID i
        prechecks
        (if (processStepRecursively c dagInsID getTimeout ex mid step
            (nestedID taskID i step.ID) path).2.length > 0 then
          (processStepRecursively c dagInsID getTimeout ex mid step
            (nestedID taskID i step.ID) path).2
        else path)
      refine ⟨pre2, (b1.trans s1).trans a1, b2, b3, fun h => ?_⟩
      have e1 : pre1 = pre := a4 (fun t ht => by
        cases hp : strings.HasPrefix t.TaskID (nestedID taskID i step.ID ++ "_") with
        | false => rfl
        | true => exact absurd (Extends.of_prefix _ _ hp) (h t ht step (List.mem_cons_self _ _)))
      have e2 : pre1b = pre := by
        rw [e1] at s3
        exact s3 (fun t ht he => h t ht step (List.mem_cons_self _ _)
          (he ▸ Extends.of_self _))
      rw [e2] at b4
      exact b4 (fun t ht s hs => h t ht s (List.mem_cons_of_mem _ hs))
end

mutual
/-- With no pre-existing tasks the expansion of a step adds as many tasks as the
specification counts for it. -/
theorem processStep_count (c : Common) (dagInsID : String) (getTimeout : String → Int) :
    ∀ (step : Step) (acc : List TaskInstance) (taskID : String) (dependOn : List String),
      (processStepRecursively c dagInsID getTimeout [] acc step taskID dependOn).1.length
        = acc.length + taskCount c step
  | .mk _ title op params branches, acc, taskID, dependOn => by
    unfold processStepRecursively
    rw [taskCount]
    by_cases hp : op = c.ControlFlowParallel
    · rw [if_pos hp, if_pos hp]
      exact parallelBranches_count c dagInsID getTimeout branches acc taskID dependOn 0 []
    · rw [if_neg hp, if_neg hp]
      by_cases hb : op = c.BranchOpt
      · rw [if_pos hb, if_pos hb]
        have h := condBranches_count c dagInsID getTimeout branches
          (acc ++ [NewTaskInstance dagInsID
            { ID := taskID, ActionName := c.BranchOpt, DependOn := dependOn, Params := params,
              TimeoutSecs := getTimeout c.BranchOpt, Name := title }]) taskID 0 []
        rw [List.length_append, List.length_singleton] at h
        simp only []
        split
        · rw [h]; omega
        · rw [h]; omega
      · rw [if_neg hb, if_neg hb, List.length_append, List.length_singleton]
/-- The count of the tasks that the branches of a parallel step add. -/
theorem parallelBranches_count (c : Common) (dagInsID : String) (getTimeout : String → Int) :
    ∀ (branches : List Branch) (acc : List TaskInstance) (taskID : String)
      (dependOn : List String) (i : Nat) (coll : List String),
      (processStepRecursively.parallelBranches c dagInsID getTimeout [] acc branches taskID
        dependOn i coll).1.length = acc.length + taskCount.branches c branches
  | [], acc, taskID, dependOn, i, coll => by
    unfold processStepRecursively.parallelBranches
    rw [taskCount.branches]
    rfl
  | .mk _ steps :: rest, acc, taskID, dependOn, i, coll => by
    unfold processStepRecursively.parallelBranches
    rw [taskCount.branches]
    simp only []
    rw [parallelBranches_count c dagInsID getTimeout rest,
      parallelSteps_count c dagInsID getTimeout steps]
    omega
/-- The count of the tasks that the steps of a parallel branch add. -/
theorem parallelSteps_count (c : Common) (dagInsID : String) (getTimeout : String → Int) :
    ∀ (steps : List Step) (acc : List TaskInstance) (taskID : String) (i : Nat)
      (entry : List String) (j : Nat) (cur : List String),
      (processStepRecursively.parallelSteps c dagInsID getTimeout [] acc steps taskID i entry
        j cur).1.length = acc.length + taskCount.steps c steps
  | [], acc, taskID, i, entry, j, cur => by
    unfold processStepRecursively.parallelSteps
    rw [taskCount.steps]
    rfl
  | step :: rest, acc, taskID, i, entry, j, cur => by
    unfold processStepRecursively.parallelSteps
    rw [taskCount.steps]
    simp only [List.contains_nil, Bool.false_eq_true, if_false]
    rw [parallelSteps_count c dagInsID getTimeout rest,
      processStep_count c dagInsID getTimeout step]
    omega
/-- The count of the tasks that the branches of a conditional step add. -/
theorem condBranches_count (c : Common) (dagInsID : String) (getTimeout : String → Int) :
    ∀ (branches : List Branch) (acc : List TaskInstance) (taskID : String) (i : Nat)
      (coll : List String),
      (processStepRecursively.condBranches c dagInsID getTimeout [] acc branches taskID i
        coll).1.length = acc.length + taskCount.branches c branches
  | [], acc, taskID, i, coll => by
    unfold processStepRecursively.condBranches
    rw [taskCount.branches]
    rfl
  | .mk conditions steps :: rest, acc, taskID, i, coll => by
    unfold processStepRecursively.condBranches
    rw [taskCount.branches]
    simp only []
    rw [condBranches_count c dagInsID getTimeout rest,
      condSteps_count c dagInsID getTimeout steps]
    omega
/-- The count of the tasks that the steps of a conditional branch add. -/
theorem condSteps_count (c : Common) (dagInsID : String) (getTimeout : String → Int) :
    ∀ (steps : List Step) (acc : List TaskInstance) (taskID : String) (i : Nat)
      (prechecks : PreChecks) (path : List String),
      (processStepRecursively.condSteps c dagInsID getTimeout [] acc steps taskID i prechecks
        path).1.length = acc.length + taskCount.steps c steps
  | [], acc, taskID, i, prechecks, path => by
    unfold processStepRecursively.condSteps
    rw [taskCount.steps]
    rfl
  | step :: rest, acc, taskID, i, prechecks, path => by
    unfold processStepRecursively.condSteps
    rw [taskCount.steps]
    simp only [List.contains_nil, Bool.false_eq_true, if_false, setPreChecks_guard]
    rw [condSteps_count c dagInsID getTimeout rest, setPreChecks_length,
      processStep_count c dagInsID getTimeout step]
    omega
end

/-- C21, counterexample: the task of a body step with the ID `C_0_P` is passed
in, and the conditional step `C` with the task ID `1_i0_sC` holds the parallel
step `P` in its branch 0.  The parallel step creates no task with the ID
`1_i0_sC_0_P`, so the scan for that ID reaches the task passed in and gives it
the pre-checks of the branch: the first task of the returned list is not the
task passed in. -/
theorem passed_in_task_gets_prechecks :
    (processStepRecursively sampleCommon "d" (fun _ => 30) [] [] (sampleStep "C_0_P")
      (stepTaskID sampleParams "C_0_P") ["1"]).1 = [sampleEarlierTask] ∧
    sampleEarlierTask.PreChecks = [] ∧
    (processStepRecursively sampleCommon "d" (fun _ => 30) [] [sampleEarlierTask] sampleCond
      (stepTaskID sampleParams "C") ["1_i0_sC_0_P"]).1.map
        (fun t => (t.TaskID, t.PreChecks.map (fun kv => kv.1)))
      = [("1_i0_sC_0_P", ["1_i0_sC_0_0"]), ("1_i0_sC", []), ("1_i0_sC_0_P_0_x", []),
          ("1_i0_sC_0_P_1_y", [])] :=
  ⟨rfl, rfl, rfl⟩

/-- C21, amended: tasks created per operator.  With no pre-existing tasks the
list that `processStepRecursively` returns is longer than the list passed in
by `taskCount` of the step: 1 for an ordinary step, the sum over all steps of
all branches for a parallel step, 1 plus that sum for a conditional step.
When no task passed in has a TaskID that starts with the task ID of the step
followed by an underscore, the tasks passed in are an unchanged prefix of the
returned list, and for a conditional step the first task after them is its
control task, whose TaskID is the task ID of the step. -/
theorem tasks_created_per_operator (c : Common) (dagInsID : String)
    (getTimeout : String → Int) (step : Step) (acc : List TaskInstance) (taskID : String)
    (dependOn : List String) :
    (processStepRecursively c dagInsID getTimeout [] acc step taskID dependOn).1.length
      = acc.length + taskCount c step ∧
    ((∀ t ∈ acc, strings.HasPrefix t.TaskID (taskID ++ "_") = false) →
      ∃ new : List TaskInstance,
        (processStepRecursively c dagInsID getTimeout [] acc step taskID dependOn).1
          = acc ++ new ∧
        new.length = taskCount c step ∧
        (step.Operator ≠ c.ControlFlowParallel → step.Operator = c.BranchOpt →
          new.head? = some (NewTaskInstance dagInsID
            { ID := taskID, ActionName := c.BranchOpt, DependOn := dependOn,
              Params := step.Parameters, TimeoutSecs := getTimeout c.BranchOpt,
              Name := step.Title }) ∧
          new.head?.map (fun t => t.TaskID) = some taskID)) := by
  have hcount := processStep_count c dagInsID getTimeout step acc taskID dependOn
  refine ⟨hcount, fun hacc => ?_⟩
  obtain ⟨pre2, h1, h2, _, h4⟩ := processStep_frame c dagInsID getTimeout [] step acc []
    taskID dependOn
  rw [List.append_nil] at h2
  rw [h4 hacc] at h2
  refine ⟨_, h2, ?_, ?_⟩
  · rw [h2, List.length_append] at hcount
    omega
  · intro hp hb
    obtain ⟨sid, title, op, params, branches⟩ := step
    simp only [Step.Operator] at hp hb
    simp only [Step.Parameters, Step.Title]
    have key : (processStepRecursively c dagInsID getTimeout [] [] (.mk sid title op params
        branches) taskID dependOn).1.head? = some (NewTaskInstance dagInsID
          { ID := taskID, ActionName := c.BranchOpt, DependOn := dependOn,
            Params := params, TimeoutSecs := getTimeout c.BranchOpt, Name := title }) := by
      unfold processStepRecursively
      rw [if_neg hp, if_pos hb]
      obtain ⟨p2, b1, b2, _, b4⟩ := condBranches_frame c dagInsID getTimeout [] branches
        [NewTaskInstance dagInsID
          { ID := taskID, ActionName := c.BranchOpt, DependOn := dependOn,
            Params := params, TimeoutSecs := getTimeout c.BranchOpt, Name := title }] []
        taskID 0 []
      have e : p2 = [NewTaskInstance dagInsID
          { ID := taskID, ActionName := c.BranchOpt, DependOn := dependOn,
            Params := params, TimeoutSecs := getTimeout c.BranchOpt, Name := title }] :=
        b4 (fun t ht k s _ hE => by
          rw [List.mem_singleton] at ht
          rw [ht] at hE
          exact Extends.ne_parent _ _ _ _ hE rfl)
      rw [List.append_nil, e] at b2
      simp only [List.nil_append]
      have hfst : ∀ (r : List TaskInstance × List String),
          (if r.2.length = 0 then (r.1, [taskID]) else r).1 = r.1 := by
        intro r
        split <;> rfl
      rw [hfst, b2]
      rfl
    rw [key]
    exact ⟨rfl, rfl⟩

/-- Witness of C21: the conditional step `C` of the sample data, expanded
after the loop-control task `1`, adds its control task and the tasks of `x`
and `y`. -/
theorem tasks_created_per_operator_witness :
    taskCount sampleCommon sampleCond = 3 ∧
    ∃ new : List TaskInstance,
      (processStepRecursively sampleCommon "d" (fun _ => 30) [] [sampleLoopTask] sampleCond
        "1_i0_sC" ["1"]).1 = [sampleLoopTask] ++ new ∧ new.length = 3 := by
  obtain ⟨new, h1, h2, _⟩ := (tasks_created_per_operator sampleCommon "d" (fun _ => 30)
    sampleCond [sampleLoopTask] "1_i0_sC" ["1"]).2 (by decide)
  exact ⟨by decide, new, h1, h2⟩

/-- Assigning a key that the pre-check map does not hold appends it. -/
theorem PreChecks.set_new (k : String) (v : Check) :
    ∀ (pcs : PreChecks), (∀ kv ∈ pcs, kv.1 ≠ k) → PreChecks.set pcs k v = pcs ++ [(k, v)]
  | [], _ => rfl
  | (k1, v1) :: rest, h => by
    have h1 : k1 ≠ k := h (k1, v1) (List.mem_cons_self _ _)
    unfold PreChecks.set
    rw [if_neg (by simpa using h1),
      PreChecks.set_new k v rest (fun kv hkv => h kv (List.mem_cons_of_mem _ hkv))]
    rfl

/-- The keys of the pre-checks of one branch differ for different condition
groups. -/
theorem precheck_key_inj (taskID : String) (i j1 j2 : Nat)
    (h : taskID ++ "_" ++ toString i ++ "_" ++ toString j1
      = taskID ++ "_" ++ toString i ++ "_" ++ toString j2) : j1 = j2 := by
  have h1 := congrArg String.data h
  rw [String.data_append, String.data_append] at h1
  exact toString_nat_inj _ _ (String.ext (List.append_cancel_left h1))

/-- The pre-check map of a branch, built from the position `j` on. -/
theorem buildPreChecks_from (c : Common) (taskID : String) (i : Nat) :
    ∀ (conds : List Value) (j : Nat) (pcs : PreChecks),
      (∀ kv ∈ pcs, ∃ j1, j1 < j ∧
        kv.1 = taskID ++ "_" ++ toString i ++ "_" ++ toString j1) →
      buildPreChecks c taskID i conds j pcs
        = pcs ++ (conds.enumFrom j).map (fun jg =>
            (taskID ++ "_" ++ toString i ++ "_" ++ toString jg.1,
              ({ Conditions := jg.2, Act := c.ActiveActionSkip } : Check)))
  | [], j, pcs, _ => by
    unfold buildPreChecks
    simp
  | g :: rest, j, pcs, h => by
    unfold buildPreChecks
    rw [PreChecks.set_new _ _ pcs (fun kv hkv he => by
      obtain ⟨j1, hj, hk⟩ := h kv hkv
      rw [hk] at he
      have := precheck_key_inj taskID i j1 j he
      omega)]
    rw [buildPreChecks_from c taskID i rest (j + 1) _ (fun kv hkv => by
      rcases List.mem_append.mp hkv with h1 | h1
      · obtain ⟨j1, hj, hk⟩ := h kv h1
        exact ⟨j1, by omega, hk⟩
      · rw [List.mem_singleton] at h1
        exact ⟨j, by omega, by rw [h1]⟩)]
    simp [List.enumFrom_cons]

/-- The pre-check map of branch `i`: one skip-check per condition group `j`,
keyed `<taskID>_<i>_<j>`, in the order of the groups. -/
theorem buildPreChecks_eq (c : Common) (taskID : String) (i : Nat) (conds : List Value) :
    buildPreChecks c taskID i conds 0 []
      = conds.enum.map (fun jg =>
          (taskID ++ "_" ++ toString i ++ "_" ++ toString jg.1,
            ({ Conditions := jg.2, Act := c.ActiveActionSkip } : Check))) := by
  rw [buildPreChecks_from c taskID i conds 0 [] (fun kv hkv => absurd hkv (List.not_mem_nil _))]
  rfl

/-- The scan from the front over tasks with distinct TaskIDs: a task of the
result is the task with the ID sought, with the new pre-checks, or a task of
the list with another ID. -/
theorem setPreChecksFirst_mem (id : String) (pc : PreChecks) :
    ∀ (l : List TaskInstance), (l.map TaskInstance.TaskID).Nodup →
      ∀ t ∈ setPreChecksFirst id pc l,
        (t.TaskID = id ∧ t.PreChecks = pc) ∨ (t ∈ l ∧ t.TaskID ≠ id)
  | [], _, t, ht => absurd ht (List.not_mem_nil _)
  | x :: rest, hnd, t, ht => by
    rw [List.map_cons, List.nodup_cons] at hnd
    unfold setPreChecksFirst at ht
    by_cases hx : x.TaskID = id
    · rw [if_pos hx] at ht
      rcases List.mem_cons.mp ht with h | h
      · left
        rw [h]
        exact ⟨hx, rfl⟩
      · right
        refine ⟨List.mem_cons_of_mem _ h, fun he => hnd.1 ?_⟩
        rw [hx, ← he]
        exact List.mem_map_of_mem _ h
    · rw [if_neg hx] at ht
      rcases List.mem_cons.mp ht with h | h
      · right
        rw [h]
        exact ⟨List.mem_cons_self _ _, hx⟩
      · rcases setPreChecksFirst_mem id pc rest hnd.2 t h with h1 | h1
        · exact Or.inl h1
        · exact Or.inr ⟨List.mem_cons_of_mem _ h1.1, h1.2⟩

/-- The assignment of pre-checks over tasks with distinct TaskIDs: a task of
the result is the task with the ID sought, with the new pre-checks, or a task
of the list with another ID. -/
theorem setPreChecks_mem (l : List TaskInstance) (id : String) (pc : PreChecks)
    (hnd : (l.map TaskInstance.TaskID).Nodup) :
    ∀ t ∈ setPreChecks l id pc,
      (t.TaskID = id ∧ t.PreChecks = pc) ∨ (t ∈ l ∧ t.TaskID ≠ id) := by
  intro t ht
  unfold setPreChecks at ht
  rw [List.mem_reverse] at ht
  rcases setPreChecksFirst_mem id pc l.reverse
    (by rw [List.map_reverse]; exact List.nodup_reverse.mpr hnd) t ht with h | h
  · exact Or.inl h
  · exact Or.inr ⟨List.mem_reverse.mp h.1, h.2⟩

/-- The tasks that the expansion of a well-named step creates from nothing have
pairwise distinct TaskIDs that extend the task ID of the step. -/
theorem processStep_fresh (c : Common) (dagInsID : String) (getTimeout : String → Int)
    (ex : List String) (step : Step) (taskID : String) (dependOn : List String)
    (h : wellNamedStep step = true) :
    ((processStepRecursively c dagInsID getTimeout ex [] step taskID dependOn).1.map
      TaskInstance.TaskID).Nodup ∧
    ∀ t ∈ (processStepRecursively c dagInsID getTimeout ex [] step taskID dependOn).1,
      Extends taskID t.TaskID := by
  obtain ⟨new, h1, h2, h3⟩ := processStep_distinct c dagInsID getTimeout ex step [] taskID
    dependOn h
  rw [List.map_nil, List.nil_append] at h1
  refine ⟨h1 ▸ h2, fun t ht => h3 _ ?_⟩
  rw [← h1]
  exact List.mem_map_of_mem _ ht

/-- A parallel step creates no task with its own task ID. -/
theorem processStep_parallel_no_own (c : Common) (dagInsID : String)
    (getTimeout : String → Int) (ex : List String) (step : Step) (taskID : String)
    (dependOn : List String) (h : wellNamedStep step = true)
    (hp : step.Operator = c.ControlFlowParallel) :
    ∀ t ∈ (processStepRecursively c dagInsID getTimeout ex [] step taskID dependOn).1,
      t.TaskID ≠ taskID := by
  obtain ⟨sid, title, op, params, branches⟩ := step
  simp only [Step.Operator] at hp
  rw [wellNamedStep] at h
  simp only [Bool.and_eq_true] at h
  unfold processStepRecursively
  rw [if_pos hp]
  obtain ⟨new, h1, _, h3⟩ := parallelBranches_distinct c dagInsID getTimeout ex branches []
    taskID dependOn 0 [] h.2
  rw [List.map_nil, List.nil_append] at h1
  intro t ht
  obtain ⟨j, s, _, hE⟩ := h3 t.TaskID (by rw [← h1]; exact List.mem_map_of_mem _ ht)
  exact Extends.ne_parent _ _ _ _ hE

/-- A step that is not parallel creates a task with its own task ID. -/
theorem processStep_own (c : Common) (dagInsID : String)
    (getTimeout : String → Int) (ex : List String) (step : Step) (taskID : String)
    (dependOn : List String) (hp : step.Operator ≠ c.ControlFlowParallel) :
    ∃ t ∈ (processStepRecursively c dagInsID getTimeout ex [] step taskID dependOn).1,
      t.TaskID = taskID := by
  obtain ⟨sid, title, op, params, branches⟩ := step
  simp only [Step.Operator] at hp
  have key : taskID ∈ (processStepRecursively c dagInsID getTimeout ex [] (.mk sid title op
      params branches) taskID dependOn).1.map TaskInstance.TaskID := by
    unfold processStepRecursively
    rw [if_neg hp]
    split
    · have h2 := condBranches_keeps c dagInsID getTimeout ex taskID branches
        ([] ++ [NewTaskInstance dagInsID
          { ID := taskID, ActionName := c.BranchOpt, DependOn := dependOn, Params := params,
            TimeoutSecs := getTimeout c.BranchOpt, Name := title }]) taskID 0 []
        (by simp [NewTaskInstance])
      simp only []
      split
      · exact h2
      · exact h2
    · simp [NewTaskInstance]
  obtain ⟨t, ht, hid⟩ := List.mem_map.mp key
  exact ⟨t, ht, hid⟩

/-- The branch at a position of well-named branches has steps with pairwise
distinct IDs and is well named. -/
theorem wellNamedBranches_get :
    ∀ (branches : List Branch) (k : Nat) (conds : List Value) (steps : List Step),
      wellNamedBranches branches = true → branches.get? k = some (.mk conds steps) →
      (steps.map Step.ID).Nodup ∧ wellNamedSteps steps = true
  | [], k, _, _, _, hg => by simp at hg
  | .mk c0 s0 :: rest, 0, conds, steps, h, hg => by
    rw [wellNamedBranches] at h
    simp only [Bool.and_eq_true, decide_eq_true_eq] at h
    simp only [List.get?_cons_zero, Option.some.injEq, Branch.mk.injEq] at hg
    rw [← hg.2]
    exact h.1
  | .mk c0 s0 :: rest, k + 1, conds, steps, h, hg => by
    rw [wellNamedBranches] at h
    simp only [Bool.and_eq_true, decide_eq_true_eq] at h
    rw [List.get?_cons_succ] at hg
    exact wellNamedBranches_get rest k conds steps h.2 hg

/-- A step of a well-named list is well named. -/
theorem wellNamedSteps_step :
    ∀ (steps : List Step), wellNamedSteps steps = true → ∀ s ∈ steps, wellNamedStep s = true
  | [], _, s, hs => absurd hs (List.not_mem_nil _)
  | x :: rest, h, s, hs => by
    rw [wellNamedSteps] at h
    simp only [Bool.and_eq_true] at h
    rcases List.mem_cons.mp hs with he | hm
    · rw [he]
      exact h.1
    · exact wellNamedSteps_step rest h.2 s hm

/-- The tasks that the steps of a conditional branch create from nothing: a
task has the task ID of a step of the branch that is not parallel and carries
the pre-checks of the branch, or it is a task of the expansion of a step of
the branch on its own, with another ID than that of the step.  Every step that
is not parallel has a task with its ID. -/
theorem condSteps_placement (c : Common) (dagInsID : String) (getTimeout : String → Int) :
    ∀ (steps : List Step) (taskID : String) (i : Nat) (prechecks : PreChecks)
      (path : List String),
      (steps.map Step.ID).Nodup → wellNamedSteps steps = true →
      (∀ t ∈ (processStepRecursively.condSteps c dagInsID getTimeout [] [] steps taskID i
          prechecks path).1,
        ∃ s ∈ steps, ∃ dep : List String, Extends (nestedID taskID i s.ID) t.TaskID ∧
          ((s.Operator ≠ c.ControlFlowParallel ∧ t.TaskID = nestedID taskID i s.ID ∧
              t.PreChecks = prechecks) ∨
            (t ∈ (processStepRecursively c dagInsID getTimeout [] [] s
                (nestedID taskID i s.ID) dep).1 ∧ t.TaskID ≠ nestedID taskID i s.ID))) ∧
      (∀ s ∈ steps, s.Operator ≠ c.ControlFlowParallel →
        ∃ t ∈ (processStepRecursively.condSteps c dagInsID getTimeout [] [] steps taskID i
          prechecks path).1, t.TaskID = nestedID taskID i s.ID)
  | [], taskID, i, prechecks, path, _, _ => by
    unfold processStepRecursively.condSteps
    exact ⟨fun t ht => absurd ht (List.not_mem_nil _),
      fun s hs => absurd hs (List.not_mem_nil _)⟩
  | step :: rest, taskID, i, prechecks, path, hnd, h => by
    rw [wellNamedSteps] at h
    simp only [Bool.and_eq_true] at h
    rw [List.map_cons, List.nodup_cons] at hnd
    have hfresh := processStep_fresh c dagInsID getTimeout [] step (nestedID taskID i step.ID)
      path h.1
    obtain ⟨pre2, _, f2, _, f4⟩ := condSteps_frame c dagInsID getTimeout [] rest
      (setPreChecks (processStepRecursively c dagInsID getTimeout [] [] step
        (nestedID taskID i step.ID) path).1 (nestedID taskID i step.ID) prechecks) []
      taskID i prechecks
      (if (processStepRecursively c dagInsID getTimeout [] [] step
          (nestedID taskID i step.ID) path).2.length > 0 then
        (processStepRecursively c dagInsID getTimeout [] [] step
          (nestedID taskID i step.ID) path).2
      else path)
    have hext : ∀ t ∈ setPreChecks (processStepRecursively c dagInsID getTimeout [] [] step
        (nestedID taskID i step.ID) path).1 (nestedID taskID i step.ID) prechecks,
        Extends (nestedID taskID i step.ID) t.TaskID := by
      intro t ht
      have hm : t.TaskID ∈ (setPreChecks (processStepRecursively c dagInsID getTimeout [] []
          step (nestedID taskID i step.ID) path).1 (nestedID taskID i step.ID)
            prechecks).map TaskInstance.TaskID := List.mem_map_of_mem _ ht
      rw [setPreChecks_map_TaskID] at hm
      obtain ⟨t0, ht0, he⟩ := List.mem_map.mp hm
      rw [← he]
      exact hfresh.2 t0 ht0
    have e2 : pre2 = setPreChecks (processStepRecursively c dagInsID getTimeout [] [] step
        (nestedID taskID i step.ID) path).1 (nestedID taskID i step.ID) prechecks :=
      f4 (fun t ht s hs hE =>
        Extends.ne_of_step taskID i step.ID s.ID t.TaskID t.TaskID
          (wellNamedStep_noUnderscore step h.1) (wellNamedSteps_mem rest h.2 s hs)
          (fun he => hnd.1 (he ▸ List.mem_map_of_mem Step.ID hs)) (hext t ht) hE rfl)
    rw [List.append_nil, e2] at f2
    have ih := condSteps_placement c dagInsID getTimeout rest taskID i prechecks
      (if (processStepRecursively c dagInsID getTimeout [] [] step
          (nestedID taskID i step.ID) path).2.length > 0 then
        (processStepRecursively c dagInsID getTimeout [] [] step
          (nestedID taskID i step.ID) path).2
      else path) hnd.2 h.2
    unfold processStepRecursively.condSteps
    simp only [List.contains_nil, Bool.false_eq_true, if_false, setPreChecks_guard]
    rw [f2]
    constructor
    · intro t ht
      rcases List.mem_append.mp ht with h1 | h1
      · refine ⟨step, List.mem_cons_self _ _, path, hext t h1, ?_⟩
        rcases setPreChecks_mem _ _ _ hfresh.1 t h1 with h2 | h2
        · left
          refine ⟨fun hp => ?_, h2.1, h2.2⟩
          have hm : t.TaskID ∈ (setPreChecks (processStepRecursively c dagInsID getTimeout [] []
              step (nestedID taskID i step.ID) path).1 (nestedID taskID i step.ID)
                prechecks).map TaskInstance.TaskID := List.mem_map_of_mem _ h1
          rw [setPreChecks_map_TaskID] at hm
          obtain ⟨t0, ht0, he⟩ := List.mem_map.mp hm
          exact processStep_parallel_no_own c dagInsID getTimeout [] step
            (nestedID taskID i step.ID) path h.1 hp t0 ht0 (he.trans h2.1)
        · exact Or.inr h2
      · obtain ⟨s, hs, dep, hE, halt⟩ := ih.1 t h1
        exact ⟨s, List.mem_cons_of_mem _ hs, dep, hE, halt⟩
    · intro s hs hp
      rcases List.mem_cons.mp hs with he | hm
      · rw [he]
        obtain ⟨t0, ht0, hid⟩ := processStep_own c dagInsID getTimeout [] step
          (nestedID taskID i step.ID) path (he ▸ hp)
        have hm : nestedID taskID i step.ID ∈ (setPreChecks (processStepRecursively c dagInsID
            getTimeout [] [] step (nestedID taskID i step.ID) path).1
              (nestedID taskID i step.ID) prechecks).map TaskInstance.TaskID := by
          rw [setPreChecks_map_TaskID]
          exact List.mem_map.mpr ⟨t0, ht0, hid⟩
        obtain ⟨t, ht, hid2⟩ := List.mem_map.mp hm
        exact ⟨t, List.mem_append_left _ ht, hid2⟩
      · obtain ⟨t, ht, hid⟩ := ih.2 s hm hp
        exact ⟨t, List.mem_append_right _ ht, hid⟩

/-- The tasks that the branches of a conditional step create from nothing,
from branch `i` on: a task has the task ID of a step directly in a branch that
is not parallel and carries the pre-checks of that branch, or it is a task of
the expansion of such a step on its own, with another ID than that of the
step.  Every step directly in a branch that is not parallel has a task with
its ID. -/
theorem condBranches_placement (c : Common) (dagInsID : String)
    (getTimeout : String → Int) :
    ∀ (branches : List Branch) (taskID : String) (i : Nat) (coll : List String),
      wellNamedBranches branches = true →
      (∀ t ∈ (processStepRecursively.condBranches c dagInsID getTimeout [] [] branches taskID
          i coll).1,
        ∃ (k : Nat) (conds : List Value) (steps : List Step),
          branches.get? k = some (.mk conds steps) ∧
          ∃ s ∈ steps, ∃ dep : List String,
            Extends (nestedID taskID (i + k) s.ID) t.TaskID ∧
            ((s.Operator ≠ c.ControlFlowParallel ∧
                t.TaskID = nestedID taskID (i + k) s.ID ∧
                t.PreChecks = buildPreChecks c taskID (i + k) conds 0 []) ∨
              (t ∈ (processStepRecursively c dagInsID getTimeout [] [] s
                  (nestedID taskID (i + k) s.ID) dep).1 ∧
                t.TaskID ≠ nestedID taskID (i + k) s.ID))) ∧
      (∀ (k : Nat) (conds : List Value) (steps : List Step),
        branches.get? k = some (.mk conds steps) →
        ∀ s ∈ steps, s.Operator ≠ c.ControlFlowParallel →
          ∃ t ∈ (processStepRecursively.condBranches c dagInsID getTimeout [] [] branches
            taskID i coll).1, t.TaskID = nestedID taskID (i + k) s.ID)
  | [], taskID, i, coll, _ => by
    unfold processStepRecursively.condBranches
    refine ⟨fun t ht => absurd ht (List.not_mem_nil _), fun k conds steps hg => ?_⟩
    simp at hg
  | .mk conditions steps0 :: rest, taskID, i, coll, h => by
    rw [wellNamedBranches] at h
    simp only [Bool.and_eq_true, decide_eq_true_eq] at h
    have hcs := condSteps_placement c dagInsID getTimeout steps0 taskID i
      (buildPreChecks c taskID i conditions 0 []) [taskID] h.1.1 h.1.2
    obtain ⟨pre2, _, f2, _, f4⟩ := condBranches_frame c dagInsID getTimeout [] rest
      (processStepRecursively.condSteps c dagInsID getTimeout [] [] steps0 taskID i
        (buildPreChecks c taskID i conditions 0 []) [taskID]).1 [] taskID (i + 1)
      (coll ++ (processStepRecursively.condSteps c dagInsID getTimeout [] [] steps0 taskID i
        (buildPreChecks c taskID i conditions 0 []) [taskID]).2)
    have e2 : pre2 = (processStepRecursively.condSteps c dagInsID getTimeout [] [] steps0
        taskID i (buildPreChecks c taskID i conditions 0 []) [taskID]).1 :=
      f4 (fun t ht k s hk hE => by
        obtain ⟨s0, _, _, hE0, _⟩ := hcs.1 t ht
        exact Extends.ne_of_branch taskID i k s0.ID s t.TaskID t.TaskID (by omega) hE0 hE rfl)
    rw [List.append_nil, e2] at f2
    have ih := condBranches_placement c dagInsID getTimeout rest taskID (i + 1)
      (coll ++ (processStepRecursively.condSteps c dagInsID getTimeout [] [] steps0 taskID i
        (buildPreChecks c taskID i conditions 0 []) [taskID]).2) h.2
    unfold processStepRecursively.condBranches
    simp only []
    rw [f2]
    constructor
    · intro t ht
      rcases List.mem_append.mp ht with h1 | h1
      · obtain ⟨s, hs, dep, hE, halt⟩ := hcs.1 t h1
        exact ⟨0, conditions, steps0, rfl, s, hs, dep, hE, halt⟩
      · obtain ⟨k, conds, steps, hg, s, hs, dep, hE, halt⟩ := ih.1 t h1
        have hk : i + (k + 1) = i + 1 + k := by omega
        refine ⟨k + 1, conds, steps, by rw [List.get?_cons_succ]; exact hg, s, hs, dep, ?_⟩
        rw [hk]
        exact ⟨hE, halt⟩
    · intro k conds steps hg s hs hp
      cases k with
      | zero =>
        simp only [List.get?_cons_zero, Option.some.injEq, Branch.mk.injEq] at hg
        rw [← hg.2] at hs
        obtain ⟨t, ht, hid⟩ := hcs.2 s hs hp
        exact ⟨t, List.mem_append_left _ ht, hid⟩
      | succ k =>
        rw [List.get?_cons_succ] at hg
        obtain ⟨t, ht, hid⟩ := ih.2 k conds steps hg s hs hp
        have hk : i + (k + 1) = i + 1 + k := by omega
        rw [hk]
        exact ⟨t, List.mem_append_right _ ht, hid⟩

/-- C28: where branch pre-checks land.  Let `processStepRecursively` expand,
with no pre-existing tasks, a conditional step with the task ID `T` whose
branches hold, at every depth, steps with pairwise distinct IDs without
underscore.  The returned list is the tasks passed in, in their number (and
unchanged when none of them has a TaskID under `T_`), then the control task
`T` without pre-checks, then the new tasks of the branches.  For a step `s`
directly in branch `i` that is not parallel there is a new task with the
TaskID `T_<i>_<s.ID>`, and every task with that TaskID has as pre-checks
exactly one skip-check per condition group `j` of branch `i`, keyed
`T_<i>_<j>`.  Every other new task is exactly as the expansion of a step
directly in a branch creates it on its own: this call assigns it no
pre-checks.  For a parallel step directly in a branch no task has the TaskID
of the step. -/
theorem branch_prechecks_placement (c : Common) (dagInsID : String)
    (getTimeout : String → Int) (step : Step) (acc : List TaskInstance) (taskID : String)
    (dependOn : List String)
    (hb : step.Operator = c.BranchOpt) (hp : step.Operator ≠ c.ControlFlowParallel)
    (hwn : wellNamedBranches step.Branches = true) :
    ∃ (acc2 new : List TaskInstance), acc2.length = acc.length ∧
      ((∀ t ∈ acc, strings.HasPrefix t.TaskID (taskID ++ "_") = false) → acc2 = acc) ∧
      (processStepRecursively c dagInsID getTimeout [] acc step taskID dependOn).1
        = acc2 ++ NewTaskInstance dagInsID
            { ID := taskID, ActionName := c.BranchOpt, DependOn := dependOn,
              Params := step.Parameters, TimeoutSecs := getTimeout c.BranchOpt,
              Name := step.Title } :: new ∧
      (NewTaskInstance dagInsID
        { ID := taskID, ActionName := c.BranchOpt, DependOn := dependOn,
          Params := step.Parameters, TimeoutSecs := getTimeout c.BranchOpt,
          Name := step.Title }).TaskID = taskID ∧
      (NewTaskInstance dagInsID
        { ID := taskID, ActionName := c.BranchOpt, DependOn := dependOn,
          Params := step.Parameters, TimeoutSecs := getTimeout c.BranchOpt,
          Name := step.Title }).PreChecks = [] ∧
      (∀ (i : Nat) (conds : List Value) (steps : List Step),
        step.Branches.get? i = some (.mk conds steps) →
        ∀ s ∈ steps, s.Operator ≠ c.ControlFlowParallel →
          (∃ t ∈ new, t.TaskID = nestedID taskID i s.ID) ∧
          ∀ t ∈ NewTaskInstance dagInsID
              { ID := taskID, ActionName := c.BranchOpt, DependOn := dependOn,
                Params := step.Parameters, TimeoutSecs := getTimeout c.BranchOpt,
                Name := step.Title } :: new,
            t.TaskID = nestedID taskID i s.ID →
            t.PreChecks = conds.enum.map (fun jg =>
              (taskID ++ "_" ++ toString i ++ "_" ++ toString jg.1,
                ({ Conditions := jg.2, Act := c.ActiveActionSkip } : Check)))) ∧
      (∀ t ∈ new,
        (∃ (i : Nat) (conds : List Value) (steps : List Step),
          step.Branches.get? i = some (.mk conds steps) ∧
          ∃ s ∈ steps, s.Operator ≠ c.ControlFlowParallel ∧
            t.TaskID = nestedID taskID i s.ID) ∨
        (∃ (i : Nat) (conds : List Value) (steps : List Step),
          step.Branches.get? i = some (.mk conds steps) ∧
          ∃ s ∈ steps, ∃ dep : List String,
            t ∈ (processStepRecursively c dagInsID getTimeout [] [] s
              (nestedID taskID i s.ID) dep).1 ∧
            t.TaskID ≠ nestedID taskID i s.ID)) ∧
      (∀ (i : Nat) (conds : List Value) (steps : List Step),
        step.Branches.get? i = some (.mk conds steps) →
        ∀ s ∈ steps, s.Operator = c.ControlFlowParallel →
          ∀ t ∈ new, t.TaskID ≠ nestedID taskID i s.ID) := by
  obtain ⟨sid, title, op, params, branches⟩ := step
  simp only [Step.Operator, Step.Branches, Step.Parameters, Step.Title] at hb hp hwn ⊢
  obtain ⟨acc2, a1, a2, _, a4⟩ := processStep_frame c dagInsID getTimeout []
    (.mk sid title op params branches) acc [] taskID dependOn
  rw [List.append_nil] at a2
  have hnew : (processStepRecursively c dagInsID getTimeout [] [] (.mk sid title op params
      branches) taskID dependOn).1 = NewTaskInstance dagInsID
        { ID := taskID, ActionName := c.BranchOpt, DependOn := dependOn,
          Params := params, TimeoutSecs := getTimeout c.BranchOpt, Name := title } ::
        (processStepRecursively.condBranches c dagInsID getTimeout [] [] branches taskID 0
          []).1 := by
    unfold processStepRecursively
    rw [if_neg hp, if_pos hb]
    obtain ⟨p2, _, b2, _, b4⟩ := condBranches_frame c dagInsID getTimeout [] branches
      [NewTaskInstance dagInsID
        { ID := taskID, ActionName := c.BranchOpt, DependOn := dependOn,
          Params := params, TimeoutSecs := getTimeout c.BranchOpt, Name := title }] []
      taskID 0 []
    have e : p2 = [NewTaskInstance dagInsID
        { ID := taskID, ActionName := c.BranchOpt, DependOn := dependOn,
          Params := params, TimeoutSecs := getTimeout c.BranchOpt, Name := title }] :=
      b4 (fun t ht k s _ hE => by
        rw [List.mem_singleton] at ht
        rw [ht] at hE
        exact Extends.ne_parent _ _ _ _ hE rfl)
    rw [List.append_nil, e] at b2
    simp only [List.nil_append]
    have hfst : ∀ (r : List TaskInstance × List String),
        (if r.2.length = 0 then (r.1, [taskID]) else r).1 = r.1 := by
      intro r
      split <;> rfl
    rw [hfst, b2]
    rfl
  have hcb := condBranches_placement c dagInsID getTimeout branches taskID 0 [] hwn
  simp only [Nat.zero_add] at hcb
  have hsame : ∀ (i k : Nat) (conds conds2 : List Value) (steps steps2 : List Step)
      (s s2 : Step) (x : String),
      branches.get? i = some (.mk conds steps) → branches.get? k = some (.mk conds2 steps2) →
      s ∈ steps → s2 ∈ steps2 → Extends (nestedID taskID k s2.ID) x →
      x = nestedID taskID i s.ID → k = i ∧ conds2 = conds ∧ s2 = s := by
    intro i k conds conds2 steps steps2 s s2 x hg hg2 hs hs2 hE hx
    rw [hx] at hE
    have hk : k = i := by
      by_contra hne
      exact Extends.ne_of_branch taskID k i s2.ID s.ID _ _ hne hE (Extends.of_self _) rfl
    subst hk
    rw [hg] at hg2
    simp only [Option.some.injEq, Branch.mk.injEq] at hg2
    obtain ⟨hc, hst⟩ := hg2
    subst hc
    subst hst
    have hw := wellNamedBranches_get branches k conds steps hwn hg
    have hid : s2.ID = s.ID := by
      by_contra hne
      exact Extends.ne_of_step taskID k s2.ID s.ID _ _ (wellNamedSteps_mem steps hw.2 s2 hs2)
        (wellNamedSteps_mem steps hw.2 s hs) hne hE (Extends.of_self _) rfl
    exact ⟨rfl, rfl, List.inj_on_of_nodup_map hw.1 hs2 hs hid⟩
  refine ⟨acc2, _, a1, a4, by rw [a2, hnew], rfl, rfl, ?_, ?_, ?_⟩
  · intro i conds steps hg s hs hps
    refine ⟨hcb.2 i conds steps hg s hs hps, ?_⟩
    intro t ht hid
    rcases List.mem_cons.mp ht with h1 | h1
    · rw [h1] at hid
      exact absurd hid.symm (Extends.ne_parent taskID i s.ID _ (Extends.of_self _))
    · obtain ⟨k, conds2, steps2, hg2, s2, hs2, dep, hE, halt⟩ := hcb.1 t h1
      obtain ⟨hk, hc, hs⟩ := hsame i k conds conds2 steps steps2 s s2 t.TaskID hg hg2 hs hs2
        hE hid
      subst hk
      subst hc
      subst hs
      rcases halt with ⟨_, _, hpc⟩ | ⟨_, hne⟩
      · rw [hpc, buildPreChecks_eq]
      · exact absurd hid hne
  · intro t ht
    obtain ⟨k, conds2, steps2, hg2, s2, hs2, dep, hE, halt⟩ := hcb.1 t ht
    rcases halt with ⟨h1, h2, _⟩ | ⟨h1, h2⟩
    · exact Or.inl ⟨k, conds2, steps2, hg2, s2, hs2, h1, h2⟩
    · exact Or.inr ⟨k, conds2, steps2, hg2, s2, hs2, dep, h1, h2⟩
  · intro i conds steps hg s hs hps t ht hid
    obtain ⟨k, conds2, steps2, hg2, s2, hs2, dep, hE, halt⟩ := hcb.1 t ht
    obtain ⟨hk, hc, hs⟩ := hsame i k conds conds2 steps steps2 s s2 t.TaskID hg hg2 hs hs2
      hE hid
    subst hk
    subst hc
    subst hs
    rcases halt with ⟨h1, _, _⟩ | ⟨_, hne⟩
    · exact h1 hps
    · exact absurd hid hne

/-- Witness of C28: the conditional step `C` of the sample data with the
ordinary step `x` in its branch 0: the task `1_i0_sC_0_x` carries the one
skip-check of the branch, keyed `1_i0_sC_0_0`, the control task none. -/
theorem branch_prechecks_placement_witness :
    (processStepRecursively sampleCommon "d" (fun _ => 30) [] [] sampleHalfCond "1_i0_sC"
        ["1"]).1.map (fun t => (t.TaskID, t.PreChecks.map (fun kv => (kv.1, kv.2.Act))))
      = [("1_i0_sC", []), ("1_i0_sC_0_x", [("1_i0_sC_0_0", "skip")])] ∧
    ∃ (acc2 new : List TaskInstance), acc2.length = 0 ∧
      (processStepRecursively sampleCommon "d" (fun _ => 30) [] [] sampleHalfCond "1_i0_sC"
        ["1"]).1 = acc2 ++ NewTaskInstance "d"
          { ID := "1_i0_sC", ActionName := sampleCommon.BranchOpt, DependOn := ["1"],
            Params := sampleHalfCond.Parameters,
            TimeoutSecs := 30, Name := sampleHalfCond.Title } :: new ∧
      ∃ t ∈ new, t.TaskID = nestedID "1_i0_sC" 0 (sampleStep "x").ID := by
  obtain ⟨acc2, new, h1, _, h3, _, _, h6, _⟩ := branch_prechecks_placement sampleCommon "d"
    (fun _ => 30) sampleHalfCond [] "1_i0_sC" ["1"] rfl (by decide) (by decide)
  exact ⟨rfl, acc2, new, h1, h3,
    (h6 0 [.str "cond"] [sampleStep "x"] rfl (sampleStep "x") (List.mem_singleton.mpr rfl)
      (by decide)).1⟩

end LoopSpec
